import Mathlib

/-!
# Lighting and field-of-view core of `src/src/lightmap.cpp`

A shallow embedding of the light map / seen cache code of the repository.

Conventions of the embedding:

* a C++ `float` is an exact rational (`ℚ`); the slope arithmetic of the shadow caster and
  every comparison are carried out exactly;
* the falloff `light_calc`, whose value is decided by the bits of a `float` in `fastexp`, is
  modelled a second time on binary32 values with the rounding of every operation
  (`fastexp`, `light_calc_float`);
* a dense grid `T g[MAPSIZE_X][MAPSIZE_Y]` is a total function `Int → Int → T`; the code
  only indexes it inside the map rectangle, and so do the definitions below;
* constants and helpers that are declared in headers that are not part of the sources at
  hand (`MAPSIZE`, `SEEX`, `LIGHT_AMBIENT_LIT`, `rl_dist`, ...) are fields of `Env`;
* the policy functions handed to the generic caster are the fields of `Policy`.
-/

namespace Lightmap

/-! ## Data model -/

/-- The four corner directions of a tile, and the pseudo index meaning all four. -/
inductive quadrant where
  | NE
  | SE
  | SW
  | NW
  | default_
deriving DecidableEq, Repr

/-- Per-tile corner flags of the `vehicle_obscured_cache`. -/
structure diagonal_blocks where
  nw : Bool
  ne : Bool
deriving DecidableEq, Repr

/-- A dense two dimensional cache, indexed `g x y` like `g[x][y]`. -/
abbrev Grid (α : Type) := Int → Int → α

/-- The assignment `g[x][y] = v`. -/
def Grid.set {α : Type} (g : Grid α) (x y : Int) (v : α) : Grid α :=
  fun a b => if a = x ∧ b = y then v else g a b

/-- Constants and helpers whose declarations live in headers outside the sources at hand. -/
structure Env where
  /-- Tiles per submap edge, x. -/
  SEEX : Nat
  /-- Tiles per submap edge, y. -/
  SEEY : Nat
  /-- Submaps per edge of the cache arrays. -/
  MAPSIZE : Nat
  /-- Submaps per edge of the loaded map (`map::my_MAPSIZE`). -/
  my_MAPSIZE : Nat
  /-- Lowest z level is `-OVERMAP_DEPTH`. -/
  OVERMAP_DEPTH : Int
  /-- Highest z level. -/
  OVERMAP_HEIGHT : Int
  /-- The distance function `rl_dist` of two tripoints. -/
  rl_dist : Int × Int × Int → Int × Int × Int → Int
  /-- The distance function `square_dist` of two tripoints. -/
  square_dist : Int × Int × Int → Int × Int × Int → Int
  /-- The order of the constant array `eight_adjacent_offsets`. -/
  eight_adjacent_offsets : List (Int × Int)
  LIGHT_TRANSPARENCY_OPEN_AIR : ℚ
  VISIBILITY_FULL : ℚ
  LIGHT_AMBIENT_LOW : ℚ
  LIGHT_AMBIENT_DIM : ℚ
  LIGHT_AMBIENT_LIT : ℚ
  LIGHT_SOURCE_BRIGHT : ℚ
  /-- Numeric value of `lit_level::LOW`. -/
  lit_LOW : ℚ
  /-- Numeric value of `lit_level::BRIGHT_ONLY`. -/
  lit_BRIGHT_ONLY : ℚ

/-- `MAPSIZE_X = SEEX * MAPSIZE`. -/
def Env.MAPSIZE_X (E : Env) : Int := (E.SEEX : Int) * (E.MAPSIZE : Int)

/-- `MAPSIZE_Y = SEEY * MAPSIZE`. -/
def Env.MAPSIZE_Y (E : Env) : Int := (E.SEEY : Int) * (E.MAPSIZE : Int)

/-- Modelled from the spec: the unseen sentinel, `0 / SOLID transparency`.  The constant
`LIGHT_TRANSPARENCY_SOLID` is declared in a header outside the sources at hand. -/
def LIGHT_TRANSPARENCY_SOLID : ℚ := 0

/-- The test `lightmap_boundaries.contains( p )`: the half open rectangle
`[0, LIGHTMAP_CACHE_X) x [0, LIGHTMAP_CACHE_Y)`. -/
def lightmap_boundaries_contains (E : Env) (x y : Int) : Bool :=
  decide (0 ≤ x) && decide (x < E.MAPSIZE_X) && decide (0 ≤ y) && decide (y < E.MAPSIZE_Y)

/-! ## The generic 2D recursive shadow caster -/

/-- The four policy functions `castLight` is instantiated with. -/
structure Policy (Out : Type) where
  calc_ : ℚ → ℚ → Int → ℚ
  check : ℚ → ℚ → Bool
  update_output : Out → ℚ → quadrant → Out
  accumulate : ℚ → ℚ → Int → ℚ

/-- The coordinate transform `<xx, xy, yx, yy>` selecting an octant. -/
structure Octant where
  xx : Int
  xy : Int
  yx : Int
  yy : Int
deriving DecidableEq, Repr

/-- The function `quadrant_from_x_y`. -/
def quadrant_from_x_y (x y : Int) : quadrant :=
  if x > 0 then (if y > 0 then quadrant.NW else quadrant.SW)
  else (if y > 0 then quadrant.NE else quadrant.SE)

/-- The constant `quad` of `castLight`: `quadrant_from_x_y( -xx - xy, -yx - yy )`. -/
def Octant.quad (o : Octant) : quadrant :=
  quadrant_from_x_y (-o.xx - o.xy) (-o.yx - o.yy)

/-- The lambda `check_blocked` of `castLight`. -/
def check_blocked (E : Env) (quad : quadrant) (blocked_array : Grid diagonal_blocks)
    (px py : Int) : Bool :=
  match quad with
  | quadrant.NW => (blocked_array px py).nw
  | quadrant.NE => (blocked_array px py).ne
  | quadrant.SE =>
      decide (px < E.MAPSIZE_X - 1) && decide (py < E.MAPSIZE_Y - 1) &&
        (blocked_array (px + 1) (py + 1)).nw
  | quadrant.SW =>
      decide (px > 1) && decide (py < E.MAPSIZE_Y - 1) && (blocked_array (px - 1) (py + 1)).ne
  | quadrant.default_ => false

/-- The x coordinate of `current` in `castLight`. -/
def Octant.curX (o : Octant) (offx dx dy : Int) : Int := offx + dx * o.xx + dy * o.xy

/-- The y coordinate of `current` in `castLight`. -/
def Octant.curY (o : Octant) (offy dx dy : Int) : Int := offy + dx * o.yx + dy * o.yy

/-- The local `trailingEdge` of `castLight`. -/
def trailingEdge (dx dy : Int) : ℚ := ((dx : ℚ) - 1 / 2) / ((dy : ℚ) + 1 / 2)

/-- The local `leadingEdge` of `castLight`. -/
def leadingEdge (dx dy : Int) : ℚ := ((dx : ℚ) + 1 / 2) / ((dy : ℚ) - 1 / 2)

/-- The variables of `castLight` that live across the iterations of the scan of a row. -/
structure RowState (Out : Type) where
  out : Grid Out
  start : ℚ
  newStart : ℚ
  started_row : Bool
  current_transparency : ℚ
  last_intensity : ℚ

/-- How one iteration of the inner loop of `castLight` ends. -/
inductive Step (Out : Type) where
  /-- Go on with the next `delta.x`. -/
  | cont (s : RowState Out)
  /-- The statement `break`: leave the inner loop. -/
  | brk (s : RowState Out)
  /-- The statement `return`: leave `castLight`. -/
  | ret (out : Grid Out)

/-- How the inner loop of `castLight` ends. -/
inductive Flow (Out : Type) where
  /-- The loop is left, the code after it runs. -/
  | next (s : RowState Out)
  /-- The statement `return` was reached. -/
  | ret (out : Grid Out)

/-- The arguments of `castLight` that never change during a cast. -/
structure Cast (Out : Type) where
  E : Env
  P : Policy Out
  o : Octant
  input_array : Grid ℚ
  blocked_array : Grid diagonal_blocks
  offx : Int
  offy : Int
  offsetDistance : Int
  numerator : ℚ

/-- The body of the inner loop of `castLight` for one `delta.x`; `recur start end_ cum out` is
the recursive call `castLight( ..., distance + 1, start, end_, cum )`. -/
def castCell {Out : Type} (C : Cast Out) (recur : ℚ → ℚ → ℚ → Grid Out → Grid Out)
    (end_ cumulative_transparency : ℚ) (distance dx : Int) (s : RowState Out) : Step Out :=
  let dy : Int := -distance
  let cx := C.o.curX C.offx dx dy
  let cy := C.o.curY C.offy dx dy
  let te := trailingEdge dx dy
  let le := leadingEdge dx dy
  if ¬ (cx ≥ 0 ∧ cy ≥ 0 ∧ cx < C.E.MAPSIZE_X ∧ cy < C.E.MAPSIZE_Y) then Step.cont s
  else if end_ > te then Step.brk s
  else if check_blocked C.E C.o.quad C.blocked_array cx cy then Step.cont s
  else
    let current_transparency :=
      if s.started_row then s.current_transparency else C.input_array cx cy
    let dist := C.E.rl_dist (0, 0, 0) (dx, dy, 0) + C.offsetDistance
    let last_intensity := C.P.calc_ C.numerator cumulative_transparency dist
    let new_transparency := C.input_array cx cy
    let out1 :=
      if C.P.check new_transparency last_intensity then
        s.out.set cx cy (C.P.update_output (s.out cx cy) last_intensity quadrant.default_)
      else
        s.out.set cx cy (C.P.update_output (s.out cx cy) last_intensity C.o.quad)
    if new_transparency = current_transparency then
      Step.cont
        { out := out1, start := s.start, newStart := le, started_row := true,
          current_transparency := current_transparency, last_intensity := last_intensity }
    else
      let out2 :=
        if C.P.check current_transparency last_intensity then
          recur s.start te (C.P.accumulate cumulative_transparency current_transparency distance)
            out1
        else out1
      let start2 :=
        if ! C.P.check current_transparency last_intensity then s.newStart else te
      if start2 < end_ then Step.ret out2
      else
        Step.cont
          { out := out2, start := start2, newStart := le, started_row := true,
            current_transparency := new_transparency, last_intensity := last_intensity }

/-- The inner loop `for( ; delta.x <= 0; delta.x++ )` with `n` iterations left, that is
from `delta.x = 1 - n` on. -/
def scanRow {Out : Type} (C : Cast Out) (recur : ℚ → ℚ → ℚ → Grid Out → Grid Out)
    (end_ cumulative_transparency : ℚ) (distance : Int) : Nat → RowState Out → Flow Out
  | 0, s => Flow.next s
  | n + 1, s =>
    match castCell C recur end_ cumulative_transparency distance (-(n : Int)) s with
    | Step.cont s1 => scanRow C recur end_ cumulative_transparency distance n s1
    | Step.brk s1 => Flow.next s1
    | Step.ret out => Flow.ret out

/-- The output cache an iteration of the inner loop leaves. -/
def Step.grid {Out : Type} : Step Out → Grid Out
  | Step.cont s => s.out
  | Step.brk s => s.out
  | Step.ret out => out

/-- The output cache the inner loop leaves. -/
def Flow.grid {Out : Type} : Flow Out → Grid Out
  | Flow.next s => s.out
  | Flow.ret out => out

/-- The test `current.x >= 0 && current.y >= 0 && current.x < MAPSIZE_X && current.y <
MAPSIZE_Y` of `castLight`. -/
def Cast.inside {Out : Type} (C : Cast Out) (x y : Int) : Prop :=
  x ≥ 0 ∧ y ≥ 0 ∧ x < C.E.MAPSIZE_X ∧ y < C.E.MAPSIZE_Y

/-- The bounds test of `castLight` is decidable. -/
instance Cast.insideDecidable {Out : Type} (C : Cast Out) (x y : Int) :
    Decidable (C.inside x y) := by
  unfold Cast.inside
  infer_instance

/-- The local `radius` of `castLight`: `60.0f - offsetDistance`. -/
def Cast.radius {Out : Type} (C : Cast Out) : Int := 60 - C.offsetDistance

/-- The first `delta.x` of the row `distance` for the slope `start`; the first factor of the
product is the local `away`. -/
def firstDeltaX (start : ℚ) (distance : Int) : Int :=
  -distance +
    max (Int.ceil ((start - (-(distance : ℚ) + 1 / 2) / (-(distance : ℚ) - 1 / 2)) *
      (-(distance : ℚ) - 1 / 2))) 0

/-- The outer loop `for( distance = row; distance <= radius; distance++ )` of `castLight`
with `n` rows left, so that `distance = radius + 1 - n`.  A recursive call always starts
at the row after the current one, hence with the same number of rows left as the rest of
the outer loop. -/
def castRows {Out : Type} (C : Cast Out) (end_ : ℚ) :
    Nat → (start newStart last_intensity cumulative_transparency : ℚ) → Grid Out → Grid Out
  | 0, _, _, _, _, out => out
  | n + 1, start, newStart, last_intensity, cumulative_transparency, out =>
    let distance : Int := C.radius - n
    let s0 : RowState Out :=
      { out := out, start := start, newStart := newStart, started_row := false,
        current_transparency := 0, last_intensity := last_intensity }
    match scanRow C
        (fun st en cum o => if st < en then o else castRows C en n st 0 0 cum o)
        end_ cumulative_transparency distance (1 - firstDeltaX start distance).toNat s0 with
    | Flow.ret o => o
    | Flow.next s =>
      if ! C.P.check s.current_transparency s.last_intensity then s.out
      else
        castRows C end_ n s.start s.newStart s.last_intensity
          (C.P.accumulate cumulative_transparency s.current_transparency distance) s.out

/-- The function `castLight`. -/
def castLight {Out : Type} (C : Cast Out) (row : Int) (start end_ cumulative_transparency : ℚ)
    (output_cache : Grid Out) : Grid Out :=
  if start < end_ then output_cache
  else castRows C end_ (C.radius + 1 - row).toNat start 0 0 cumulative_transparency output_cache

/-- One call `castLight<xx, xy, yx, yy, ...>( output_cache, input_array, blocked_array, offset,
offsetDistance, numerator )` with the default arguments `row = 1`, `start = 1.0f`,
`end = 0.0f`, `cumulative_transparency = LIGHT_TRANSPARENCY_OPEN_AIR`. -/
def castLightDefault {Out : Type} (E : Env) (P : Policy Out) (input_array : Grid ℚ)
    (blocked_array : Grid diagonal_blocks) (offx offy offsetDistance : Int) (numerator : ℚ)
    (xx xy yx yy : Int) (output_cache : Grid Out) : Grid Out :=
  castLight
    { E := E, P := P, o := { xx := xx, xy := xy, yx := yx, yy := yy },
      input_array := input_array, blocked_array := blocked_array, offx := offx, offy := offy,
      offsetDistance := offsetDistance, numerator := numerator }
    1 1 0 E.LIGHT_TRANSPARENCY_OPEN_AIR output_cache

/-- The function `castLightAll`: the eight octants, in the order of the source. -/
def castLightAll {Out : Type} (E : Env) (P : Policy Out) (input_array : Grid ℚ)
    (blocked_array : Grid diagonal_blocks) (offx offy offsetDistance : Int) (numerator : ℚ)
    (output_cache : Grid Out) : Grid Out :=
  let cast := castLightDefault E P input_array blocked_array offx offy offsetDistance numerator
  let o1 := cast 0 1 1 0 output_cache
  let o2 := cast 1 0 0 1 o1
  let o3 := cast 0 (-1) 1 0 o2
  let o4 := cast (-1) 0 0 1 o3
  let o5 := cast 0 1 (-1) 0 o4
  let o6 := cast 1 0 0 (-1) o5
  let o7 := cast 0 (-1) (-1) 0 o6
  cast (-1) 0 0 (-1) o7

/-! ## The sight policy and the 2D seen cache -/

/-- Modelled from the spec: the opacity check of the sight policy ("binary visible/not"),
true when sight continues past the tile, which it does unless the tile is SOLID.  The
function `sight_check` is declared in `shadowcasting.h`, outside the sources at hand. -/
def sight_check (transparency _intensity : ℚ) : Bool :=
  decide (transparency > LIGHT_TRANSPARENCY_SOLID)

/-- Modelled from the spec: the output merge of a scalar cache, a max-merge.  The function
`update_light` is declared in `shadowcasting.h`, outside the sources at hand. -/
def update_light (update new_value : ℚ) (_q : quadrant) : ℚ := max update new_value

/-- The policy `<sight_calc, sight_check, update_light, accumulate_transparency>`; the
falloff and the accumulation, declared in `shadowcasting.h`, are arguments. -/
def sight_policy (sight_calc accumulate_transparency : ℚ → ℚ → Int → ℚ) : Policy ℚ :=
  { calc_ := sight_calc, check := sight_check, update_output := update_light,
    accumulate := accumulate_transparency }

/-- The seen cache as `build_seen_cache` prepares it for the 2D cast: filled with
`LIGHT_TRANSPARENCY_SOLID`, then `seen_cache[origin.x][origin.y] = VISIBILITY_FULL`. -/
def seen_cache_reset (E : Env) (ox oy : Int) : Grid ℚ :=
  Grid.set (fun _ _ => LIGHT_TRANSPARENCY_SOLID) ox oy E.VISIBILITY_FULL

/-- The 2D branch of `build_seen_cache` for the target level: reset, mark the origin, and
`castLightAll<float, float, sight_calc, sight_check, update_light, accumulate_transparency>(
seen_cache, transparency_cache, blocked_cache, origin.xy(), 0 )`; `numerator` is the
default argument of `castLightAll`. -/
def build_seen_cache_2d (E : Env) (sight_calc accumulate_transparency : ℚ → ℚ → Int → ℚ)
    (numerator : ℚ) (transparency_cache : Grid ℚ) (blocked_cache : Grid diagonal_blocks)
    (ox oy : Int) : Grid ℚ :=
  castLightAll E (sight_policy sight_calc accumulate_transparency) transparency_cache
    blocked_cache ox oy 0 numerator (seen_cache_reset E ox oy)

/-- A quarter turn of an offset: `(x, y)` goes to `(-y, x)`. -/
def rotate90 (d : Int × Int) : Int × Int := (-d.2, d.1)

/-! ## Quadrant values and the light policy -/

/-- The value type `four_quadrants`: one scalar per corner direction. -/
structure four_quadrants where
  NE : ℚ
  SE : ℚ
  SW : ℚ
  NW : ℚ
deriving DecidableEq, Repr

/-- The read `f[q]`. -/
def four_quadrants.get (f : four_quadrants) : quadrant → ℚ
  | quadrant.NE => f.NE
  | quadrant.SE => f.SE
  | quadrant.SW => f.SW
  | quadrant.NW => f.NW
  | quadrant.default_ => 0

/-- The write `f[q] = v`. -/
def four_quadrants.put (f : four_quadrants) (q : quadrant) (v : ℚ) : four_quadrants :=
  match q with
  | quadrant.NE => { f with NE := v }
  | quadrant.SE => { f with SE := v }
  | quadrant.SW => { f with SW := v }
  | quadrant.NW => { f with NW := v }
  | quadrant.default_ => f

/-- The constructor `four_quadrants( v )` and the method `fill( v )`. -/
def four_quadrants.fill (v : ℚ) : four_quadrants := { NE := v, SE := v, SW := v, NW := v }

/-- The method `max()`. -/
def four_quadrants.max (f : four_quadrants) : ℚ := Max.max (Max.max f.NE f.SE) (Max.max f.SW f.NW)

/-- The product `a * b`, component by component. -/
def four_quadrants.mul (a b : four_quadrants) : four_quadrants :=
  { NE := a.NE * b.NE, SE := a.SE * b.SE, SW := a.SW * b.SW, NW := a.NW * b.NW }

/-- The function `elementwise_max( f, v )`. -/
def elementwise_max (f : four_quadrants) (v : ℚ) : four_quadrants :=
  { NE := Max.max f.NE v, SE := Max.max f.SE v, SW := Max.max f.SW v, NW := Max.max f.NW v }

/-- The order on quadrant values, component by component. -/
def four_quadrants.le (a b : four_quadrants) : Prop :=
  a.NE ≤ b.NE ∧ a.SE ≤ b.SE ∧ a.SW ≤ b.SW ∧ a.NW ≤ b.NW

/-- Modelled from the spec: the quadrant max-merge ("Quadrant writes never decrease a
previously higher value for the same corner", the pseudo index writes all four).  The
function `update_light_quadrants` is declared outside the sources at hand. -/
def update_light_quadrants (update : four_quadrants) (new_value : ℚ) (q : quadrant) :
    four_quadrants :=
  match q with
  | quadrant.default_ => elementwise_max update new_value
  | q => update.put q (Max.max (update.get q) new_value)

/-- The function `light_calc`; `fastexp` is the bit level approximation of the source. -/
def light_calc (fastexp : ℚ → ℚ) (numerator transparency : ℚ) (distance : Int) : ℚ :=
  numerator / (fastexp (transparency * distance) * distance)

/-- The function `light_check`. -/
def light_check (E : Env) (transparency intensity : ℚ) : Bool :=
  decide (transparency > LIGHT_TRANSPARENCY_SOLID) && decide (intensity > E.LIGHT_AMBIENT_LOW)

/-- The policy `<light_calc, light_check, update_light_quadrants, accumulate_transparency>`. -/
def light_policy (E : Env) (fastexp : ℚ → ℚ) (accumulate_transparency : ℚ → ℚ → Int → ℚ) :
    Policy four_quadrants :=
  { calc_ := light_calc fastexp, check := light_check E,
    update_output := update_light_quadrants, accumulate := accumulate_transparency }

/-! ## The per level cache -/

/-- The grids of a `level_cache` that the code below reads or writes. -/
structure level_cache where
  transparency_cache : Grid ℚ
  outside_cache : Grid Bool
  /-- The bitset `transparency_cache_dirty`, of `MAPSIZE * MAPSIZE` bits. -/
  transparency_cache_dirty : Nat → Bool
  lm : Grid four_quadrants
  sm : Grid ℚ
  light_source_buffer : Grid ℚ
  seen_cache : Grid ℚ
  camera_cache : Grid ℚ
  vehicle_obscured_cache : Grid diagonal_blocks
  floor_cache : Grid Bool

/-- Modelled from the spec: the test `map::inbounds( p )`, the active bounding rectangle of
the loaded map and the supported level range.  The method is defined outside the sources at
hand. -/
def inbounds (E : Env) (x y z : Int) : Bool :=
  decide (0 ≤ x) && decide (x < (E.SEEX : Int) * (E.my_MAPSIZE : Int)) &&
    decide (0 ≤ y) && decide (y < (E.SEEY : Int) * (E.my_MAPSIZE : Int)) &&
    decide (-E.OVERMAP_DEPTH ≤ z) && decide (z ≤ E.OVERMAP_HEIGHT)

/-! ## Point light casting -/

/-- The method `map::apply_light_source` on the cache of the level `p.z`. -/
def apply_light_source (E : Env) (fastexp : ℚ → ℚ)
    (accumulate_transparency : ℚ → ℚ → Int → ℚ) (cache : level_cache) (px py pz : Int)
    (luminance : ℚ) : level_cache :=
  let cache1 : level_cache :=
    if inbounds E px py pz then
      let min_light := Max.max E.lit_LOW luminance
      { cache with
        lm := cache.lm.set px py (elementwise_max (cache.lm px py) min_light),
        sm := cache.sm.set px py (Max.max (cache.sm px py) luminance) }
    else cache
  if luminance ≤ E.lit_LOW then cache1
  else
    let luminance : ℚ := if luminance ≤ E.lit_BRIGHT_ONLY then 149 / 100 else luminance
    let peer_inbounds : Int := E.MAPSIZE_X - 1
    let north := decide (py ≠ 0) && decide (cache1.light_source_buffer px (py - 1) < luminance)
    let south :=
      decide (py ≠ peer_inbounds) && decide (cache1.light_source_buffer px (py + 1) < luminance)
    let east :=
      decide (px ≠ peer_inbounds) && decide (cache1.light_source_buffer (px + 1) py < luminance)
    let west := decide (px ≠ 0) && decide (cache1.light_source_buffer (px - 1) py < luminance)
    let cast :=
      castLightDefault E (light_policy E fastexp accumulate_transparency)
        cache1.transparency_cache cache1.vehicle_obscured_cache px py 0 luminance
    let lm1 := if north then cast (-1) 0 0 (-1) (cast 1 0 0 (-1) cache1.lm) else cache1.lm
    let lm2 := if east then cast 0 (-1) (-1) 0 (cast 0 (-1) 1 0 lm1) else lm1
    let lm3 := if south then cast (-1) 0 0 1 (cast 1 0 0 1 lm2) else lm2
    let lm4 := if west then cast 0 1 (-1) 0 (cast 0 1 1 0 lm3) else lm3
    { cache1 with lm := lm4 }

/-! ## The transparency cache -/

/-- What the transparency rebuild reads of a `field_entry`. -/
structure field_entry where
  is_transparent : Bool
  translucency : ℚ
  /-- The value `local_light_override()`; negative when the field declares none. -/
  local_light_override : ℚ
deriving DecidableEq, Repr

/-- What the transparency rebuild reads of a `submap`; the coordinates are local to it. -/
structure submap where
  is_uniform : Bool
  /-- The flag `get_ter( sp ).obj().transparent`. -/
  ter_transparent : Int → Int → Bool
  /-- The flag `get_furn( sp ).obj().transparent`. -/
  furn_transparent : Int → Int → Bool
  /-- The entries of `get_field( sp )`, in iteration order. -/
  get_field : Int → Int → List field_entry

/-- A counting loop `for( int i = 0; i < n; ++i ) body`. -/
def forLoop {σ : Type} (n : Nat) (body : Nat → σ → σ) (s : σ) : σ :=
  (List.range n).foldl (fun acc i => body i acc) s

/-- The method `none()` of a bitset of `size` bits. -/
def bitset_none (size : Nat) (b : Nat → Bool) : Bool := (List.range size).all (fun i => ! b i)

/-- The method `all()` of a bitset of `size` bits. -/
def bitset_all (size : Nat) (b : Nat → Bool) : Bool := (List.range size).all (fun i => b i)

/-- The method `reset()` of a bitset. -/
def bitset_reset (_b : Nat → Bool) : Nat → Bool := fun _ => false

/-- The lambda `calc_transp` of `build_transparency_cache`. -/
def calc_transp (E : Env) (sight_penalty : ℚ) (cur_submap : submap) (sm_offset : Int × Int)
    (outside_cache : Grid Bool) (px py : Int) : ℚ :=
  let spx := px - sm_offset.1
  let spy := py - sm_offset.2
  if ! (cur_submap.ter_transparent spx spy && cur_submap.furn_transparent spx spy) then
    LIGHT_TRANSPARENCY_SOLID
  else
    let value : ℚ := E.LIGHT_TRANSPARENCY_OPEN_AIR
    let value : ℚ := if outside_cache px py then value * sight_penalty else value
    (cur_submap.get_field spx spy).foldl
      (fun v cur => if cur.is_transparent then v else v * cur.translucency) value

/-- The call `std::uninitialized_fill_n( &g[x][y0], n, value )` inside one row of a grid. -/
def fill_row (g : Grid ℚ) (x y0 : Int) (n : Nat) (value : ℚ) : Grid ℚ :=
  forLoop n (fun sy acc => acc.set x (y0 + sy) value) g

/-- The body of the two submap loops of `build_transparency_cache` for the submap
`(smx, smy)`. -/
def build_transparency_submap (E : Env) (get_submap_at_grid : Nat → Nat → submap)
    (sight_penalty : ℚ) (outside_cache : Grid Bool) (dirty : Nat → Bool) (rebuild_all : Bool)
    (smx smy : Nat) (transparency_cache : Grid ℚ) : Grid ℚ :=
  let cur_submap := get_submap_at_grid smx smy
  let sm_offset : Int × Int := ((smx : Int) * (E.SEEX : Int), (smy : Int) * (E.SEEY : Int))
  if ! rebuild_all && ! dirty (smx * E.MAPSIZE + smy) then transparency_cache
  else if cur_submap.is_uniform then
    let value :=
      calc_transp E sight_penalty cur_submap sm_offset outside_cache sm_offset.1 sm_offset.2
    if ! rebuild_all || decide (value ≠ E.LIGHT_TRANSPARENCY_OPEN_AIR) then
      forLoop E.SEEX
        (fun sx acc => fill_row acc (sm_offset.1 + sx) sm_offset.2 E.SEEY value)
        transparency_cache
    else transparency_cache
  else
    forLoop E.SEEX
      (fun sx acc =>
        let x : Int := sx + sm_offset.1
        forLoop E.SEEY
          (fun sy acc2 =>
            let y : Int := sy + sm_offset.2
            acc2.set x y (calc_transp E sight_penalty cur_submap sm_offset outside_cache x y))
          acc)
      transparency_cache

/-- The method `map::build_transparency_cache` on the cache of one level: the returned flag
and the cache it leaves. -/
def build_transparency_cache (E : Env) (get_submap_at_grid : Nat → Nat → submap)
    (sight_penalty : ℚ) (map_cache : level_cache) : Bool × level_cache :=
  if bitset_none (E.MAPSIZE * E.MAPSIZE) map_cache.transparency_cache_dirty then
    (false, map_cache)
  else
    let rebuild_all := bitset_all (E.MAPSIZE * E.MAPSIZE) map_cache.transparency_cache_dirty
    let t0 : Grid ℚ :=
      if rebuild_all then
        fun x y =>
          if 0 ≤ x ∧ x < E.MAPSIZE_X ∧ 0 ≤ y ∧ y < E.MAPSIZE_Y then
            E.LIGHT_TRANSPARENCY_OPEN_AIR
          else map_cache.transparency_cache x y
      else map_cache.transparency_cache
    let t1 :=
      forLoop E.my_MAPSIZE
        (fun smx acc =>
          forLoop E.my_MAPSIZE
            (fun smy acc2 =>
              build_transparency_submap E get_submap_at_grid sight_penalty
                map_cache.outside_cache map_cache.transparency_cache_dirty rebuild_all smx smy
                acc2)
            acc)
        t0
    (true,
      { map_cache with
        transparency_cache := t1,
        transparency_cache_dirty := bitset_reset map_cache.transparency_cache_dirty })

/-- The per-tile rule in the words of the spec: SOLID if terrain or furniture is not
transparent; else OPEN_AIR, scaled by the sight penalty when the tile is outside, then
multiplied by the translucency of each field that is not transparent. -/
def spec_transparency (E : Env) (sight_penalty : ℚ) (ter_transparent furn_transparent : Bool)
    (outside : Bool) (fields : List field_entry) : ℚ :=
  if ter_transparent = false ∨ furn_transparent = false then LIGHT_TRANSPARENCY_SOLID
  else
    E.LIGHT_TRANSPARENCY_OPEN_AIR * (if outside then sight_penalty else 1) *
      ((fields.filter (fun f => ! f.is_transparent)).map (fun f => f.translucency)).prod

/-! ## The crouch patch of the vision transparency -/

/-- The values of an entry of `vision_transparency_cache`. -/
inductive vision_adjustment where
  | VISION_ADJUST_NONE
  | VISION_ADJUST_SOLID
  | VISION_ADJUST_HIDDEN
deriving DecidableEq, Repr

/-- The offset `point_north_east`. -/
def point_north_east : Int × Int := (1, -1)

/-- The offset `point_south_east`. -/
def point_south_east : Int × Int := (1, 1)

/-- The offset `point_south_west`. -/
def point_south_west : Int × Int := (-1, 1)

/-- The offset `point_north_west`. -/
def point_north_west : Int × Int := (-1, -1)

/-- The offset `point_north`. -/
def point_north : Int × Int := (0, -1)

/-- The offset `point_south`. -/
def point_south : Int × Int := (0, 1)

/-- The offset `point_east`. -/
def point_east : Int × Int := (1, 0)

/-- The offset `point_west`. -/
def point_west : Int × Int := (-1, 0)

/-- The constant array `four_diagonal_offsets`; the code only tests membership. -/
def four_diagonal_offsets : List (Int × Int) :=
  [point_north_east, point_south_east, point_south_west, point_north_west]

/-- The flag a `bool &relevant_blocked` of the patch code refers to: the tile and which of
its two flags (`true` for `ne`, `false` for `nw`). -/
def relevant_blocked (adjacent : Int × Int) (cx cy px py : Int) : Int × Int × Bool :=
  if adjacent = point_north_east then (cx, cy, true)
  else if adjacent = point_south_east then (px, py, false)
  else if adjacent = point_south_west then (px, py, true)
  else (cx, cy, false)

/-- Reading through the reference `relevant_blocked`. -/
def read_blocked (blocked_cache : Grid diagonal_blocks) (r : Int × Int × Bool) : Bool :=
  if r.2.2 then (blocked_cache r.1 r.2.1).ne else (blocked_cache r.1 r.2.1).nw

/-- Writing through the reference `relevant_blocked`. -/
def write_blocked (blocked_cache : Grid diagonal_blocks) (r : Int × Int × Bool) (v : Bool) :
    Grid diagonal_blocks :=
  if r.2.2 then blocked_cache.set r.1 r.2.1 { blocked_cache r.1 r.2.1 with ne := v }
  else blocked_cache.set r.1 r.2.1 { blocked_cache r.1 r.2.1 with nw := v }

/-- The assignment `a[i] = v` of a small array. -/
def arr_set {α : Type} (a : Nat → α) (i : Nat) (v : α) : Nat → α :=
  fun j => if j = i then v else a j

/-- The variables the two patch loops update. -/
structure PatchState where
  i : Nat
  transparency_cache : Grid ℚ
  blocked_cache : Grid diagonal_blocks
  vision_restore_cache : Nat → ℚ
  blocked_restore_cache : Nat → Bool

/-- The body of the loop of `apply_vision_transparency_cache` for one `adjacent`. -/
def apply_vision_step (E : Env) (vision_transparency_cache : Nat → vision_adjustment)
    (cx cy cz : Int) (adjacent : Int × Int) (s : PatchState) : PatchState :=
  let px := cx + adjacent.1
  let py := cy + adjacent.2
  if ! inbounds E px py cz then s
  else
    let s1 : PatchState :=
      { s with vision_restore_cache :=
          arr_set s.vision_restore_cache s.i (s.transparency_cache px py) }
    if vision_transparency_cache s1.i = vision_adjustment.VISION_ADJUST_SOLID then
      { s1 with
        transparency_cache := s1.transparency_cache.set px py LIGHT_TRANSPARENCY_SOLID,
        i := s1.i + 1 }
    else if vision_transparency_cache s1.i = vision_adjustment.VISION_ADJUST_HIDDEN then
      if adjacent ∉ four_diagonal_offsets then s1
      else
        let r := relevant_blocked adjacent cx cy px py
        { s1 with
          blocked_restore_cache :=
            arr_set s1.blocked_restore_cache s1.i (! read_blocked s1.blocked_cache r),
          blocked_cache := write_blocked s1.blocked_cache r true,
          i := s1.i + 1 }
    else { s1 with i := s1.i + 1 }

/-- The method `map::apply_vision_transparency_cache`; the state holds the two caches of
the level `target_z` (here the level of `center`) and the two restore buffers. -/
def apply_vision_transparency_cache (E : Env)
    (vision_transparency_cache : Nat → vision_adjustment) (cx cy cz : Int)
    (s : PatchState) : PatchState :=
  let s1 :=
    E.eight_adjacent_offsets.foldl
      (fun acc adjacent => apply_vision_step E vision_transparency_cache cx cy cz adjacent acc)
      { s with i := 0 }
  { s1 with vision_restore_cache := arr_set s1.vision_restore_cache 8 (s1.transparency_cache cx cy) }

/-- The body of the loop of `restore_vision_transparency_cache` for one `adjacent`. -/
def restore_vision_step (E : Env) (cx cy cz : Int) (adjacent : Int × Int) (s : PatchState) :
    PatchState :=
  let px := cx + adjacent.1
  let py := cy + adjacent.2
  if ! inbounds E px py cz then s
  else
    let t1 := s.transparency_cache.set px py (s.vision_restore_cache s.i)
    let b1 :=
      if s.blocked_restore_cache s.i then
        write_blocked s.blocked_cache (relevant_blocked adjacent cx cy px py) false
      else s.blocked_cache
    { s with transparency_cache := t1, blocked_cache := b1, i := s.i + 1 }

/-- The method `map::restore_vision_transparency_cache`. -/
def restore_vision_transparency_cache (E : Env) (cx cy cz : Int) (s : PatchState) :
    PatchState :=
  let s1 :=
    E.eight_adjacent_offsets.foldl
      (fun acc adjacent => restore_vision_step E cx cy cz adjacent acc) { s with i := 0 }
  { s1 with transparency_cache := s1.transparency_cache.set cx cy (s1.vision_restore_cache 8) }

/-- The patch state `build_seen_cache` starts from: the two caches of the level and the
buffers `float vision_restore_cache[9] = {0}` and `bool blocked_restore_cache[8] = {false}`. -/
def patch_init (transparency_cache : Grid ℚ) (blocked_cache : Grid diagonal_blocks) :
    PatchState :=
  { i := 0, transparency_cache := transparency_cache, blocked_cache := blocked_cache,
    vision_restore_cache := fun _ => 0, blocked_restore_cache := fun _ => false }

/-- The loop of `apply_vision_transparency_cache` over a list of offsets. -/
def apply_vision_loop (E : Env) (vision_transparency_cache : Nat → vision_adjustment)
    (cx cy cz : Int) (l : List (Int × Int)) (s : PatchState) : PatchState :=
  l.foldl
    (fun acc adjacent => apply_vision_step E vision_transparency_cache cx cy cz adjacent acc) s

/-- The loop of `restore_vision_transparency_cache` over a list of offsets. -/
def restore_vision_loop (E : Env) (cx cy cz : Int) (l : List (Int × Int)) (s : PatchState) :
    PatchState :=
  l.foldl (fun acc adjacent => restore_vision_step E cx cy cz adjacent acc) s

/-- The neighbours of `center` that the two patch loops do not skip: the offsets of
`eight_adjacent_offsets`, in order, whose tile is in bounds.  The loops advance the index
`i` once for each of them. -/
def patch_neighbours (E : Env) (cx cy cz : Int) : List (Int × Int) :=
  E.eight_adjacent_offsets.filter (fun a => inbounds E (cx + a.1) (cy + a.2) cz)

/-- The entries `i`, `i + 1`, ... of the vision adjustment array, paired in order with the
offsets of `l`, are `VISION_ADJUST_HIDDEN` only for a diagonal offset. -/
def hidden_on_diagonals (vision_transparency_cache : Nat → vision_adjustment) :
    Nat → List (Int × Int) → Bool
  | _, [] => true
  | i, a :: rest =>
    (decide (vision_transparency_cache i ≠ vision_adjustment.VISION_ADJUST_HIDDEN) ||
        decide (a ∈ four_diagonal_offsets)) &&
      hidden_on_diagonals vision_transparency_cache (i + 1) rest

/-- The flags that the HIDDEN entries `i`, `i + 1`, ... of the array, paired in order with
the offsets of `l`, refer to. -/
def hidden_refs (vision_transparency_cache : Nat → vision_adjustment) (cx cy : Int) :
    Nat → List (Int × Int) → List (Int × Int × Bool)
  | _, [] => []
  | i, a :: rest =>
    if vision_transparency_cache i = vision_adjustment.VISION_ADJUST_HIDDEN then
      relevant_blocked a cx cy (cx + a.1) (cy + a.2) ::
        hidden_refs vision_transparency_cache cx cy (i + 1) rest
    else hidden_refs vision_transparency_cache cx cy (i + 1) rest

/-! ## Visibility synthesis and the tile queries -/

/-- The enumeration `lit_level`. -/
inductive lit_level where
  | DARK
  | LOW
  | BRIGHT_ONLY
  | LIT
  | BRIGHT
  | MEMORIZED
  | BLANK
deriving DecidableEq, Repr

/-- The struct `map::apparent_light_info`. -/
structure apparent_light_info where
  obstructed : Bool
  apparent_light : ℚ
deriving DecidableEq, Repr

/-- What the queries read of the observer `g->u`. -/
structure Observer where
  /-- The position `pos()`. -/
  pos : Int × Int × Int
  /-- The value `unimpaired_range()`. -/
  unimpaired_range : Int
  /-- The method `get_vision_threshold( light_level )`. -/
  get_vision_threshold : ℚ → ℚ

/-- The struct `visibility_variables`, as far as `apparent_light_at` reads it. -/
structure visibility_variables where
  u_clairvoyance : Int
  g_light_level : ℚ
  vision_threshold : ℚ

/-- The lambda `is_opaque` of `apparent_light_helper`. -/
def is_opaque (map_cache : level_cache) (u : Observer) (px py : Int) : Bool :=
  decide (map_cache.transparency_cache px py ≤ LIGHT_TRANSPARENCY_SOLID) &&
    decide ((u.pos.1, u.pos.2.1) ≠ (px, py))

/-- The table `adjacent_offsets` of `apparent_light_helper`. -/
def adjacent_offsets : List ((Int × Int) × quadrant × quadrant) :=
  [ (point_south, quadrant.SE, quadrant.SW),
    (point_north, quadrant.NE, quadrant.NW),
    (point_east, quadrant.SE, quadrant.NE),
    (point_south_east, quadrant.SE, quadrant.SE),
    (point_north_east, quadrant.NE, quadrant.NE),
    (point_west, quadrant.SW, quadrant.NW),
    (point_south_west, quadrant.SW, quadrant.SW),
    (point_north_west, quadrant.NW, quadrant.NW) ]

/-- The test of the neighbour scan of `apparent_light_helper` that lets a neighbour count:
inside the light map rectangle, not opaque, and seen or on camera. -/
def visible_open_neighbour (E : Env) (map_cache : level_cache) (u : Observer) (nx ny : Int) :
    Bool :=
  lightmap_boundaries_contains E nx ny && ! is_opaque map_cache u nx ny &&
    ! (decide (map_cache.seen_cache nx ny = 0) && decide (map_cache.camera_cache nx ny = 0))

/-- The body of the neighbour loop of `apparent_light_helper`. -/
def seen_from_step (E : Env) (map_cache : level_cache) (u : Observer) (px py : Int) (vis : ℚ)
    (seen_from : four_quadrants) (oq : (Int × Int) × quadrant × quadrant) : four_quadrants :=
  let nx := px + oq.1.1
  let ny := py + oq.1.2
  if ! lightmap_boundaries_contains E nx ny then seen_from
  else if is_opaque map_cache u nx ny then seen_from
  else if decide (map_cache.seen_cache nx ny = 0) && decide (map_cache.camera_cache nx ny = 0)
  then seen_from
  else (seen_from.put oq.2.1 vis).put oq.2.2 vis

/-- The method `map::apparent_light_helper`. -/
def apparent_light_helper (E : Env) (map_cache : level_cache) (u : Observer) (px py : Int) :
    apparent_light_info :=
  let vis := Max.max (map_cache.seen_cache px py) (map_cache.camera_cache px py)
  let obstructed := decide (vis ≤ LIGHT_TRANSPARENCY_SOLID + 1 / 10)
  let p_opaque := is_opaque map_cache u px py
  let apparent_light :=
    if p_opaque && decide (vis > 0) then
      let seen_from :=
        adjacent_offsets.foldl (seen_from_step E map_cache u px py vis) (four_quadrants.fill 0)
      (seen_from.mul (map_cache.lm px py)).max
    else vis * (map_cache.lm px py).max
  { obstructed := obstructed, apparent_light := apparent_light }

/-- The method `map::apparent_light_at`; `get_cache_ref` gives the cache of a level. -/
def apparent_light_at (E : Env) (get_cache_ref : Int → level_cache) (u : Observer)
    (p : Int × Int × Int) (cache : visibility_variables) : lit_level :=
  let dist := E.rl_dist u.pos p
  if dist ≤ cache.u_clairvoyance then lit_level.BRIGHT
  else
    let map_cache := get_cache_ref p.2.2
    let a := apparent_light_helper E map_cache u p.1 p.2.1
    if dist > u.unimpaired_range then
      if ! a.obstructed && decide (map_cache.sm p.1 p.2.1 > 0) then lit_level.BRIGHT_ONLY
      else lit_level.DARK
    else if a.obstructed then
      if a.apparent_light > E.LIGHT_AMBIENT_LIT then
        if a.apparent_light > cache.g_light_level then lit_level.BRIGHT_ONLY
        else lit_level.LOW
      else lit_level.BLANK
    else if a.apparent_light > E.LIGHT_SOURCE_BRIGHT ∨ map_cache.sm p.1 p.2.1 > 0 then
      lit_level.BRIGHT
    else if a.apparent_light > E.LIGHT_AMBIENT_LIT then lit_level.LIT
    else if a.apparent_light ≥ cache.vision_threshold then lit_level.LOW
    else lit_level.BLANK

/-- The method `map::light_at`. -/
def light_at (E : Env) (get_cache_ref : Int → level_cache) (p : Int × Int × Int) : lit_level :=
  if ! inbounds E p.1 p.2.1 p.2.2 then lit_level.DARK
  else
    let map_cache := get_cache_ref p.2.2
    if map_cache.sm p.1 p.2.1 ≥ E.LIGHT_SOURCE_BRIGHT then lit_level.BRIGHT
    else
      let max_light := (map_cache.lm p.1 p.2.1).max
      if max_light ≥ E.LIGHT_AMBIENT_LIT then lit_level.LIT
      else if max_light ≥ E.LIGHT_AMBIENT_LOW then lit_level.LOW
      else lit_level.DARK

/-- The method `map::ambient_light_at`. -/
def ambient_light_at (E : Env) (get_cache_ref : Int → level_cache) (p : Int × Int × Int) : ℚ :=
  if ! inbounds E p.1 p.2.1 p.2.2 then 0
  else ((get_cache_ref p.2.2).lm p.1 p.2.1).max

/-- The method `map::pl_sees`. -/
def pl_sees (E : Env) (get_cache_ref : Int → level_cache) (u : Observer) (t : Int × Int × Int)
    (max_range : Int) : Bool :=
  if ! inbounds E t.1 t.2.1 t.2.2 then false
  else if decide (max_range ≥ 0) && decide (E.square_dist t u.pos > max_range) then false
  else
    let map_cache := get_cache_ref t.2.2
    let a := apparent_light_helper E map_cache u t.1 t.2.1
    let light_at_player := (map_cache.lm u.pos.1 u.pos.2.1).max
    ! a.obstructed &&
      (decide (a.apparent_light ≥ u.get_vision_threshold light_at_player) ||
        decide (map_cache.sm t.1 t.2.1 > 0))

/-- The method `map::pl_line_of_sight`. -/
def pl_line_of_sight (E : Env) (get_cache_ref : Int → level_cache) (u : Observer)
    (t : Int × Int × Int) (max_range : Int) : Bool :=
  if ! inbounds E t.1 t.2.1 t.2.2 then false
  else if decide (max_range ≥ 0) && decide (E.square_dist t u.pos > max_range) then false
  else
    let map_cache := get_cache_ref t.2.2
    decide (map_cache.seen_cache t.1 t.2.1 > 0) || decide (map_cache.camera_cache t.1 t.2.1 > 0)

/-- The quadrant of a tile that faces a diagonal neighbour: SE for the south-east neighbour,
NE for north-east, SW for south-west, NW for north-west. -/
def diagonal_quadrant (d : Int × Int) : quadrant :=
  if d = point_south_east then quadrant.SE
  else if d = point_north_east then quadrant.NE
  else if d = point_south_west then quadrant.SW
  else quadrant.NW

/-- The offsets of the eight neighbours that `apparent_light_helper` scans. -/
def neighbour_offsets : List (Int × Int) := adjacent_offsets.map Prod.fst

/-- The setting of a blocked axis for one octant of a cast: the target tile `(tx, ty)` is,
if the octant reaches it at all, the axis tile of row `d`; the axis tile of an earlier row
`k` lies inside the map and is SOLID; the check of the policy stops at SOLID tiles; and no
diagonal block is reported. -/
structure AxisBlock {Out : Type} (C : Cast Out) (tx ty k d : Int) : Prop where
  hk : 1 ≤ k
  hd : k < d
  hchk : ∀ i, C.P.check 0 i = false
  hnb : ∀ x y, check_blocked C.E C.o.quad C.blocked_array x y = false
  hhit : ∀ dist dx, 1 ≤ dist → -dist ≤ dx → dx ≤ 0 → C.o.curX C.offx dx (-dist) = tx →
    C.o.curY C.offy dx (-dist) = ty → dx = 0 ∧ dist = d
  hin : C.inside (C.o.curX C.offx 0 (-k)) (C.o.curY C.offy 0 (-k))
  hsolid : C.input_array (C.o.curX C.offx 0 (-k)) (C.o.curY C.offy 0 (-k)) = 0

/-- The eight octants `castLightAll` casts, in the order of the source. -/
def castLightAll_octants : List Octant :=
  [{ xx := 0, xy := 1, yx := 1, yy := 0 }, { xx := 1, xy := 0, yx := 0, yy := 1 },
    { xx := 0, xy := -1, yx := 1, yy := 0 }, { xx := -1, xy := 0, yx := 0, yy := 1 },
    { xx := 0, xy := 1, yx := -1, yy := 0 }, { xx := 1, xy := 0, yx := 0, yy := -1 },
    { xx := 0, xy := -1, yx := -1, yy := 0 }, { xx := -1, xy := 0, yx := 0, yy := -1 }]

/-- The `delta.x` of the tile at the offset `(ax, ay)` from the origin of a cast: the
transform of an octant is its own transpose inverse. -/
def Octant.invX (o : Octant) (ax ay : Int) : Int := ax * o.xx + ay * o.yx

/-- The `delta.y` of the tile at the offset `(ax, ay)` from the origin of a cast. -/
def Octant.invY (o : Octant) (ax ay : Int) : Int := ax * o.xy + ay * o.yy

/-- The intensity a cast over a grid of uniform transparency `t` computes for the tile
`(dx, -j)` of an octant, when `n` rows are left and the cumulative transparency is `cum`:
the falloff of the row `j`, under the transparency accumulated over the rows before it. -/
def uniformValue {Out : Type} (E : Env) (P : Policy Out) (numerator : ℚ)
    (offsetDistance : Int) (t : ℚ) : Nat → ℚ → Int → Int → ℚ
  | 0, _, _, _ => 0
  | n + 1, cum, j, dx =>
    if j = 60 - offsetDistance - n then
      P.calc_ numerator cum (E.rl_dist (0, 0, 0) (dx, -j, 0) + offsetDistance)
    else
      uniformValue E P numerator offsetDistance t n
        (P.accumulate cum t (60 - offsetDistance - n)) j dx

/-- The setting of open space for one octant of a cast: the octant is one of the eight, the
origin lies inside the map, every tile of the map has the transparency `t`, which passes the
check of the policy while SOLID does not, and no diagonal block is reported. -/
structure OpenSpace {Out : Type} (C : Cast Out) (t : ℚ) : Prop where
  hoct : C.o ∈ castLightAll_octants
  horigin : C.inside C.offx C.offy
  hin : ∀ x y, C.inside x y → C.input_array x y = t
  hchk : ∀ i, C.P.check t i = true
  hchk0 : ∀ i, C.P.check 0 i = false
  hnb : ∀ x y, check_blocked C.E C.o.quad C.blocked_array x y = false

/-- The tiles a default cast of an octant from the observer covers, as offsets `(ax, ay)` from
the origin: the rows 1 to 60, from the diagonal to the axis. -/
def Octant.wedge (o : Octant) (ax ay : Int) : Prop :=
  1 ≤ -o.invY ax ay ∧ -o.invY ax ay ≤ 60 ∧ o.invY ax ay ≤ o.invX ax ay ∧ o.invX ax ay ≤ 0

/-- The membership in the wedge of an octant is decidable. -/
instance Octant.wedgeDecidable (o : Octant) (ax ay : Int) : Decidable (o.wedge ax ay) := by
  unfold Octant.wedge
  infer_instance

/-- The Chebyshev length of an offset. -/
def cheb (a b : Int) : Int := Max.max (Max.max a (-a)) (Max.max b (-b))

/-- The smaller of the two absolute coordinates of an offset. -/
def minAbs (a b : Int) : Int := Min.min (Max.max a (-a)) (Max.max b (-b))

/-- The constant `quad` of `cast_zlight_segment`: `quadrant_from_x_y( xx + xy, yx + yy )`. -/
def zlight_quad (xx xy yx yy : Int) : quadrant := quadrant_from_x_y (xx + xy) (yx + yy)

/-- The lambda `check_blocked` of `cast_zlight_segment`; `blocked_caches` is indexed by
`p.z + OVERMAP_DEPTH`. -/
def zlight_check_blocked (E : Env) (quad : quadrant)
    (blocked_caches : Int → Grid diagonal_blocks) (p : Int × Int × Int) : Bool :=
  match quad with
  | quadrant.NW => (blocked_caches (p.2.2 + E.OVERMAP_DEPTH) p.1 p.2.1).nw
  | quadrant.NE => (blocked_caches (p.2.2 + E.OVERMAP_DEPTH) p.1 p.2.1).ne
  | quadrant.SE =>
      decide (p.1 < E.MAPSIZE_X - 1) && decide (p.2.1 < E.MAPSIZE_Y - 1) &&
        (blocked_caches (p.2.2 + E.OVERMAP_DEPTH) (p.1 + 1) (p.2.1 + 1)).nw
  | quadrant.SW =>
      decide (p.1 > 1) && decide (p.2.1 < E.MAPSIZE_Y - 1) &&
        (blocked_caches (p.2.2 + E.OVERMAP_DEPTH) (p.1 - 1) (p.2.1 + 1)).ne
  | quadrant.default_ => false

/-! ## Storage temperature of an item location (`rot.cpp`) -/

/-- The enumeration `temperature_flag`. -/
inductive temperature_flag where
  | TEMP_NORMAL
  | TEMP_FRIDGE
  | TEMP_FREEZER
  | TEMP_ROOT_CELLAR
deriving DecidableEq, Repr

/-- What `temperature_flag_for_part` reads of a `vehicle_part`. -/
structure vehicle_part where
  enabled : Bool
  /-- The value `has_flag( VPFLAG_FREEZER )`. -/
  has_flag_FREEZER : Bool
  /-- The value `has_flag( VPFLAG_FRIDGE )`. -/
  has_flag_FRIDGE : Bool

/-- What the functions of `rot.cpp` read of a `vehicle`. -/
structure vehicle where
  /-- The call `part_with_feature( part, VPFLAG_CARGO, true )`: a part index, negative when
  there is none. -/
  part_with_feature_CARGO : Int → Int
  /-- The method `cpart`. -/
  cpart : Int → vehicle_part

/-- A set `optional_vpart_position`: the vehicle and the index of the part found. -/
structure vpart_position where
  /-- The result of `vehicle()`. -/
  veh : vehicle
  part_index : Int

/-- What `temperature_flag_for_location` reads of the `map`. -/
structure rot_map where
  /-- The value `has_flag_furn( TFLAG_FREEZER, pos )`. -/
  has_flag_furn_FREEZER : Int × Int × Int → Bool
  /-- The value `has_flag_furn( TFLAG_FRIDGE, pos )`. -/
  has_flag_furn_FRIDGE : Int × Int × Int → Bool
  /-- Whether `ter( pos ) == t_rootcellar`. -/
  ter_is_rootcellar : Int × Int × Int → Bool
  /-- The method `veh_at`. -/
  veh_at : Int × Int × Int → Option vpart_position

/-- An `item_location`: the value of `where()` with the position or the parent it carries. -/
inductive item_location where
  | invalid
  | character
  | map (position : Int × Int × Int)
  | vehicle (position : Int × Int × Int)
  | container (parent_item : item_location)

/-- The function `rot::temperature_flag_for_part`. -/
def temperature_flag_for_part (veh : vehicle) (part_index : Int) : temperature_flag :=
  let part := veh.cpart part_index
  if ! part.enabled then temperature_flag.TEMP_NORMAL
  else if part.has_flag_FREEZER then temperature_flag.TEMP_FREEZER
  else if part.has_flag_FRIDGE then temperature_flag.TEMP_FRIDGE
  else temperature_flag.TEMP_NORMAL

/-- The function `rot::temperature_flag_for_location`; the `debugmsg` calls only log. -/
def temperature_flag_for_location (m : rot_map) : item_location → temperature_flag
  | item_location.invalid => temperature_flag.TEMP_NORMAL
  | item_location.character => temperature_flag.TEMP_NORMAL
  | item_location.map pos =>
      if m.has_flag_furn_FREEZER pos then temperature_flag.TEMP_FREEZER
      else if m.has_flag_furn_FRIDGE pos then temperature_flag.TEMP_FRIDGE
      else if m.ter_is_rootcellar pos then temperature_flag.TEMP_ROOT_CELLAR
      else temperature_flag.TEMP_NORMAL
  | item_location.vehicle pos =>
      match m.veh_at pos with
      | none => temperature_flag.TEMP_NORMAL
      | some veh =>
          let cargo_index := veh.veh.part_with_feature_CARGO veh.part_index
          if cargo_index < 0 then temperature_flag.TEMP_NORMAL
          else temperature_flag_for_part veh.veh cargo_index
  | item_location.container parent_item => temperature_flag_for_location m parent_item

/-! ## The nesting of the recursive calls of `castLight` -/

/-- The body of the inner loop of `castLight` with a ghost counter: next to the step of
`castCell` it returns the deepest nesting of recursive calls seen so far in this frame.
`recur` returns the output cache of the recursive call and the nesting depth that call
reaches, itself included. -/
def castCellD {Out : Type} (C : Cast Out) (recur : ℚ → ℚ → ℚ → Grid Out → Grid Out × Nat)
    (end_ cumulative_transparency : ℚ) (distance dx : Int) (s : RowState Out) (depth : Nat) :
    Step Out × Nat :=
  let dy : Int := -distance
  let cx := C.o.curX C.offx dx dy
  let cy := C.o.curY C.offy dx dy
  let te := trailingEdge dx dy
  let le := leadingEdge dx dy
  if ¬ (cx ≥ 0 ∧ cy ≥ 0 ∧ cx < C.E.MAPSIZE_X ∧ cy < C.E.MAPSIZE_Y) then (Step.cont s, depth)
  else if end_ > te then (Step.brk s, depth)
  else if check_blocked C.E C.o.quad C.blocked_array cx cy then (Step.cont s, depth)
  else
    let current_transparency :=
      if s.started_row then s.current_transparency else C.input_array cx cy
    let dist := C.E.rl_dist (0, 0, 0) (dx, dy, 0) + C.offsetDistance
    let last_intensity := C.P.calc_ C.numerator cumulative_transparency dist
    let new_transparency := C.input_array cx cy
    let out1 :=
      if C.P.check new_transparency last_intensity then
        s.out.set cx cy (C.P.update_output (s.out cx cy) last_intensity quadrant.default_)
      else
        s.out.set cx cy (C.P.update_output (s.out cx cy) last_intensity C.o.quad)
    if new_transparency = current_transparency then
      (Step.cont
        { out := out1, start := s.start, newStart := le, started_row := true,
          current_transparency := current_transparency, last_intensity := last_intensity },
        depth)
    else
      let r :=
        if C.P.check current_transparency last_intensity then
          recur s.start te (C.P.accumulate cumulative_transparency current_transparency distance)
            out1
        else (out1, 0)
      let start2 :=
        if ! C.P.check current_transparency last_intensity then s.newStart else te
      if start2 < end_ then (Step.ret r.1, Max.max depth r.2)
      else
        (Step.cont
          { out := r.1, start := start2, newStart := le, started_row := true,
            current_transparency := new_transparency, last_intensity := last_intensity },
          Max.max depth r.2)

/-- The inner loop of `castLight` with the ghost counter, see `scanRow`. -/
def scanRowD {Out : Type} (C : Cast Out) (recur : ℚ → ℚ → ℚ → Grid Out → Grid Out × Nat)
    (end_ cumulative_transparency : ℚ) (distance : Int) :
    Nat → RowState Out → Nat → Flow Out × Nat
  | 0, s, depth => (Flow.next s, depth)
  | n + 1, s, depth =>
    match castCellD C recur end_ cumulative_transparency distance (-(n : Int)) s depth with
    | (Step.cont s1, d1) => scanRowD C recur end_ cumulative_transparency distance n s1 d1
    | (Step.brk s1, d1) => (Flow.next s1, d1)
    | (Step.ret out, d1) => (Flow.ret out, d1)

/-- The outer loop of `castLight` with the ghost counter, see `castRows`: the output cache
and the deepest nesting of recursive calls made from this frame, 0 when it makes none.  A
recursive call counts as one level even when it returns at once. -/
def castRowsD {Out : Type} (C : Cast Out) (end_ : ℚ) :
    Nat → (start newStart last_intensity cumulative_transparency : ℚ) → Grid Out → Nat →
      Grid Out × Nat
  | 0, _, _, _, _, out, depth => (out, depth)
  | n + 1, start, newStart, last_intensity, cumulative_transparency, out, depth =>
    let distance : Int := C.radius - n
    let s0 : RowState Out :=
      { out := out, start := start, newStart := newStart, started_row := false,
        current_transparency := 0, last_intensity := last_intensity }
    match scanRowD C
        (fun st en cum o =>
          if st < en then (o, 1)
          else ((castRowsD C en n st 0 0 cum o 0).1, (castRowsD C en n st 0 0 cum o 0).2 + 1))
        end_ cumulative_transparency distance (1 - firstDeltaX start distance).toNat s0
        depth with
    | (Flow.ret o, d) => (o, d)
    | (Flow.next s, d) =>
      if ! C.P.check s.current_transparency s.last_intensity then (s.out, d)
      else
        castRowsD C end_ n s.start s.newStart s.last_intensity
          (C.P.accumulate cumulative_transparency s.current_transparency distance) s.out d

/-- The function `castLight` with the ghost counter: the output cache and the deepest
nesting of recursive calls inside this call. -/
def castLightD {Out : Type} (C : Cast Out) (row : Int) (start end_ cumulative_transparency : ℚ)
    (output_cache : Grid Out) : Grid Out × Nat :=
  if start < end_ then (output_cache, 0)
  else
    castRowsD C end_ (C.radius + 1 - row).toNat start 0 0 cumulative_transparency output_cache 0

/-! ## The boundary between outside and inside in `generate_lightmap` -/

/-- The method `map::apply_directional_light` on the cache of the level of `p`.  The merge
function `update_light_quadrants` of the casts is declared outside the sources at hand and
is an argument. -/
def apply_directional_light (E : Env) (fastexp : ℚ → ℚ)
    (accumulate_transparency : ℚ → ℚ → Int → ℚ)
    (update : four_quadrants → ℚ → quadrant → four_quadrants) (cache : level_cache)
    (px py : Int) (direction : Int) (luminance : ℚ) : level_cache :=
  let cast :=
    castLightDefault E
      { calc_ := light_calc fastexp, check := light_check E, update_output := update,
        accumulate := accumulate_transparency }
      cache.transparency_cache cache.vehicle_obscured_cache px py 0 luminance
  if direction = 90 then { cache with lm := cast (-1) 0 0 (-1) (cast 1 0 0 (-1) cache.lm) }
  else if direction = 0 then { cache with lm := cast 0 (-1) (-1) 0 (cast 0 (-1) 1 0 cache.lm) }
  else if direction = 270 then { cache with lm := cast (-1) 0 0 1 (cast 1 0 0 1 cache.lm) }
  else if direction = 180 then { cache with lm := cast 0 1 (-1) 0 (cast 0 1 1 0 cache.lm) }
  else cache

/-- The tables `dir_x`, `dir_y` of `generate_lightmap`: north, west, east, south. -/
def dir_xy (i : Nat) : Int × Int :=
  match i with
  | 0 => (0, -1)
  | 1 => (-1, 0)
  | 2 => (1, 0)
  | _ => (0, 1)

/-- The table `dir_d` of `generate_lightmap`. -/
def dir_d (i : Nat) : Int :=
  match i with
  | 0 => 90
  | 1 => 0
  | 2 => 180
  | _ => 270

/-- The table `dir_quadrants` of `generate_lightmap`. -/
def dir_quadrants (i : Nat) : quadrant × quadrant :=
  match i with
  | 0 => (quadrant.NE, quadrant.NW)
  | 1 => (quadrant.SW, quadrant.NW)
  | 2 => (quadrant.SE, quadrant.NE)
  | _ => (quadrant.SE, quadrant.SW)

/-- The test of the boundary step of `generate_lightmap` on the neighbour of `(px, py)` in
the direction `i`: inside the light map, outside, and not under a floor unless on the top
level. -/
def boundary_neighbour_open (E : Env) (cache : level_cache) (prev_floor_cache : Grid Bool)
    (top_floor : Bool) (px py : Int) (i : Nat) : Bool :=
  lightmap_boundaries_contains E (px + (dir_xy i).1) (py + (dir_xy i).2) &&
    cache.outside_cache (px + (dir_xy i).1) (py + (dir_xy i).2) &&
    (top_floor || ! prev_floor_cache (px + (dir_xy i).1) (py + (dir_xy i).2))

/-- The local `source_light` of the boundary step of `generate_lightmap` for the tile
`(px, py)` and its neighbour in the direction `i`:
`std::min( natural_light, lm[neighbour.x][neighbour.y].max() )`. -/
def boundary_source_light (natural_light : ℚ) (cache : level_cache) (px py : Int) (i : Nat) :
    ℚ :=
  Min.min natural_light (cache.lm (px + (dir_xy i).1) (py + (dir_xy i).2)).max

/-- The body of the loop over the four directions in the boundary step of
`generate_lightmap` for the tile `(px, py)`; `light_transparency( p )` reads the
transparency cache of the level, and the merge function `update_light_quadrants`, declared
outside the sources at hand, is the argument `update`. -/
def boundary_neighbour_step (E : Env) (fastexp : ℚ → ℚ)
    (accumulate_transparency : ℚ → ℚ → Int → ℚ)
    (update : four_quadrants → ℚ → quadrant → four_quadrants) (prev_floor_cache : Grid Bool)
    (top_floor : Bool) (natural_light : ℚ) (px py : Int) (i : Nat) (cache : level_cache) :
    level_cache :=
  if boundary_neighbour_open E cache prev_floor_cache top_floor px py i then
    let source_light : ℚ := boundary_source_light natural_light cache px py i
    if cache.transparency_cache px py > LIGHT_TRANSPARENCY_SOLID then
      apply_directional_light E fastexp accumulate_transparency update
        { cache with
          lm := cache.lm.set px py (update (cache.lm px py) source_light quadrant.default_) }
        px py (dir_d i) source_light
    else
      { cache with
        lm := cache.lm.set px py
          (update (update (cache.lm px py) source_light (dir_quadrants i).1) source_light
            (dir_quadrants i).2) }
  else cache

/-- The boundary step of `generate_lightmap` for the tile `(px, py)`: light is projected
into a tile that is inside, or lies under a floor unless on the top level. -/
def boundary_tile (E : Env) (fastexp : ℚ → ℚ) (accumulate_transparency : ℚ → ℚ → Int → ℚ)
    (update : four_quadrants → ℚ → quadrant → four_quadrants) (prev_floor_cache : Grid Bool)
    (top_floor : Bool) (natural_light : ℚ) (px py : Int) (cache : level_cache) :
    level_cache :=
  if ! cache.outside_cache px py || (! top_floor && prev_floor_cache px py) then
    forLoop 4
      (boundary_neighbour_step E fastexp accumulate_transparency update prev_floor_cache
        top_floor natural_light px py)
      cache
  else cache

/-! ## The light overrides of `generate_lightmap` -/

/-- The field loop of `generate_lightmap` on the tile `(sx, sy)` of the submap
`(smx, smy)`, as far as it fills the vector `lm_override`. -/
def collect_tile (E : Env) (cur_submap : submap) (smx smy sx sy : Nat) (zlev : Int)
    (lm_override : List ((Int × Int × Int) × ℚ)) : List ((Int × Int × Int) × ℚ) :=
  let x : Int := (sx : Int) + (smx : Int) * (E.SEEX : Int)
  let y : Int := (sy : Int) + (smy : Int) * (E.SEEY : Int)
  (cur_submap.get_field sx sy).foldl
    (fun acc cur =>
      if cur.local_light_override ≥ 0 then acc ++ [((x, y, zlev), cur.local_light_override)]
      else acc)
    lm_override

/-- The traversal of the submaps of `generate_lightmap`, as far as it fills the vector
`lm_override`. -/
def collect_overrides (E : Env) (get_submap_at_grid : Nat → Nat → submap) (zlev : Int) :
    List ((Int × Int × Int) × ℚ) :=
  forLoop E.my_MAPSIZE
    (fun smx acc =>
      forLoop E.my_MAPSIZE
        (fun smy acc1 =>
          forLoop E.SEEX
            (fun sx acc2 =>
              forLoop E.SEEY
                (fun sy acc3 => collect_tile E (get_submap_at_grid smx smy) smx smy sx sy zlev acc3)
                acc2)
            acc1)
        acc)
    []

/-- The last loop of `generate_lightmap`: every recorded override is filled into its tile. -/
def apply_overrides (lm : Grid four_quadrants) (lm_override : List ((Int × Int × Int) × ℚ)) :
    Grid four_quadrants :=
  lm_override.foldl (fun g elem => g.set elem.1.1 elem.1.2.1 (four_quadrants.fill elem.2)) lm

/-- The override of the last field of a tile that declares one, in iteration order. -/
def last_override : List field_entry → Option ℚ
  | [] => none
  | f :: fs =>
    match last_override fs with
    | some v => some v
    | none => if f.local_light_override ≥ 0 then some f.local_light_override else none

/-! ## The sunlight cache -/

/-- Modelled from the spec: the helper `clamp( val, low, high )`, which is declared outside
the sources at hand; the spec has the value "clamped between" the two bounds, taken here as
`max( low, min( high, val ) )`. -/
def clamp {α : Type} [LinearOrder α] (val low high : α) : α := Max.max low (Min.min high val)

/-- The local `inside_light_level` of `build_sunlight_cache` on the level `zlev`. -/
def inside_light_level (E : Env) (outside_light_level : ℚ) (zlev : Int) : ℚ :=
  if zlev ≥ 0 ∧ outside_light_level > E.LIGHT_SOURCE_BRIGHT then E.LIGHT_AMBIENT_DIM * (4 / 5)
  else E.LIGHT_AMBIENT_LOW

/-- The two loops `for x < MAPSIZE_X`, `for y < MAPSIZE_Y` that store `f x y` into every tile
of a grid; with a constant `f` also the call `std::fill_n( &lm[0][0], MAPSIZE_X * MAPSIZE_Y,
v )`. -/
def fill_tiles {α : Type} (E : Env) (f : Int → Int → α) (g : Grid α) : Grid α :=
  forLoop (E.SEEX * E.MAPSIZE)
    (fun x acc => forLoop (E.SEEY * E.MAPSIZE) (fun y acc1 => acc1.set x y (f x y)) acc) g

/-- The flags `fully_outside` and `fully_inside` of `build_sunlight_cache`. -/
structure sun_flags where
  fully_outside : Bool
  fully_inside : Bool
deriving DecidableEq, Repr

/-- The flag scan of the fast path of `build_sunlight_cache`: `fully_inside` is reset to
true, then both flags are updated tile by tile. -/
def scan_flags (E : Env) (map_cache : level_cache) (fully_outside : Bool) : sun_flags :=
  forLoop (E.SEEX * E.MAPSIZE)
    (fun x fl =>
      forLoop (E.SEEY * E.MAPSIZE)
        (fun y fl1 =>
          { fully_outside :=
              fl1.fully_outside &&
                decide (map_cache.transparency_cache x y ≥ E.LIGHT_TRANSPARENCY_OPEN_AIR) &&
                ! map_cache.floor_cache x y,
            fully_inside :=
              fl1.fully_inside &&
                (decide (map_cache.transparency_cache x y ≤ LIGHT_TRANSPARENCY_SOLID) ||
                  map_cache.floor_cache x y) })
        fl)
    { fully_outside := fully_outside, fully_inside := true }

/-- The array `cardinals` of the slow path: centre, north, west, east, south. -/
def sun_cardinals (i : Nat) : Int × Int :=
  match i with
  | 0 => (0, 0)
  | 1 => point_north
  | 2 => point_west
  | 3 => point_east
  | _ => point_south

/-- The array `dir_quadrants` of the slow path. -/
def sun_dir_quadrants (i : Nat) : quadrant × quadrant :=
  match i with
  | 0 => (quadrant.NE, quadrant.NW)
  | 1 => (quadrant.NE, quadrant.NW)
  | 2 => (quadrant.SW, quadrant.NW)
  | 3 => (quadrant.SE, quadrant.NE)
  | _ => (quadrant.SE, quadrant.SW)

/-- The sample of the slow path at the column `(prev_x, prev_y)` of the level above for a
tile whose outside flag is `outside_here`: the clamped `light_level` when the sample is in
bounds, has a transparency above SOLID (divided by the sight penalty for an outside tile),
no floor and a positive maximum light, and nothing otherwise. -/
def sun_sample (E : Env) (prev_map_cache : level_cache) (outside_here : Bool)
    (sight_penalty inside_level : ℚ) (prev_x prev_y : Int) : Option ℚ :=
  if ¬ (prev_x ≥ 0 ∧ prev_x < E.MAPSIZE_X ∧ prev_y ≥ 0 ∧ prev_y < E.MAPSIZE_Y) then none
  else
    let prev_transparency : ℚ :=
      if outside_here then prev_map_cache.transparency_cache prev_x prev_y / sight_penalty
      else prev_map_cache.transparency_cache prev_x prev_y
    let prev_light_max := (prev_map_cache.lm prev_x prev_y).max
    if prev_transparency > LIGHT_TRANSPARENCY_SOLID ∧
        prev_map_cache.floor_cache prev_x prev_y = false ∧ prev_light_max > 0 then
      some (clamp (prev_light_max * E.LIGHT_TRANSPARENCY_OPEN_AIR / prev_transparency)
        inside_level prev_light_max)
    else none

/-- What the loop over the five samples of a tile carries: the quadrants of the tile, the
flag `fully_inside`, and whether `break` was reached. -/
structure sun_tile_state where
  quads : four_quadrants
  fully_inside : Bool
  done : Bool

/-- The body of the loop `for( int i = 0; i < 5; ++i )` of the slow path for the tile
`(x, y)`; the local `offset` is the zero point. -/
def sun_tile_step (E : Env) (prev_map_cache : level_cache) (outside_here : Bool)
    (sight_penalty inside_level : ℚ) (x y : Int) (s : sun_tile_state) (i : Nat) :
    sun_tile_state :=
  if s.done then s
  else
    match sun_sample E prev_map_cache outside_here sight_penalty inside_level
        (x + 0 + (sun_cardinals i).1) (y + 0 + (sun_cardinals i).2) with
    | none => s
    | some light_level =>
      if i = 0 then
        { quads := four_quadrants.fill light_level,
          fully_inside := s.fully_inside && decide (light_level ≤ inside_level), done := true }
      else
        { quads :=
            (s.quads.put (sun_dir_quadrants i).1 light_level).put (sun_dir_quadrants i).2
              light_level,
          fully_inside := s.fully_inside && decide (light_level ≤ inside_level), done := false }

/-- The slow path of `build_sunlight_cache` on one level: `fully_inside` is reset, the
light map is filled with the indoor value, then every tile samples the level above. -/
def sun_slow_path (E : Env) (prev_map_cache map_cache : level_cache)
    (sight_penalty inside_level : ℚ) : Grid four_quadrants × Bool :=
  forLoop (E.SEEX * E.MAPSIZE)
    (fun x st =>
      forLoop (E.SEEY * E.MAPSIZE)
        (fun y st1 =>
          let r :=
            (List.range 5).foldl
              (sun_tile_step E prev_map_cache (map_cache.outside_cache x y) sight_penalty
                inside_level x y)
              { quads := st1.1 x y, fully_inside := st1.2, done := false }
          (st1.1.set x y r.quads, r.fully_inside))
        st)
    (fill_tiles E (fun _ _ => four_quadrants.fill inside_level) map_cache.lm, true)

/-- The state of the scan of `build_sunlight_cache`: the caches of the levels and the two
flags. -/
structure sun_state where
  caches : Int → level_cache
  fully_outside : Bool
  fully_inside : Bool

/-- The body of the loop over the levels of `build_sunlight_cache` for the level `zlev`;
`outside_light_level` is `g->natural_light_level( 0 )`. -/
def sun_level (E : Env) (zlevels : Bool) (outside_light_level sight_penalty : ℚ) (zlev : Int)
    (st : sun_state) : sun_state :=
  let map_cache := st.caches zlev
  let inside_level := inside_light_level E outside_light_level zlev
  if ! zlevels then
    { st with
      caches := Function.update st.caches zlev
        { map_cache with
          lm := fill_tiles E
            (fun x y =>
              if map_cache.outside_cache x y then four_quadrants.fill outside_light_level
              else four_quadrants.fill inside_level)
            map_cache.lm } }
  else if st.fully_inside then
    { st with
      caches := Function.update st.caches zlev
        { map_cache with
          lm := fill_tiles E (fun _ _ => four_quadrants.fill inside_level) map_cache.lm } }
  else if st.fully_outside then
    let fl := scan_flags E map_cache st.fully_outside
    { caches := Function.update st.caches zlev
        { map_cache with
          lm := fill_tiles E (fun _ _ => four_quadrants.fill outside_light_level)
            map_cache.lm },
      fully_outside := fl.fully_outside, fully_inside := fl.fully_inside }
  else
    let r := sun_slow_path E (st.caches (zlev + 1)) map_cache sight_penalty inside_level
    { caches := Function.update st.caches zlev { map_cache with lm := r.1 },
      fully_outside := st.fully_outside, fully_inside := r.2 }

/-- The local `zlev_min` of `build_sunlight_cache`. -/
def sun_zlev_min (E : Env) (zlevels : Bool) (pzlev : Int) : Int :=
  if zlevels then -E.OVERMAP_DEPTH else pzlev

/-- The local `zlev_max` of `build_sunlight_cache`; `max_populated_zlev` is the value of
`calc_max_populated_zlev()`. -/
def sun_zlev_max (E : Env) (zlevels : Bool) (max_populated_zlev pzlev : Int) : Int :=
  if zlevels then
    clamp (max_populated_zlev + 1) (Min.min E.OVERMAP_HEIGHT (pzlev + 1)) E.OVERMAP_HEIGHT
  else pzlev

/-- The first `k` iterations of the loop `for( zlev = zlev_max; zlev >= zlev_min; zlev-- )`
of `build_sunlight_cache`. -/
def sun_scan (E : Env) (zlevels : Bool) (max_populated_zlev : Int)
    (outside_light_level sight_penalty : ℚ) (pzlev : Int) (caches : Int → level_cache)
    (k : Nat) : sun_state :=
  forLoop k
    (fun i st =>
      sun_level E zlevels outside_light_level sight_penalty
        (sun_zlev_max E zlevels max_populated_zlev pzlev - (i : Int)) st)
    { caches := caches, fully_outside := true, fully_inside := false }

/-- The method `map::build_sunlight_cache`: the caches it leaves. -/
def build_sunlight_cache (E : Env) (zlevels : Bool) (max_populated_zlev : Int)
    (outside_light_level sight_penalty : ℚ) (pzlev : Int) (caches : Int → level_cache) :
    Int → level_cache :=
  (sun_scan E zlevels max_populated_zlev outside_light_level sight_penalty pzlev caches
    (sun_zlev_max E zlevels max_populated_zlev pzlev + 1
      - sun_zlev_min E zlevels pzlev).toNat).caches

/-- The per-tile rule of the slow path in the words of the spec: the centre sample, when
usable, fills all four quadrants; otherwise each quadrant holds the value of the last usable
one, in the order north, west, east, south, of the two neighbours facing it (NE: north and
east, NW: north and west, SW: west and south, SE: east and south), and the indoor ambient
value when neither is usable. -/
def spec_sun_tile (centre north west east south : Option ℚ) (inside_level : ℚ) :
    four_quadrants :=
  match centre with
  | some v => four_quadrants.fill v
  | none =>
    { NE := (east.orElse fun _ => north).getD inside_level,
      SE := (south.orElse fun _ => east).getD inside_level,
      SW := (south.orElse fun _ => west).getD inside_level,
      NW := (west.orElse fun _ => north).getD inside_level }

/-! ## Mirrors and cameras in `build_seen_cache` -/

/-- What the mirror part of `build_seen_cache` reads of the vehicle at the origin; parts are
named by their index. -/
structure seen_vehicle where
  /-- The part indices of `get_avail_parts( VPFLAG_EXTENDS_VISION )`, in iteration order. -/
  avail_parts : List Int
  /-- The position of a part: `vp.pos()`, which is `global_part_pos3` of its index. -/
  global_part_pos3 : Int → Int × Int × Int
  /-- The value `has_flag( "CAMERA" )` of the info of a part. -/
  has_flag_CAMERA : Int → Bool
  /-- The value `has_flag( "CAMERA_CONTROL" )` of the info of a part. -/
  has_flag_CAMERA_CONTROL : Int → Bool
  /-- The value `part_info( mirror ).bonus`. -/
  bonus : Int → Int
  /-- The value `part( mirror ).hp()`. -/
  hp : Int → Int
  /-- The value `part_info( mirror ).durability`. -/
  durability : Int → Int
  camera_on : Bool

/-- The test that makes the first loop over the vision extending parts skip a part: it is
no camera and the seen cache at its position is below `LIGHT_TRANSPARENCY_SOLID + 0.1`. -/
def unseen_mirror (seen_cache : Grid ℚ) (veh : seen_vehicle) (p : Int) : Bool :=
  ! veh.has_flag_CAMERA p &&
    decide (seen_cache (veh.global_part_pos3 p).1 (veh.global_part_pos3 p).2.1
      < LIGHT_TRANSPARENCY_SOLID + 1 / 10)

/-- The body of the first loop over the vision extending parts of `build_seen_cache`; the
state is the vector `mirrors` and the index `cam_control`. -/
def select_mirror (E : Env) (seen_cache : Grid ℚ) (origin : Int × Int × Int)
    (veh : seen_vehicle) (s : List Int × Int) (p : Int) : List Int × Int :=
  if unseen_mirror seen_cache veh p then s
  else if ! veh.has_flag_CAMERA_CONTROL p then (s.1 ++ [p], s.2)
  else if decide (E.square_dist origin (veh.global_part_pos3 p) ≤ 1) && veh.camera_on then
    (s.1, p)
  else s

/-- The body of the loop over `mirrors` of `build_seen_cache`; the division is the integer
division of C++. -/
def cast_mirror (E : Env) (sight_calc accumulate_transparency : ℚ → ℚ → Int → ℚ)
    (numerator : ℚ) (transparency_cache : Grid ℚ) (blocked_cache : Grid diagonal_blocks)
    (origin : Int × Int × Int) (veh : seen_vehicle) (cam_control : Int)
    (camera_cache : Grid ℚ) (mirror : Int) : Grid ℚ :=
  let is_camera := veh.has_flag_CAMERA mirror
  if is_camera && decide (cam_control < 0) then camera_cache
  else
    let mirror_pos := veh.global_part_pos3 mirror
    let offsetDistance : Int :=
      if ! is_camera then E.rl_dist origin mirror_pos
      else 60 - Int.tdiv (veh.bonus mirror * veh.hp mirror) (veh.durability mirror)
    let camera_cache1 :=
      if is_camera then
        camera_cache.set mirror_pos.1 mirror_pos.2.1 E.LIGHT_TRANSPARENCY_OPEN_AIR
      else camera_cache
    castLightAll E (sight_policy sight_calc accumulate_transparency) transparency_cache
      blocked_cache mirror_pos.1 mirror_pos.2.1 offsetDistance numerator camera_cache1

/-- The camera cache `build_seen_cache` leaves: it is filled with SOLID at the start and
written again only by the loop over the mirrors; `seen_cache` is the seen cache of the
target level after the primary cast and `vp` the result of `veh_at( origin )`. -/
def build_seen_cache_cameras (E : Env) (sight_calc accumulate_transparency : ℚ → ℚ → Int → ℚ)
    (numerator : ℚ) (seen_cache transparency_cache : Grid ℚ)
    (blocked_cache : Grid diagonal_blocks) (camera_cache : Grid ℚ)
    (origin : Int × Int × Int) (vp : Option seen_vehicle) : Grid ℚ :=
  let camera_cache0 := fill_tiles E (fun _ _ => LIGHT_TRANSPARENCY_SOLID) camera_cache
  match vp with
  | none => camera_cache0
  | some veh =>
    let sel := veh.avail_parts.foldl (select_mirror E seen_cache origin veh) ([], -1)
    sel.1.foldl
      (cast_mirror E sight_calc accumulate_transparency numerator transparency_cache
        blocked_cache origin veh sel.2)
      camera_cache0

/-! ## The 3D recursive shadow caster -/

/-- The arguments of `cast_zlight_segment` that never change during a cast, with the
constant `OVERMAP_LAYERS` and the option `fov_3d_z_range`. -/
structure ZCast where
  E : Env
  OVERMAP_LAYERS : Int
  fov_3d_z_range : Int
  calc_ : ℚ → ℚ → Int → ℚ
  check : ℚ → ℚ → Bool
  accumulate : ℚ → ℚ → Int → ℚ
  xx : Int
  xy : Int
  xz : Int
  yx : Int
  yy : Int
  yz : Int
  zz : Int
  input_arrays : Int → Grid ℚ
  floor_caches : Int → Grid Bool
  blocked_caches : Int → Grid diagonal_blocks
  offset : Int × Int × Int
  offset_distance : Int
  numerator : ℚ

/-- The variables of `cast_zlight_segment` that live across the iterations of its loops. -/
structure ZState where
  out : Int → Grid ℚ
  start_major : ℚ
  start_minor : ℚ
  new_start_minor : ℚ
  last_intensity : ℚ
  current_transparency : ℚ
  started_block : Bool
  started_span : Bool
  vehicle_blocked : Bool

/-- How one iteration of a loop of `cast_zlight_segment` ends. -/
inductive ZStep where
  /-- Go on with the next iteration. -/
  | cont (s : ZState)
  /-- The statement `break`. -/
  | brk (s : ZState)

/-- The state an iteration leaves. -/
def ZStep.state : ZStep → ZState
  | ZStep.cont s => s
  | ZStep.brk s => s

/-- A recursive call of `cast_zlight_segment`: row, start and end of the major slope, start
and end of the minor slope, cumulative transparency and output caches; nothing when the
budget of nested calls is used up. -/
abbrev ZRecur := Int → ℚ → ℚ → ℚ → ℚ → ℚ → (Int → Grid ℚ) → Option (Int → Grid ℚ)

/-- The local `trailing_edge_major` of `cast_zlight_segment`. -/
def trailing_edge_major (dz distance : Int) : ℚ := ((dz : ℚ) - 1 / 2) / ((distance : ℚ) + 1 / 2)

/-- The local `leading_edge_major` of `cast_zlight_segment`. -/
def leading_edge_major (dz distance : Int) : ℚ := ((dz : ℚ) + 1 / 2) / ((distance : ℚ) - 1 / 2)

/-- The local `after_leading_edge_major`: the leading edge plus some epsilon. -/
def after_leading_edge_major (dz distance : Int) : ℚ :=
  ((dz : ℚ) + 50001 / 100000) / ((distance : ℚ) - 1 / 2)

/-- The local `floor_block` of `cast_zlight_segment` for the tile `(cx, cy)` of the level
`cz` with the index `zi`. -/
def ZCast.floor_block (C : ZCast) (cz zi cx cy : Int) : Bool :=
  if cz < C.offset.2.2 then
    decide (zi < C.OVERMAP_LAYERS - 1) && C.floor_caches (zi + 1) cx cy
  else if cz > C.offset.2.2 then C.floor_caches zi cx cy
  else false

/-- The write `output[z][x][y] = std::max( output[z][x][y], last_intensity )`. -/
def zWrite (out : Int → Grid ℚ) (zi cx cy : Int) (v : ℚ) : Int → Grid ℚ :=
  Function.update out zi ((out zi).set cx cy (Max.max (out zi cx cy) v))

/-- The block of `cast_zlight_segment` that casts into the next row when the previous span
was not opaque: one call, or two when the blocks cannot be merged. -/
def zSplit (C : ZCast) (recur : ZRecur) (end_minor cumulative_transparency : ℚ)
    (distance dz dx : Int) (start_major start_minor current_transparency : ℚ)
    (out : Int → Grid ℚ) : Option (Int → Grid ℚ) :=
  let trailing_edge_minor := trailingEdge dx distance
  let next_cumulative_transparency :=
    C.accumulate cumulative_transparency current_transparency distance
  let merge_blocks : Bool := decide (end_minor ≤ trailing_edge_minor)
  let trailing_clipped := Max.max (trailing_edge_major dz distance) start_major
  let major_mid := if merge_blocks then leading_edge_major dz distance else trailing_clipped
  match recur (distance + 1) start_major major_mid start_minor end_minor
      next_cumulative_transparency out with
  | none => none
  | some o =>
    if ! merge_blocks then
      recur (distance + 1) major_mid (leading_edge_major dz distance) start_minor
        trailing_edge_minor next_cumulative_transparency o
    else some o

/-- The body of the loop over `delta.x` of `cast_zlight_segment`. -/
def zCell (C : ZCast) (recur : ZRecur) (end_major end_minor cumulative_transparency : ℚ)
    (distance dz dx : Int) (s : ZState) : Option ZStep :=
  let cx := C.offset.1 + dx * C.xx + distance * C.xy + dz * C.xz
  let cy := C.offset.2.1 + dx * C.yx + distance * C.yy + dz * C.yz
  let cz := C.offset.2.2 + dz * C.zz
  let zi := cz + C.E.OVERMAP_DEPTH
  let trailing_edge_minor := trailingEdge dx distance
  let leading_edge_minor := leadingEdge dx distance
  if ¬ (cx ≥ 0 ∧ cy ≥ 0 ∧ cx < C.E.MAPSIZE_X ∧ cy < C.E.MAPSIZE_Y) ∨
      s.start_minor > leading_edge_minor then some (ZStep.cont s)
  else if end_minor < trailing_edge_minor then some (ZStep.brk s)
  else
    let floor_block := C.floor_block cz zi cx cy
    let new_transparency : ℚ :=
      if floor_block then LIGHT_TRANSPARENCY_SOLID else C.input_arrays zi cx cy
    let current_transparency :=
      if s.started_block then s.current_transparency else new_transparency
    let dist := C.E.rl_dist (0, 0, 0) (dx, distance, dz) + C.offset_distance
    let last_intensity := C.calc_ C.numerator cumulative_transparency dist
    if zlight_check_blocked C.E (zlight_quad C.xx C.xy C.yx C.yy) C.blocked_caches
        (cx, cy, cz) then
      some (ZStep.brk
        { s with
          started_block := true, current_transparency := current_transparency,
          last_intensity := last_intensity, vehicle_blocked := true })
    else
      let out1 := if floor_block then s.out else zWrite s.out zi cx cy last_intensity
      let new_start_minor1 := if s.started_span then s.new_start_minor else leading_edge_minor
      let leading_edge_minor1 := if s.started_span then leading_edge_minor else s.start_minor
      if new_transparency = current_transparency then
        some (ZStep.cont
          { out := out1, start_major := s.start_major, start_minor := s.start_minor,
            new_start_minor := leading_edge_minor1, last_intensity := last_intensity,
            current_transparency := current_transparency, started_block := true,
            started_span := true, vehicle_blocked := s.vehicle_blocked })
      else
        let chk := C.check current_transparency last_intensity
        match (if chk then
            zSplit C recur end_minor cumulative_transparency distance dz dx s.start_major
              s.start_minor current_transparency out1
          else some out1) with
        | none => none
        | some out2 =>
          let start_minor2 :=
            if ! chk then new_start_minor1 else Max.max s.start_minor trailing_edge_minor
          let start_major2 :=
            if ! chk then s.start_major
            else Max.max s.start_major (trailing_edge_major dz distance)
          match recur distance (after_leading_edge_major dz distance) end_major s.start_minor
              start_minor2 cumulative_transparency out2 with
          | none => none
          | some out3 =>
            some (ZStep.cont
              { out := out3, start_major := start_major2, start_minor := start_minor2,
                new_start_minor := leading_edge_minor1, last_intensity := last_intensity,
                current_transparency := new_transparency, started_block := true,
                started_span := true, vehicle_blocked := s.vehicle_blocked })

/-- The loop over `delta.x` with `n` iterations left, from `delta.x = dx` on. -/
def zScan (C : ZCast) (recur : ZRecur) (end_major end_minor cumulative_transparency : ℚ)
    (distance dz : Int) : Nat → Int → ZState → Option ZState
  | 0, _, s => some s
  | n + 1, dx, s =>
    match zCell C recur end_major end_minor cumulative_transparency distance dz dx s with
    | none => none
    | some (ZStep.cont s1) =>
      zScan C recur end_major end_minor cumulative_transparency distance dz n (dx + 1) s1
    | some (ZStep.brk s1) => some s1

/-- The body of the loop over `delta.z` of `cast_zlight_segment`. -/
def zLevel (C : ZCast) (recur : ZRecur) (end_major end_minor cumulative_transparency : ℚ)
    (distance dz : Int) (s : ZState) : Option ZStep :=
  let cz := C.offset.2.2 + dz * C.zz
  if cz > C.E.OVERMAP_HEIGHT ∨ cz < -C.E.OVERMAP_DEPTH then some (ZStep.cont s)
  else if s.start_major > leading_edge_major dz distance then some (ZStep.cont s)
  else if end_major < trailing_edge_major dz distance then some (ZStep.brk s)
  else
    match zScan C recur end_major end_minor cumulative_transparency distance dz
        (distance + 1).toNat 0 { s with started_span := false, vehicle_blocked := false } with
    | none => none
    | some s1 =>
      if ! C.check s1.current_transparency s1.last_intensity || s1.vehicle_blocked then
        some (ZStep.cont { s1 with start_major := leading_edge_major dz distance })
      else some (ZStep.cont s1)

/-- The loop over `delta.z` with `n` iterations left, from `delta.z = dz` on. -/
def zLevels (C : ZCast) (recur : ZRecur) (end_major end_minor cumulative_transparency : ℚ)
    (distance : Int) : Nat → Int → ZState → Option ZState
  | 0, _, s => some s
  | n + 1, dz, s =>
    match zLevel C recur end_major end_minor cumulative_transparency distance dz s with
    | none => none
    | some (ZStep.cont s1) =>
      zLevels C recur end_major end_minor cumulative_transparency distance n (dz + 1) s1
    | some (ZStep.brk s1) => some s1

/-- The loop over `distance` of `cast_zlight_segment` with `n` rows left, from the row
`distance` on. -/
def zRows (C : ZCast) (recur : ZRecur) (end_major end_minor : ℚ) :
    Nat → Int → ℚ → ZState → Option (Int → Grid ℚ)
  | 0, _, _, s => some s.out
  | n + 1, distance, cumulative_transparency, s =>
    match zLevels C recur end_major end_minor cumulative_transparency distance
        (Min.min C.fov_3d_z_range distance + 1).toNat 0
        { s with started_block := false, current_transparency := 0 } with
    | none => none
    | some s1 =>
      if ! s1.started_block then some s1.out
      else if ! C.check s1.current_transparency s1.last_intensity then some s1.out
      else
        zRows C recur end_major end_minor n (distance + 1)
          (C.accumulate cumulative_transparency s1.current_transparency distance) s1

/-- The function `cast_zlight_segment` with a budget of nested calls: every call takes one
unit, the recursive calls get the rest, and a call without budget yields nothing. -/
def cast_zlight_segment (C : ZCast) : Nat → ZRecur
  | 0 => fun _ _ _ _ _ _ _ => none
  | fuel + 1 => fun row start_major end_major start_minor end_minor cumulative_transparency
      output_caches =>
    if start_major ≥ end_major ∨ start_minor ≥ end_minor then some output_caches
    else
      zRows C (cast_zlight_segment C fuel) end_major end_minor
        (60 - C.offset_distance + 1 - row).toNat row cumulative_transparency
        { out := output_caches, start_major := start_major, start_minor := start_minor,
          new_start_minor := 1, last_intensity := 0, current_transparency := 0,
          started_block := false, started_span := false, vehicle_blocked := false }

/-- The number of levels `delta.z` from 0 to `fov_3d_z_range` that a call of
`cast_zlight_segment` with the major slope starting at `start_major` does not skip in the
row `row`: those whose leading edge is not below `start_major`. -/
def zlight_levels_left (C : ZCast) (row : Int) (start_major : ℚ) : Nat :=
  ((Finset.range (C.fov_3d_z_range.toNat + 1)).filter
    (fun d : Nat => start_major ≤ leading_edge_major (d : Int) row)).card

/-- A budget of nested calls that is enough for a call of `cast_zlight_segment` starting at
the row `row` with the major slope starting at `start_major`: a call into a later row has
fewer rows left, a call into the same row has fewer levels left. -/
def zlight_budget (C : ZCast) (row : Int) (start_major : ℚ) : Nat :=
  if row > 60 - C.offset_distance then 1
  else
    2 + (60 - C.offset_distance - row).toNat * (C.fov_3d_z_range.toNat + 2) +
      zlight_levels_left C row start_major

/-! ## The `float` arithmetic of `fastexp` and `light_calc`

The two functions are modelled on IEEE 754 binary32 values, each a rational number, with every
operation rounded to the nearest value, ties to even, one operation at a time.  A result is
`none` when some step leaves the finite values (an infinity, a NaN) or the range of a
conversion. -/

/-- The power `2 ^ k` as a rational. -/
def pow2 (k : Int) : ℚ :=
  if 0 ≤ k then ((2 ^ k.toNat : Nat) : ℚ) else 1 / ((2 ^ (-k).toNat : Nat) : ℚ)

/-- Rounding of a rational to the nearest integer, ties to the even one. -/
def round_half_even (q : ℚ) : Int :=
  if q - ⌊q⌋ < 1 / 2 then ⌊q⌋
  else if 1 / 2 < q - ⌊q⌋ then ⌊q⌋ + 1
  else if ⌊q⌋ % 2 = 0 then ⌊q⌋
  else ⌊q⌋ + 1

/-- The search for the binade of `q`: from `e` upwards, at most `fuel` steps, while
`2 ^ (e + 1) ≤ q`. -/
def exponent_search : Nat → Int → ℚ → Int
  | 0, e, _ => e
  | fuel + 1, e, q => if pow2 (e + 1) ≤ q then exponent_search fuel (e + 1) q else e

/-- The exponent binary32 rounds `q` with: the largest `e` of `-126 .. 127` with
`2 ^ e ≤ |q|`, and `-126` in the subnormal range. -/
def float_exponent (q : ℚ) : Int := exponent_search 253 (-126) |q|

/-- The constant `FLT_MAX`, `(2 ^ 24 - 1) * 2 ^ 104`. -/
def FLT_MAX : ℚ := (2 ^ 24 - 1) * pow2 104

/-- The multiple of the unit in the last place of `q` that is nearest to `q`, ties to the
even multiple: a significand of 24 bits. -/
def round_nearest (q : ℚ) : ℚ :=
  (round_half_even (q / pow2 (float_exponent q - 23)) : ℚ) * pow2 (float_exponent q - 23)

/-- The binary32 value of the real `q`: the nearest value, `none` beyond `FLT_MAX`, where
the code gets an infinity. -/
def round32 (q : ℚ) : Option ℚ :=
  if |round_nearest q| ≤ FLT_MAX then some (round_nearest q) else none

/-- The conversion `static_cast<long long>( f )` of a `float`: truncation toward zero,
`none` outside the range of `long long`. -/
def to_long_long (q : ℚ) : Option Int :=
  if - 2 ^ 63 ≤ (if 0 ≤ q then ⌊q⌋ else - ⌊-q⌋) ∧ (if 0 ≤ q then ⌊q⌋ else - ⌊-q⌋) < 2 ^ 63 then
    some (if 0 ≤ q then ⌊q⌋ else - ⌊-q⌋)
  else none

/-- The conversion of a `long long` to the `int` member of the union: the value modulo
`2 ^ 32` in the range of `int`. -/
def to_int (k : Int) : Int := (k + 2 ^ 31) % 2 ^ 32 - 2 ^ 31

/-- The `float` member of the union after a write of the `int` member `i`: sign bit, 8 bits
of exponent, 23 bits of fraction; `none` for an infinity or a NaN. -/
def float_of_bits (i : Int) : Option ℚ :=
  if (i % 2 ^ 32) / 2 ^ 23 % 256 = 255 then none
  else
    some
      ((if i % 2 ^ 32 < 2 ^ 31 then 1 else -1) *
        (if (i % 2 ^ 32) / 2 ^ 23 % 256 = 0 then ((i % 2 ^ 23 : Int) : ℚ) * pow2 (-149)
        else ((2 ^ 23 + i % 2 ^ 23 : Int) : ℚ) * pow2 ((i % 2 ^ 32) / 2 ^ 23 % 256 - 150)))

/-- The function `fastexp` on `float` values: the two `int` constants are converted to
`float`, the product, the sum and the difference are rounded, the two results are truncated
to `long long`, stored in the `int` members and read back as `float`, and the quotient is
rounded. -/
def fastexp (x : ℚ) : Option ℚ :=
  (round32 6051102).bind fun a =>
  (round32 1056478197).bind fun c =>
  (round32 (a * x)).bind fun p =>
  (round32 (p + c)).bind fun su =>
  (round32 (c - p)).bind fun sv =>
  (to_long_long su).bind fun iu =>
  (to_long_long sv).bind fun iv =>
  (float_of_bits (to_int iu)).bind fun uf =>
  (float_of_bits (to_int iv)).bind fun vf =>
  if vf = 0 then none else round32 (uf / vf)

/-- The function `light_calc` on `float` values:
`numerator / ( fastexp( transparency * distance ) * distance )`, the `int` distance being
converted to `float` in both products. -/
def light_calc_float (numerator transparency : ℚ) (distance : Int) : Option ℚ :=
  (round32 distance).bind fun d =>
  (round32 (transparency * d)).bind fun x =>
  (fastexp x).bind fun e =>
  (round32 (e * d)).bind fun y =>
  if y = 0 then none else round32 (numerator / y)

/-- The value of the bits `i` of a positive normal `float`: exponent field `i / 2 ^ 23`,
fraction field `i % 2 ^ 23`. -/
def normal_value (i : Int) : ℚ :=
  ((2 ^ 23 + i % 2 ^ 23 : Int) : ℚ) * pow2 (i / 2 ^ 23 - 150)

/-- The value of `fastexp( x )` while every step stays within the positive normal `float`
values, as it does for `x` between 0 and 64: the quotient of the two `float` values whose
bits are the truncated sum and the truncated difference. -/
def fastexp_value (x : ℚ) : ℚ :=
  round_nearest
    (normal_value ⌊round_nearest (round_nearest (6051102 * x) + 1056478208)⌋ /
      normal_value ⌊round_nearest (1056478208 - round_nearest (6051102 * x))⌋)

/-! ## Concrete inputs used by the witnesses -/

/-- A small map: submaps of 2 x 2 tiles, 3 x 3 submaps, levels -1 .. 1, Chebyshev
distances, and thresholds in increasing order. -/
def small_env : Env :=
  { SEEX := 2, SEEY := 2, MAPSIZE := 3, my_MAPSIZE := 3, OVERMAP_DEPTH := 1,
    OVERMAP_HEIGHT := 1,
    rl_dist := fun a b =>
      Max.max (Max.max (a.1 - b.1) (b.1 - a.1)) (Max.max (a.2.1 - b.2.1) (b.2.1 - a.2.1)),
    square_dist := fun a b =>
      Max.max (Max.max (a.1 - b.1) (b.1 - a.1)) (Max.max (a.2.1 - b.2.1) (b.2.1 - a.2.1)),
    eight_adjacent_offsets :=
      [point_north, point_north_east, point_east, point_south_east, point_south,
        point_south_west, point_west, point_north_west],
    LIGHT_TRANSPARENCY_OPEN_AIR := 1 / 25, VISIBILITY_FULL := 1, LIGHT_AMBIENT_LOW := 7 / 2,
    LIGHT_AMBIENT_DIM := 5, LIGHT_AMBIENT_LIT := 10, LIGHT_SOURCE_BRIGHT := 10, lit_LOW := 1, lit_BRIGHT_ONLY := 2 }

/-- A level cache with every tile open air, dark, unseen, clean, without blocks or floor. -/
def blank_cache : level_cache :=
  { transparency_cache := fun _ _ => 1 / 25, outside_cache := fun _ _ => false,
    transparency_cache_dirty := fun _ => false,
    lm := fun _ _ => four_quadrants.fill 0, sm := fun _ _ => 0,
    light_source_buffer := fun _ _ => 0, seen_cache := fun _ _ => 0,
    camera_cache := fun _ _ => 0, vehicle_obscured_cache := fun _ _ => { nw := false, ne := false },
    floor_cache := fun _ _ => false }

/-- A level cache with every tile open air, fully seen, lit at 20 in every quadrant, and a
source of peak 5 on every tile. -/
def lit_cache : level_cache :=
  { blank_cache with
    lm := fun _ _ => four_quadrants.fill 20, sm := fun _ _ => 5, seen_cache := fun _ _ => 1 }

/-- An observer at the tile `(2, 2, 0)` whose unimpaired range is 1. -/
def near_observer : Observer :=
  { pos := (2, 2, 0), unimpaired_range := 1, get_vision_threshold := fun _ => 1 }

/-- Visibility variables without clairvoyance. -/
def demo_visibility : visibility_variables :=
  { u_clairvoyance := -1, g_light_level := 5, vision_threshold := 1 }

/-- A submap that is not uniform: a wall on its local tile `(0, 0)`, and on its local tile
`(1, 1)` two fields, one translucent at one half and one that is transparent. -/
def demo_submap : submap :=
  { is_uniform := false,
    ter_transparent := fun x y => decide (x ≠ 0 ∨ y ≠ 0),
    furn_transparent := fun _ _ => true,
    get_field := fun x y =>
      if x = 1 ∧ y = 1 then
        [{ is_transparent := false, translucency := 1 / 2, local_light_override := -1 },
          { is_transparent := true, translucency := 1 / 3, local_light_override := 3 }]
      else [] }

/-- A level cache whose only dirty submap is the middle one, `(1, 1)`, every tile outside. -/
def dirty_cache : level_cache :=
  { blank_cache with
    outside_cache := fun _ _ => true, transparency_cache_dirty := fun i => decide (i = 4) }

/-- A level cache with a wall on the tile `(3, 3)`; only the wall and its south-east
neighbour `(4, 4)` are seen, and the four quadrants of the wall carry different light. -/
def corner_cache : level_cache :=
  { blank_cache with
    transparency_cache := fun x y => if x = 3 ∧ y = 3 then 0 else 1 / 25,
    seen_cache := fun x y => if (x = 3 ∧ y = 3) ∨ (x = 4 ∧ y = 4) then 1 else 0,
    lm := fun _ _ => { NE := 7, SE := 3, SW := 9, NW := 11 } }

/-- A vision adjustment array whose entry 0, the one of the northern neighbour in the order
of `small_env`, is `VISION_ADJUST_HIDDEN`, every other entry being `VISION_ADJUST_NONE`. -/
def hidden_north : Nat → vision_adjustment :=
  fun i => if i = 0 then vision_adjustment.VISION_ADJUST_HIDDEN
    else vision_adjustment.VISION_ADJUST_NONE

/-- A vision adjustment array as `build_vision_transparency_cache` writes it: the northern
entry SOLID, the north-eastern entry HIDDEN, every other entry NONE. -/
def crouch_patch : Nat → vision_adjustment :=
  fun i => if i = 0 then vision_adjustment.VISION_ADJUST_SOLID
    else if i = 1 then vision_adjustment.VISION_ADJUST_HIDDEN
    else vision_adjustment.VISION_ADJUST_NONE

/-- A transparency grid with a wall on the tile `(2, 1)` and transparency 1 elsewhere. -/
def wall_north_grid : Grid ℚ := fun x y => if x = 2 ∧ y = 1 then 0 else 1

/-- A transparency grid with a wall on the tile `(3, 1)` and transparency 1 elsewhere. -/
def wall_east_grid : Grid ℚ := fun x y => if x = 3 ∧ y = 1 then 0 else 1

/-- A transparency grid of uniform transparency 1. -/
def open_grid : Grid ℚ := fun _ _ => 1

/-- A level cache with every tile open air, fully seen, dark, and without any source. -/
def seen_dark_cache : level_cache := { blank_cache with seen_cache := fun _ _ => 1 }

/-- The replacement of the light map of every level by one lit at 20 in every quadrant. -/
def bright_lm : Int → Grid four_quadrants := fun _ _ _ => four_quadrants.fill 20

/-- A diagonal block grid without any flag. -/
def no_blocks : Grid diagonal_blocks := fun _ _ => { nw := false, ne := false }

/-- An observer at the tile `(2, 2, 0)`. -/
def demo_observer : Observer :=
  { pos := (2, 2, 0), unimpaired_range := 60, get_vision_threshold := fun _ => 1 }

/-- A diagonal block grid whose only flag is the `ne` flag of the tile `(0, 3)`. -/
def west_edge_blocks : Grid diagonal_blocks :=
  fun x y => { nw := false, ne := decide (x = 0 ∧ y = 3) }

/-- A vehicle whose every part is an enabled freezer, with the cargo part `3` at the part
`0` and no cargo part elsewhere. -/
def freezer_van : vehicle :=
  { part_with_feature_CARGO := fun p => if p = 0 then 3 else -1,
    cpart := fun _ => { enabled := true, has_flag_FREEZER := true, has_flag_FRIDGE := false } }

/-- A map with no special furniture or terrain, the part `0` of the freezer van at the
position `(1, 1, 0)`, its part `5` at `(2, 1, 0)` and no vehicle anywhere else. -/
def van_map : rot_map :=
  { has_flag_furn_FREEZER := fun _ => false,
    has_flag_furn_FRIDGE := fun _ => false,
    ter_is_rootcellar := fun _ => false,
    veh_at := fun p =>
      if p = (1, 1, 0) then some { veh := freezer_van, part_index := 0 }
      else if p = (2, 1, 0) then some { veh := freezer_van, part_index := 5 }
      else none }

/-- A submap flagged uniform: transparent terrain and furniture, no field. -/
def uniform_submap : submap :=
  { is_uniform := true, ter_transparent := fun _ _ => true, furn_transparent := fun _ _ => true,
    get_field := fun _ _ => [] }

/-- A level cache whose only dirty submap is the middle one, `(1, 1)`, and whose only
outside tile is the first tile `(2, 2)` of that submap. -/
def shade_cache : level_cache :=
  { blank_cache with
    outside_cache := fun x y => decide (x = 2 ∧ y = 2),
    transparency_cache_dirty := fun i => decide (i = 4) }

/-- A diagonal block grid whose only flag is the `ne` flag of the tile `(2, 1)`. -/
def wall_blocks : Grid diagonal_blocks :=
  fun x y => { nw := false, ne := decide (x = 2 ∧ y = 1) }

/-- The sight policy with the numerator as intensity and a constant cumulative transparency. -/
def flat_sight_policy : Policy ℚ := sight_policy (fun n _ _ => n) (fun c _ _ => c)

/-- A level cache whose only inside tile is the wall on `(2, 2)`; the light map holds 0 on
the wall and 4 in every quadrant of every other tile. -/
def porch_cache : level_cache :=
  { blank_cache with
    transparency_cache := fun x y => if x = 2 ∧ y = 2 then 0 else 1,
    outside_cache := fun x y => decide (¬ (x = 2 ∧ y = 2)),
    lm := fun x y => if x = 2 ∧ y = 2 then four_quadrants.fill 0 else four_quadrants.fill 4 }

/-- A level cache of open air without floor whose light map holds 1 in every quadrant. -/
def dusk_cache : level_cache := { blank_cache with lm := fun _ _ => four_quadrants.fill 1 }

/-- A level cache of open air lit at 20 with a floor on the tiles `(2, 2)`, `(3, 2)` and
`(2, 3)`. -/
def roofed_cache : level_cache :=
  { blank_cache with
    lm := fun _ _ => four_quadrants.fill 20,
    floor_cache := fun x y => decide ((x = 2 ∧ y = 2) ∨ (x = 3 ∧ y = 2) ∨ (x = 2 ∧ y = 3)) }

/-- A state of the sunlight scan with both flags clear, the roofed cache on the level 1 and
the blank cache elsewhere. -/
def slow_state : sun_state :=
  { caches := fun z => if z = 1 then roofed_cache else blank_cache,
    fully_outside := false, fully_inside := false }

/-- A vehicle with one vision extending part, a mirror on the tile `(4, 2, 0)`. -/
def mirror_car : seen_vehicle :=
  { avail_parts := [7], global_part_pos3 := fun _ => (4, 2, 0),
    has_flag_CAMERA := fun _ => false, has_flag_CAMERA_CONTROL := fun _ => false,
    bonus := fun _ => 0, hp := fun _ => 1, durability := fun _ => 1, camera_on := false }

/-- A cast of the 3D caster on the small map, upwards from `(2, 2, 0)` with a vertical range
of one level: open air everywhere, a floor on every tile of the top level, no diagonal
blocks, the intensity of the sight policy of the other witnesses. -/
def floor_zcast : ZCast :=
  { E := small_env, OVERMAP_LAYERS := 3, fov_3d_z_range := 1,
    calc_ := fun n _ _ => n, check := sight_check, accumulate := fun c _ _ => c,
    xx := 0, xy := 1, xz := 0, yx := 1, yy := 0, yz := 0, zz := 1,
    input_arrays := fun _ _ _ => 1, floor_caches := fun zi _ _ => decide (zi = 2),
    blocked_caches := fun _ => no_blocks, offset := (2, 2, 0), offset_distance := 0,
    numerator := 1 }

/-! ## Theorems -/

/-! ### Out of bounds queries (C8) -/

/-- C8: for a tile outside the active map rectangle, whatever the caches hold and whatever
`max_range` is, `light_at` is DARK, `ambient_light_at` is 0 and `pl_sees` and
`pl_line_of_sight` are false; the answers do not depend on any grid. -/
theorem out_of_bounds_queries (E : Env) (get_cache_ref : Int → level_cache) (u : Observer)
    (p : Int × Int × Int) (max_range : Int) (hp : inbounds E p.1 p.2.1 p.2.2 = false) :
    light_at E get_cache_ref p = lit_level.DARK ∧
      ambient_light_at E get_cache_ref p = 0 ∧
      pl_sees E get_cache_ref u p max_range = false ∧
      pl_line_of_sight E get_cache_ref u p max_range = false := by
  simp [light_at, ambient_light_at, pl_sees, pl_line_of_sight, hp]

/-- Witness of C8 at the tile `(-1, 0, 0)` of the small map. -/
theorem out_of_bounds_queries_witness :
    inbounds small_env (-1) 0 0 = false ∧
      (light_at small_env (fun _ => blank_cache) (-1, 0, 0) = lit_level.DARK ∧
        ambient_light_at small_env (fun _ => blank_cache) (-1, 0, 0) = 0 ∧
        pl_sees small_env (fun _ => blank_cache) demo_observer (-1, 0, 0) 5 = false ∧
        pl_line_of_sight small_env (fun _ => blank_cache) demo_observer (-1, 0, 0) 5 = false) :=
  ⟨by decide, out_of_bounds_queries small_env (fun _ => blank_cache) demo_observer (-1, 0, 0) 5
    (by decide)⟩

/-! ### Classification of the apparent light (C9, C10) -/

/-- C9: within the clairvoyance radius the result is BRIGHT whatever the caches hold;
otherwise, beyond the unimpaired range, it is BRIGHT_ONLY when the tile is unobstructed and
its `sm` value is positive, and DARK in every other case. -/
theorem apparent_light_at_range_overrides (E : Env) (get_cache_ref : Int → level_cache)
    (u : Observer) (p : Int × Int × Int) (cache : visibility_variables) :
    (E.rl_dist u.pos p ≤ cache.u_clairvoyance →
        apparent_light_at E get_cache_ref u p cache = lit_level.BRIGHT) ∧
      (¬ E.rl_dist u.pos p ≤ cache.u_clairvoyance → E.rl_dist u.pos p > u.unimpaired_range →
        ((apparent_light_helper E (get_cache_ref p.2.2) u p.1 p.2.1).obstructed = false ∧
            (get_cache_ref p.2.2).sm p.1 p.2.1 > 0 →
          apparent_light_at E get_cache_ref u p cache = lit_level.BRIGHT_ONLY) ∧
        (¬ ((apparent_light_helper E (get_cache_ref p.2.2) u p.1 p.2.1).obstructed = false ∧
            (get_cache_ref p.2.2).sm p.1 p.2.1 > 0) →
          apparent_light_at E get_cache_ref u p cache = lit_level.DARK)) := by
  refine ⟨fun h => by simp [apparent_light_at, h], fun h1 h2 => ⟨fun h3 => ?_, fun h3 => ?_⟩⟩
  · simp [apparent_light_at, h1, h2, h3.1, h3.2]
  · by_cases ho : (apparent_light_helper E (get_cache_ref p.2.2) u p.1 p.2.1).obstructed = false
    · have hs : ¬ (get_cache_ref p.2.2).sm p.1 p.2.1 > 0 := fun hs => h3 ⟨ho, hs⟩
      simp only [gt_iff_lt] at hs
      simp [apparent_light_at, h1, h2, ho, hs]
    · simp only [Bool.not_eq_false] at ho
      simp [apparent_light_at, h1, h2, ho]

/-- Witness of C9 on the small map: the observer's own tile with clairvoyance 0, a lit
source tile beyond the unimpaired range, and an unseen tile beyond it. -/
theorem apparent_light_at_range_overrides_witness :
    apparent_light_at small_env (fun _ => blank_cache) demo_observer (2, 2, 0)
        { u_clairvoyance := 0, g_light_level := 5, vision_threshold := 1 } = lit_level.BRIGHT ∧
      apparent_light_at small_env (fun _ => lit_cache) near_observer (5, 2, 0) demo_visibility
        = lit_level.BRIGHT_ONLY ∧
      apparent_light_at small_env (fun _ => blank_cache) near_observer (5, 2, 0) demo_visibility
        = lit_level.DARK :=
  ⟨(apparent_light_at_range_overrides small_env (fun _ => blank_cache) demo_observer (2, 2, 0)
      { u_clairvoyance := 0, g_light_level := 5, vision_threshold := 1 }).1 (by decide),
    ((apparent_light_at_range_overrides small_env (fun _ => lit_cache) near_observer (5, 2, 0)
      demo_visibility).2 (by decide) (by decide)).1
      (by norm_num [apparent_light_helper, lit_cache, blank_cache, LIGHT_TRANSPARENCY_SOLID]),
    ((apparent_light_at_range_overrides small_env (fun _ => blank_cache) near_observer (5, 2, 0)
      demo_visibility).2 (by decide) (by decide)).2
      (by norm_num [apparent_light_helper, blank_cache, LIGHT_TRANSPARENCY_SOLID])⟩

/-- C10: for a tile outside the clairvoyance radius and within the unimpaired range, with
`a` the result of `apparent_light_helper`: if obstructed the result is BRIGHT_ONLY when the
apparent light is above LIGHT_AMBIENT_LIT and above `g_light_level`, LOW when it is above
LIGHT_AMBIENT_LIT and at most `g_light_level`, and BLANK otherwise; if unobstructed it is
BRIGHT when the apparent light is above LIGHT_SOURCE_BRIGHT or `sm` is positive, else LIT
above LIGHT_AMBIENT_LIT, else LOW from `vision_threshold` on, else BLANK.  DARK is never
returned. -/
theorem apparent_light_at_thresholds (E : Env) (get_cache_ref : Int → level_cache)
    (u : Observer) (p : Int × Int × Int) (cache : visibility_variables)
    (hclair : ¬ E.rl_dist u.pos p ≤ cache.u_clairvoyance)
    (hrange : ¬ E.rl_dist u.pos p > u.unimpaired_range) :
    ((apparent_light_helper E (get_cache_ref p.2.2) u p.1 p.2.1).obstructed = true →
        ((apparent_light_helper E (get_cache_ref p.2.2) u p.1 p.2.1).apparent_light
              > E.LIGHT_AMBIENT_LIT →
            (apparent_light_helper E (get_cache_ref p.2.2) u p.1 p.2.1).apparent_light
              > cache.g_light_level →
            apparent_light_at E get_cache_ref u p cache = lit_level.BRIGHT_ONLY) ∧
          ((apparent_light_helper E (get_cache_ref p.2.2) u p.1 p.2.1).apparent_light
              > E.LIGHT_AMBIENT_LIT →
            (apparent_light_helper E (get_cache_ref p.2.2) u p.1 p.2.1).apparent_light
              ≤ cache.g_light_level →
            apparent_light_at E get_cache_ref u p cache = lit_level.LOW) ∧
          (¬ (apparent_light_helper E (get_cache_ref p.2.2) u p.1 p.2.1).apparent_light
              > E.LIGHT_AMBIENT_LIT →
            apparent_light_at E get_cache_ref u p cache = lit_level.BLANK)) ∧
      ((apparent_light_helper E (get_cache_ref p.2.2) u p.1 p.2.1).obstructed = false →
        (((apparent_light_helper E (get_cache_ref p.2.2) u p.1 p.2.1).apparent_light
              > E.LIGHT_SOURCE_BRIGHT ∨ (get_cache_ref p.2.2).sm p.1 p.2.1 > 0) →
            apparent_light_at E get_cache_ref u p cache = lit_level.BRIGHT) ∧
          (¬ ((apparent_light_helper E (get_cache_ref p.2.2) u p.1 p.2.1).apparent_light
              > E.LIGHT_SOURCE_BRIGHT ∨ (get_cache_ref p.2.2).sm p.1 p.2.1 > 0) →
            ((apparent_light_helper E (get_cache_ref p.2.2) u p.1 p.2.1).apparent_light
                > E.LIGHT_AMBIENT_LIT →
              apparent_light_at E get_cache_ref u p cache = lit_level.LIT) ∧
            (¬ (apparent_light_helper E (get_cache_ref p.2.2) u p.1 p.2.1).apparent_light
                > E.LIGHT_AMBIENT_LIT →
              ((apparent_light_helper E (get_cache_ref p.2.2) u p.1 p.2.1).apparent_light
                  ≥ cache.vision_threshold →
                apparent_light_at E get_cache_ref u p cache = lit_level.LOW) ∧
              (¬ (apparent_light_helper E (get_cache_ref p.2.2) u p.1 p.2.1).apparent_light
                  ≥ cache.vision_threshold →
                apparent_light_at E get_cache_ref u p cache = lit_level.BLANK)))) ∧
      apparent_light_at E get_cache_ref u p cache ≠ lit_level.DARK := by
  have hrange2 : ¬ u.unimpaired_range < E.rl_dist u.pos p := hrange
  refine ⟨fun ho => ⟨fun h1 h2 => ?_, fun h1 h2 => ?_, fun h1 => ?_⟩,
    fun ho => ⟨fun h1 => ?_, fun h1 => ⟨fun h2 => ?_, fun h2 => ⟨fun h3 => ?_, fun h3 => ?_⟩⟩⟩,
    ?_⟩
  · simp only [gt_iff_lt] at h1 h2
    simp [apparent_light_at, hclair, hrange2, ho, h1, h2]
  · simp only [gt_iff_lt] at h1
    have h2n : ¬ cache.g_light_level
        < (apparent_light_helper E (get_cache_ref p.2.2) u p.1 p.2.1).apparent_light :=
      not_lt.mpr h2
    simp [apparent_light_at, hclair, hrange2, ho, h1, h2n]
  · simp only [gt_iff_lt] at h1
    simp [apparent_light_at, hclair, hrange2, ho, h1]
  · simp only [gt_iff_lt] at h1
    simp only [apparent_light_at, hclair, hrange2, ho, if_false, gt_iff_lt, if_pos h1]
    simp
  · simp only [gt_iff_lt] at h1 h2
    simp only [apparent_light_at, hclair, hrange2, ho, if_false, gt_iff_lt, if_neg h1,
      if_pos h2]
    simp
  · simp only [gt_iff_lt] at h1 h2
    simp only [apparent_light_at, hclair, hrange2, ho, if_false, gt_iff_lt, if_neg h1,
      if_neg h2, ge_iff_le, if_pos h3]
    simp
  · simp only [gt_iff_lt] at h1 h2
    simp only [ge_iff_le] at h3
    simp only [apparent_light_at, hclair, hrange2, ho, if_false, gt_iff_lt, if_neg h1,
      if_neg h2, ge_iff_le, if_neg h3]
    simp
  · simp only [apparent_light_at, hclair, hrange2, if_false, gt_iff_lt]
    split_ifs <;> simp

/-- Witness of C10 on the small map: a fully seen tile lit at 20 with a source on it, at
distance 3 and within the unimpaired range of 60, is BRIGHT. -/
theorem apparent_light_at_thresholds_witness :
    apparent_light_at small_env (fun _ => lit_cache) demo_observer (5, 2, 0) demo_visibility
      = lit_level.BRIGHT :=
  ((apparent_light_at_thresholds small_env (fun _ => lit_cache) demo_observer (5, 2, 0)
      demo_visibility (by decide) (by decide)).2.1
    (by norm_num [apparent_light_helper, lit_cache, blank_cache, LIGHT_TRANSPARENCY_SOLID])).1
    (Or.inr (by norm_num [lit_cache]))

/-! ### The transparency cache (C4, C5) -/

/-- After `reset()` no bit of the bitset is set. -/
theorem bitset_none_reset (size : Nat) (b : Nat → Bool) :
    bitset_none size (bitset_reset b) = true := by
  simp [bitset_none, bitset_reset]

/-- A call of `build_transparency_cache` leaves a cache without any dirty bit. -/
theorem build_transparency_cache_clean (E : Env) (get_submap_at_grid : Nat → Nat → submap)
    (sight_penalty : ℚ) (map_cache : level_cache) :
    bitset_none (E.MAPSIZE * E.MAPSIZE)
      (build_transparency_cache E get_submap_at_grid sight_penalty map_cache).2.transparency_cache_dirty
      = true := by
  by_cases h : bitset_none (E.MAPSIZE * E.MAPSIZE) map_cache.transparency_cache_dirty = true
  · simp [build_transparency_cache, h]
  · simp [build_transparency_cache, h, bitset_none_reset]

/-- C4: a second call of `build_transparency_cache` right after a first one returns false
and leaves the cache (the transparency grid and the dirty bitset among it) exactly as the
first call left it; and a call made while no dirty bit is set returns false and leaves the
cache as it is. -/
theorem build_transparency_cache_idempotent (E : Env)
    (get_submap_at_grid : Nat → Nat → submap) (sight_penalty : ℚ) (map_cache : level_cache) :
    build_transparency_cache E get_submap_at_grid sight_penalty
        (build_transparency_cache E get_submap_at_grid sight_penalty map_cache).2
      = (false, (build_transparency_cache E get_submap_at_grid sight_penalty map_cache).2) ∧
    (bitset_none (E.MAPSIZE * E.MAPSIZE) map_cache.transparency_cache_dirty = true →
      build_transparency_cache E get_submap_at_grid sight_penalty map_cache
        = (false, map_cache)) := by
  constructor
  · have h := build_transparency_cache_clean E get_submap_at_grid sight_penalty map_cache
    generalize (build_transparency_cache E get_submap_at_grid sight_penalty map_cache).2 = c2 at h
    simp [build_transparency_cache, h]
  · intro h
    simp [build_transparency_cache, h]

/-- One more iteration of a counting loop. -/
theorem forLoop_succ {σ : Type} (n : Nat) (body : Nat → σ → σ) (s : σ) :
    forLoop (n + 1) body s = body n (forLoop n body s) := by
  simp [forLoop, List.range_succ]

/-- A property every iteration preserves holds after the loop. -/
theorem forLoop_preserves {σ : Type} (Q : σ → Prop) (n : Nat) (body : Nat → σ → σ)
    (hbody : ∀ i, i < n → ∀ s, Q s → Q (body i s)) (s : σ) (hs : Q s) :
    Q (forLoop n body s) := by
  induction n with
  | zero => simpa [forLoop] using hs
  | succ n ih =>
    rw [forLoop_succ]
    exact hbody n (Nat.lt_succ_self n) _
      (ih (fun i hi s hs => hbody i (Nat.lt_succ_of_lt hi) s hs))

/-- A property that one iteration establishes and every other iteration preserves holds
after the loop. -/
theorem forLoop_establishes {σ : Type} (Q : σ → Prop) (n i0 : Nat) (body : Nat → σ → σ)
    (hi0 : i0 < n) (hest : ∀ s, Q (body i0 s))
    (hbody : ∀ i, i < n → i ≠ i0 → ∀ s, Q s → Q (body i s)) (s : σ) :
    Q (forLoop n body s) := by
  induction n with
  | zero => exact absurd hi0 (Nat.not_lt_zero _)
  | succ n ih =>
    rw [forLoop_succ]
    by_cases h : n = i0
    · subst h
      exact hest _
    · have hlt : i0 < n := by omega
      exact hbody n (Nat.lt_succ_self n) h _
        (ih hlt (fun i hi hne s hs => hbody i (Nat.lt_succ_of_lt hi) hne s hs))

/-- A tile coordinate determines the submap coordinate: `a * S + r` with `r < S` has only
one such decomposition. -/
theorem submap_coord_unique (S a b r r0 : Nat) (hr : r < S) (hr0 : r0 < S)
    (h : (a : Int) * (S : Int) + (r : Int) = (b : Int) * (S : Int) + (r0 : Int)) :
    a = b ∧ r = r0 := by
  have h2 : a * S + r = b * S + r0 := by exact_mod_cast h
  have hS : 0 < S := by omega
  have ha : (a * S + r) / S = a := by
    rw [Nat.add_comm, Nat.add_mul_div_right _ _ hS, Nat.div_eq_of_lt hr, Nat.zero_add]
  have hb : (b * S + r0) / S = b := by
    rw [Nat.add_comm, Nat.add_mul_div_right _ _ hS, Nat.div_eq_of_lt hr0, Nat.zero_add]
  have hab : a = b := by rw [← ha, ← hb, h2]
  subst hab
  exact ⟨rfl, by omega⟩

/-- The field loop of `calc_transp` multiplies by the translucency of each field that is
not transparent. -/
theorem field_fold_eq_prod (l : List field_entry) (v : ℚ) :
    l.foldl (fun v cur => if cur.is_transparent then v else v * cur.translucency) v
      = v * ((l.filter (fun f => ! f.is_transparent)).map (fun f => f.translucency)).prod := by
  induction l generalizing v with
  | nil => simp
  | cons f l ih =>
    rw [List.foldl_cons, ih]
    cases hf : f.is_transparent
    · simp [hf, mul_assoc]
    · simp [hf]

/-- The lambda `calc_transp` computes the per-tile rule of the spec. -/
theorem calc_transp_eq_spec (E : Env) (sight_penalty : ℚ) (cur_submap : submap)
    (sm_offset : Int × Int) (outside_cache : Grid Bool) (px py : Int) :
    calc_transp E sight_penalty cur_submap sm_offset outside_cache px py
      = spec_transparency E sight_penalty
          (cur_submap.ter_transparent (px - sm_offset.1) (py - sm_offset.2))
          (cur_submap.furn_transparent (px - sm_offset.1) (py - sm_offset.2))
          (outside_cache px py)
          (cur_submap.get_field (px - sm_offset.1) (py - sm_offset.2)) := by
  unfold calc_transp spec_transparency
  simp only [field_fold_eq_prod]
  cases h1 : cur_submap.ter_transparent (px - sm_offset.1) (py - sm_offset.2) <;>
    cases h2 : cur_submap.furn_transparent (px - sm_offset.1) (py - sm_offset.2) <;>
    cases h3 : outside_cache px py <;> simp

/-- Tiles of different submaps are different tiles. -/
theorem submap_tiles_disjoint (E : Env) (a b smx smy sx sy sx0 sy0 : Nat)
    (hne : ¬ (a = smx ∧ b = smy)) (hsx : sx < E.SEEX) (hsy : sy < E.SEEY)
    (hsx0 : sx0 < E.SEEX) (hsy0 : sy0 < E.SEEY) :
    ¬ ((smx : Int) * (E.SEEX : Int) + (sx0 : Int) = (a : Int) * (E.SEEX : Int) + (sx : Int) ∧
      (smy : Int) * (E.SEEY : Int) + (sy0 : Int) = (b : Int) * (E.SEEY : Int) + (sy : Int)) := by
  rintro ⟨hx, hy⟩
  have h1 := submap_coord_unique E.SEEX smx a sx0 sx hsx0 hsx hx
  have h2 := submap_coord_unique E.SEEY smy b sy0 sy hsy0 hsy hy
  exact hne ⟨h1.1.symm, h2.1.symm⟩

/-- The body of the submap loops writes no tile of another submap. -/
theorem build_transparency_submap_frame (E : Env) (get_submap_at_grid : Nat → Nat → submap)
    (sight_penalty : ℚ) (outside_cache : Grid Bool) (dirty : Nat → Bool) (rebuild_all : Bool)
    (a b smx smy sx0 sy0 : Nat) (hne : ¬ (a = smx ∧ b = smy)) (hsx0 : sx0 < E.SEEX)
    (hsy0 : sy0 < E.SEEY) (g : Grid ℚ) (c : ℚ)
    (hg : g ((smx : Int) * (E.SEEX : Int) + (sx0 : Int))
      ((smy : Int) * (E.SEEY : Int) + (sy0 : Int)) = c) :
    build_transparency_submap E get_submap_at_grid sight_penalty outside_cache dirty rebuild_all
        a b g ((smx : Int) * (E.SEEX : Int) + (sx0 : Int))
        ((smy : Int) * (E.SEEY : Int) + (sy0 : Int)) = c := by
  unfold build_transparency_submap
  simp only []
  split_ifs
  · exact hg
  · refine forLoop_preserves (fun g2 : Grid ℚ => g2 _ _ = c) _ _ ?_ g hg
    intro sx hsx g2 hg2
    refine forLoop_preserves (fun g3 : Grid ℚ => g3 _ _ = c) _ _ ?_ g2 hg2
    intro sy hsy g3 hg3
    have hd := submap_tiles_disjoint E a b smx smy sx sy sx0 sy0 hne hsx hsy hsx0 hsy0
    simp only [Grid.set]
    rw [if_neg hd]
    exact hg3
  · exact hg
  · refine forLoop_preserves (fun g2 : Grid ℚ => g2 _ _ = c) _ _ ?_ g hg
    intro sx hsx g2 hg2
    refine forLoop_preserves (fun g3 : Grid ℚ => g3 _ _ = c) _ _ ?_ g2 hg2
    intro sy hsy g3 hg3
    have hd := submap_tiles_disjoint E a b smx smy sx sy sx0 sy0 hne hsx hsy hsx0 hsy0
    simp only [Grid.set]
    rw [if_neg (by rw [add_comm (sx : Int), add_comm (sy : Int)]; exact hd)]
    exact hg3

/-- The body of the submap loops, run on a submap that is not uniform and is either dirty
or part of a full rebuild, leaves in each of its tiles the value of `calc_transp`. -/
theorem build_transparency_submap_value (E : Env) (get_submap_at_grid : Nat → Nat → submap)
    (sight_penalty : ℚ) (outside_cache : Grid Bool) (dirty : Nat → Bool) (rebuild_all : Bool)
    (smx smy sx0 sy0 : Nat) (hsx0 : sx0 < E.SEEX) (hsy0 : sy0 < E.SEEY)
    (hproc : rebuild_all = true ∨ dirty (smx * E.MAPSIZE + smy) = true)
    (hnu : (get_submap_at_grid smx smy).is_uniform = false) (g : Grid ℚ) :
    build_transparency_submap E get_submap_at_grid sight_penalty outside_cache dirty rebuild_all
        smx smy g ((smx : Int) * (E.SEEX : Int) + (sx0 : Int))
        ((smy : Int) * (E.SEEY : Int) + (sy0 : Int))
      = calc_transp E sight_penalty (get_submap_at_grid smx smy)
          ((smx : Int) * (E.SEEX : Int), (smy : Int) * (E.SEEY : Int)) outside_cache
          ((smx : Int) * (E.SEEX : Int) + (sx0 : Int))
          ((smy : Int) * (E.SEEY : Int) + (sy0 : Int)) := by
  unfold build_transparency_submap
  have hskip : (! rebuild_all && ! dirty (smx * E.MAPSIZE + smy)) = false := by
    rcases hproc with h | h <;> simp [h]
  simp only [hskip, hnu, Bool.false_eq_true, if_false]
  refine forLoop_establishes (fun g2 : Grid ℚ => g2 _ _ = _) E.SEEX sx0 _ hsx0 ?_ ?_ g
  · intro g2
    refine forLoop_establishes (fun g3 : Grid ℚ => g3 _ _ = _) E.SEEY sy0 _ hsy0 ?_ ?_ g2
    · intro g3
      simp [Grid.set, add_comm]
    · intro sy hsy hne g3 hg3
      simp only [Grid.set]
      rw [if_neg]
      · exact hg3
      · rintro ⟨-, h⟩
        apply hne
        omega
  · intro sx hsx hne g2 hg2
    refine forLoop_preserves (fun g3 : Grid ℚ => g3 _ _ = _) _ _ ?_ g2 hg2
    intro sy hsy g3 hg3
    simp only [Grid.set]
    rw [if_neg]
    · exact hg3
    · rintro ⟨h, -⟩
      apply hne
      omega

/-- A set bit inside the bitset makes `none()` false. -/
theorem bitset_none_false_of_bit (size : Nat) (b : Nat → Bool) (i : Nat) (hi : i < size)
    (hb : b i = true) : bitset_none size b = false := by
  cases h : bitset_none size b
  · rfl
  · simp only [bitset_none, List.all_eq_true, List.mem_range] at h
    have := h i hi
    simp [hb] at this

/-- C5: after `build_transparency_cache` every tile of a dirty submap that is not uniform
(whether only some submaps are dirty or the whole level is) holds the value of the per-tile
rule of the spec: SOLID if terrain or furniture is not transparent, else OPEN_AIR, times the
sight penalty exactly when the tile is outside, times the translucency of every field whose
transparent flag is false. -/
theorem transparency_per_tile_rule (E : Env) (get_submap_at_grid : Nat → Nat → submap)
    (sight_penalty : ℚ) (map_cache : level_cache) (smx smy sx sy : Nat)
    (hmx : smx < E.my_MAPSIZE) (hmy : smy < E.my_MAPSIZE) (hbx : smx < E.MAPSIZE)
    (hby : smy < E.MAPSIZE)
    (hdirty : map_cache.transparency_cache_dirty (smx * E.MAPSIZE + smy) = true)
    (hnu : (get_submap_at_grid smx smy).is_uniform = false) (hsx : sx < E.SEEX)
    (hsy : sy < E.SEEY) :
    (build_transparency_cache E get_submap_at_grid sight_penalty map_cache).2.transparency_cache
        ((smx : Int) * (E.SEEX : Int) + (sx : Int)) ((smy : Int) * (E.SEEY : Int) + (sy : Int))
      = spec_transparency E sight_penalty
          ((get_submap_at_grid smx smy).ter_transparent sx sy)
          ((get_submap_at_grid smx smy).furn_transparent sx sy)
          (map_cache.outside_cache ((smx : Int) * (E.SEEX : Int) + (sx : Int))
            ((smy : Int) * (E.SEEY : Int) + (sy : Int)))
          ((get_submap_at_grid smx smy).get_field sx sy) := by
  have hidx : smx * E.MAPSIZE + smy < E.MAPSIZE * E.MAPSIZE := by
    have h1 : (smx + 1) * E.MAPSIZE ≤ E.MAPSIZE * E.MAPSIZE :=
      Nat.mul_le_mul_right _ hbx
    have h2 : (smx + 1) * E.MAPSIZE = smx * E.MAPSIZE + E.MAPSIZE := by ring
    omega
  have hnone := bitset_none_false_of_bit _ _ _ hidx hdirty
  have hval : ∀ g : Grid ℚ,
      build_transparency_submap E get_submap_at_grid sight_penalty map_cache.outside_cache
          map_cache.transparency_cache_dirty
          (bitset_all (E.MAPSIZE * E.MAPSIZE) map_cache.transparency_cache_dirty) smx smy g
          ((smx : Int) * (E.SEEX : Int) + (sx : Int)) ((smy : Int) * (E.SEEY : Int) + (sy : Int))
        = spec_transparency E sight_penalty
          ((get_submap_at_grid smx smy).ter_transparent sx sy)
          ((get_submap_at_grid smx smy).furn_transparent sx sy)
          (map_cache.outside_cache ((smx : Int) * (E.SEEX : Int) + (sx : Int))
            ((smy : Int) * (E.SEEY : Int) + (sy : Int)))
          ((get_submap_at_grid smx smy).get_field sx sy) := by
    intro g
    rw [build_transparency_submap_value E get_submap_at_grid sight_penalty _ _ _ smx smy sx sy
      hsx hsy (Or.inr hdirty) hnu g, calc_transp_eq_spec]
    simp
  simp only [build_transparency_cache, hnone, Bool.false_eq_true, if_false]
  refine forLoop_establishes (fun g2 : Grid ℚ => g2 _ _ = _) E.my_MAPSIZE smx _ hmx ?_ ?_ _
  · intro g2
    refine forLoop_establishes (fun g3 : Grid ℚ => g3 _ _ = _) E.my_MAPSIZE smy _ hmy ?_ ?_ g2
    · intro g3
      exact hval g3
    · intro b _ hne g3 hg3
      exact build_transparency_submap_frame E get_submap_at_grid sight_penalty _ _ _ smx b smx
        smy sx sy (fun h => hne h.2) hsx hsy g3 _ hg3
  · intro a _ hne g2 hg2
    refine forLoop_preserves (fun g3 : Grid ℚ => g3 _ _ = _) _ _ ?_ g2 hg2
    intro b _ g3 hg3
    exact build_transparency_submap_frame E get_submap_at_grid sight_penalty _ _ _ a b smx
      smy sx sy (fun h => hne h.1) hsx hsy g3 _ hg3

/-- Witness of C4 on the small map: the blank cache has no dirty bit, and a rebuild of it
returns false and changes nothing. -/
theorem build_transparency_cache_idempotent_witness :
    bitset_none (small_env.MAPSIZE * small_env.MAPSIZE) blank_cache.transparency_cache_dirty
        = true ∧
      build_transparency_cache small_env (fun _ _ => demo_submap) 2 blank_cache
        = (false, blank_cache) :=
  ⟨by decide,
    (build_transparency_cache_idempotent small_env (fun _ _ => demo_submap) 2 blank_cache).2
      (by decide)⟩

/-- Witness of C5 on the small map: the tile `(3, 3)` of the dirty middle submap, outside
under a sight penalty of 2, with a field of translucency one half. -/
theorem transparency_per_tile_rule_witness :
    (build_transparency_cache small_env (fun _ _ => demo_submap) 2 dirty_cache).2.transparency_cache
        3 3
      = spec_transparency small_env 2 true true true
          [{ is_transparent := false, translucency := 1 / 2, local_light_override := -1 },
            { is_transparent := true, translucency := 1 / 3, local_light_override := 3 }] :=
  transparency_per_tile_rule small_env (fun _ _ => demo_submap) 2 dirty_cache 1 1 1 1
    (by decide) (by decide) (by decide) (by decide) (by decide) (by decide) (by decide)
    (by decide)

/-! ### Quadrant restricted visibility of opaque tiles (C7) -/

/-- The body of the neighbour loop marks the two quadrants of a neighbour exactly when the
neighbour is inside the map, not opaque, and seen or on camera. -/
theorem seen_from_step_eq (E : Env) (map_cache : level_cache) (u : Observer) (px py : Int)
    (vis : ℚ) (seen_from : four_quadrants) (oq : (Int × Int) × quadrant × quadrant) :
    seen_from_step E map_cache u px py vis seen_from oq
      = if visible_open_neighbour E map_cache u (px + oq.1.1) (py + oq.1.2) then
          (seen_from.put oq.2.1 vis).put oq.2.2 vis
        else seen_from := by
  unfold seen_from_step visible_open_neighbour
  cases h1 : lightmap_boundaries_contains E (px + oq.1.1) (py + oq.1.2) <;>
    cases h2 : is_opaque map_cache u (px + oq.1.1) (py + oq.1.2) <;>
    cases h3 : (decide (map_cache.seen_cache (px + oq.1.1) (py + oq.1.2) = 0) &&
      decide (map_cache.camera_cache (px + oq.1.1) (py + oq.1.2) = 0)) <;>
    simp only [h1, h2, h3, Bool.not_true, Bool.not_false, Bool.and_true, Bool.and_false,
      Bool.true_and, Bool.false_and, Bool.false_eq_true, if_false, if_true]

/-- C7: for an opaque tile that is not the observer's tile, with visibility `vis > 0`, whose
only neighbour that is inside the map, not opaque, and seen or on camera is a diagonal one,
`apparent_light_helper` returns the larger of `0` and `vis` times the light map component of
the quadrant facing that neighbour; this is `vis` times that component whenever the component
is not negative, as light values are.  The three other quadrants play no part. -/
theorem apparent_light_helper_single_diagonal (E : Env) (map_cache : level_cache)
    (u : Observer) (px py : Int) (d : Int × Int) (hd : d ∈ four_diagonal_offsets)
    (hopq : is_opaque map_cache u px py = true)
    (hvis : Max.max (map_cache.seen_cache px py) (map_cache.camera_cache px py) > 0)
    (hdiag : visible_open_neighbour E map_cache u (px + d.1) (py + d.2) = true)
    (hothers : ∀ o ∈ neighbour_offsets, o ≠ d →
      visible_open_neighbour E map_cache u (px + o.1) (py + o.2) = false) :
    (apparent_light_helper E map_cache u px py).apparent_light
        = Max.max
            (Max.max (map_cache.seen_cache px py) (map_cache.camera_cache px py) *
              (map_cache.lm px py).get (diagonal_quadrant d)) 0 ∧
      (0 ≤ (map_cache.lm px py).get (diagonal_quadrant d) →
        (apparent_light_helper E map_cache u px py).apparent_light
          = Max.max (map_cache.seen_cache px py) (map_cache.camera_cache px py) *
              (map_cache.lm px py).get (diagonal_quadrant d)) := by
  have hS := hothers point_south (by decide)
  have hN := hothers point_north (by decide)
  have hE := hothers point_east (by decide)
  have hW := hothers point_west (by decide)
  have hSE := hothers point_south_east (by decide)
  have hNE := hothers point_north_east (by decide)
  have hSW := hothers point_south_west (by decide)
  have hNW := hothers point_north_west (by decide)
  have hmain : (apparent_light_helper E map_cache u px py).apparent_light
        = Max.max
            (Max.max (map_cache.seen_cache px py) (map_cache.camera_cache px py) *
              (map_cache.lm px py).get (diagonal_quadrant d)) 0 := by
    simp only [four_diagonal_offsets, List.mem_cons, List.mem_singleton, List.not_mem_nil,
      or_false] at hd
    have hv : decide (Max.max (map_cache.seen_cache px py) (map_cache.camera_cache px py) > 0)
        = true := by simpa using hvis
    rcases hd with rfl | rfl | rfl | rfl
    · have hS := hS (by decide)
      have hN := hN (by decide)
      have hE := hE (by decide)
      have hW := hW (by decide)
      have hSE := hSE (by decide)
      have hSW := hSW (by decide)
      have hNW := hNW (by decide)
      simp only [apparent_light_helper, hopq, hv, Bool.and_self, if_true, adjacent_offsets,
        List.foldl, seen_from_step_eq, hS, hN, hE, hW, hSE, hSW, hNW, hdiag,
        Bool.false_eq_true, if_false]
      simp [four_quadrants.put, four_quadrants.fill, four_quadrants.mul, four_quadrants.max,
        four_quadrants.get, diagonal_quadrant, point_north_east, point_south_east,
        point_south_west, point_north_west, max_comm]
    · have hS := hS (by decide)
      have hN := hN (by decide)
      have hE := hE (by decide)
      have hW := hW (by decide)
      have hNE := hNE (by decide)
      have hSW := hSW (by decide)
      have hNW := hNW (by decide)
      simp only [apparent_light_helper, hopq, hv, Bool.and_self, if_true, adjacent_offsets,
        List.foldl, seen_from_step_eq, hS, hN, hE, hW, hNE, hSW, hNW, hdiag,
        Bool.false_eq_true, if_false]
      simp [four_quadrants.put, four_quadrants.fill, four_quadrants.mul, four_quadrants.max,
        four_quadrants.get, diagonal_quadrant, point_north_east, point_south_east,
        point_south_west, point_north_west, max_comm]
    · have hS := hS (by decide)
      have hN := hN (by decide)
      have hE := hE (by decide)
      have hW := hW (by decide)
      have hNE := hNE (by decide)
      have hSE := hSE (by decide)
      have hNW := hNW (by decide)
      simp only [apparent_light_helper, hopq, hv, Bool.and_self, if_true, adjacent_offsets,
        List.foldl, seen_from_step_eq, hS, hN, hE, hW, hNE, hSE, hNW, hdiag,
        Bool.false_eq_true, if_false]
      simp [four_quadrants.put, four_quadrants.fill, four_quadrants.mul, four_quadrants.max,
        four_quadrants.get, diagonal_quadrant, point_north_east, point_south_east,
        point_south_west, point_north_west, max_comm]
    · have hS := hS (by decide)
      have hN := hN (by decide)
      have hE := hE (by decide)
      have hW := hW (by decide)
      have hNE := hNE (by decide)
      have hSE := hSE (by decide)
      have hSW := hSW (by decide)
      simp only [apparent_light_helper, hopq, hv, Bool.and_self, if_true, adjacent_offsets,
        List.foldl, seen_from_step_eq, hS, hN, hE, hW, hNE, hSE, hSW, hdiag,
        Bool.false_eq_true, if_false]
      simp [four_quadrants.put, four_quadrants.fill, four_quadrants.mul, four_quadrants.max,
        four_quadrants.get, diagonal_quadrant, point_north_east, point_south_east,
        point_south_west, point_north_west, max_comm]
  refine ⟨hmain, fun hq => ?_⟩
  rw [hmain]
  exact max_eq_left (mul_nonneg (le_of_lt hvis) hq)

/-- Witness of C7 on the small map: the wall tile `(3, 3)` whose only seen open neighbour is
the south-east one takes its apparent light from its SE quadrant alone. -/
theorem apparent_light_helper_single_diagonal_witness :
    (apparent_light_helper small_env corner_cache demo_observer 3 3).apparent_light
      = Max.max (corner_cache.seen_cache 3 3) (corner_cache.camera_cache 3 3) *
          (corner_cache.lm 3 3).get quadrant.SE :=
  (apparent_light_helper_single_diagonal small_env corner_cache demo_observer 3 3
    point_south_east (by decide)
    (by norm_num [corner_cache, is_opaque, demo_observer, LIGHT_TRANSPARENCY_SOLID])
    (by norm_num [corner_cache, blank_cache])
    (by
      norm_num [visible_open_neighbour, lightmap_boundaries_contains, is_opaque, corner_cache,
        blank_cache, demo_observer, small_env, point_south_east, Env.MAPSIZE_X, Env.MAPSIZE_Y,
        LIGHT_TRANSPARENCY_SOLID])
    (by
      intro o ho hne
      simp only [neighbour_offsets, adjacent_offsets, List.map_cons, List.map_nil,
        List.mem_cons, List.mem_singleton, List.not_mem_nil, or_false] at ho
      rcases ho with rfl | rfl | rfl | rfl | rfl | rfl | rfl | rfl <;>
        first
        | exact absurd rfl hne
        | norm_num [visible_open_neighbour, lightmap_boundaries_contains, is_opaque,
            corner_cache, blank_cache, demo_observer, small_env, point_south_east,
            point_north_east, point_south_west, point_north_west, point_north, point_south,
            point_east, point_west, Env.MAPSIZE_X, Env.MAPSIZE_Y, LIGHT_TRANSPARENCY_SOLID])).2
    (by norm_num [corner_cache, four_quadrants.get, diagonal_quadrant, point_south_east,
      point_north_east, point_south_west])

/-! ### What a cast can do to the output cache -/

/-- One iteration of the inner loop relates the output cache it leaves to the one it found by
any reflexive and transitive relation that the recursive call respects, when its span ends at
the trailing edge of the current tile, and that a merge into the current tile respects, when
the tile lies inside the map and the span does not end above its trailing edge. -/
theorem castCell_rel_edge {Out : Type} (C : Cast Out) (Rel : Grid Out → Grid Out → Prop)
    (hrefl : ∀ g, Rel g g) (htrans : ∀ g1 g2 g3, Rel g1 g2 → Rel g2 g3 → Rel g1 g3)
    (recur : ℚ → ℚ → ℚ → Grid Out → Grid Out) (end_ cum : ℚ) (distance dx : Int)
    (hrecur : ¬ end_ > trailingEdge dx (-distance) →
      ∀ st cum2 o, Rel o (recur st (trailingEdge dx (-distance)) cum2 o))
    (hupd : ∀ (g : Grid Out) (v : ℚ) (q : quadrant),
      C.inside (C.o.curX C.offx dx (-distance)) (C.o.curY C.offy dx (-distance)) →
      ¬ end_ > trailingEdge dx (-distance) →
      Rel g (g.set (C.o.curX C.offx dx (-distance)) (C.o.curY C.offy dx (-distance))
        (C.P.update_output (g (C.o.curX C.offx dx (-distance)) (C.o.curY C.offy dx (-distance)))
          v q)))
    (s : RowState Out) : Rel s.out (castCell C recur end_ cum distance dx s).grid := by
  unfold castCell
  simp only []
  split_ifs with h1 h2 h3 h4 h5 h6 h7
  all_goals simp only [Step.grid]
  all_goals first
    | exact hrefl _
    | exact hupd _ _ _ h1 h2
    | exact htrans _ _ _ (hupd _ _ _ h1 h2) (hrecur h2 _ _ _)

/-- One iteration of the inner loop relates the output cache it leaves to the one it found by
any reflexive and transitive relation that the recursive call respects and that a merge into
the current tile respects. -/
theorem castCell_rel {Out : Type} (C : Cast Out) (Rel : Grid Out → Grid Out → Prop)
    (hrefl : ∀ g, Rel g g) (htrans : ∀ g1 g2 g3, Rel g1 g2 → Rel g2 g3 → Rel g1 g3)
    (recur : ℚ → ℚ → ℚ → Grid Out → Grid Out) (hrecur : ∀ st en cum o, Rel o (recur st en cum o))
    (end_ cum : ℚ) (distance dx : Int)
    (hupd : ∀ (g : Grid Out) (v : ℚ) (q : quadrant),
      C.inside (C.o.curX C.offx dx (-distance)) (C.o.curY C.offy dx (-distance)) →
      Rel g (g.set (C.o.curX C.offx dx (-distance)) (C.o.curY C.offy dx (-distance))
        (C.P.update_output (g (C.o.curX C.offx dx (-distance)) (C.o.curY C.offy dx (-distance)))
          v q)))
    (s : RowState Out) : Rel s.out (castCell C recur end_ cum distance dx s).grid :=
  castCell_rel_edge C Rel hrefl htrans recur end_ cum distance dx
    (fun _ st cum2 o => hrecur st _ cum2 o) (fun g v q h _ => hupd g v q h) s

/-- The scan of a row relates the output cache it leaves to the one it found, see
`castCell_rel`. -/
theorem scanRow_rel {Out : Type} (C : Cast Out) (Rel : Grid Out → Grid Out → Prop)
    (hrefl : ∀ g, Rel g g) (htrans : ∀ g1 g2 g3, Rel g1 g2 → Rel g2 g3 → Rel g1 g3)
    (recur : ℚ → ℚ → ℚ → Grid Out → Grid Out) (hrecur : ∀ st en cum o, Rel o (recur st en cum o))
    (end_ cum : ℚ) (distance : Int) (k : Nat)
    (hupd : ∀ (dx : Int), -(k : Int) < dx → dx ≤ 0 → ∀ (g : Grid Out) (v : ℚ) (q : quadrant),
      C.inside (C.o.curX C.offx dx (-distance)) (C.o.curY C.offy dx (-distance)) →
      Rel g (g.set (C.o.curX C.offx dx (-distance)) (C.o.curY C.offy dx (-distance))
        (C.P.update_output (g (C.o.curX C.offx dx (-distance)) (C.o.curY C.offy dx (-distance)))
          v q)))
    (s : RowState Out) : Rel s.out (scanRow C recur end_ cum distance k s).grid := by
  induction k generalizing s with
  | zero => simpa [scanRow, Flow.grid] using hrefl s.out
  | succ k ih =>
    have hcell := castCell_rel C Rel hrefl htrans recur hrecur end_ cum distance (-(k : Int))
      (hupd (-(k : Int)) (by push_cast; omega) (by omega)) s
    unfold scanRow
    cases hc : castCell C recur end_ cum distance (-(k : Int)) s with
    | cont s1 =>
      rw [hc] at hcell
      simp only [Step.grid] at hcell
      exact htrans _ _ _ hcell
        (ih (fun dx h1 h2 => hupd dx (by push_cast; omega) h2) s1)
    | brk s1 =>
      rw [hc] at hcell
      simpa [Step.grid, Flow.grid] using hcell
    | ret o =>
      rw [hc] at hcell
      simpa [Step.grid, Flow.grid] using hcell

/-- The first `delta.x` of a row is never left of the diagonal of the octant. -/
theorem firstDeltaX_ge (start : ℚ) (distance : Int) : -distance ≤ firstDeltaX start distance := by
  unfold firstDeltaX
  have := le_max_right (Int.ceil ((start - (-(distance : ℚ) + 1 / 2) / (-(distance : ℚ) - 1 / 2)) *
      (-(distance : ℚ) - 1 / 2))) 0
  omega

/-- The rows of a cast relate the output cache they leave to the one they found by any
reflexive and transitive relation that respects a merge into a tile of the octant: a tile
`(delta.x, -distance)` with `radius - n < distance <= radius` and
`-distance <= delta.x <= 0` that lies inside the map. -/
theorem castRows_rel {Out : Type} (C : Cast Out) (Rel : Grid Out → Grid Out → Prop)
    (hrefl : ∀ g, Rel g g) (htrans : ∀ g1 g2 g3, Rel g1 g2 → Rel g2 g3 → Rel g1 g3) (n : Nat)
    (hupd : ∀ (distance dx : Int), C.radius - n < distance → distance ≤ C.radius →
      -distance ≤ dx → dx ≤ 0 → ∀ (g : Grid Out) (v : ℚ) (q : quadrant),
      C.inside (C.o.curX C.offx dx (-distance)) (C.o.curY C.offy dx (-distance)) →
      Rel g (g.set (C.o.curX C.offx dx (-distance)) (C.o.curY C.offy dx (-distance))
        (C.P.update_output (g (C.o.curX C.offx dx (-distance)) (C.o.curY C.offy dx (-distance)))
          v q)))
    (end_ start newStart last cum : ℚ) (out : Grid Out) :
    Rel out (castRows C end_ n start newStart last cum out) := by
  induction n generalizing end_ start newStart last cum out with
  | zero => simpa [castRows] using hrefl out
  | succ n ih =>
    have hupd2 : ∀ (distance dx : Int), C.radius - n < distance → distance ≤ C.radius →
        -distance ≤ dx → dx ≤ 0 → ∀ (g : Grid Out) (v : ℚ) (q : quadrant),
        C.inside (C.o.curX C.offx dx (-distance)) (C.o.curY C.offy dx (-distance)) →
        Rel g (g.set (C.o.curX C.offx dx (-distance)) (C.o.curY C.offy dx (-distance))
          (C.P.update_output
            (g (C.o.curX C.offx dx (-distance)) (C.o.curY C.offy dx (-distance))) v q)) :=
      fun distance dx h1 h2 h3 h4 => hupd distance dx (by push_cast; omega) h2 h3 h4
    have hrecur : ∀ st en cum2 o,
        Rel o ((fun st en cum o => if st < en then o else castRows C en n st 0 0 cum o)
          st en cum2 o) := by
      intro st en cum2 o
      simp only []
      split_ifs
      · exact hrefl o
      · exact ih hupd2 en st 0 0 cum2 o
    have hge := firstDeltaX_ge start (C.radius - n)
    have hscan := scanRow_rel C Rel hrefl htrans _ hrecur end_ cum (C.radius - n)
      (1 - firstDeltaX start (C.radius - n)).toNat
      (fun dx h1 h2 => hupd (C.radius - n) dx (by push_cast; omega) (by omega) (by omega) h2)
      { out := out, start := start, newStart := newStart, started_row := false,
        current_transparency := 0, last_intensity := last }
    unfold castRows
    simp only []
    cases hs : scanRow C (fun st en cum o => if st < en then o else castRows C en n st 0 0 cum o)
        end_ cum (C.radius - n) (1 - firstDeltaX start (C.radius - n)).toNat
        { out := out, start := start, newStart := newStart, started_row := false,
          current_transparency := 0, last_intensity := last } with
    | ret o =>
      rw [hs] at hscan
      simpa [Flow.grid] using hscan
    | next s1 =>
      rw [hs] at hscan
      simp only [Flow.grid] at hscan
      simp only []
      split_ifs
      · exact hscan
      · exact htrans _ _ _ hscan (ih hupd2 end_ _ _ _ _ _)

/-- A call of `castLight` relates the output cache it leaves to the one it found by any
reflexive and transitive relation that respects a merge into a tile. -/
theorem castLight_rel {Out : Type} (C : Cast Out) (Rel : Grid Out → Grid Out → Prop)
    (hrefl : ∀ g, Rel g g) (htrans : ∀ g1 g2 g3, Rel g1 g2 → Rel g2 g3 → Rel g1 g3)
    (hupd : ∀ (g : Grid Out) (x y : Int) (v : ℚ) (q : quadrant),
      Rel g (g.set x y (C.P.update_output (g x y) v q)))
    (row : Int) (start end_ cum : ℚ) (out : Grid Out) :
    Rel out (castLight C row start end_ cum out) := by
  unfold castLight
  split_ifs
  · exact hrefl out
  · exact castRows_rel C Rel hrefl htrans _ (fun _ _ _ _ _ _ g v q _ => hupd g _ _ v q) _ _ _ _ _ _

/-! ### Monotone merge (C3) -/

/-- The order on quadrant values is reflexive. -/
theorem four_quadrants_le_refl (a : four_quadrants) : four_quadrants.le a a :=
  ⟨le_refl _, le_refl _, le_refl _, le_refl _⟩

/-- The order on quadrant values is transitive. -/
theorem four_quadrants_le_trans (a b c : four_quadrants) (h1 : four_quadrants.le a b)
    (h2 : four_quadrants.le b c) : four_quadrants.le a c :=
  ⟨le_trans h1.1 h2.1, le_trans h1.2.1 h2.2.1, le_trans h1.2.2.1 h2.2.2.1,
    le_trans h1.2.2.2 h2.2.2.2⟩

/-- The function `elementwise_max` never decreases a quadrant. -/
theorem elementwise_max_ge (f : four_quadrants) (v : ℚ) :
    four_quadrants.le f (elementwise_max f v) :=
  ⟨le_max_left _ _, le_max_left _ _, le_max_left _ _, le_max_left _ _⟩

/-- The quadrant max-merge never decreases a quadrant. -/
theorem update_light_quadrants_ge (f : four_quadrants) (v : ℚ) (q : quadrant) :
    four_quadrants.le f (update_light_quadrants f v q) := by
  cases q <;>
    simp [update_light_quadrants, four_quadrants.le, four_quadrants.put, four_quadrants.get,
      elementwise_max]

/-- A cast with the light policy never decreases a quadrant of the light map. -/
theorem castLightDefault_light_ge (E : Env) (fastexp : ℚ → ℚ) (acc : ℚ → ℚ → Int → ℚ)
    (input_array : Grid ℚ) (blocked_array : Grid diagonal_blocks)
    (offx offy offsetDistance : Int) (numerator : ℚ) (xx xy yx yy : Int)
    (lm : Grid four_quadrants) (x y : Int) :
    four_quadrants.le (lm x y)
      (castLightDefault E (light_policy E fastexp acc) input_array blocked_array offx offy
        offsetDistance numerator xx xy yx yy lm x y) := by
  unfold castLightDefault
  refine castLight_rel _ (fun g g2 : Grid four_quadrants => ∀ a b, four_quadrants.le (g a b) (g2 a b))
    (fun g a b => four_quadrants_le_refl _)
    (fun g1 g2 g3 h1 h2 a b => four_quadrants_le_trans _ _ _ (h1 a b) (h2 a b)) ?_ _ _ _ _ lm x y
  intro g cx cy v q a b
  simp only [Grid.set, light_policy]
  split_ifs with h
  · rw [h.1, h.2]
    exact update_light_quadrants_ge _ _ _
  · exact four_quadrants_le_refl _

/-- A pair of casts with the light policy, run or skipped, never decreases a quadrant. -/
theorem cast_pair_light_ge (E : Env) (fastexp : ℚ → ℚ) (acc : ℚ → ℚ → Int → ℚ)
    (input_array : Grid ℚ) (blocked_array : Grid diagonal_blocks)
    (offx offy offsetDistance : Int) (numerator : ℚ) (b : Bool)
    (xx1 xy1 yx1 yy1 xx2 xy2 yx2 yy2 : Int) (lm : Grid four_quadrants) (c : four_quadrants)
    (x y : Int) (h : four_quadrants.le c (lm x y)) :
    four_quadrants.le c
      ((if b = true then
          castLightDefault E (light_policy E fastexp acc) input_array blocked_array offx offy
            offsetDistance numerator xx2 xy2 yx2 yy2
            (castLightDefault E (light_policy E fastexp acc) input_array blocked_array offx offy
              offsetDistance numerator xx1 xy1 yx1 yy1 lm)
        else lm) x y) := by
  split_ifs
  · exact four_quadrants_le_trans _ _ _ h
      (four_quadrants_le_trans _ _ _ (castLightDefault_light_ge E fastexp acc _ _ _ _ _ _ _ _ _ _ lm x y)
        (castLightDefault_light_ge E fastexp acc _ _ _ _ _ _ _ _ _ _ _ x y))
  · exact h

/-- C3: for every cache state, tile and luminance, `apply_light_source` never decreases any
of the four quadrant values of any tile of the light map `lm`, nor any entry of the source
peak grid `sm`; `update_light_quadrants` is the max-merge of the spec. -/
theorem apply_light_source_monotone (E : Env) (fastexp : ℚ → ℚ) (acc : ℚ → ℚ → Int → ℚ)
    (cache : level_cache) (px py pz : Int) (luminance : ℚ) (x y : Int) :
    four_quadrants.le (cache.lm x y)
        ((apply_light_source E fastexp acc cache px py pz luminance).lm x y) ∧
      cache.sm x y ≤ (apply_light_source E fastexp acc cache px py pz luminance).sm x y := by
  have hlm : ∀ (b : Bool), four_quadrants.le (cache.lm x y)
      ((if b = true then
          { cache with
            lm := cache.lm.set px py
              (elementwise_max (cache.lm px py) (Max.max E.lit_LOW luminance)),
            sm := cache.sm.set px py (Max.max (cache.sm px py) luminance) }
        else cache).lm x y) := by
    intro b
    split_ifs
    · simp only [Grid.set]
      split_ifs with hxy
      · rw [hxy.1, hxy.2]; exact elementwise_max_ge _ _
      · exact four_quadrants_le_refl _
    · exact four_quadrants_le_refl _
  have hsm : ∀ (b : Bool), cache.sm x y ≤
      ((if b = true then
          { cache with
            lm := cache.lm.set px py
              (elementwise_max (cache.lm px py) (Max.max E.lit_LOW luminance)),
            sm := cache.sm.set px py (Max.max (cache.sm px py) luminance) }
        else cache).sm x y) := by
    intro b
    split_ifs
    · simp only [Grid.set]
      split_ifs with hxy
      · rw [hxy.1, hxy.2]; exact le_max_left _ _
      · exact le_refl _
    · exact le_refl _
  unfold apply_light_source
  simp only []
  by_cases hl : luminance ≤ E.lit_LOW
  · rw [if_pos hl]
    exact ⟨hlm _, hsm _⟩
  · rw [if_neg hl]
    refine ⟨?_, hsm _⟩
    exact cast_pair_light_ge E fastexp acc _ _ _ _ _ _ _ _ _ _ _ _ _ _ _ _ _ _ _
      (cast_pair_light_ge E fastexp acc _ _ _ _ _ _ _ _ _ _ _ _ _ _ _ _ _ _ _
        (cast_pair_light_ge E fastexp acc _ _ _ _ _ _ _ _ _ _ _ _ _ _ _ _ _ _ _
          (cast_pair_light_ge E fastexp acc _ _ _ _ _ _ _ _ _ _ _ _ _ _ _ _ _ _ _ (hlm _))))

/-! ### The crouch patch round trip (C6) -/

/-- C6, refuted as stated: on the small map, centre `(2, 2, 0)`, with the entry 0 of the
array, the one read for the northern neighbour, HIDDEN, the round trip does not give the
grids back: the wall tile `(2, 1)`, of transparency 0 before, has transparency 1 afterwards,
the tile `(1, 1)`, of transparency 1 before, has 0, and the `ne` flag of the centre, clear
before, is set. -/
theorem vision_patch_round_trip_fails :
    wall_north_grid 2 1 = 0 ∧
      (restore_vision_transparency_cache small_env 2 2 0
        (apply_vision_transparency_cache small_env hidden_north 2 2 0
          (patch_init wall_north_grid no_blocks))).transparency_cache 2 1 = 1 ∧
      wall_north_grid 1 1 = 1 ∧
      (restore_vision_transparency_cache small_env 2 2 0
        (apply_vision_transparency_cache small_env hidden_north 2 2 0
          (patch_init wall_north_grid no_blocks))).transparency_cache 1 1 = 0 ∧
      (no_blocks 2 2).ne = false ∧
      ((restore_vision_transparency_cache small_env 2 2 0
        (apply_vision_transparency_cache small_env hidden_north 2 2 0
          (patch_init wall_north_grid no_blocks))).blocked_cache 2 2).ne = true := by
  decide

/-- Reading a flag after a write through a reference. -/
theorem read_write_blocked (b : Grid diagonal_blocks) (r r2 : Int × Int × Bool) (val : Bool) :
    read_blocked (write_blocked b r val) r2 = if r2 = r then val else read_blocked b r2 := by
  obtain ⟨x, y, f⟩ := r
  obtain ⟨x2, y2, f2⟩ := r2
  cases f <;> cases f2 <;>
    simp only [read_blocked, write_blocked, Prod.mk.injEq] <;>
    split_ifs <;> simp_all [Grid.set] <;> split_ifs <;> simp_all

/-- Two grids of diagonal blocks with the same flags are equal. -/
theorem blocked_ext (b1 b2 : Grid diagonal_blocks)
    (h : ∀ r, read_blocked b1 r = read_blocked b2 r) : b1 = b2 := by
  funext x y
  have h1 := h (x, y, true)
  have h2 := h (x, y, false)
  simp only [read_blocked] at h1 h2
  cases hb1 : b1 x y
  cases hb2 : b2 x y
  simp_all

/-- Distinct diagonal offsets refer to distinct flags. -/
theorem relevant_blocked_inj (cx cy : Int) (a a2 : Int × Int)
    (ha : a ∈ four_diagonal_offsets) (ha2 : a2 ∈ four_diagonal_offsets)
    (h : relevant_blocked a cx cy (cx + a.1) (cy + a.2)
      = relevant_blocked a2 cx cy (cx + a2.1) (cy + a2.2)) : a = a2 := by
  simp only [four_diagonal_offsets, List.mem_cons, List.mem_singleton, List.mem_nil_iff,
    or_false] at ha ha2
  rcases ha with rfl | rfl | rfl | rfl <;> rcases ha2 with rfl | rfl | rfl | rfl <;>
    simp [relevant_blocked, point_north_east, point_south_east, point_south_west,
      point_north_west, -Prod.mk_one_one] at h ⊢

/-- The flags of `hidden_refs` belong to diagonal offsets of the list. -/
theorem mem_hidden_refs (v : Nat → vision_adjustment) (cx cy : Int) (l : List (Int × Int)) :
    ∀ (i : Nat), hidden_on_diagonals v i l = true →
      ∀ r, r ∈ hidden_refs v cx cy i l →
        ∃ a, a ∈ l ∧ a ∈ four_diagonal_offsets ∧
          r = relevant_blocked a cx cy (cx + a.1) (cy + a.2) := by
  induction l with
  | nil => intro i _ r hr; simp [hidden_refs] at hr
  | cons a rest ih =>
    intro i hv r hr
    simp only [hidden_on_diagonals, Bool.and_eq_true, Bool.or_eq_true, decide_eq_true_eq] at hv
    simp only [hidden_refs] at hr
    split_ifs at hr with hh
    · rcases List.mem_cons.mp hr with h | h
      · refine ⟨a, List.mem_cons_self _ _, ?_, h⟩
        rcases hv.1 with h1 | h1
        · exact absurd hh h1
        · exact h1
      · obtain ⟨a2, h1, h2, h3⟩ := ih (i + 1) hv.2 r h
        exact ⟨a2, List.mem_cons_of_mem _ h1, h2, h3⟩
    · obtain ⟨a2, h1, h2, h3⟩ := ih (i + 1) hv.2 r hr
      exact ⟨a2, List.mem_cons_of_mem _ h1, h2, h3⟩

/-- The body of the apply loop for a neighbour in bounds whose entry is not a HIDDEN one of
a neighbour off the diagonals. -/
theorem apply_vision_step_eq (E : Env) (v : Nat → vision_adjustment) (cx cy cz : Int)
    (a : Int × Int) (s : PatchState) (hin : inbounds E (cx + a.1) (cy + a.2) cz = true)
    (hv : v s.i ≠ vision_adjustment.VISION_ADJUST_HIDDEN ∨ a ∈ four_diagonal_offsets) :
    apply_vision_step E v cx cy cz a s
      = { i := s.i + 1,
          transparency_cache :=
            if v s.i = vision_adjustment.VISION_ADJUST_SOLID then
              s.transparency_cache.set (cx + a.1) (cy + a.2) LIGHT_TRANSPARENCY_SOLID
            else s.transparency_cache,
          blocked_cache :=
            if v s.i = vision_adjustment.VISION_ADJUST_HIDDEN then
              write_blocked s.blocked_cache (relevant_blocked a cx cy (cx + a.1) (cy + a.2)) true
            else s.blocked_cache,
          vision_restore_cache :=
            arr_set s.vision_restore_cache s.i (s.transparency_cache (cx + a.1) (cy + a.2)),
          blocked_restore_cache :=
            if v s.i = vision_adjustment.VISION_ADJUST_HIDDEN then
              arr_set s.blocked_restore_cache s.i
                (! read_blocked s.blocked_cache
                  (relevant_blocked a cx cy (cx + a.1) (cy + a.2)))
            else s.blocked_restore_cache } := by
  unfold apply_vision_step
  simp only [hin, Bool.not_true, Bool.false_eq_true, if_false]
  cases hc : v s.i
  · simp
  · simp
  · have hd : a ∈ four_diagonal_offsets := by
      rcases hv with h | h
      · exact absurd hc h
      · exact h
    simp [hd]

/-- The two loops skip the offsets whose tile is out of bounds. -/
theorem apply_vision_loop_filter (E : Env) (v : Nat → vision_adjustment) (cx cy cz : Int)
    (l : List (Int × Int)) :
    ∀ s, apply_vision_loop E v cx cy cz l s
      = apply_vision_loop E v cx cy cz
          (l.filter (fun a => inbounds E (cx + a.1) (cy + a.2) cz)) s := by
  induction l with
  | nil => intro s; rfl
  | cons a rest ih =>
    intro s
    cases hin : inbounds E (cx + a.1) (cy + a.2) cz
    · have hstep : apply_vision_step E v cx cy cz a s = s := by
        unfold apply_vision_step
        simp [hin]
      rw [List.filter_cons_of_neg (by simp [hin])]
      simp only [apply_vision_loop, List.foldl_cons, hstep]
      exact ih s
    · rw [List.filter_cons_of_pos (by simp [hin])]
      simp only [apply_vision_loop, List.foldl_cons]
      exact ih _

/-- The restore loop skips the offsets whose tile is out of bounds. -/
theorem restore_vision_loop_filter (E : Env) (cx cy cz : Int) (l : List (Int × Int)) :
    ∀ s, restore_vision_loop E cx cy cz l s
      = restore_vision_loop E cx cy cz
          (l.filter (fun a => inbounds E (cx + a.1) (cy + a.2) cz)) s := by
  induction l with
  | nil => intro s; rfl
  | cons a rest ih =>
    intro s
    cases hin : inbounds E (cx + a.1) (cy + a.2) cz
    · have hstep : restore_vision_step E cx cy cz a s = s := by
        unfold restore_vision_step
        simp [hin]
      rw [List.filter_cons_of_neg (by simp [hin])]
      simp only [restore_vision_loop, List.foldl_cons, hstep]
      exact ih s
    · rw [List.filter_cons_of_pos (by simp [hin])]
      simp only [restore_vision_loop, List.foldl_cons]
      exact ih _

/-- What the apply loop leaves in place: the buffer entries below the start index, the
transparency of the tiles that are not neighbours of the list, and the flags other than
those of the HIDDEN entries, which it sets. -/
theorem apply_vision_loop_frame (E : Env) (v : Nat → vision_adjustment) (cx cy cz : Int)
    (l : List (Int × Int)) :
    ∀ s, (∀ a ∈ l, inbounds E (cx + a.1) (cy + a.2) cz = true) →
      hidden_on_diagonals v s.i l = true →
      (∀ j, j < s.i →
        (apply_vision_loop E v cx cy cz l s).vision_restore_cache j = s.vision_restore_cache j ∧
        (apply_vision_loop E v cx cy cz l s).blocked_restore_cache j
          = s.blocked_restore_cache j) ∧
      (∀ x y, (∀ a ∈ l, ¬ (x = cx + a.1 ∧ y = cy + a.2)) →
        (apply_vision_loop E v cx cy cz l s).transparency_cache x y
          = s.transparency_cache x y) ∧
      (∀ r, read_blocked (apply_vision_loop E v cx cy cz l s).blocked_cache r
        = if r ∈ hidden_refs v cx cy s.i l then true else read_blocked s.blocked_cache r) := by
  induction l with
  | nil =>
    intro s _ _
    simp [apply_vision_loop, hidden_refs]
  | cons a rest ih =>
    intro s hall hv
    simp only [hidden_on_diagonals, Bool.and_eq_true, Bool.or_eq_true, decide_eq_true_eq] at hv
    have hstep := apply_vision_step_eq E v cx cy cz a s (hall a (List.mem_cons_self _ _)) hv.1
    have hloop : apply_vision_loop E v cx cy cz (a :: rest) s
        = apply_vision_loop E v cx cy cz rest (apply_vision_step E v cx cy cz a s) := rfl
    rw [hloop]
    have hi : (apply_vision_step E v cx cy cz a s).i = s.i + 1 := by rw [hstep]
    obtain ⟨h1, h2, h3⟩ := ih (apply_vision_step E v cx cy cz a s)
      (fun a2 h => hall a2 (List.mem_cons_of_mem _ h)) (by rw [hi]; exact hv.2)
    refine ⟨?_, ?_, ?_⟩
    · intro j hj
      obtain ⟨h4, h5⟩ := h1 j (by rw [hi]; omega)
      rw [h4, h5, hstep]
      have hne : j ≠ s.i := by omega
      constructor
      · simp [arr_set, hne]
      · simp only []
        split_ifs
        · simp [arr_set, hne]
        · rfl
    · intro x y hxy
      rw [h2 x y (fun a2 h => hxy a2 (List.mem_cons_of_mem _ h)), hstep]
      simp only []
      split_ifs
      · have := hxy a (List.mem_cons_self _ _)
        simp [Grid.set, this]
      · rfl
    · intro r
      rw [h3 r, hi, hstep]
      simp only [hidden_refs]
      by_cases hh : v s.i = vision_adjustment.VISION_ADJUST_HIDDEN
      · simp only [hh, if_true, read_write_blocked, List.mem_cons]
        by_cases hr : r = relevant_blocked a cx cy (cx + a.1) (cy + a.2)
        · simp [hr]
        · simp [hr]
      · simp only [hh, if_false]

/-- The body of the restore loop for a neighbour in bounds. -/
theorem restore_vision_step_eq (E : Env) (cx cy cz : Int) (a : Int × Int) (r : PatchState)
    (hin : inbounds E (cx + a.1) (cy + a.2) cz = true) :
    restore_vision_step E cx cy cz a r
      = { i := r.i + 1,
          transparency_cache :=
            r.transparency_cache.set (cx + a.1) (cy + a.2) (r.vision_restore_cache r.i),
          blocked_cache :=
            if r.blocked_restore_cache r.i then
              write_blocked r.blocked_cache (relevant_blocked a cx cy (cx + a.1) (cy + a.2))
                false
            else r.blocked_cache,
          vision_restore_cache := r.vision_restore_cache,
          blocked_restore_cache := r.blocked_restore_cache } := by
  unfold restore_vision_step
  simp [hin]

/-- The restore loop does not write the restore buffers. -/
theorem restore_vision_loop_buffers (E : Env) (cx cy cz : Int) (l : List (Int × Int)) :
    ∀ r, (restore_vision_loop E cx cy cz l r).vision_restore_cache = r.vision_restore_cache ∧
      (restore_vision_loop E cx cy cz l r).blocked_restore_cache
        = r.blocked_restore_cache := by
  induction l with
  | nil => intro r; exact ⟨rfl, rfl⟩
  | cons a rest ih =>
    intro r
    have hloop : restore_vision_loop E cx cy cz (a :: rest) r
        = restore_vision_loop E cx cy cz rest (restore_vision_step E cx cy cz a r) := rfl
    rw [hloop, (ih _).1, (ih _).2]
    unfold restore_vision_step
    simp only []
    split_ifs <;> exact ⟨rfl, rfl⟩

/-- The restore loop, started at the index and with the saved values of an apply loop over
the same neighbours, puts back the transparency the neighbours had when the apply loop
started, and leaves every other tile alone. -/
theorem restore_vision_loop_transparency (E : Env) (v : Nat → vision_adjustment)
    (cx cy cz : Int) (l : List (Int × Int)) :
    ∀ s r : PatchState, (∀ a ∈ l, inbounds E (cx + a.1) (cy + a.2) cz = true) → l.Nodup →
      hidden_on_diagonals v s.i l = true → r.i = s.i →
      (∀ j, s.i ≤ j → j < s.i + l.length →
        r.vision_restore_cache j
          = (apply_vision_loop E v cx cy cz l s).vision_restore_cache j) →
      ∀ x y, (restore_vision_loop E cx cy cz l r).transparency_cache x y
        = if ∃ a ∈ l, x = cx + a.1 ∧ y = cy + a.2 then s.transparency_cache x y
          else r.transparency_cache x y := by
  induction l with
  | nil =>
    intro s r _ _ _ _ _ x y
    simp [restore_vision_loop]
  | cons a rest ih =>
    intro s r hall hnd hv hi hbuf x y
    have hv2 := hv
    simp only [hidden_on_diagonals, Bool.and_eq_true, Bool.or_eq_true, decide_eq_true_eq] at hv2
    have hin := hall a (List.mem_cons_self _ _)
    have hstep := apply_vision_step_eq E v cx cy cz a s hin hv2.1
    have hrstep := restore_vision_step_eq E cx cy cz a r hin
    have hloop : apply_vision_loop E v cx cy cz (a :: rest) s
        = apply_vision_loop E v cx cy cz rest (apply_vision_step E v cx cy cz a s) := rfl
    have hrloop : restore_vision_loop E cx cy cz (a :: rest) r
        = restore_vision_loop E cx cy cz rest (restore_vision_step E cx cy cz a r) := rfl
    have hsi : (apply_vision_step E v cx cy cz a s).i = s.i + 1 := by rw [hstep]
    have hri : (restore_vision_step E cx cy cz a r).i = r.i + 1 := by rw [hrstep]
    have hrest : ∀ a2 ∈ rest, inbounds E (cx + a2.1) (cy + a2.2) cz = true :=
      fun a2 h => hall a2 (List.mem_cons_of_mem _ h)
    have hvrest : hidden_on_diagonals v (apply_vision_step E v cx cy cz a s).i rest = true := by
      rw [hsi]; exact hv2.2
    have hframe := apply_vision_loop_frame E v cx cy cz rest
      (apply_vision_step E v cx cy cz a s) hrest hvrest
    -- the value saved for this neighbour
    have hsaved : r.vision_restore_cache r.i = s.transparency_cache (cx + a.1) (cy + a.2) := by
      rw [hi, hbuf s.i (le_refl _) (by simp), hloop, (hframe.1 s.i (by rw [hsi]; omega)).1,
        hstep]
      simp [arr_set]
    rw [hrloop, ih (apply_vision_step E v cx cy cz a s) (restore_vision_step E cx cy cz a r)
      hrest (List.nodup_cons.mp hnd).2 hvrest (by rw [hsi, hri, hi])
      (by
        intro j h1 h2
        rw [hsi] at h1 h2
        have := hbuf j (by omega) (by simp only [List.length_cons]; omega)
        rw [hloop] at this
        rw [← this, hrstep]) x y]
    have hnotin : a ∉ rest := (List.nodup_cons.mp hnd).1
    by_cases hex : ∃ a2 ∈ rest, x = cx + a2.1 ∧ y = cy + a2.2
    · have hex2 : ∃ a2 ∈ a :: rest, x = cx + a2.1 ∧ y = cy + a2.2 := by
        obtain ⟨a2, h1, h2⟩ := hex
        exact ⟨a2, List.mem_cons_of_mem _ h1, h2⟩
      rw [if_pos hex, if_pos hex2, hstep]
      simp only []
      split_ifs
      · obtain ⟨a2, h1, h2, h3⟩ := hex
        have hne : ¬ (x = cx + a.1 ∧ y = cy + a.2) := by
          rintro ⟨h4, h5⟩
          apply hnotin
          have : a = a2 := Prod.ext (by omega) (by omega)
          rw [this]; exact h1
        simp [Grid.set, hne]
      · rfl
    · rw [if_neg hex, hrstep]
      simp only []
      by_cases hxy : x = cx + a.1 ∧ y = cy + a.2
      · have hex2 : ∃ a2 ∈ a :: rest, x = cx + a2.1 ∧ y = cy + a2.2 :=
          ⟨a, List.mem_cons_self _ _, hxy⟩
        rw [if_pos hex2, hsaved, hxy.1, hxy.2]
        simp [Grid.set]
      · have hex2 : ¬ ∃ a2 ∈ a :: rest, x = cx + a2.1 ∧ y = cy + a2.2 := by
          rintro ⟨a2, h1, h2⟩
          rcases List.mem_cons.mp h1 with h | h
          · rw [h] at h2; exact hxy h2
          · exact hex ⟨a2, h, h2⟩
        rw [if_neg hex2]
        simp [Grid.set, hxy]

/-- The restore loop, started at the index and with the saved flags of an apply loop over
the same neighbours, puts back the flags of the HIDDEN entries as they were when the apply
loop started, and leaves every other flag alone. -/
theorem restore_vision_loop_blocked (E : Env) (v : Nat → vision_adjustment)
    (cx cy cz : Int) (l : List (Int × Int)) :
    ∀ s r : PatchState, (∀ a ∈ l, inbounds E (cx + a.1) (cy + a.2) cz = true) → l.Nodup →
      hidden_on_diagonals v s.i l = true → r.i = s.i →
      (∀ j, s.i ≤ j →
        r.blocked_restore_cache j
          = (apply_vision_loop E v cx cy cz l s).blocked_restore_cache j) →
      (∀ j, s.i ≤ j → s.blocked_restore_cache j = false) →
      (∀ q ∈ hidden_refs v cx cy s.i l, read_blocked r.blocked_cache q = true) →
      ∀ q, read_blocked (restore_vision_loop E cx cy cz l r).blocked_cache q
        = if q ∈ hidden_refs v cx cy s.i l then read_blocked s.blocked_cache q
          else read_blocked r.blocked_cache q := by
  induction l with
  | nil =>
    intro s r _ _ _ _ _ _ _ q
    simp [restore_vision_loop, hidden_refs]
  | cons a rest ih =>
    intro s r hall hnd hv hi hbuf hfalse hset q
    have hv2 := hv
    simp only [hidden_on_diagonals, Bool.and_eq_true, Bool.or_eq_true, decide_eq_true_eq] at hv2
    have hin := hall a (List.mem_cons_self _ _)
    have hstep := apply_vision_step_eq E v cx cy cz a s hin hv2.1
    have hrstep := restore_vision_step_eq E cx cy cz a r hin
    have hloop : apply_vision_loop E v cx cy cz (a :: rest) s
        = apply_vision_loop E v cx cy cz rest (apply_vision_step E v cx cy cz a s) := rfl
    have hrloop : restore_vision_loop E cx cy cz (a :: rest) r
        = restore_vision_loop E cx cy cz rest (restore_vision_step E cx cy cz a r) := rfl
    have hsi : (apply_vision_step E v cx cy cz a s).i = s.i + 1 := by rw [hstep]
    have hri : (restore_vision_step E cx cy cz a r).i = r.i + 1 := by rw [hrstep]
    have hrest : ∀ a2 ∈ rest, inbounds E (cx + a2.1) (cy + a2.2) cz = true :=
      fun a2 h => hall a2 (List.mem_cons_of_mem _ h)
    have hvrest : hidden_on_diagonals v (apply_vision_step E v cx cy cz a s).i rest = true := by
      rw [hsi]; exact hv2.2
    have hframe := apply_vision_loop_frame E v cx cy cz rest
      (apply_vision_step E v cx cy cz a s) hrest hvrest
    have hnotin : a ∉ rest := (List.nodup_cons.mp hnd).1
    -- the flag saved for this neighbour
    have hsaved : r.blocked_restore_cache r.i
        = (apply_vision_step E v cx cy cz a s).blocked_restore_cache s.i := by
      rw [hi, hbuf s.i (le_refl _), hloop, (hframe.1 s.i (by rw [hsi]; omega)).2]
    -- the flag of this neighbour is not the flag of a later one
    have hfresh : v s.i = vision_adjustment.VISION_ADJUST_HIDDEN →
        relevant_blocked a cx cy (cx + a.1) (cy + a.2) ∉ hidden_refs v cx cy (s.i + 1) rest := by
      intro hh hmem
      obtain ⟨a2, h1, h2, h3⟩ := mem_hidden_refs v cx cy rest (s.i + 1) hv2.2 _ hmem
      have hd : a ∈ four_diagonal_offsets := by
        rcases hv2.1 with h | h
        · exact absurd hh h
        · exact h
      have := relevant_blocked_inj cx cy a a2 hd h2 h3
      rw [this] at hnotin
      exact hnotin h1
    have hih := ih (apply_vision_step E v cx cy cz a s) (restore_vision_step E cx cy cz a r)
      hrest (List.nodup_cons.mp hnd).2 hvrest (by rw [hsi, hri, hi])
      (by
        intro j h1
        rw [hsi] at h1
        have := hbuf j (by omega)
        rw [hloop] at this
        rw [← this, hrstep])
      (by
        intro j h1
        rw [hsi] at h1
        rw [hstep]
        simp only []
        have hne : j ≠ s.i := by omega
        split_ifs
        · simp only [arr_set, if_neg hne]; exact hfalse j (by omega)
        · exact hfalse j (by omega))
      (by
        intro q2 hq2
        rw [hsi] at hq2
        have hq3 : q2 ∈ hidden_refs v cx cy s.i (a :: rest) := by
          simp only [hidden_refs]
          split_ifs
          · exact List.mem_cons_of_mem _ hq2
          · exact hq2
        rw [hrstep]
        simp only []
        split_ifs with hb
        · rw [read_write_blocked]
          have hh : v s.i = vision_adjustment.VISION_ADJUST_HIDDEN := by
            by_contra hc
            rw [hsaved, hstep] at hb
            simp only [if_neg hc] at hb
            rw [hfalse s.i (le_refl _)] at hb
            exact Bool.false_ne_true hb
          have hne : q2 ≠ relevant_blocked a cx cy (cx + a.1) (cy + a.2) := by
            intro h
            rw [h] at hq2
            exact hfresh hh hq2
          rw [if_neg hne]
          exact hset q2 hq3
        · exact hset q2 hq3) q
    rw [hrloop, hih, hsi]
    by_cases hh : v s.i = vision_adjustment.VISION_ADJUST_HIDDEN
    · have hb : r.blocked_restore_cache r.i
          = ! read_blocked s.blocked_cache
              (relevant_blocked a cx cy (cx + a.1) (cy + a.2)) := by
        rw [hsaved, hstep]
        simp [hh, arr_set]
      have hhead : relevant_blocked a cx cy (cx + a.1) (cy + a.2)
          ∈ hidden_refs v cx cy s.i (a :: rest) := by
        simp [hidden_refs, hh]
      simp only [hidden_refs, if_pos hh, List.mem_cons]
      by_cases hq : q = relevant_blocked a cx cy (cx + a.1) (cy + a.2)
      · rw [if_neg (by rw [hq]; exact hfresh hh), if_pos (Or.inl hq), hrstep]
        simp only [hb]
        cases hold : read_blocked s.blocked_cache
            (relevant_blocked a cx cy (cx + a.1) (cy + a.2))
        · simp [read_write_blocked, hq, hold]
        · have := hset _ hhead
          simp [hq, hold, this]
      · by_cases hmem : q ∈ hidden_refs v cx cy (s.i + 1) rest
        · rw [if_pos hmem, if_pos (Or.inr hmem), hstep]
          simp only [if_pos hh, read_write_blocked, if_neg hq]
        · rw [if_neg hmem, if_neg (by simp [hq, hmem]), hrstep]
          simp only []
          split_ifs
          · rw [read_write_blocked, if_neg hq]
          · rfl
    · have hb : r.blocked_restore_cache r.i = false := by
        rw [hsaved, hstep]
        simp only [if_neg hh]
        exact hfalse s.i (le_refl _)
      simp only [hidden_refs, if_neg hh]
      rw [hstep, hrstep]
      simp only [if_neg hh, hb, Bool.false_eq_true, if_false]

/-- C6, amended: for every centre tile, every pair of grids and every content of the vision
adjustment array in which each HIDDEN entry that the apply loop reads (the entry `k` is
read for the `k`-th neighbour in bounds) belongs to a diagonal neighbour, as in the arrays
`build_vision_transparency_cache` writes, restoring with the buffers that
`apply_vision_transparency_cache` filled, the buffers being zero and false before, returns
the transparency grid and the diagonal block grid to exactly the values they had before the
apply.  The eight offsets are distinct and none of them is the centre. -/
theorem vision_patch_round_trip (E : Env) (v : Nat → vision_adjustment) (cx cy cz : Int)
    (t : Grid ℚ) (b : Grid diagonal_blocks)
    (hnodup : E.eight_adjacent_offsets.Nodup)
    (hlen : E.eight_adjacent_offsets.length = 8)
    (hcentre : ((0 : Int), (0 : Int)) ∉ E.eight_adjacent_offsets)
    (hv : hidden_on_diagonals v 0 (patch_neighbours E cx cy cz) = true) :
    (restore_vision_transparency_cache E cx cy cz
        (apply_vision_transparency_cache E v cx cy cz
          (patch_init t b))).transparency_cache = t ∧
      (restore_vision_transparency_cache E cx cy cz
        (apply_vision_transparency_cache E v cx cy cz
          (patch_init t b))).blocked_cache = b := by
  have hall : ∀ a ∈ patch_neighbours E cx cy cz, inbounds E (cx + a.1) (cy + a.2) cz = true := by
    intro a ha
    have := (List.mem_filter.mp ha).2
    simpa using this
  have hnd : (patch_neighbours E cx cy cz).Nodup := hnodup.filter _
  have hle : (patch_neighbours E cx cy cz).length ≤ 8 := by
    rw [← hlen]
    exact List.length_filter_le _ _
  have hnc : ∀ a ∈ patch_neighbours E cx cy cz, ¬ (cx = cx + a.1 ∧ cy = cy + a.2) := by
    rintro a ha ⟨h1, h2⟩
    apply hcentre
    have : a = ((0 : Int), (0 : Int)) := Prod.ext (by simp only []; omega) (by simp only []; omega)
    rw [← this]
    exact (List.mem_filter.mp ha).1
  have hA : apply_vision_transparency_cache E v cx cy cz (patch_init t b)
      = { apply_vision_loop E v cx cy cz (patch_neighbours E cx cy cz) (patch_init t b) with
          vision_restore_cache :=
            arr_set
              (apply_vision_loop E v cx cy cz (patch_neighbours E cx cy cz)
                (patch_init t b)).vision_restore_cache 8
              ((apply_vision_loop E v cx cy cz (patch_neighbours E cx cy cz)
                (patch_init t b)).transparency_cache cx cy) } := by
    unfold patch_neighbours
    rw [← apply_vision_loop_filter]
    rfl
  have hR : ∀ S : PatchState, restore_vision_transparency_cache E cx cy cz S
      = { restore_vision_loop E cx cy cz (patch_neighbours E cx cy cz) { S with i := 0 } with
          transparency_cache :=
            (restore_vision_loop E cx cy cz (patch_neighbours E cx cy cz)
              { S with i := 0 }).transparency_cache.set cx cy
              ((restore_vision_loop E cx cy cz (patch_neighbours E cx cy cz)
                { S with i := 0 }).vision_restore_cache 8) } := by
    intro S
    unfold patch_neighbours
    rw [← restore_vision_loop_filter]
    rfl
  have hframe := apply_vision_loop_frame E v cx cy cz (patch_neighbours E cx cy cz)
    (patch_init t b) hall hv
  rw [hA, hR]
  constructor
  · funext x y
    have hT := restore_vision_loop_transparency E v cx cy cz (patch_neighbours E cx cy cz)
      (patch_init t b)
      { i := 0,
        transparency_cache :=
          (apply_vision_loop E v cx cy cz (patch_neighbours E cx cy cz)
            (patch_init t b)).transparency_cache,
        blocked_cache :=
          (apply_vision_loop E v cx cy cz (patch_neighbours E cx cy cz)
            (patch_init t b)).blocked_cache,
        vision_restore_cache :=
          arr_set
            (apply_vision_loop E v cx cy cz (patch_neighbours E cx cy cz)
              (patch_init t b)).vision_restore_cache 8
            ((apply_vision_loop E v cx cy cz (patch_neighbours E cx cy cz)
              (patch_init t b)).transparency_cache cx cy),
        blocked_restore_cache :=
          (apply_vision_loop E v cx cy cz (patch_neighbours E cx cy cz)
            (patch_init t b)).blocked_restore_cache }
      hall hnd hv rfl
      (by
        intro j _ h2
        have h3 : (patch_init t b).i = 0 := rfl
        rw [h3] at h2
        have hne : j ≠ 8 := by omega
        simp [arr_set, hne]) x y
    simp only [Grid.set]
    split_ifs with hc
    · rw [(restore_vision_loop_buffers E cx cy cz _ _).1, hc.1, hc.2]
      simp only [arr_set, if_true]
      exact hframe.2.1 cx cy hnc
    · rw [hT]
      split_ifs with hex
      · rfl
      · exact hframe.2.1 x y (fun a ha h => hex ⟨a, ha, h⟩)
  · apply blocked_ext
    intro q
    have hB := restore_vision_loop_blocked E v cx cy cz (patch_neighbours E cx cy cz)
      (patch_init t b)
      { i := 0,
        transparency_cache :=
          (apply_vision_loop E v cx cy cz (patch_neighbours E cx cy cz)
            (patch_init t b)).transparency_cache,
        blocked_cache :=
          (apply_vision_loop E v cx cy cz (patch_neighbours E cx cy cz)
            (patch_init t b)).blocked_cache,
        vision_restore_cache :=
          arr_set
            (apply_vision_loop E v cx cy cz (patch_neighbours E cx cy cz)
              (patch_init t b)).vision_restore_cache 8
            ((apply_vision_loop E v cx cy cz (patch_neighbours E cx cy cz)
              (patch_init t b)).transparency_cache cx cy),
        blocked_restore_cache :=
          (apply_vision_loop E v cx cy cz (patch_neighbours E cx cy cz)
            (patch_init t b)).blocked_restore_cache }
      hall hnd hv rfl (fun _ _ => rfl) (fun _ _ => rfl)
      (by
        intro q2 hq2
        simp only []
        rw [hframe.2.2 q2, if_pos hq2]) q
    simp only [] at hB ⊢
    rw [hB]
    split_ifs with hq
    · rfl
    · rw [hframe.2.2 q]
      exact if_neg hq

/-- Witness of C6: on the small map, centre `(2, 2, 0)`, with the northern entry SOLID and
the north-eastern entry HIDDEN, the wall grid and the empty block grid come back. -/
theorem vision_patch_round_trip_witness :
    hidden_on_diagonals crouch_patch 0 (patch_neighbours small_env 2 2 0) = true ∧
      (restore_vision_transparency_cache small_env 2 2 0
        (apply_vision_transparency_cache small_env crouch_patch 2 2 0
          (patch_init wall_north_grid no_blocks))).transparency_cache = wall_north_grid ∧
      (restore_vision_transparency_cache small_env 2 2 0
        (apply_vision_transparency_cache small_env crouch_patch 2 2 0
          (patch_init wall_north_grid no_blocks))).blocked_cache = no_blocks :=
  ⟨by decide,
    vision_patch_round_trip small_env crouch_patch 2 2 0 wall_north_grid no_blocks (by decide)
      (by decide) (by decide) (by decide)⟩

/-! ### Opaque tiles block the line of sight (C1) -/

/-- The trailing edge of a tile, with positive numerator and denominator. -/
theorem trailingEdge_eq (dx k : Int) :
    trailingEdge dx (-k) = ((1 : ℚ) / 2 - dx) / ((k : ℚ) - 1 / 2) := by
  unfold trailingEdge
  rw [← neg_div_neg_eq]
  congr 1
  · ring
  · push_cast; ring

/-- In a row, the trailing edge of the axis tile is the smallest. -/
theorem trailingEdge_axis_le (dx k : Int) (hk : 1 ≤ k) (hdx : dx ≤ 0) :
    trailingEdge 0 (-k) ≤ trailingEdge dx (-k) := by
  rw [trailingEdge_eq, trailingEdge_eq]
  have hk2 : (0 : ℚ) < (k : ℚ) - 1 / 2 := by
    have : (1 : ℚ) ≤ (k : ℚ) := by exact_mod_cast hk
    linarith
  have hdx2 : (dx : ℚ) ≤ 0 := by exact_mod_cast hdx
  apply div_le_div_of_nonneg_right _ (le_of_lt hk2)
  push_cast
  linarith

/-- Along the axis, the trailing edge shrinks with the distance. -/
theorem trailingEdge_axis_lt (k d : Int) (hk : 1 ≤ k) (hd : k < d) :
    trailingEdge 0 (-d) < trailingEdge 0 (-k) := by
  rw [trailingEdge_eq, trailingEdge_eq]
  have hk1 : (1 : ℚ) ≤ (k : ℚ) := by exact_mod_cast hk
  have hd1 : (k : ℚ) < (d : ℚ) := by exact_mod_cast hd
  have hk2 : (0 : ℚ) < (k : ℚ) - 1 / 2 := by linarith
  apply div_lt_div_of_pos_left _ hk2 (by linarith)
  push_cast
  norm_num

/-- Without any diagonal block flag, `check_blocked` is false. -/
theorem check_blocked_no_flags (E : Env) (quad : quadrant) (blocked_array : Grid diagonal_blocks)
    (hb : ∀ x y, (blocked_array x y).nw = false ∧ (blocked_array x y).ne = false) (x y : Int) :
    check_blocked E quad blocked_array x y = false := by
  cases quad <;> simp [check_blocked, (hb _ _).1, (hb _ _).2]

/-- On a blocked axis, one iteration of the inner loop leaves the target tile as it is,
provided the span ends at or above the trailing edge of the blocker once the row is beyond
it, and the recursive calls do so under the same condition. -/
theorem castCell_target {Out : Type} (C : Cast Out) (tx ty k d : Int)
    (A : AxisBlock C tx ty k d) (recur : ℚ → ℚ → ℚ → Grid Out → Grid Out)
    (end_ cum : ℚ) (distance dx : Int) (hdist : 1 ≤ distance) (hdx1 : -distance ≤ dx)
    (hdx2 : dx ≤ 0) (hgood : distance ≤ k ∨ trailingEdge 0 (-k) ≤ end_)
    (hrec : ∀ st en cum2 o, (distance + 1 ≤ k ∨ trailingEdge 0 (-k) ≤ en) →
      recur st en cum2 o tx ty = o tx ty)
    (s : RowState Out) : (castCell C recur end_ cum distance dx s).grid tx ty = s.out tx ty := by
  have hcell : ¬ end_ > trailingEdge dx (-distance) →
      ¬ (tx = C.o.curX C.offx dx (-distance) ∧ ty = C.o.curY C.offy dx (-distance)) := by
    rintro hte ⟨h1, h2⟩
    obtain ⟨h3, h4⟩ := A.hhit distance dx hdist hdx1 hdx2 h1.symm h2.symm
    subst h3
    subst h4
    rcases hgood with hg | hg
    · have := A.hd
      omega
    · have hlt := trailingEdge_axis_lt k distance A.hk A.hd
      exact hte (lt_of_lt_of_le hlt hg)
  have hen : ¬ end_ > trailingEdge dx (-distance) →
      (distance + 1 ≤ k ∨ trailingEdge 0 (-k) ≤ trailingEdge dx (-distance)) := by
    intro hte
    rcases lt_trichotomy distance k with h | h | h
    · left; omega
    · right
      subst h
      exact trailingEdge_axis_le dx distance hdist hdx2
    · right
      rcases hgood with hg | hg
      · omega
      · exact le_trans hg (not_lt.mp hte)
  refine castCell_rel_edge C (fun g g2 : Grid Out => g2 tx ty = g tx ty) (fun _ => rfl)
    (fun g1 g2 g3 h12 h23 => h23.trans h12) recur end_ cum distance dx ?_ ?_ s
  · intro hte st cum2 o
    exact hrec st _ cum2 o (hen hte)
  · intro g v q _ hte
    simp only [Grid.set, if_neg (hcell hte)]

/-- On a blocked axis, the scan of a row leaves the target tile as it is, see
`castCell_target`. -/
theorem scanRow_target {Out : Type} (C : Cast Out) (tx ty k d : Int)
    (A : AxisBlock C tx ty k d) (recur : ℚ → ℚ → ℚ → Grid Out → Grid Out)
    (end_ cum : ℚ) (distance : Int) (hdist : 1 ≤ distance)
    (hgood : distance ≤ k ∨ trailingEdge 0 (-k) ≤ end_)
    (hrec : ∀ st en cum2 o, (distance + 1 ≤ k ∨ trailingEdge 0 (-k) ≤ en) →
      recur st en cum2 o tx ty = o tx ty)
    (m : Nat) (hm : (m : Int) ≤ distance + 1) (s : RowState Out) :
    (scanRow C recur end_ cum distance m s).grid tx ty = s.out tx ty := by
  induction m generalizing s with
  | zero => simp [scanRow, Flow.grid]
  | succ m ih =>
    have hcell := castCell_target C tx ty k d A recur end_ cum distance (-(m : Int)) hdist
      (by push_cast at hm; omega) (by omega) hgood hrec s
    unfold scanRow
    cases hc : castCell C recur end_ cum distance (-(m : Int)) s with
    | cont s1 =>
      rw [hc] at hcell
      simp only [Step.grid] at hcell
      simp only []
      rw [ih (by push_cast at hm; omega) s1, hcell]
    | brk s1 =>
      rw [hc] at hcell
      simpa [Step.grid, Flow.grid] using hcell
    | ret o =>
      rw [hc] at hcell
      simpa [Step.grid, Flow.grid] using hcell

/-- An iteration of the inner loop that goes on either skipped its tile, which is outside the
map or diagonally blocked, and changed nothing, or processed the tile: the tile is inside the
map, the span does not end above its trailing edge, the row has started, and the current
transparency is the one of the tile. -/
theorem castCell_cont {Out : Type} (C : Cast Out) (recur : ℚ → ℚ → ℚ → Grid Out → Grid Out)
    (end_ cum : ℚ) (distance dx : Int) (s s1 : RowState Out)
    (h : castCell C recur end_ cum distance dx s = Step.cont s1) :
    (s1 = s ∧
        (¬ C.inside (C.o.curX C.offx dx (-distance)) (C.o.curY C.offy dx (-distance)) ∨
          check_blocked C.E C.o.quad C.blocked_array (C.o.curX C.offx dx (-distance))
            (C.o.curY C.offy dx (-distance)) = true)) ∨
      (C.inside (C.o.curX C.offx dx (-distance)) (C.o.curY C.offy dx (-distance)) ∧
        ¬ end_ > trailingEdge dx (-distance) ∧ s1.started_row = true ∧
        s1.current_transparency
          = C.input_array (C.o.curX C.offx dx (-distance)) (C.o.curY C.offy dx (-distance))) := by
  unfold castCell at h
  simp only [] at h
  split_ifs at h with h1 h2 h3 h4 h5 h6 h7
  all_goals
    (injection h with h
     subst h
     first
       | exact Or.inl ⟨rfl, Or.inl h1⟩
       | exact Or.inl ⟨rfl, Or.inr h3⟩
       | exact Or.inr ⟨h1, h2, rfl, rfl⟩
       | exact Or.inr ⟨h1, h2, rfl, h5.symm⟩)

/-- An iteration of the inner loop breaks only on a tile inside the map whose trailing edge
is below the end of the span, and changes nothing. -/
theorem castCell_brk {Out : Type} (C : Cast Out) (recur : ℚ → ℚ → ℚ → Grid Out → Grid Out)
    (end_ cum : ℚ) (distance dx : Int) (s s1 : RowState Out)
    (h : castCell C recur end_ cum distance dx s = Step.brk s1) :
    s1 = s ∧ end_ > trailingEdge dx (-distance) := by
  unfold castCell at h
  simp only [] at h
  split_ifs at h with h1 h2 h3 h4 h5 h6 h7
  all_goals
    (injection h with h
     subst h
     exact ⟨rfl, h2⟩)

/-- In the row of the blocker, the scan that runs up to the axis tile and then leaves the
loop normally either has the current transparency at SOLID, or the span ends above the
trailing edge of the blocker. -/
theorem scanRow_blocker {Out : Type} (C : Cast Out) (tx ty k d : Int)
    (A : AxisBlock C tx ty k d) (recur : ℚ → ℚ → ℚ → Grid Out → Grid Out)
    (end_ cum : ℚ) (m : Nat) (s s2 : RowState Out)
    (hpre : s.started_row = false → s.current_transparency = 0)
    (h : scanRow C recur end_ cum k m s = Flow.next s2) :
    s2.current_transparency = 0 ∨ trailingEdge 0 (-k) < end_ ∨
      (m = 0 ∧ s2 = s) := by
  induction m generalizing s with
  | zero =>
    simp only [scanRow] at h
    injection h with h
    exact Or.inr (Or.inr ⟨rfl, h.symm⟩)
  | succ m ih =>
    unfold scanRow at h
    cases hc : castCell C recur end_ cum k (-(m : Int)) s with
    | cont s1 =>
      rw [hc] at h
      simp only [] at h
      have hcont := castCell_cont C recur end_ cum k (-(m : Int)) s s1 hc
      have hpre1 : s1.started_row = false → s1.current_transparency = 0 := by
        rcases hcont with ⟨h1, -⟩ | ⟨-, -, h1, -⟩
        · rw [h1]; exact hpre
        · intro h2; rw [h1] at h2; exact absurd h2 (by simp)
      rcases ih s1 hpre1 h with h3 | h3 | ⟨h3, h4⟩
      · exact Or.inl h3
      · exact Or.inr (Or.inl h3)
      · subst h3
        subst h4
        left
        simp only [Nat.cast_zero, neg_zero] at hcont
        rcases hcont with ⟨-, h5 | h5⟩ | ⟨-, -, -, h5⟩
        · exact absurd A.hin h5
        · rw [A.hnb] at h5; exact absurd h5 (by simp)
        · rw [h5]; exact A.hsolid
    | brk s1 =>
      have hb := castCell_brk C recur end_ cum k (-(m : Int)) s s1 hc
      exact Or.inr (Or.inl (lt_of_le_of_lt
        (trailingEdge_axis_le (-(m : Int)) k A.hk (by omega)) hb.2))
    | ret o =>
      rw [hc] at h
      simp only [] at h
      exact absurd h (by simp)

/-- On a blocked axis, the rows of a cast leave the target tile as it is, provided the first
row is not beyond the blocker or the span ends at or above the trailing edge of the blocker. -/
theorem castRows_target {Out : Type} (C : Cast Out) (tx ty k d : Int)
    (A : AxisBlock C tx ty k d) (n : Nat) (hn : (n : Int) ≤ C.radius)
    (end_ start newStart last cum : ℚ) (out : Grid Out)
    (hgood : C.radius + 1 - n ≤ k ∨ trailingEdge 0 (-k) ≤ end_) :
    castRows C end_ n start newStart last cum out tx ty = out tx ty := by
  induction n generalizing end_ start newStart last cum out with
  | zero => simp [castRows]
  | succ n ih =>
    have hn2 : (n : Int) ≤ C.radius := by push_cast at hn; omega
    have hdist : 1 ≤ C.radius - n := by push_cast at hn; omega
    have hgood2 : C.radius - n ≤ k ∨ trailingEdge 0 (-k) ≤ end_ := by
      rcases hgood with h | h
      · left; push_cast at h; omega
      · right; exact h
    have hrec : ∀ st en cum2 o, (C.radius - n + 1 ≤ k ∨ trailingEdge 0 (-k) ≤ en) →
        (fun st en cum o => if st < en then o else castRows C en n st 0 0 cum o)
          st en cum2 o tx ty = o tx ty := by
      intro st en cum2 o hg
      simp only []
      split_ifs
      · rfl
      · refine ih hn2 en st 0 0 cum2 o ?_
        rcases hg with h | h
        · left; omega
        · right; exact h
    have hge := firstDeltaX_ge start (C.radius - n)
    have hscan := scanRow_target C tx ty k d A _ end_ cum (C.radius - n) hdist hgood2 hrec
      (1 - firstDeltaX start (C.radius - n)).toNat (by omega)
      { out := out, start := start, newStart := newStart, started_row := false,
        current_transparency := 0, last_intensity := last }
    unfold castRows
    simp only []
    cases hs : scanRow C (fun st en cum o => if st < en then o else castRows C en n st 0 0 cum o)
        end_ cum (C.radius - n) (1 - firstDeltaX start (C.radius - n)).toNat
        { out := out, start := start, newStart := newStart, started_row := false,
          current_transparency := 0, last_intensity := last } with
    | ret o =>
      rw [hs] at hscan
      simpa [Flow.grid] using hscan
    | next s1 =>
      rw [hs] at hscan
      simp only [Flow.grid] at hscan
      simp only []
      split_ifs with hchk
      · exact hscan
      · rw [← hscan]
        apply ih hn2
        rcases hgood2 with h | h
        · rcases lt_or_eq_of_le h with h2 | h2
          · left; omega
          · right
            rw [h2] at hs
            rcases scanRow_blocker C tx ty k d A _ end_ cum _ _ s1 (fun _ => rfl) hs with
              h3 | h3 | ⟨-, h3⟩
            · rw [h3, A.hchk] at hchk
              exact absurd rfl hchk
            · exact le_of_lt h3
            · rw [h3] at hchk
              simp only [A.hchk] at hchk
              exact absurd rfl hchk
        · right; exact h

/-- A default cast of one octant leaves a tile as it is when the octant never reaches the
tile, or when the tile lies on a blocked axis of the octant. -/
theorem castLightDefault_keeps {Out : Type} (E : Env) (P : Policy Out) (input_array : Grid ℚ)
    (blocked_array : Grid diagonal_blocks) (offx offy : Int) (numerator : ℚ)
    (xx xy yx yy : Int) (tx ty k d : Int)
    (h : AxisBlock
          { E := E, P := P, o := { xx := xx, xy := xy, yx := yx, yy := yy },
            input_array := input_array, blocked_array := blocked_array, offx := offx,
            offy := offy, offsetDistance := 0, numerator := numerator } tx ty k d ∨
        ∀ dist dx : Int, 1 ≤ dist → -dist ≤ dx → dx ≤ 0 →
          ¬ (tx = Octant.curX { xx := xx, xy := xy, yx := yx, yy := yy } offx dx (-dist) ∧
            ty = Octant.curY { xx := xx, xy := xy, yx := yx, yy := yy } offy dx (-dist)))
    (out : Grid Out) :
    castLightDefault E P input_array blocked_array offx offy 0 numerator xx xy yx yy out tx ty
      = out tx ty := by
  unfold castLightDefault castLight
  rw [if_neg (by norm_num)]
  rcases h with h | h
  · exact castRows_target _ tx ty k d h _ (by simp [Cast.radius]) _ _ _ _ _ _
      (by left; have := h.hk; simp [Cast.radius]; omega)
  · refine castRows_rel _ (fun g g2 : Grid Out => g2 tx ty = g tx ty) (fun _ => rfl)
      (fun g1 g2 g3 h12 h23 => h23.trans h12) _ ?_ _ _ _ _ _ out
    intro distance dx h1 _ h3 h4 g v q _
    have h5 : 1 ≤ distance := by
      simp only [Cast.radius] at h1
      omega
    simp only [Grid.set, if_neg (h distance dx h5 h3 h4)]

/-- C1: run the 2D sight cast of `build_seen_cache` from an origin, over the seen grid reset
to the unseen value, without any diagonal block flag.  For every transparency grid and every
target tile inside the map in the row or the column of the origin, if a tile of the map
strictly between the origin and the target is SOLID, the seen value left at the target is
the unseen sentinel.  The falloff, the accumulation and the numerator are arbitrary. -/
theorem opaque_blocks_line_of_sight (E : Env) (sight_calc acc : ℚ → ℚ → Int → ℚ)
    (numerator : ℚ) (transparency_cache : Grid ℚ) (blocked_cache : Grid diagonal_blocks)
    (ox oy tx ty bx by_ : Int)
    (hflags : ∀ x y, (blocked_cache x y).nw = false ∧ (blocked_cache x y).ne = false)
    (hblocker : lightmap_boundaries_contains E bx by_ = true)
    (hsolid : transparency_cache bx by_ = LIGHT_TRANSPARENCY_SOLID)
    (hline : (tx = ox ∧ bx = ox ∧ ((oy < by_ ∧ by_ < ty) ∨ (ty < by_ ∧ by_ < oy))) ∨
      (ty = oy ∧ by_ = oy ∧ ((ox < bx ∧ bx < tx) ∨ (tx < bx ∧ bx < ox)))) :
    build_seen_cache_2d E sight_calc acc numerator transparency_cache blocked_cache ox oy tx ty
      = LIGHT_TRANSPARENCY_SOLID := by
  have hin : 0 ≤ bx ∧ bx < E.MAPSIZE_X ∧ 0 ≤ by_ ∧ by_ < E.MAPSIZE_Y := by
    simpa [lightmap_boundaries_contains, and_assoc] using hblocker
  have hchk : ∀ i, (sight_policy sight_calc acc).check 0 i = false := by
    intro i
    simp [sight_policy, sight_check, LIGHT_TRANSPARENCY_SOLID]
  have hcell : ∀ a b : Int, a = bx → b = by_ → transparency_cache a b = 0 := by
    intro a b ha hb
    rw [ha, hb]
    exact hsolid
  have hkeep : ∀ xx xy yx yy : Int,
      (xx, xy, yx, yy) ∈ [((0 : Int), (1 : Int), (1 : Int), (0 : Int)), (1, 0, 0, 1),
        (0, -1, 1, 0), (-1, 0, 0, 1), (0, 1, -1, 0), (1, 0, 0, -1), (0, -1, -1, 0),
        (-1, 0, 0, -1)] →
      ∀ out : Grid ℚ,
        castLightDefault E (sight_policy sight_calc acc) transparency_cache blocked_cache ox oy 0
          numerator xx xy yx yy out tx ty = out tx ty := by
    intro xx xy yx yy hmem out
    simp only [List.mem_cons, List.mem_singleton, Prod.mk.injEq, List.not_mem_nil,
      or_false] at hmem
    rcases hline with ⟨h1, h2, h3 | h3⟩ | ⟨h1, h2, h3 | h3⟩ <;>
      rcases hmem with ⟨rfl, rfl, rfl, rfl⟩ | ⟨rfl, rfl, rfl, rfl⟩ | ⟨rfl, rfl, rfl, rfl⟩ |
        ⟨rfl, rfl, rfl, rfl⟩ | ⟨rfl, rfl, rfl, rfl⟩ | ⟨rfl, rfl, rfl, rfl⟩ |
        ⟨rfl, rfl, rfl, rfl⟩ | ⟨rfl, rfl, rfl, rfl⟩
    all_goals first
      | (refine castLightDefault_keeps E _ _ _ ox oy numerator _ _ _ _ tx ty 0 0 (Or.inr ?_) out
         intro dist dx hd1 hd2 hd3
         simp only [Octant.curX, Octant.curY]
         omega)
      | skip
    all_goals
      (refine castLightDefault_keeps E _ _ _ ox oy numerator _ _ _ _ tx ty
         (Max.max (bx - ox) (ox - bx) + Max.max (by_ - oy) (oy - by_))
         (Max.max (tx - ox) (ox - tx) + Max.max (ty - oy) (oy - ty)) (Or.inl ?_) out
       refine ⟨by omega, by omega, hchk, check_blocked_no_flags _ _ _ hflags, ?_, ?_, ?_⟩
       · intro dist dx hd1 hd2 hd3
         simp only [Octant.curX, Octant.curY]
         omega
       · simp only [Cast.inside, Octant.curX, Octant.curY]
         omega
       · exact hcell _ _ (by simp only [Octant.curX]; omega) (by simp only [Octant.curY]; omega))
  have hne : ¬ (tx = ox ∧ ty = oy) := by omega
  unfold build_seen_cache_2d castLightAll
  rw [hkeep _ _ _ _ (by simp), hkeep _ _ _ _ (by simp), hkeep _ _ _ _ (by simp),
    hkeep _ _ _ _ (by simp), hkeep _ _ _ _ (by simp), hkeep _ _ _ _ (by simp),
    hkeep _ _ _ _ (by simp), hkeep _ _ _ _ (by simp)]
  simp only [seen_cache_reset, Grid.set, if_neg hne]

/-- Witness of C1 on the small map: origin `(1, 1)`, a wall on `(3, 1)`, target `(5, 1)`. -/
theorem opaque_blocks_line_of_sight_witness :
    build_seen_cache_2d small_env (fun n _ _ => n) (fun c _ _ => c) 1 wall_east_grid no_blocks
      1 1 5 1 = LIGHT_TRANSPARENCY_SOLID :=
  opaque_blocks_line_of_sight small_env (fun n _ _ => n) (fun c _ _ => c) 1 wall_east_grid
    no_blocks 1 1 5 1 3 1 (fun _ _ => ⟨rfl, rfl⟩) (by decide) (by decide) (by decide)

/-! ### Rotational symmetry in open space (C2) -/

/-- The transform of an octant is inverted by its transpose. -/
theorem octant_inverse (o : Octant) (ho : o ∈ castLightAll_octants) (offx offy dx dy x y : Int) :
    (o.curX offx dx dy = x ∧ o.curY offy dx dy = y) ↔
      (o.invX (x - offx) (y - offy) = dx ∧ o.invY (x - offx) (y - offy) = dy) := by
  simp only [castLightAll_octants, List.mem_cons, List.mem_singleton, List.not_mem_nil,
    or_false] at ho
  rcases ho with rfl | rfl | rfl | rfl | rfl | rfl | rfl | rfl <;>
    simp only [Octant.curX, Octant.curY, Octant.invX, Octant.invY] <;>
    constructor <;> rintro ⟨h1, h2⟩ <;> constructor <;> omega

/-- The trailing edge of a tile of an octant is positive. -/
theorem trailingEdge_pos (dx k : Int) (hk : 1 ≤ k) (hdx : dx ≤ 0) :
    0 < trailingEdge dx (-k) := by
  rw [trailingEdge_eq]
  have hk1 : (1 : ℚ) ≤ (k : ℚ) := by exact_mod_cast hk
  have hdx2 : (dx : ℚ) ≤ 0 := by exact_mod_cast hdx
  apply div_pos <;> linarith

/-- The first `delta.x` of a row for the initial slope `1.0f` is the diagonal tile. -/
theorem firstDeltaX_one (distance : Int) (hd : 1 ≤ distance) :
    firstDeltaX 1 distance = -distance := by
  unfold firstDeltaX
  have hd1 : (1 : ℚ) ≤ (distance : ℚ) := by exact_mod_cast hd
  have h : ((1 : ℚ) - (-(distance : ℚ) + 1 / 2) / (-(distance : ℚ) - 1 / 2)) *
      (-(distance : ℚ) - 1 / 2) = ((-1 : Int) : ℚ) := by
    have hne : (-(distance : ℚ) - 1 / 2) ≠ 0 := by
      intro h0
      linarith
    rw [sub_mul, one_mul, div_mul_cancel₀ _ hne]
    push_cast
    ring
  rw [h, Int.ceil_intCast]
  simp

/-- In open space, an iteration of the inner loop of the first span skips a tile outside the
map and merges the falloff into every quadrant of a tile inside it; the row has then started
with the uniform transparency. -/
theorem castCell_open {Out : Type} (C : Cast Out) (t : ℚ) (U : OpenSpace C t)
    (recur : ℚ → ℚ → ℚ → Grid Out → Grid Out) (cum : ℚ) (distance dx : Int)
    (hd : 1 ≤ distance) (hdx : dx ≤ 0) (s : RowState Out)
    (hs : s.started_row = true → s.current_transparency = t) :
    castCell C recur 0 cum distance dx s =
      if C.inside (C.o.curX C.offx dx (-distance)) (C.o.curY C.offy dx (-distance)) then
        Step.cont
          { out := s.out.set (C.o.curX C.offx dx (-distance)) (C.o.curY C.offy dx (-distance))
              (C.P.update_output
                (s.out (C.o.curX C.offx dx (-distance)) (C.o.curY C.offy dx (-distance)))
                (C.P.calc_ C.numerator cum
                  (C.E.rl_dist (0, 0, 0) (dx, -distance, 0) + C.offsetDistance))
                quadrant.default_),
            start := s.start, newStart := leadingEdge dx (-distance), started_row := true,
            current_transparency := t,
            last_intensity := C.P.calc_ C.numerator cum
              (C.E.rl_dist (0, 0, 0) (dx, -distance, 0) + C.offsetDistance) }
      else Step.cont s := by
  have hte : ¬ (0 : ℚ) > trailingEdge dx (-distance) :=
    not_lt.mpr (le_of_lt (trailingEdge_pos dx distance hd hdx))
  unfold castCell
  simp only []
  by_cases hin : C.inside (C.o.curX C.offx dx (-distance)) (C.o.curY C.offy dx (-distance))
  · have hin2 : C.o.curX C.offx dx (-distance) ≥ 0 ∧ C.o.curY C.offy dx (-distance) ≥ 0 ∧
        C.o.curX C.offx dx (-distance) < C.E.MAPSIZE_X ∧
        C.o.curY C.offy dx (-distance) < C.E.MAPSIZE_Y := hin
    have hcur : (if s.started_row = true then s.current_transparency else t) = t := by
      split_ifs with h
      · exact hs h
      · rfl
    rw [if_pos hin, if_neg (not_not.mpr hin2), if_neg hte, if_neg (by rw [U.hnb]; simp)]
    simp only [U.hin _ _ hin, hcur, U.hchk, if_true]
  · have hin2 : ¬ (C.o.curX C.offx dx (-distance) ≥ 0 ∧ C.o.curY C.offy dx (-distance) ≥ 0 ∧
        C.o.curX C.offx dx (-distance) < C.E.MAPSIZE_X ∧
        C.o.curY C.offy dx (-distance) < C.E.MAPSIZE_Y) := hin
    rw [if_neg hin, if_pos hin2]

/-- In open space, the scan of a row of the first span leaves the loop normally, keeps the
slope `start`, and has merged the falloff into exactly the tiles of the row that lie inside
the map; the row has started when one of them does. -/
theorem scanRow_open {Out : Type} (C : Cast Out) (t : ℚ) (U : OpenSpace C t)
    (recur : ℚ → ℚ → ℚ → Grid Out → Grid Out) (cum : ℚ) (distance : Int) (hd : 1 ≤ distance)
    (m : Nat) (s : RowState Out) (hs : s.started_row = true → s.current_transparency = t) :
    ∃ s2, scanRow C recur 0 cum distance m s = Flow.next s2 ∧ s2.start = s.start ∧
      (s2.started_row = true → s2.current_transparency = t) ∧
      (s2.started_row = false → s2.current_transparency = s.current_transparency) ∧
      (s.started_row = true → s2.started_row = true) ∧
      (∀ dx : Int, -(m : Int) < dx → dx ≤ 0 →
        C.inside (C.o.curX C.offx dx (-distance)) (C.o.curY C.offy dx (-distance)) →
        s2.started_row = true) ∧
      (∀ x y, s2.out x y =
        if C.inside x y ∧ C.o.invY (x - C.offx) (y - C.offy) = -distance ∧
            -(m : Int) < C.o.invX (x - C.offx) (y - C.offy) ∧
            C.o.invX (x - C.offx) (y - C.offy) ≤ 0 then
          C.P.update_output (s.out x y)
            (C.P.calc_ C.numerator cum
              (C.E.rl_dist (0, 0, 0) (C.o.invX (x - C.offx) (y - C.offy), -distance, 0) +
                C.offsetDistance))
            quadrant.default_
        else s.out x y) := by
  induction m generalizing s with
  | zero =>
    refine ⟨s, rfl, rfl, hs, fun _ => rfl, fun h => h, ?_, ?_⟩
    · intro dx h1 h2
      simp only [Nat.cast_zero, neg_zero] at h1
      omega
    · intro x y
      rw [if_neg]
      rintro ⟨-, -, h1, h2⟩
      simp only [Nat.cast_zero, neg_zero] at h1
      omega
  | succ m ih =>
    have hcell := castCell_open C t U recur cum distance (-(m : Int)) hd (by omega) s hs
    have hinv := octant_inverse C.o U.hoct C.offx C.offy (-(m : Int)) (-distance)
    unfold scanRow
    by_cases hin : C.inside (C.o.curX C.offx (-(m : Int)) (-distance))
        (C.o.curY C.offy (-(m : Int)) (-distance))
    · rw [if_pos hin] at hcell
      obtain ⟨s1, hs1⟩ : ∃ s1 : RowState Out, s1 =
          { out := s.out.set (C.o.curX C.offx (-(m : Int)) (-distance))
              (C.o.curY C.offy (-(m : Int)) (-distance))
              (C.P.update_output
                (s.out (C.o.curX C.offx (-(m : Int)) (-distance))
                  (C.o.curY C.offy (-(m : Int)) (-distance)))
                (C.P.calc_ C.numerator cum
                  (C.E.rl_dist (0, 0, 0) (-(m : Int), -distance, 0) + C.offsetDistance))
                quadrant.default_),
            start := s.start, newStart := leadingEdge (-(m : Int)) (-distance),
            started_row := true, current_transparency := t,
            last_intensity := C.P.calc_ C.numerator cum
              (C.E.rl_dist (0, 0, 0) (-(m : Int), -distance, 0) + C.offsetDistance) } :=
        ⟨_, rfl⟩
      rw [← hs1] at hcell
      rw [hcell]
      simp only []
      have hst1 : s1.started_row = true := by rw [hs1]
      have hstart1 : s1.start = s.start := by rw [hs1]
      have hout1 : s1.out = s.out.set (C.o.curX C.offx (-(m : Int)) (-distance))
              (C.o.curY C.offy (-(m : Int)) (-distance))
              (C.P.update_output
                (s.out (C.o.curX C.offx (-(m : Int)) (-distance))
                  (C.o.curY C.offy (-(m : Int)) (-distance)))
                (C.P.calc_ C.numerator cum
                  (C.E.rl_dist (0, 0, 0) (-(m : Int), -distance, 0) + C.offsetDistance))
                quadrant.default_) := by rw [hs1]
      obtain ⟨s2, h1, h2, h3, h4, h5, h6, h7⟩ := ih s1 (fun _ => by rw [hs1])
      refine ⟨s2, h1, h2.trans hstart1, h3, fun h => ?_, fun _ => h5 hst1,
        fun dx _ _ _ => h5 hst1, ?_⟩
      · rw [h5 hst1] at h
        exact absurd h (by simp)
      · intro x y
        rw [h7 x y, hout1]
        by_cases hxy : x = C.o.curX C.offx (-(m : Int)) (-distance) ∧
            y = C.o.curY C.offy (-(m : Int)) (-distance)
        · have hi := (hinv x y).mp ⟨hxy.1.symm, hxy.2.symm⟩
          rw [if_neg (by rintro ⟨-, -, h8, -⟩; omega),
            if_pos ⟨hxy.1 ▸ hxy.2 ▸ hin, hi.2, by push_cast; omega, by omega⟩]
          simp only [Grid.set, if_pos hxy]
          rw [hi.1, ← hxy.1, ← hxy.2]
        · have hi : ¬ (C.o.invX (x - C.offx) (y - C.offy) = -(m : Int) ∧
              C.o.invY (x - C.offx) (y - C.offy) = -distance) :=
            fun h => hxy ⟨((hinv x y).mpr h).1.symm, ((hinv x y).mpr h).2.symm⟩
          simp only [Grid.set, if_neg hxy]
          by_cases hc : C.inside x y ∧ C.o.invY (x - C.offx) (y - C.offy) = -distance ∧
              -(m : Int) < C.o.invX (x - C.offx) (y - C.offy) ∧
              C.o.invX (x - C.offx) (y - C.offy) ≤ 0
          · rw [if_pos hc, if_pos ⟨hc.1, hc.2.1, by push_cast; omega, hc.2.2.2⟩]
          · rw [if_neg hc, if_neg]
            rintro ⟨h8, h9, h10, h11⟩
            apply hc
            refine ⟨h8, h9, ?_, h11⟩
            by_contra h12
            apply hi
            push_cast at h10
            exact ⟨by omega, h9⟩
    · rw [if_neg hin] at hcell
      rw [hcell]
      simp only []
      obtain ⟨s2, h1, h2, h3, h4, h5, h6, h7⟩ := ih s hs
      refine ⟨s2, h1, h2, h3, h4, h5, ?_, ?_⟩
      · intro dx hdx1 hdx2 hdin
        by_cases hdx : dx = -(m : Int)
        · rw [hdx] at hdin
          exact absurd hdin hin
        · exact h6 dx (by push_cast at hdx1; omega) hdx2 hdin
      · intro x y
        rw [h7 x y]
        by_cases hc : C.inside x y ∧ C.o.invY (x - C.offx) (y - C.offy) = -distance ∧
            -(m : Int) < C.o.invX (x - C.offx) (y - C.offy) ∧
            C.o.invX (x - C.offx) (y - C.offy) ≤ 0
        · rw [if_pos hc, if_pos ⟨hc.1, hc.2.1, by push_cast; omega, hc.2.2.2⟩]
        · rw [if_neg hc, if_neg]
          rintro ⟨h8, h9, h10, h11⟩
          apply hc
          refine ⟨h8, h9, ?_, h11⟩
          by_contra h12
          push_cast at h10
          have h13 : C.o.invX (x - C.offx) (y - C.offy) = -(m : Int) := by omega
          have h14 := (hinv x y).mpr ⟨h13, h9⟩
          rw [h14.1, h14.2] at hin
          exact hin h8

/-- With the origin inside the map, the axis tile of a row of an octant lies inside the map
when a tile of the octant in that row or beyond does. -/
theorem axis_tile_inside {Out : Type} (C : Cast Out) (ho : C.o ∈ castLightAll_octants)
    (horigin : C.inside C.offx C.offy) (x y distance : Int) (hd : 1 ≤ distance)
    (hin : C.inside x y) (h1 : distance ≤ -C.o.invY (x - C.offx) (y - C.offy))
    (h2 : C.o.invY (x - C.offx) (y - C.offy) ≤ C.o.invX (x - C.offx) (y - C.offy))
    (h3 : C.o.invX (x - C.offx) (y - C.offy) ≤ 0) :
    C.inside (C.o.curX C.offx 0 (-distance)) (C.o.curY C.offy 0 (-distance)) := by
  obtain ⟨E, P, o, inp, blk, offx, offy, od, num⟩ := C
  simp only [castLightAll_octants, List.mem_cons, List.mem_singleton, List.not_mem_nil,
    or_false] at ho
  simp only [Cast.inside] at *
  rcases ho with rfl | rfl | rfl | rfl | rfl | rfl | rfl | rfl <;>
    simp only [Octant.curX, Octant.curY, Octant.invX, Octant.invY] at * <;>
    omega

/-- In open space, the rows of the first span merge the falloff of its row into every tile
of the octant that lies inside the map and within the radius, and change no other tile. -/
theorem castRows_open {Out : Type} (C : Cast Out) (t : ℚ) (U : OpenSpace C t) (n : Nat)
    (hn : (n : Int) ≤ C.radius) (newStart last cum : ℚ) (out : Grid Out) (x y : Int) :
    castRows C 0 n 1 newStart last cum out x y =
      if C.inside x y ∧ C.radius - n < -C.o.invY (x - C.offx) (y - C.offy) ∧
          -C.o.invY (x - C.offx) (y - C.offy) ≤ C.radius ∧
          C.o.invY (x - C.offx) (y - C.offy) ≤ C.o.invX (x - C.offx) (y - C.offy) ∧
          C.o.invX (x - C.offx) (y - C.offy) ≤ 0 then
        C.P.update_output (out x y)
          (uniformValue C.E C.P C.numerator C.offsetDistance t n cum
            (-C.o.invY (x - C.offx) (y - C.offy)) (C.o.invX (x - C.offx) (y - C.offy)))
          quadrant.default_
      else out x y := by
  induction n generalizing newStart last cum out with
  | zero =>
    rw [if_neg]
    · rfl
    · rintro ⟨-, h1, h2, -⟩
      simp only [Nat.cast_zero, sub_zero] at h1
      omega
  | succ n ih =>
    have hn2 : (n : Int) ≤ C.radius := by push_cast at hn; omega
    have hd : 1 ≤ C.radius - n := by push_cast at hn; omega
    have hcells : (1 - firstDeltaX 1 (C.radius - n)).toNat = (C.radius - n + 1).toNat := by
      rw [firstDeltaX_one _ hd]
      congr 1
      ring
    have hm : (((C.radius - n + 1).toNat : Nat) : Int) = C.radius - n + 1 :=
      Int.toNat_of_nonneg (by omega)
    obtain ⟨s2, h1, h2, h3, h4, -, h6, h7⟩ := scanRow_open C t U
      (fun st en cum o => if st < en then o else castRows C en n st 0 0 cum o) cum
      (C.radius - n) hd (C.radius - n + 1).toNat
      { out := out, start := 1, newStart := newStart, started_row := false,
        current_transparency := 0, last_intensity := last } (fun h => absurd h (by simp))
    rw [hm] at h6 h7
    simp only [] at h2 h4 h7
    unfold castRows
    simp only []
    rw [hcells, h1]
    simp only []
    have hrad : (60 : Int) - C.offsetDistance = C.radius := rfl
    cases hst : s2.started_row with
    | true =>
      rw [h3 hst, U.hchk, h2]
      simp only [Bool.not_true, Bool.false_eq_true, if_false]
      rw [ih hn2]
      by_cases hrow : C.o.invY (x - C.offx) (y - C.offy) = -(C.radius - n)
      on_goal 2 =>
        have hout : s2.out x y = out x y := by
          rw [h7 x y, if_neg]
          rintro ⟨-, h8, -⟩
          exact hrow h8
      on_goal 1 => rw [h7 x y]
      · by_cases hc : C.inside x y ∧ C.o.invY (x - C.offx) (y - C.offy)
            ≤ C.o.invX (x - C.offx) (y - C.offy) ∧ C.o.invX (x - C.offx) (y - C.offy) ≤ 0
        · rw [if_neg (by rintro ⟨-, h8, -⟩; omega),
            if_pos ⟨hc.1, hrow, by omega, hc.2.2⟩,
            if_pos ⟨hc.1, by push_cast; omega, by omega, hc.2.1, hc.2.2⟩]
          simp only [uniformValue, hrad]
          rw [if_pos (by omega)]
          have h9 : -(-C.o.invY (x - C.offx) (y - C.offy)) = -(C.radius - n) := by omega
          rw [h9]
        · rw [if_neg (by rintro ⟨-, h8, -⟩; omega),
            if_neg (by rintro ⟨h8, -, h9, h10⟩; exact hc ⟨h8, by omega, h10⟩),
            if_neg (by rintro ⟨h8, -, -, h9, h10⟩; exact hc ⟨h8, h9, h10⟩)]
      · rw [hout]
        by_cases hc : C.inside x y ∧ C.radius - n < -C.o.invY (x - C.offx) (y - C.offy) ∧
            -C.o.invY (x - C.offx) (y - C.offy) ≤ C.radius ∧
            C.o.invY (x - C.offx) (y - C.offy) ≤ C.o.invX (x - C.offx) (y - C.offy) ∧
            C.o.invX (x - C.offx) (y - C.offy) ≤ 0
        · rw [if_pos hc, if_pos ⟨hc.1, by push_cast; omega, hc.2.2⟩]
          simp only [uniformValue, hrad]
          rw [if_neg (by omega)]
        · rw [if_neg hc, if_neg]
          rintro ⟨h8, h9, h10⟩
          apply hc
          refine ⟨h8, ?_, h10⟩
          push_cast at h9
          omega
    | false =>
      have hcur := h4 hst
      rw [hcur, U.hchk0]
      simp only [Bool.not_false, if_true]
      have hnone : ∀ dx : Int, -(C.radius - n + 1) < dx → dx ≤ 0 →
          ¬ C.inside (C.o.curX C.offx dx (-(C.radius - n)))
            (C.o.curY C.offy dx (-(C.radius - n))) := by
        intro dx hdx1 hdx2 hdin
        have := h6 dx hdx1 hdx2 hdin
        rw [hst] at this
        exact absurd this (by simp)
      rw [h7 x y, if_neg, if_neg]
      · rintro ⟨h8, h9, h10, h11, h12⟩
        refine hnone 0 (by omega) (le_refl _)
          (axis_tile_inside C U.hoct U.horigin x y (C.radius - n) hd h8 ?_ h11 h12)
        push_cast at h9
        omega
      · rintro ⟨h8, h9, h10, h11⟩
        have hxy := (octant_inverse C.o U.hoct C.offx C.offy
          (C.o.invX (x - C.offx) (y - C.offy)) (-(C.radius - n)) x y).mpr ⟨rfl, h9⟩
        apply hnone _ h10 h11
        rw [hxy.1, hxy.2]
        exact h8

/-- In open space, a default cast of one octant from the observer merges the falloff into
every tile of its wedge that lies inside the map, and changes no other tile. -/
theorem castLightDefault_open {Out : Type} (E : Env) (P : Policy Out) (input_array : Grid ℚ)
    (blocked_array : Grid diagonal_blocks) (offx offy : Int) (numerator : ℚ) (o : Octant)
    (t : ℚ)
    (U : OpenSpace
      { E := E, P := P, o := o, input_array := input_array, blocked_array := blocked_array,
        offx := offx, offy := offy, offsetDistance := 0, numerator := numerator } t)
    (out : Grid Out) (x y : Int) :
    castLightDefault E P input_array blocked_array offx offy 0 numerator o.xx o.xy o.yx o.yy out
        x y =
      if (x ≥ 0 ∧ y ≥ 0 ∧ x < E.MAPSIZE_X ∧ y < E.MAPSIZE_Y) ∧ o.wedge (x - offx) (y - offy) then
        P.update_output (out x y)
          (uniformValue E P numerator 0 t 60 E.LIGHT_TRANSPARENCY_OPEN_AIR
            (-o.invY (x - offx) (y - offy)) (o.invX (x - offx) (y - offy)))
          quadrant.default_
      else out x y := by
  unfold castLightDefault castLight
  rw [if_neg (by norm_num)]
  have h := castRows_open _ t U 60 (by simp [Cast.radius]) 0 0 E.LIGHT_TRANSPARENCY_OPEN_AIR out
    x y
  have h60 : ((60 : Int) - 0 + 1 - 1).toNat = 60 := by decide
  simp only [Cast.radius, h60] at h ⊢
  rw [h]
  simp only [Cast.inside, Octant.wedge, Nat.cast_ofNat, sub_zero, sub_self]
  by_cases hc : (x ≥ 0 ∧ y ≥ 0 ∧ x < E.MAPSIZE_X ∧ y < E.MAPSIZE_Y) ∧
      1 ≤ -o.invY (x - offx) (y - offy) ∧ -o.invY (x - offx) (y - offy) ≤ 60 ∧
      o.invY (x - offx) (y - offy) ≤ o.invX (x - offx) (y - offy) ∧
      o.invX (x - offx) (y - offy) ≤ 0
  · rw [if_pos hc, if_pos ⟨hc.1, by omega, hc.2.2⟩]
  · rw [if_neg hc, if_neg]
    rintro ⟨h1, h2, h3⟩
    exact hc ⟨h1, by omega, h3⟩

/-- The function `castLightAll` casts the eight octants one after the other. -/
theorem castLightAll_eq_foldl {Out : Type} (E : Env) (P : Policy Out) (input_array : Grid ℚ)
    (blocked_array : Grid diagonal_blocks) (offx offy offsetDistance : Int) (numerator : ℚ)
    (out : Grid Out) :
    castLightAll E P input_array blocked_array offx offy offsetDistance numerator out
      = castLightAll_octants.foldl
          (fun g o =>
            castLightDefault E P input_array blocked_array offx offy offsetDistance numerator
              o.xx o.xy o.yx o.yy g)
          out := rfl

/-- In the wedge of an octant, the row of a tile is the Chebyshev length of its offset and
its `delta.x` is minus the smaller absolute coordinate. -/
theorem wedge_canonical (o : Octant) (ho : o ∈ castLightAll_octants) (a b : Int)
    (hw : o.wedge a b) : -o.invY a b = cheb a b ∧ o.invX a b = -minAbs a b := by
  simp only [castLightAll_octants, List.mem_cons, List.mem_singleton, List.not_mem_nil,
    or_false] at ho
  rcases ho with rfl | rfl | rfl | rfl | rfl | rfl | rfl | rfl <;>
    simp only [Octant.wedge, Octant.invX, Octant.invY, cheb, minAbs] at * <;>
    constructor <;> omega

/-- Every offset of Chebyshev length 1 to 60 lies in the wedge of one of the eight octants,
and no other offset does. -/
theorem wedge_cover (a b : Int) :
    (∃ o ∈ castLightAll_octants, o.wedge a b) ↔ (1 ≤ cheb a b ∧ cheb a b ≤ 60) := by
  simp only [castLightAll_octants, List.mem_cons, List.mem_singleton, List.not_mem_nil,
    or_false, exists_eq_or_imp, exists_eq_left, Octant.wedge, Octant.invX, Octant.invY, cheb]
  omega

/-- The open space setting of the sight cast of `build_seen_cache`, for each octant. -/
theorem sight_open_space (E : Env) (sight_calc acc : ℚ → ℚ → Int → ℚ) (numerator : ℚ)
    (transparency_cache : Grid ℚ) (blocked_cache : Grid diagonal_blocks) (ox oy : Int) (t : ℚ)
    (ht : t > LIGHT_TRANSPARENCY_SOLID)
    (hflags : ∀ x y, (blocked_cache x y).nw = false ∧ (blocked_cache x y).ne = false)
    (horigin : lightmap_boundaries_contains E ox oy = true)
    (huniform : ∀ x y, lightmap_boundaries_contains E x y = true → transparency_cache x y = t)
    (o : Octant) (ho : o ∈ castLightAll_octants) :
    OpenSpace
      { E := E, P := sight_policy sight_calc acc, o := o, input_array := transparency_cache,
        blocked_array := blocked_cache, offx := ox, offy := oy, offsetDistance := 0,
        numerator := numerator } t := by
  refine ⟨ho, ?_, ?_, ?_, ?_, check_blocked_no_flags _ _ _ hflags⟩
  · simp only [lightmap_boundaries_contains, Bool.and_eq_true, decide_eq_true_eq] at horigin
    simp only [Cast.inside]
    omega
  · intro x y hin
    apply huniform
    simp only [Cast.inside] at hin
    simp only [lightmap_boundaries_contains, Bool.and_eq_true, decide_eq_true_eq]
    omega
  · intro i
    simpa [sight_policy, sight_check] using ht
  · intro i
    simp [sight_policy, sight_check, LIGHT_TRANSPARENCY_SOLID]

/-- In open space, casting a list of octants with the sight policy leaves at a tile the larger
of its previous value and the falloff for its Chebyshev distance, when the tile lies inside
the map and in the wedge of one of the octants, and leaves every other tile as it is. -/
theorem sight_fold_open (E : Env) (sight_calc acc : ℚ → ℚ → Int → ℚ) (numerator : ℚ)
    (transparency_cache : Grid ℚ) (blocked_cache : Grid diagonal_blocks) (ox oy : Int) (t : ℚ)
    (ht : t > LIGHT_TRANSPARENCY_SOLID)
    (hflags : ∀ x y, (blocked_cache x y).nw = false ∧ (blocked_cache x y).ne = false)
    (horigin : lightmap_boundaries_contains E ox oy = true)
    (huniform : ∀ x y, lightmap_boundaries_contains E x y = true → transparency_cache x y = t)
    (x y : Int) (l : List Octant) (hl : ∀ o ∈ l, o ∈ castLightAll_octants) (out : Grid ℚ) :
    l.foldl
        (fun g o =>
          castLightDefault E (sight_policy sight_calc acc) transparency_cache blocked_cache
            ox oy 0 numerator o.xx o.xy o.yx o.yy g)
        out x y =
      if (x ≥ 0 ∧ y ≥ 0 ∧ x < E.MAPSIZE_X ∧ y < E.MAPSIZE_Y) ∧
          ∃ o ∈ l, o.wedge (x - ox) (y - oy) then
        Max.max (out x y)
          (uniformValue E (sight_policy sight_calc acc) numerator 0 t 60
            E.LIGHT_TRANSPARENCY_OPEN_AIR (cheb (x - ox) (y - oy)) (-minAbs (x - ox) (y - oy)))
      else out x y := by
  induction l generalizing out with
  | nil => simp
  | cons o l ih =>
    have ho : o ∈ castLightAll_octants := hl o (List.mem_cons_self _ _)
    have hU := sight_open_space E sight_calc acc numerator transparency_cache blocked_cache
      ox oy t ht hflags horigin huniform o ho
    have hA := castLightDefault_open E _ _ _ ox oy numerator o t hU out x y
    rw [List.foldl_cons, ih (fun o2 h2 => hl o2 (List.mem_cons_of_mem _ h2))]
    generalize castLightDefault E (sight_policy sight_calc acc) transparency_cache
      blocked_cache ox oy 0 numerator o.xx o.xy o.yx o.yy out x y = A at hA ⊢
    by_cases hin : (x ≥ 0 ∧ y ≥ 0 ∧ x < E.MAPSIZE_X ∧ y < E.MAPSIZE_Y)
    · by_cases hw : o.wedge (x - ox) (y - oy)
      · have hc := wedge_canonical o ho _ _ hw
        have h1 : (x ≥ 0 ∧ y ≥ 0 ∧ x < E.MAPSIZE_X ∧ y < E.MAPSIZE_Y) ∧
            o.wedge (x - ox) (y - oy) := ⟨hin, hw⟩
        have h2 : (x ≥ 0 ∧ y ≥ 0 ∧ x < E.MAPSIZE_X ∧ y < E.MAPSIZE_Y) ∧
            ∃ o2 ∈ o :: l, o2.wedge (x - ox) (y - oy) :=
          ⟨hin, o, List.mem_cons_self _ _, hw⟩
        rw [if_pos h1, hc.1, hc.2] at hA
        have hA2 : A = Max.max (out x y)
            (uniformValue E (sight_policy sight_calc acc) numerator 0 t 60
              E.LIGHT_TRANSPARENCY_OPEN_AIR (cheb (x - ox) (y - oy))
              (-minAbs (x - ox) (y - oy))) := hA
        rw [if_pos h2, hA2]
        split_ifs
        · rw [max_assoc, max_self]
        · rfl
      · have h1 : ¬ ((x ≥ 0 ∧ y ≥ 0 ∧ x < E.MAPSIZE_X ∧ y < E.MAPSIZE_Y) ∧
            o.wedge (x - ox) (y - oy)) := fun h => hw h.2
        rw [if_neg h1] at hA
        rw [hA]
        by_cases hex : ∃ o2 ∈ l, o2.wedge (x - ox) (y - oy)
        · obtain ⟨o2, h2, h3⟩ := hex
          have h4 : (x ≥ 0 ∧ y ≥ 0 ∧ x < E.MAPSIZE_X ∧ y < E.MAPSIZE_Y) ∧
              ∃ o2 ∈ l, o2.wedge (x - ox) (y - oy) := ⟨hin, o2, h2, h3⟩
          have h5 : (x ≥ 0 ∧ y ≥ 0 ∧ x < E.MAPSIZE_X ∧ y < E.MAPSIZE_Y) ∧
              ∃ o2 ∈ o :: l, o2.wedge (x - ox) (y - oy) :=
            ⟨hin, o2, List.mem_cons_of_mem _ h2, h3⟩
          rw [if_pos h4, if_pos h5]
        · have h4 : ¬ ((x ≥ 0 ∧ y ≥ 0 ∧ x < E.MAPSIZE_X ∧ y < E.MAPSIZE_Y) ∧
              ∃ o2 ∈ l, o2.wedge (x - ox) (y - oy)) := fun h => hex h.2
          have h5 : ¬ ((x ≥ 0 ∧ y ≥ 0 ∧ x < E.MAPSIZE_X ∧ y < E.MAPSIZE_Y) ∧
              ∃ o2 ∈ o :: l, o2.wedge (x - ox) (y - oy)) := by
            rintro ⟨-, o2, h2, h3⟩
            rcases List.mem_cons.mp h2 with h6 | h6
            · rw [h6] at h3; exact hw h3
            · exact hex ⟨o2, h6, h3⟩
          rw [if_neg h4, if_neg h5]
    · have h1 : ∀ q : Prop, ¬ ((x ≥ 0 ∧ y ≥ 0 ∧ x < E.MAPSIZE_X ∧ y < E.MAPSIZE_Y) ∧ q) :=
        fun q h => hin h.1
      rw [if_neg (h1 _)] at hA
      rw [if_neg (h1 _), if_neg (h1 _), hA]

/-- C2: on a grid whose every tile has the same transparency above SOLID and that has no
diagonal block flag, after the 2D sight cast of `build_seen_cache` from an origin inside the
map, over the seen grid reset beforehand, the seen value at `origin + delta` equals the
seen value at `origin + rotate90 delta` whenever both tiles lie inside the map.  The
falloff, the accumulation, the numerator and the distance function are arbitrary. -/
theorem open_space_rotational_symmetry (E : Env) (sight_calc acc : ℚ → ℚ → Int → ℚ)
    (numerator : ℚ) (transparency_cache : Grid ℚ) (blocked_cache : Grid diagonal_blocks)
    (ox oy : Int) (t : ℚ) (delta : Int × Int) (ht : t > LIGHT_TRANSPARENCY_SOLID)
    (hflags : ∀ x y, (blocked_cache x y).nw = false ∧ (blocked_cache x y).ne = false)
    (horigin : lightmap_boundaries_contains E ox oy = true)
    (huniform : ∀ x y, lightmap_boundaries_contains E x y = true → transparency_cache x y = t)
    (h1 : lightmap_boundaries_contains E (ox + delta.1) (oy + delta.2) = true)
    (h2 : lightmap_boundaries_contains E (ox + (rotate90 delta).1) (oy + (rotate90 delta).2)
      = true) :
    build_seen_cache_2d E sight_calc acc numerator transparency_cache blocked_cache ox oy
        (ox + delta.1) (oy + delta.2)
      = build_seen_cache_2d E sight_calc acc numerator transparency_cache blocked_cache ox oy
        (ox + (rotate90 delta).1) (oy + (rotate90 delta).2) := by
  obtain ⟨a, b⟩ := delta
  simp only [rotate90] at h2 ⊢
  have hc : cheb (ox + a - ox) (oy + b - oy) = cheb (ox + -b - ox) (oy + a - oy) := by
    simp only [cheb]
    omega
  have hm : minAbs (ox + a - ox) (oy + b - oy) = minAbs (ox + -b - ox) (oy + a - oy) := by
    simp only [minAbs]
    omega
  have hr : seen_cache_reset E ox oy (ox + a) (oy + b)
      = seen_cache_reset E ox oy (ox + -b) (oy + a) := by
    simp only [seen_cache_reset, Grid.set]
    by_cases h0 : a = 0 ∧ b = 0
    · rw [h0.1, h0.2]
      simp
    · rw [if_neg (by omega), if_neg (by omega)]
  have hin1 : (ox + a ≥ 0 ∧ oy + b ≥ 0 ∧ ox + a < E.MAPSIZE_X ∧ oy + b < E.MAPSIZE_Y) := by
    simp only [lightmap_boundaries_contains, Bool.and_eq_true, decide_eq_true_eq] at h1
    omega
  have hin2 : (ox + -b ≥ 0 ∧ oy + a ≥ 0 ∧ ox + -b < E.MAPSIZE_X ∧ oy + a < E.MAPSIZE_Y) := by
    simp only [lightmap_boundaries_contains, Bool.and_eq_true, decide_eq_true_eq] at h2
    omega
  have hw : (∃ o ∈ castLightAll_octants, o.wedge (ox + a - ox) (oy + b - oy)) ↔
      (∃ o ∈ castLightAll_octants, o.wedge (ox + -b - ox) (oy + a - oy)) := by
    rw [wedge_cover, wedge_cover, hc]
  unfold build_seen_cache_2d
  rw [castLightAll_eq_foldl,
    sight_fold_open E sight_calc acc numerator transparency_cache blocked_cache ox oy t ht
      hflags horigin huniform (ox + a) (oy + b) castLightAll_octants (fun _ h => h),
    sight_fold_open E sight_calc acc numerator transparency_cache blocked_cache ox oy t ht
      hflags horigin huniform (ox + -b) (oy + a) castLightAll_octants (fun _ h => h),
    hc, hm, hr]
  exact if_congr (and_congr (iff_of_true hin1 hin2) hw) rfl rfl

/-- Witness of C2 on the small map: origin `(2, 2)`, the offset `(1, 2)` and its quarter turn
`(-2, 1)`, that is the tiles `(3, 4)` and `(0, 3)`. -/
theorem open_space_rotational_symmetry_witness :
    build_seen_cache_2d small_env (fun n _ _ => n) (fun c _ _ => c) 1 open_grid no_blocks 2 2
        3 4
      = build_seen_cache_2d small_env (fun n _ _ => n) (fun c _ _ => c) 1 open_grid no_blocks
        2 2 0 3 :=
  open_space_rotational_symmetry small_env (fun n _ _ => n) (fun c _ _ => c) 1 open_grid
    no_blocks 2 2 1 (1, 2) (by norm_num [LIGHT_TRANSPARENCY_SOLID]) (fun _ _ => ⟨rfl, rfl⟩)
    (by decide) (fun _ _ _ => rfl) (by decide) (by decide)

/-! ### The fixed maximum radius (C15) -/

/-- The Chebyshev distance of a tile of an octant from the origin of the cast is its row. -/
theorem cheb_of_octant_tile (o : Octant) (ho : o ∈ castLightAll_octants)
    (offx offy dx distance : Int) (h1 : -distance ≤ dx) (h2 : dx ≤ 0) :
    cheb (o.curX offx dx (-distance) - offx) (o.curY offy dx (-distance) - offy) = distance := by
  simp only [castLightAll_octants, List.mem_cons, List.mem_singleton, List.not_mem_nil,
    or_false] at ho
  rcases ho with rfl | rfl | rfl | rfl | rfl | rfl | rfl | rfl <;>
    simp only [Octant.curX, Octant.curY, cheb] <;> omega

/-- C15: for every input grid, origin, offset distance and initial output, a call of
`castLight` for one of the eight octants, started at a row from 1 on, leaves every output
entry as it is except tiles inside the map whose Chebyshev distance from the origin of the
cast is at least 1 and at most `60 - offsetDistance`; the origin and every farther tile keep
their value. -/
theorem castLight_frame {Out : Type} (C : Cast Out) (ho : C.o ∈ castLightAll_octants)
    (row : Int) (hrow : 1 ≤ row) (start end_ cum : ℚ) (out : Grid Out) (x y : Int)
    (h : ¬ (C.inside x y ∧ 1 ≤ cheb (x - C.offx) (y - C.offy) ∧
      cheb (x - C.offx) (y - C.offy) ≤ 60 - C.offsetDistance)) :
    castLight C row start end_ cum out x y = out x y := by
  unfold castLight
  split_ifs
  · rfl
  · refine castRows_rel C (fun g g2 : Grid Out => g2 x y = g x y) (fun _ => rfl)
      (fun g1 g2 g3 h12 h23 => h23.trans h12) _ ?_ _ _ _ _ _ out
    intro distance dx h1 h2 h3 h4 g v q hin
    have hc := cheb_of_octant_tile C.o ho C.offx C.offy dx distance h3 h4
    have hne : ¬ (x = C.o.curX C.offx dx (-distance) ∧ y = C.o.curY C.offy dx (-distance)) := by
      rintro ⟨hx, hy⟩
      apply h
      rw [hx, hy, hc]
      refine ⟨hin, ?_, h2⟩
      simp only [Cast.radius] at h1 h2
      omega
    simp only [Grid.set, if_neg hne]

/-- Witness of C15 on the small map: a cast towards the north-west from `(2, 2)` leaves the
origin tile as it is. -/
theorem castLight_frame_witness :
    castLight
        { E := small_env, P := sight_policy (fun n _ _ => n) (fun c _ _ => c),
          o := { xx := 1, xy := 0, yx := 0, yy := 1 }, input_array := open_grid,
          blocked_array := no_blocks, offx := 2, offy := 2, offsetDistance := 0,
          numerator := 1 } 1 1 0 1 (fun _ _ => 0) 2 2 = 0 :=
  castLight_frame
    { E := small_env, P := sight_policy (fun n _ _ => n) (fun c _ _ => c),
      o := { xx := 1, xy := 0, yx := 0, yy := 1 }, input_array := open_grid,
      blocked_array := no_blocks, offx := 2, offy := 2, offsetDistance := 0, numerator := 1 }
    (by decide) 1 (by decide) 1 0 1 (fun _ _ => 0) 2 2 (by decide)

/-! ### Binary visibility and the light map (C17) -/

/-- C17, refuted as stated: on the small map, the fully seen dark cache and the cache that
differs from it only in the light map, lit at 20, give different answers of `pl_sees` for
the tile `(3, 2, 0)`. -/
theorem pl_sees_depends_on_lm :
    pl_sees small_env (fun _ => seen_dark_cache) demo_observer (3, 2, 0) 10 = false ∧
      pl_sees small_env (fun z => { seen_dark_cache with lm := bright_lm z }) demo_observer
        (3, 2, 0) 10 = true := by
  decide!

/-- The flag `obstructed` of `apparent_light_helper` does not depend on the light map. -/
theorem obstructed_lm_independent (E : Env) (c : level_cache) (lm2 : Grid four_quadrants)
    (u : Observer) (px py : Int) :
    (apparent_light_helper E { c with lm := lm2 } u px py).obstructed
      = (apparent_light_helper E c u px py).obstructed := rfl

/-- C17, amended: for two cache states that differ only in the light map, `pl_line_of_sight`
gives the same answer for every tile and range, and `pl_sees` gives the same answer whenever
the tile is obstructed, out of bounds or out of range (false) or is unobstructed with a
registered bright source, `sm > 0` (true). -/
theorem visibility_lm_independence (E : Env) (get_cache_ref : Int → level_cache)
    (lm2 : Int → Grid four_quadrants) (u : Observer) (t : Int × Int × Int) (max_range : Int) :
    pl_line_of_sight E (fun z => { get_cache_ref z with lm := lm2 z }) u t max_range
        = pl_line_of_sight E get_cache_ref u t max_range ∧
      ((apparent_light_helper E (get_cache_ref t.2.2) u t.1 t.2.1).obstructed = true ∨
          (get_cache_ref t.2.2).sm t.1 t.2.1 > 0 →
        pl_sees E (fun z => { get_cache_ref z with lm := lm2 z }) u t max_range
          = pl_sees E get_cache_ref u t max_range) := by
  refine ⟨rfl, fun h => ?_⟩
  unfold pl_sees
  simp only [obstructed_lm_independent]
  split_ifs
  · rfl
  · rfl
  · rcases h with h | h
    · simp [h]
    · have h2 : decide ((get_cache_ref t.2.2).sm t.1 t.2.1 > 0) = true := by simpa using h
      simp [h2]

/-- Witness of C17 as amended on the small map: a tile with a source on it. -/
theorem visibility_lm_independence_witness :
    pl_sees small_env (fun z => { lit_cache with lm := bright_lm z }) demo_observer (3, 2, 0) 10
      = pl_sees small_env (fun _ => lit_cache) demo_observer (3, 2, 0) 10 :=
  (visibility_lm_independence small_env (fun _ => lit_cache) bright_lm demo_observer (3, 2, 0)
    10).2 (Or.inr (by decide!))

/-! ### Shared source dedup (C18) -/

/-- C28: for every cache state, tile and maximum range, a tile that `pl_sees` reports as
seen is also reported by `pl_line_of_sight`. -/
theorem pl_sees_implies_line_of_sight (E : Env) (get_cache_ref : Int → level_cache)
    (u : Observer) (t : Int × Int × Int) (max_range : Int)
    (h : pl_sees E get_cache_ref u t max_range = true) :
    pl_line_of_sight E get_cache_ref u t max_range = true := by
  unfold pl_sees at h
  unfold pl_line_of_sight
  split_ifs at h with h1 h2
  split_ifs
  simp only [apparent_light_helper, Bool.and_eq_true, Bool.not_eq_true', decide_eq_false_iff_not,
    not_le, LIGHT_TRANSPARENCY_SOLID] at h
  have hvis := h.1
  rw [Bool.or_eq_true, decide_eq_true_eq, decide_eq_true_eq]
  rcases lt_max_iff.mp hvis with h3 | h3
  · left; linarith
  · right; linarith

/-- Witness of C28: the lit, fully seen tile `(3, 2, 0)` next to the observer. -/
theorem pl_sees_implies_line_of_sight_witness :
    pl_sees small_env (fun _ => lit_cache) demo_observer (3, 2, 0) 10 = true ∧
      pl_line_of_sight small_env (fun _ => lit_cache) demo_observer (3, 2, 0) 10 = true :=
  ⟨by decide!,
    pl_sees_implies_line_of_sight small_env (fun _ => lit_cache) demo_observer (3, 2, 0) 10
      (by decide!)⟩

/-! ### The south-west diagonal block lookup (C30) -/

/-- C30 fails on the code: on the small map the tile `(0, 3)`, the south-west neighbour of
the tile `(1, 2)`, lies inside the grid and has its `ne` flag set, yet the check of an
octant facing SW answers false at `(1, 2)` in both casting engines, because it demands
`p.x > 1`; the mirrored SE check reads its neighbour up to the last column. -/
theorem check_blocked_sw_misses_first_column :
    lightmap_boundaries_contains small_env 0 3 = true ∧
      (west_edge_blocks (1 - 1) (2 + 1)).ne = true ∧
      check_blocked small_env quadrant.SW west_edge_blocks 1 2 = false ∧
      zlight_check_blocked small_env quadrant.SW (fun _ => west_edge_blocks) (1, 2, 0)
        = false := by
  decide

/-! ### The storage temperature of a vehicle location (C23) -/

/-- C23: for an item location of type vehicle, `temperature_flag_for_location` returns
`TEMP_NORMAL` whenever no vehicle is found at the position, and whenever a vehicle is found
whose cargo lookup at the found part is negative; the function is total. -/
theorem temperature_flag_missing_vehicle_data (m : rot_map) (pos : Int × Int × Int)
    (h : m.veh_at pos = none ∨
      ∃ veh, m.veh_at pos = some veh ∧ veh.veh.part_with_feature_CARGO veh.part_index < 0) :
    temperature_flag_for_location m (item_location.vehicle pos)
      = temperature_flag.TEMP_NORMAL := by
  rcases h with h | ⟨veh, h, hc⟩
  · simp [temperature_flag_for_location, h]
  · simp [temperature_flag_for_location, h, hc]

/-- Witness of C23: the part `5` of the freezer van has no cargo part, so the location is
normal although every part of the van is a freezer. -/
theorem temperature_flag_missing_vehicle_data_witness :
    temperature_flag_for_location van_map (item_location.vehicle (2, 1, 0))
      = temperature_flag.TEMP_NORMAL :=
  temperature_flag_missing_vehicle_data van_map (2, 1, 0)
    (Or.inr ⟨{ veh := freezer_van, part_index := 5 }, by simp [van_map], by decide⟩)

/-! ### The bulk fill of uniform submaps (C24) -/

/-- A loop that keeps `P` before the iteration `i0`, turns `P` into `Q` at `i0` and keeps `Q`
afterwards ends in `Q` when started in `P`. -/
theorem forLoop_switch {σ : Type} (P Q : σ → Prop) (n i0 : Nat) (body : Nat → σ → σ)
    (hi0 : i0 < n) (hP : ∀ i, i < n → i ≠ i0 → ∀ s, P s → P (body i s))
    (hest : ∀ s, P s → Q (body i0 s))
    (hQ : ∀ i, i < n → i ≠ i0 → ∀ s, Q s → Q (body i s)) (s : σ) (hs : P s) :
    Q (forLoop n body s) := by
  have key : ∀ m, m ≤ n →
      (m ≤ i0 → P (forLoop m body s)) ∧ (i0 < m → Q (forLoop m body s)) := by
    intro m
    induction m with
    | zero =>
      intro _
      exact ⟨fun _ => by simpa [forLoop] using hs, fun h => absurd h (Nat.not_lt_zero _)⟩
    | succ m ih =>
      intro hm
      have ihm := ih (by omega)
      rw [forLoop_succ]
      refine ⟨fun h => hP m (by omega) (by omega) _ (ihm.1 (by omega)), fun h => ?_⟩
      by_cases hmi : m = i0
      · subst hmi
        exact hest _ (ihm.1 (le_refl _))
      · exact hQ m (by omega) hmi _ (ihm.2 (by omega))
  exact (key n (le_refl _)).2 hi0

/-- The body of the submap loops, run on a uniform submap that is dirty or part of a full
rebuild, leaves in each of its tiles the value of `calc_transp` at the first tile of the
submap, provided that during a full rebuild the tile held OPEN_AIR before. -/
theorem build_transparency_submap_bulk (E : Env) (get_submap_at_grid : Nat → Nat → submap)
    (sight_penalty : ℚ) (outside_cache : Grid Bool) (dirty : Nat → Bool) (rebuild_all : Bool)
    (smx smy sx0 sy0 : Nat) (hsx0 : sx0 < E.SEEX) (hsy0 : sy0 < E.SEEY)
    (hproc : rebuild_all = true ∨ dirty (smx * E.MAPSIZE + smy) = true)
    (hu : (get_submap_at_grid smx smy).is_uniform = true) (g : Grid ℚ)
    (hg : rebuild_all = true →
      g ((smx : Int) * (E.SEEX : Int) + (sx0 : Int)) ((smy : Int) * (E.SEEY : Int) + (sy0 : Int))
        = E.LIGHT_TRANSPARENCY_OPEN_AIR) :
    build_transparency_submap E get_submap_at_grid sight_penalty outside_cache dirty rebuild_all
        smx smy g ((smx : Int) * (E.SEEX : Int) + (sx0 : Int))
        ((smy : Int) * (E.SEEY : Int) + (sy0 : Int))
      = calc_transp E sight_penalty (get_submap_at_grid smx smy)
          ((smx : Int) * (E.SEEX : Int), (smy : Int) * (E.SEEY : Int)) outside_cache
          ((smx : Int) * (E.SEEX : Int)) ((smy : Int) * (E.SEEY : Int)) := by
  unfold build_transparency_submap
  have hskip : (! rebuild_all && ! dirty (smx * E.MAPSIZE + smy)) = false := by
    rcases hproc with h | h <;> simp [h]
  simp only [hskip, hu, Bool.false_eq_true, if_false, if_true]
  split_ifs with hfill
  · refine forLoop_establishes (fun g2 : Grid ℚ => g2 _ _ = _) E.SEEX sx0 _ hsx0 ?_ ?_ g
    · intro g2
      unfold fill_row
      refine forLoop_establishes (fun g3 : Grid ℚ => g3 _ _ = _) E.SEEY sy0 _ hsy0 ?_ ?_ g2
      · intro g3
        simp [Grid.set]
      · intro sy hsy hne g3 hg3
        simp only [Grid.set]
        rw [if_neg]
        · exact hg3
        · rintro ⟨-, h⟩
          apply hne
          omega
    · intro sx hsx hne g2 hg2
      unfold fill_row
      refine forLoop_preserves (fun g3 : Grid ℚ => g3 _ _ = _) _ _ ?_ g2 hg2
      intro sy hsy g3 hg3
      simp only [Grid.set]
      rw [if_neg]
      · exact hg3
      · rintro ⟨h, -⟩
        apply hne
        omega
  · simp only [Bool.or_eq_true, Bool.not_eq_true', decide_eq_true_eq, not_or,
      Bool.not_eq_false, not_not] at hfill
    rw [hg hfill.1, hfill.2]

/-- C24, refuted as stated: the middle submap of the small map is dirty and flagged uniform,
only its first tile `(2, 2)` is outside, and under a sight penalty of 2 the tile `(3, 3)`
ends up with a value that differs from the one the per-tile rule gives for it. -/
theorem bulk_fill_ignores_tile_outside_flag :
    uniform_submap.is_uniform = true ∧ shade_cache.transparency_cache_dirty (1 * 3 + 1) = true ∧
      (build_transparency_cache small_env (fun _ _ => uniform_submap) 2
          shade_cache).2.transparency_cache 3 3
        ≠ spec_transparency small_env 2 (uniform_submap.ter_transparent 1 1)
            (uniform_submap.furn_transparent 1 1) (shade_cache.outside_cache 3 3)
            (uniform_submap.get_field 1 1) := by
  decide!

/-- C24, amended: after `build_transparency_cache` every tile of a dirty submap flagged
uniform holds the value the per-tile rule gives for the first tile of that submap (its
terrain and furniture, its outside flag with the sight penalty, its fields). -/
theorem bulk_fill_first_tile_rule (E : Env) (get_submap_at_grid : Nat → Nat → submap)
    (sight_penalty : ℚ) (map_cache : level_cache) (smx smy sx sy : Nat)
    (hmx : smx < E.my_MAPSIZE) (hmy : smy < E.my_MAPSIZE) (hbx : smx < E.MAPSIZE)
    (hby : smy < E.MAPSIZE)
    (hdirty : map_cache.transparency_cache_dirty (smx * E.MAPSIZE + smy) = true)
    (hu : (get_submap_at_grid smx smy).is_uniform = true) (hsx : sx < E.SEEX)
    (hsy : sy < E.SEEY) :
    (build_transparency_cache E get_submap_at_grid sight_penalty map_cache).2.transparency_cache
        ((smx : Int) * (E.SEEX : Int) + (sx : Int)) ((smy : Int) * (E.SEEY : Int) + (sy : Int))
      = spec_transparency E sight_penalty
          ((get_submap_at_grid smx smy).ter_transparent 0 0)
          ((get_submap_at_grid smx smy).furn_transparent 0 0)
          (map_cache.outside_cache ((smx : Int) * (E.SEEX : Int)) ((smy : Int) * (E.SEEY : Int)))
          ((get_submap_at_grid smx smy).get_field 0 0) := by
  have hidx : smx * E.MAPSIZE + smy < E.MAPSIZE * E.MAPSIZE := by
    have h1 : (smx + 1) * E.MAPSIZE ≤ E.MAPSIZE * E.MAPSIZE :=
      Nat.mul_le_mul_right _ hbx
    have h2 : (smx + 1) * E.MAPSIZE = smx * E.MAPSIZE + E.MAPSIZE := by ring
    omega
  have hnone := bitset_none_false_of_bit _ _ _ hidx hdirty
  have hxr : 0 ≤ (smx : Int) * (E.SEEX : Int) + (sx : Int) ∧
      (smx : Int) * (E.SEEX : Int) + (sx : Int) < E.MAPSIZE_X := by
    unfold Env.MAPSIZE_X
    have h1 : ((smx : Int) + 1) * (E.SEEX : Int) ≤ (E.MAPSIZE : Int) * (E.SEEX : Int) :=
      mul_le_mul_of_nonneg_right (by exact_mod_cast hbx) (by positivity)
    have h0 : 0 ≤ (smx : Int) * (E.SEEX : Int) := by positivity
    have hs : (sx : Int) < (E.SEEX : Int) := by exact_mod_cast hsx
    constructor
    · positivity
    · nlinarith
  have hyr : 0 ≤ (smy : Int) * (E.SEEY : Int) + (sy : Int) ∧
      (smy : Int) * (E.SEEY : Int) + (sy : Int) < E.MAPSIZE_Y := by
    unfold Env.MAPSIZE_Y
    have h1 : ((smy : Int) + 1) * (E.SEEY : Int) ≤ (E.MAPSIZE : Int) * (E.SEEY : Int) :=
      mul_le_mul_of_nonneg_right (by exact_mod_cast hby) (by positivity)
    have hs : (sy : Int) < (E.SEEY : Int) := by exact_mod_cast hsy
    constructor
    · positivity
    · nlinarith
  have hval : ∀ g : Grid ℚ,
      (bitset_all (E.MAPSIZE * E.MAPSIZE) map_cache.transparency_cache_dirty = true →
        g ((smx : Int) * (E.SEEX : Int) + (sx : Int)) ((smy : Int) * (E.SEEY : Int) + (sy : Int))
          = E.LIGHT_TRANSPARENCY_OPEN_AIR) →
      build_transparency_submap E get_submap_at_grid sight_penalty map_cache.outside_cache
          map_cache.transparency_cache_dirty
          (bitset_all (E.MAPSIZE * E.MAPSIZE) map_cache.transparency_cache_dirty) smx smy g
          ((smx : Int) * (E.SEEX : Int) + (sx : Int)) ((smy : Int) * (E.SEEY : Int) + (sy : Int))
        = spec_transparency E sight_penalty
          ((get_submap_at_grid smx smy).ter_transparent 0 0)
          ((get_submap_at_grid smx smy).furn_transparent 0 0)
          (map_cache.outside_cache ((smx : Int) * (E.SEEX : Int)) ((smy : Int) * (E.SEEY : Int)))
          ((get_submap_at_grid smx smy).get_field 0 0) := by
    intro g hg
    rw [build_transparency_submap_bulk E get_submap_at_grid sight_penalty _ _ _ smx smy sx sy
      hsx hsy (Or.inr hdirty) hu g hg, calc_transp_eq_spec]
    simp
  simp only [build_transparency_cache, hnone, Bool.false_eq_true, if_false]
  refine forLoop_switch
    (fun g2 : Grid ℚ =>
      bitset_all (E.MAPSIZE * E.MAPSIZE) map_cache.transparency_cache_dirty = true →
        g2 ((smx : Int) * (E.SEEX : Int) + (sx : Int)) ((smy : Int) * (E.SEEY : Int) + (sy : Int))
          = E.LIGHT_TRANSPARENCY_OPEN_AIR)
    (fun g2 : Grid ℚ => g2 _ _ = _) E.my_MAPSIZE smx _ hmx ?_ ?_ ?_ _ ?_
  · intro a _ hne g2 hg2 hall
    refine forLoop_preserves (fun g3 : Grid ℚ => g3 _ _ = _) _ _ ?_ g2 (hg2 hall)
    intro b _ g3 hg3
    exact build_transparency_submap_frame E get_submap_at_grid sight_penalty _ _ _ a b smx
      smy sx sy (fun h => hne h.1) hsx hsy g3 _ hg3
  · intro g2 hg2
    refine forLoop_switch
      (fun g3 : Grid ℚ =>
        bitset_all (E.MAPSIZE * E.MAPSIZE) map_cache.transparency_cache_dirty = true →
          g3 ((smx : Int) * (E.SEEX : Int) + (sx : Int))
            ((smy : Int) * (E.SEEY : Int) + (sy : Int)) = E.LIGHT_TRANSPARENCY_OPEN_AIR)
      (fun g3 : Grid ℚ => g3 _ _ = _) E.my_MAPSIZE smy _ hmy ?_ ?_ ?_ g2 hg2
    · intro b _ hne g3 hg3 hall
      exact build_transparency_submap_frame E get_submap_at_grid sight_penalty _ _ _ smx b smx
        smy sx sy (fun h => hne h.2) hsx hsy g3 _ (hg3 hall)
    · intro g3 hg3
      exact hval g3 hg3
    · intro b _ hne g3 hg3
      exact build_transparency_submap_frame E get_submap_at_grid sight_penalty _ _ _ smx b smx
        smy sx sy (fun h => hne h.2) hsx hsy g3 _ hg3
  · intro a _ hne g2 hg2
    refine forLoop_preserves (fun g3 : Grid ℚ => g3 _ _ = _) _ _ ?_ g2 hg2
    intro b _ g3 hg3
    exact build_transparency_submap_frame E get_submap_at_grid sight_penalty _ _ _ a b smx
      smy sx sy (fun h => hne h.1) hsx hsy g3 _ hg3
  · intro hall
    simp only [hall, if_true]
    rw [if_pos ⟨hxr.1, hxr.2, hyr.1, hyr.2⟩]

/-- Witness of C24 on the small map: the tile `(3, 3)` of the dirty uniform middle submap
holds the rule value of the first tile `(2, 2)`, which is outside. -/
theorem bulk_fill_first_tile_rule_witness :
    (build_transparency_cache small_env (fun _ _ => uniform_submap) 2
        shade_cache).2.transparency_cache 3 3
      = spec_transparency small_env 2 true true true [] :=
  bulk_fill_first_tile_rule small_env (fun _ _ => uniform_submap) 2 shade_cache 1 1 1 1
    (by decide) (by decide) (by decide) (by decide) (by decide) (by decide) (by decide)
    (by decide)

/-! ### Diagonal blocks (C25) -/

/-- One iteration of the inner loop relates the output cache it leaves to the one it found by
any reflexive and transitive relation that the recursive call respects and that respects a
merge into a tile inside the map for which the diagonal block check fails. -/
theorem castCell_rel_unblocked {Out : Type} (C : Cast Out) (Rel : Grid Out → Grid Out → Prop)
    (hrefl : ∀ g, Rel g g) (htrans : ∀ g1 g2 g3, Rel g1 g2 → Rel g2 g3 → Rel g1 g3)
    (recur : ℚ → ℚ → ℚ → Grid Out → Grid Out) (hrecur : ∀ st en cum o, Rel o (recur st en cum o))
    (end_ cum : ℚ) (distance dx : Int)
    (hupd : ∀ (g : Grid Out) (v : ℚ) (q : quadrant),
      C.inside (C.o.curX C.offx dx (-distance)) (C.o.curY C.offy dx (-distance)) →
      ¬ check_blocked C.E C.o.quad C.blocked_array (C.o.curX C.offx dx (-distance))
        (C.o.curY C.offy dx (-distance)) = true →
      Rel g (g.set (C.o.curX C.offx dx (-distance)) (C.o.curY C.offy dx (-distance))
        (C.P.update_output (g (C.o.curX C.offx dx (-distance)) (C.o.curY C.offy dx (-distance)))
          v q)))
    (s : RowState Out) : Rel s.out (castCell C recur end_ cum distance dx s).grid := by
  unfold castCell
  simp only []
  split_ifs with h1 h2 h3 h4 h5 h6 h7
  all_goals simp only [Step.grid]
  all_goals first
    | exact hrefl _
    | exact hupd _ _ _ h1 h3
    | exact htrans _ _ _ (hupd _ _ _ h1 h3) (hrecur _ _ _ _)

/-- The scan of a row relates the output cache it leaves to the one it found, see
`castCell_rel_unblocked`. -/
theorem scanRow_rel_unblocked {Out : Type} (C : Cast Out) (Rel : Grid Out → Grid Out → Prop)
    (hrefl : ∀ g, Rel g g) (htrans : ∀ g1 g2 g3, Rel g1 g2 → Rel g2 g3 → Rel g1 g3)
    (recur : ℚ → ℚ → ℚ → Grid Out → Grid Out) (hrecur : ∀ st en cum o, Rel o (recur st en cum o))
    (end_ cum : ℚ) (distance : Int) (k : Nat)
    (hupd : ∀ (x y : Int) (g : Grid Out) (v : ℚ) (q : quadrant), C.inside x y →
      ¬ check_blocked C.E C.o.quad C.blocked_array x y = true →
      Rel g (g.set x y (C.P.update_output (g x y) v q)))
    (s : RowState Out) : Rel s.out (scanRow C recur end_ cum distance k s).grid := by
  induction k generalizing s with
  | zero => simpa [scanRow, Flow.grid] using hrefl s.out
  | succ k ih =>
    have hcell := castCell_rel_unblocked C Rel hrefl htrans recur hrecur end_ cum distance
      (-(k : Int)) (fun g v q h1 h2 => hupd _ _ g v q h1 h2) s
    unfold scanRow
    cases hc : castCell C recur end_ cum distance (-(k : Int)) s with
    | cont s1 =>
      rw [hc] at hcell
      simp only [Step.grid] at hcell
      exact htrans _ _ _ hcell (ih s1)
    | brk s1 =>
      rw [hc] at hcell
      simpa [Step.grid, Flow.grid] using hcell
    | ret o =>
      rw [hc] at hcell
      simpa [Step.grid, Flow.grid] using hcell

/-- The rows of a cast relate the output cache they leave to the one they found, see
`castCell_rel_unblocked`. -/
theorem castRows_rel_unblocked {Out : Type} (C : Cast Out) (Rel : Grid Out → Grid Out → Prop)
    (hrefl : ∀ g, Rel g g) (htrans : ∀ g1 g2 g3, Rel g1 g2 → Rel g2 g3 → Rel g1 g3) (n : Nat)
    (hupd : ∀ (x y : Int) (g : Grid Out) (v : ℚ) (q : quadrant), C.inside x y →
      ¬ check_blocked C.E C.o.quad C.blocked_array x y = true →
      Rel g (g.set x y (C.P.update_output (g x y) v q)))
    (end_ start newStart last cum : ℚ) (out : Grid Out) :
    Rel out (castRows C end_ n start newStart last cum out) := by
  induction n generalizing end_ start newStart last cum out with
  | zero => simpa [castRows] using hrefl out
  | succ n ih =>
    have hrecur : ∀ st en cum2 o,
        Rel o ((fun st en cum o => if st < en then o else castRows C en n st 0 0 cum o)
          st en cum2 o) := by
      intro st en cum2 o
      simp only []
      split_ifs
      · exact hrefl o
      · exact ih en st 0 0 cum2 o
    have hscan := scanRow_rel_unblocked C Rel hrefl htrans _ hrecur end_ cum (C.radius - n)
      (1 - firstDeltaX start (C.radius - n)).toNat hupd
      { out := out, start := start, newStart := newStart, started_row := false,
        current_transparency := 0, last_intensity := last }
    unfold castRows
    simp only []
    cases hs : scanRow C (fun st en cum o => if st < en then o else castRows C en n st 0 0 cum o)
        end_ cum (C.radius - n) (1 - firstDeltaX start (C.radius - n)).toNat
        { out := out, start := start, newStart := newStart, started_row := false,
          current_transparency := 0, last_intensity := last } with
    | ret o =>
      rw [hs] at hscan
      simpa [Flow.grid] using hscan
    | next s1 =>
      rw [hs] at hscan
      simp only [Flow.grid] at hscan
      simp only []
      split_ifs
      · exact hscan
      · exact htrans _ _ _ hscan (ih end_ _ _ _ _ _)

/-- A call of `castLight` leaves every tile for which the diagonal block check holds at its
previous value. -/
theorem castLight_keeps_blocked {Out : Type} (C : Cast Out) (row : Int) (start end_ cum : ℚ)
    (out : Grid Out) (x y : Int)
    (hb : check_blocked C.E C.o.quad C.blocked_array x y = true) :
    castLight C row start end_ cum out x y = out x y := by
  unfold castLight
  split_ifs
  · rfl
  · refine castRows_rel_unblocked C (fun g g2 => g2 x y = g x y) (fun _ => rfl)
      (fun _ _ _ h1 h2 => h2.trans h1) _ ?_ _ _ _ _ _ _
    intro x2 y2 g v q _ hnb
    simp only [Grid.set]
    rw [if_neg]
    rintro ⟨rfl, rfl⟩
    exact hnb hb

/-- C25, refuted as stated: on the small map with a wall on the tile `(2, 1)`, a cast of the
octant `(1, 0, 0, -1)` from `(3, 0)` into a zeroed output leaves 0 on the tile `(1, 2)`
without diagonal blocks, and 1 once the `ne` flag of the wall tile is set: the skipped wall
no longer casts its shadow. -/
theorem diagonal_block_brightens_tile :
    (∀ x y, ((no_blocks x y).nw = true → (wall_blocks x y).nw = true) ∧
        ((no_blocks x y).ne = true → (wall_blocks x y).ne = true)) ∧
      castLightDefault small_env flat_sight_policy wall_north_grid no_blocks 3 0 0 1 1 0 0 (-1)
          (fun _ _ => 0) 1 2
        < castLightDefault small_env flat_sight_policy wall_north_grid wall_blocks 3 0 0 1 1 0 0
          (-1) (fun _ _ => 0) 1 2 := by
  refine ⟨fun x y => ⟨fun h => ?_, fun h => ?_⟩, by decide!⟩
  · simp [no_blocks] at h
  · simp [no_blocks] at h

/-- C25, amended: for every transparency grid, origin, initial output grid and policy whose
merge never lowers a value, and for every two diagonal-block grids, at each output tile for
which the diagonal block check holds under the grid `B2`, `castLight` with `B2` leaves the
previous value, which is less than or equal to the value it leaves with the grid of `C`. -/
theorem blocked_tile_not_brightened {Out : Type} [Preorder Out] (C : Cast Out)
    (B2 : Grid diagonal_blocks) (hmono : ∀ u v q, u ≤ C.P.update_output u v q) (row : Int)
    (start end_ cum : ℚ) (out : Grid Out) (x y : Int)
    (hb : check_blocked C.E C.o.quad B2 x y = true) :
    castLight { C with blocked_array := B2 } row start end_ cum out x y = out x y ∧
      castLight { C with blocked_array := B2 } row start end_ cum out x y
        ≤ castLight C row start end_ cum out x y := by
  have hkeep := castLight_keeps_blocked { C with blocked_array := B2 } row start end_ cum out x y hb
  refine ⟨hkeep, ?_⟩
  rw [hkeep]
  refine castLight_rel C (fun g g2 => g x y ≤ g2 x y) (fun _ => le_refl _)
    (fun _ _ _ h1 h2 => le_trans h1 h2) ?_ row start end_ cum out
  intro g x2 y2 v q
  simp only [Grid.set]
  split_ifs with h
  · rw [h.1, h.2]
    exact hmono _ _ _
  · exact le_refl _

/-- Witness of C25: the wall tile `(2, 1)` itself, blocked by its own `ne` flag, stays at 0
and is not brighter than without the flag. -/
theorem blocked_tile_not_brightened_witness :
    castLightDefault small_env flat_sight_policy wall_north_grid wall_blocks 3 0 0 1 1 0 0 (-1)
        (fun _ _ => 0) 2 1 = 0 ∧
      castLightDefault small_env flat_sight_policy wall_north_grid wall_blocks 3 0 0 1 1 0 0 (-1)
          (fun _ _ => 0) 2 1
        ≤ castLightDefault small_env flat_sight_policy wall_north_grid no_blocks 3 0 0 1 1 0 0
          (-1) (fun _ _ => 0) 2 1 :=
  blocked_tile_not_brightened
    { E := small_env, P := flat_sight_policy, o := { xx := 1, xy := 0, yx := 0, yy := -1 },
      input_array := wall_north_grid, blocked_array := no_blocks, offx := 3, offy := 0,
      offsetDistance := 0, numerator := 1 }
    wall_blocks (fun u v q => le_max_left u v) 1 1 0 small_env.LIGHT_TRANSPARENCY_OPEN_AIR
    (fun _ _ => 0) 2 1 (by decide)

/-! ### Termination and nesting depth of `castLight` (C26) -/

/-- The ghost counter does not change the step of the inner loop. -/
theorem castCellD_step {Out : Type} (C : Cast Out)
    (recur : ℚ → ℚ → ℚ → Grid Out → Grid Out × Nat) (end_ cum : ℚ) (distance dx : Int)
    (s : RowState Out) (depth : Nat) :
    (castCellD C recur end_ cum distance dx s depth).1
      = castCell C (fun a b c o => (recur a b c o).1) end_ cum distance dx s := by
  unfold castCellD castCell
  dsimp only
  by_cases h1 : ¬ (C.o.curX C.offx dx (-distance) ≥ 0 ∧ C.o.curY C.offy dx (-distance) ≥ 0 ∧
      C.o.curX C.offx dx (-distance) < C.E.MAPSIZE_X ∧
      C.o.curY C.offy dx (-distance) < C.E.MAPSIZE_Y)
  · rw [if_pos h1, if_pos h1]
  · rw [if_neg h1, if_neg h1]
    by_cases h2 : end_ > trailingEdge dx (-distance)
    · rw [if_pos h2, if_pos h2]
    · rw [if_neg h2, if_neg h2]
      by_cases h3 : check_blocked C.E C.o.quad C.blocked_array (C.o.curX C.offx dx (-distance))
          (C.o.curY C.offy dx (-distance)) = true
      · rw [if_pos h3, if_pos h3]
      · rw [if_neg h3, if_neg h3]
        generalize C.P.calc_ C.numerator cum
          (C.E.rl_dist (0, 0, 0) (dx, -distance, 0) + C.offsetDistance) = li
        generalize C.input_array (C.o.curX C.offx dx (-distance))
          (C.o.curY C.offy dx (-distance)) = nt
        generalize (if s.started_row = true then s.current_transparency else nt) = ct
        by_cases h4 : nt = ct
        · rw [if_pos h4, if_pos h4]
        · rw [if_neg h4, if_neg h4]
          cases h5 : C.P.check ct li
          · simp only [Bool.false_eq_true, if_false, Bool.not_false, if_true]
            split_ifs <;> rfl
          · simp only [if_true, Bool.not_true, Bool.false_eq_true, if_false]
            split_ifs <;> rfl

/-- One iteration of the inner loop keeps the ghost counter below any bound that holds
before it and for every recursive call. -/
theorem castCellD_depth {Out : Type} (C : Cast Out)
    (recur : ℚ → ℚ → ℚ → Grid Out → Grid Out × Nat) (end_ cum : ℚ) (distance dx : Int)
    (s : RowState Out) (depth b : Nat) (hd : depth ≤ b)
    (hrecur : ∀ st en c o, (recur st en c o).2 ≤ b) :
    (castCellD C recur end_ cum distance dx s depth).2 ≤ b := by
  unfold castCellD
  simp only []
  split_ifs
  all_goals first
    | exact hd
    | exact max_le hd (hrecur _ _ _ _)
    | exact max_le hd (Nat.zero_le _)

/-- The scan of a row with the ghost counter: the flow is the one of `scanRow`, and the
counter stays below any bound that holds before it and for every recursive call. -/
theorem scanRowD_spec {Out : Type} (C : Cast Out)
    (recur : ℚ → ℚ → ℚ → Grid Out → Grid Out × Nat) (end_ cum : ℚ) (distance : Int) (b : Nat)
    (hrecur : ∀ st en c o, (recur st en c o).2 ≤ b) (k : Nat) (s : RowState Out) (depth : Nat)
    (hd : depth ≤ b) :
    (scanRowD C recur end_ cum distance k s depth).1
        = scanRow C (fun a b c o => (recur a b c o).1) end_ cum distance k s ∧
      (scanRowD C recur end_ cum distance k s depth).2 ≤ b := by
  induction k generalizing s depth with
  | zero => exact ⟨rfl, hd⟩
  | succ k ih =>
    have h1 := castCellD_step C recur end_ cum distance (-(k : Int)) s depth
    have h2 := castCellD_depth C recur end_ cum distance (-(k : Int)) s depth b hd hrecur
    unfold scanRowD scanRow
    rw [← h1]
    rcases hc : castCellD C recur end_ cum distance (-(k : Int)) s depth with ⟨st, d1⟩
    rw [hc] at h2
    cases st with
    | cont s1 => exact ih s1 d1 h2
    | brk s1 => exact ⟨rfl, h2⟩
    | ret o => exact ⟨rfl, h2⟩

/-- The rows of a cast with the ghost counter: the output cache is the one of `castRows`, and
the counter stays below any bound that holds before and is at least the number of rows
left. -/
theorem castRowsD_spec {Out : Type} (C : Cast Out) (n b : Nat) (hn : n ≤ b) (end_ start newStart
    last cum : ℚ) (out : Grid Out) (depth : Nat) (hd : depth ≤ b) :
    (castRowsD C end_ n start newStart last cum out depth).1
        = castRows C end_ n start newStart last cum out ∧
      (castRowsD C end_ n start newStart last cum out depth).2 ≤ b := by
  induction n generalizing end_ start newStart last cum out depth b with
  | zero => exact ⟨rfl, hd⟩
  | succ n ih =>
    have hrecur : ∀ st en c o,
        ((fun st en cum o =>
          if st < en then (o, 1)
          else ((castRowsD C en n st 0 0 cum o 0).1, (castRowsD C en n st 0 0 cum o 0).2 + 1))
          st en c o : Grid Out × Nat).2 ≤ b := by
      intro st en c o
      simp only []
      split_ifs
      · simp only []
        omega
      · have := (ih n (le_refl n) en st 0 0 c o 0 (Nat.zero_le _)).2
        simp only []
        omega
    have hfun : (fun a b c o =>
        ((fun st en cum o =>
          if st < en then (o, 1)
          else ((castRowsD C en n st 0 0 cum o 0).1, (castRowsD C en n st 0 0 cum o 0).2 + 1))
          a b c o : Grid Out × Nat).1)
        = (fun st en cum o => if st < en then o else castRows C en n st 0 0 cum o) := by
      funext st en c o
      simp only []
      split_ifs
      · rfl
      · exact (ih n (le_refl n) en st 0 0 c o 0 (Nat.zero_le _)).1
    have hscan := scanRowD_spec C _ end_ cum (C.radius - n) b hrecur
      (1 - firstDeltaX start (C.radius - n)).toNat
      { out := out, start := start, newStart := newStart, started_row := false,
        current_transparency := 0, last_intensity := last } depth hd
    rw [hfun] at hscan
    unfold castRowsD castRows
    simp only []
    rw [← hscan.1]
    rcases hs : scanRowD C
        (fun st en cum o =>
          if st < en then (o, 1)
          else ((castRowsD C en n st 0 0 cum o 0).1, (castRowsD C en n st 0 0 cum o 0).2 + 1))
        end_ cum (C.radius - n) (1 - firstDeltaX start (C.radius - n)).toNat
        { out := out, start := start, newStart := newStart, started_row := false,
          current_transparency := 0, last_intensity := last } depth with ⟨fl, d⟩
    have hd2 : d ≤ b := by
      have := hscan.2
      rw [hs] at this
      exact this
    cases fl with
    | ret o => exact ⟨rfl, hd2⟩
    | next s1 =>
      simp only []
      split_ifs
      · exact ⟨rfl, hd2⟩
      · exact ih b (by omega) end_ _ _ _ _ _ d hd2

/-- C26: `castLight` is a total function: every recursive call starts at the row after the
one its caller is processing and no row beyond `60 - offsetDistance` is processed, so the
call with the ghost counter returns the output cache of `castLight` and a nesting depth of
recursive calls of at most the number of rows from `row` to `60 - offsetDistance`, which is
at most `60 - offsetDistance` for a call that starts at row 1. -/
theorem castLight_nesting_bounded {Out : Type} (C : Cast Out) (row : Int)
    (start end_ cum : ℚ) (out : Grid Out) :
    (castLightD C row start end_ cum out).1 = castLight C row start end_ cum out ∧
      (castLightD C row start end_ cum out).2 ≤ (60 - C.offsetDistance + 1 - row).toNat ∧
      (castLightD C 1 start end_ cum out).2 ≤ (60 - C.offsetDistance).toNat := by
  have key : ∀ r : Int,
      (castLightD C r start end_ cum out).1 = castLight C r start end_ cum out ∧
        (castLightD C r start end_ cum out).2 ≤ (C.radius + 1 - r).toNat := by
    intro r
    unfold castLightD castLight
    split_ifs
    · exact ⟨rfl, Nat.zero_le _⟩
    · exact castRowsD_spec C _ _ (le_refl _) end_ start 0 0 cum out 0 (Nat.zero_le _)
  refine ⟨(key row).1, (key row).2, ?_⟩
  have h1 := (key 1).2
  have h2 : (C.radius + 1 - 1).toNat = (60 - C.offsetDistance).toNat := by
    unfold Cast.radius
    congr 1
    ring
  rw [h2] at h1
  exact h1

/-! ### The light projected across the outside boundary (C20) -/

/-- A default cast of one of the eight octants leaves the origin tile at its value. -/
theorem castLightDefault_keeps_origin {Out : Type} (E : Env) (P : Policy Out)
    (input_array : Grid ℚ) (blocked_array : Grid diagonal_blocks) (offx offy k : Int)
    (numerator : ℚ) (xx xy yx yy : Int)
    (ho : ({ xx := xx, xy := xy, yx := yx, yy := yy } : Octant) ∈ castLightAll_octants)
    (out : Grid Out) :
    castLightDefault E P input_array blocked_array offx offy k numerator xx xy yx yy out
        offx offy = out offx offy := by
  unfold castLightDefault castLight
  split_ifs
  · rfl
  · refine castRows_rel _ (fun g g2 : Grid Out => g2 offx offy = g offx offy) (fun _ => rfl)
      (fun g1 g2 g3 h12 h23 => h23.trans h12) _ ?_ _ _ _ _ _ out
    intro distance dx h1 h2 h3 h4 g v q _
    have hc := cheb_of_octant_tile _ ho offx offy dx distance h3 h4
    have hne : ¬ (offx = Octant.curX { xx := xx, xy := xy, yx := yx, yy := yy } offx dx
          (-distance) ∧
        offy = Octant.curY { xx := xx, xy := xy, yx := yx, yy := yy } offy dx (-distance)) := by
      rintro ⟨hx, hy⟩
      simp only [] at hc
      rw [← hx, ← hy] at hc
      simp only [Cast.radius] at h1 h2
      simp only [cheb, sub_self] at hc
      have h0 : distance = 0 := by
        rw [← hc]
        simp
      omega
    simp only [Grid.set]
    rw [if_neg hne]

/-- The method `apply_directional_light`, called with a direction of the table `dir_d`,
leaves the light map of the origin tile at its value, whatever the merge function is. -/
theorem apply_directional_light_keeps_origin (E : Env) (fastexp : ℚ → ℚ)
    (acc : ℚ → ℚ → Int → ℚ) (update : four_quadrants → ℚ → quadrant → four_quadrants)
    (cache : level_cache) (px py : Int) (i : Nat) (luminance : ℚ) :
    (apply_directional_light E fastexp acc update cache px py (dir_d i) luminance).lm px py
      = cache.lm px py := by
  have h1 := castLightDefault_keeps_origin E
    { calc_ := light_calc fastexp, check := light_check E, update_output := update,
      accumulate := acc }
    cache.transparency_cache cache.vehicle_obscured_cache px py 0 luminance
  unfold apply_directional_light
  simp only []
  split_ifs
  · simp only []
    rw [h1 (-1) 0 0 (-1) (by decide), h1 1 0 0 (-1) (by decide)]
  · simp only []
    rw [h1 0 (-1) (-1) 0 (by decide), h1 0 (-1) 1 0 (by decide)]
  · simp only []
    rw [h1 (-1) 0 0 1 (by decide), h1 1 0 0 1 (by decide)]
  · simp only []
    rw [h1 0 1 (-1) 0 (by decide), h1 0 1 1 0 (by decide)]
  · rfl

/-- The merge of the spec raises the maximum of the quadrants to the merged value and no
further. -/
theorem update_light_quadrants_max (u : four_quadrants) (v : ℚ) (q : quadrant) :
    (update_light_quadrants u v q).max = Max.max u.max v := by
  cases q <;>
    simp only [update_light_quadrants, elementwise_max, four_quadrants.put, four_quadrants.get,
      four_quadrants.max]
  · ac_rfl
  · ac_rfl
  · ac_rfl
  · ac_rfl
  · rw [sup_sup_sup_comm u.NE v u.SE v, sup_idem, sup_sup_sup_comm u.SW v u.NW v, sup_idem,
      sup_sup_sup_comm, sup_idem]

/-- C20, refuted as stated: on the small map the wall tile `(2, 2)` is inside and dark, its
northern neighbour is outside, unfloored and lit at 4, and the natural light is 10; the
value the boundary step propagates is 4, and after the step the brightest quadrant of the
wall holds 4, not the maximum 10 of the two values. -/
theorem boundary_light_is_not_the_maximum :
    boundary_neighbour_open small_env porch_cache (fun _ _ => false) false 2 2 0 = true ∧
      boundary_source_light 10 porch_cache 2 2 0 = 4 ∧
      ((boundary_neighbour_step small_env (fun _ => 1) (fun c _ _ => c) update_light_quadrants
          (fun _ _ => false) false 10 2 2 0 porch_cache).lm 2 2).max = 4 ∧
      Max.max (10 : ℚ) (porch_cache.lm 2 1).max = 10 := by
  decide!

/-- C20, amended: in the boundary step of `generate_lightmap`, for every tile and every
cardinal neighbour that is inside the light map, outside and not under a floor, the light
value propagated into the tile from that neighbour is the minimum of the natural light
level and the neighbour's maximum quadrant light: it is the value `update_light_quadrants`
is called with, for every such merge function, and when the merge is a max-merge (it
raises the maximum of the quadrants to the merged value and no further) the tile's maximum
quadrant light after the step is the larger of its previous maximum and that minimum. -/
theorem boundary_light_is_the_minimum (E : Env) (fastexp : ℚ → ℚ) (acc : ℚ → ℚ → Int → ℚ)
    (update : four_quadrants → ℚ → quadrant → four_quadrants) (prev_floor_cache : Grid Bool)
    (top_floor : Bool) (natural_light : ℚ) (px py : Int) (i : Nat) (cache : level_cache)
    (hopen : boundary_neighbour_open E cache prev_floor_cache top_floor px py i = true) :
    (boundary_neighbour_step E fastexp acc update prev_floor_cache top_floor natural_light px
        py i cache).lm px py
      = (if cache.transparency_cache px py > LIGHT_TRANSPARENCY_SOLID then
          update (cache.lm px py)
            (Min.min natural_light (cache.lm (px + (dir_xy i).1) (py + (dir_xy i).2)).max)
            quadrant.default_
        else
          update
            (update (cache.lm px py)
              (Min.min natural_light (cache.lm (px + (dir_xy i).1) (py + (dir_xy i).2)).max)
              (dir_quadrants i).1)
            (Min.min natural_light (cache.lm (px + (dir_xy i).1) (py + (dir_xy i).2)).max)
            (dir_quadrants i).2) ∧
      ((∀ u v q, (update u v q).max = Max.max u.max v) →
        ((boundary_neighbour_step E fastexp acc update prev_floor_cache top_floor natural_light
            px py i cache).lm px py).max
          = Max.max (cache.lm px py).max
              (Min.min natural_light
                (cache.lm (px + (dir_xy i).1) (py + (dir_xy i).2)).max)) := by
  have hmain : (boundary_neighbour_step E fastexp acc update prev_floor_cache top_floor
        natural_light px py i cache).lm px py
      = (if cache.transparency_cache px py > LIGHT_TRANSPARENCY_SOLID then
          update (cache.lm px py)
            (Min.min natural_light (cache.lm (px + (dir_xy i).1) (py + (dir_xy i).2)).max)
            quadrant.default_
        else
          update
            (update (cache.lm px py)
              (Min.min natural_light (cache.lm (px + (dir_xy i).1) (py + (dir_xy i).2)).max)
              (dir_quadrants i).1)
            (Min.min natural_light (cache.lm (px + (dir_xy i).1) (py + (dir_xy i).2)).max)
            (dir_quadrants i).2) := by
    unfold boundary_neighbour_step boundary_source_light
    rw [if_pos hopen]
    simp only []
    split_ifs with ht
    · rw [apply_directional_light_keeps_origin]
      simp [Grid.set]
    · simp [Grid.set]
  refine ⟨hmain, fun hmax => ?_⟩
  rw [hmain]
  split_ifs
  · rw [hmax]
  · rw [hmax, hmax, max_assoc, max_self]

/-- Witness of C20: the dark wall of the small map has its open northern neighbour lit at
4 under a natural light of 10, and its brightest quadrant after the step is the larger of
its previous maximum and the minimum of the two values. -/
theorem boundary_light_is_the_minimum_witness :
    boundary_neighbour_open small_env porch_cache (fun _ _ => false) false 2 2 0 = true ∧
      ((boundary_neighbour_step small_env (fun _ => 1) (fun c _ _ => c) update_light_quadrants
          (fun _ _ => false) false 10 2 2 0 porch_cache).lm 2 2).max
        = Max.max (porch_cache.lm 2 2).max
            (Min.min 10 (porch_cache.lm (2 + (dir_xy 0).1) (2 + (dir_xy 0).2)).max) :=
  ⟨by decide,
    (boundary_light_is_the_minimum small_env (fun _ => 1) (fun c _ _ => c)
      update_light_quadrants (fun _ _ => false) false 10 2 2 0 porch_cache (by decide)).2
      update_light_quadrants_max⟩

/-! ### Light overrides are applied last (C19) -/

/-- A tile without a declared override records nothing. -/
theorem collect_fold_none (p : Int × Int × Int) (fs : List field_entry)
    (h : last_override fs = none) (acc : List ((Int × Int × Int) × ℚ)) :
    fs.foldl
        (fun acc cur =>
          if cur.local_light_override ≥ 0 then acc ++ [(p, cur.local_light_override)] else acc)
        acc = acc := by
  induction fs generalizing acc with
  | nil => rfl
  | cons f fs ih =>
    unfold last_override at h
    cases hl : last_override fs with
    | some w => simp [hl] at h
    | none =>
      simp only [hl] at h
      have hf : ¬ f.local_light_override ≥ 0 := by
        intro hf
        simp [hf] at h
      rw [List.foldl_cons, if_neg hf]
      exact ih hl acc

/-- After the field loop of a tile that declares an override, the last loop of
`generate_lightmap` leaves the last declared override in the tile, whatever was recorded
before. -/
theorem collect_fold_some (x y z : Int) (fs : List field_entry) (v : ℚ)
    (h : last_override fs = some v) (acc : List ((Int × Int × Int) × ℚ))
    (lm : Grid four_quadrants) :
    apply_overrides lm
        (fs.foldl
          (fun acc cur =>
            if cur.local_light_override ≥ 0 then acc ++ [((x, y, z), cur.local_light_override)]
            else acc)
          acc) x y = four_quadrants.fill v := by
  induction fs generalizing acc with
  | nil => simp [last_override] at h
  | cons f fs ih =>
    unfold last_override at h
    rw [List.foldl_cons]
    cases hl : last_override fs with
    | some w =>
      simp only [hl, Option.some.injEq] at h
      subst h
      exact ih hl _
    | none =>
      simp only [hl] at h
      have hf : f.local_light_override ≥ 0 := by
        by_contra hf
        simp [hf] at h
      simp only [hf, if_true, Option.some.injEq] at h
      rw [if_pos hf, collect_fold_none _ fs hl]
      simp [apply_overrides, List.foldl_append, Grid.set, h]

/-- The field loop of another tile does not change what the last loop leaves in a tile. -/
theorem collect_fold_other (x y x2 y2 z : Int) (hne : ¬ (x = x2 ∧ y = y2))
    (fs : List field_entry) (acc : List ((Int × Int × Int) × ℚ)) (lm : Grid four_quadrants) :
    apply_overrides lm
        (fs.foldl
          (fun acc cur =>
            if cur.local_light_override ≥ 0 then
              acc ++ [((x2, y2, z), cur.local_light_override)]
            else acc)
          acc) x y = apply_overrides lm acc x y := by
  induction fs generalizing acc with
  | nil => rfl
  | cons f fs ih =>
    rw [List.foldl_cons, ih]
    split_ifs
    · simp [apply_overrides, List.foldl_append, Grid.set, hne]
    · rfl

/-- C19: the last loop of `generate_lightmap` runs on the overrides recorded by the
traversal of the submaps, and whatever light map `lm` sunlight and every other light source
left before it, every tile of the level that carries a field with a local light override of
at least 0 ends with all four quadrants equal to the override of the last such field of the
tile. -/
theorem overrides_applied_last (E : Env) (get_submap_at_grid : Nat → Nat → submap)
    (zlev : Int) (lm : Grid four_quadrants) (smx smy sx sy : Nat) (hmx : smx < E.my_MAPSIZE)
    (hmy : smy < E.my_MAPSIZE) (hsx : sx < E.SEEX) (hsy : sy < E.SEEY) (v : ℚ)
    (hv : last_override ((get_submap_at_grid smx smy).get_field sx sy) = some v) :
    apply_overrides lm (collect_overrides E get_submap_at_grid zlev)
        ((sx : Int) + (smx : Int) * (E.SEEX : Int)) ((sy : Int) + (smy : Int) * (E.SEEY : Int))
      = four_quadrants.fill v := by
  have hother : ∀ a b c d : Nat, c < E.SEEX → d < E.SEEY →
      ¬ (a = smx ∧ b = smy ∧ c = sx ∧ d = sy) →
      ∀ acc : List ((Int × Int × Int) × ℚ),
        apply_overrides lm acc ((sx : Int) + (smx : Int) * (E.SEEX : Int))
            ((sy : Int) + (smy : Int) * (E.SEEY : Int)) = four_quadrants.fill v →
        apply_overrides lm (collect_tile E (get_submap_at_grid a b) a b c d zlev acc)
            ((sx : Int) + (smx : Int) * (E.SEEX : Int))
            ((sy : Int) + (smy : Int) * (E.SEEY : Int)) = four_quadrants.fill v := by
    intro a b c d hc hd hne acc hacc
    unfold collect_tile
    simp only []
    rw [collect_fold_other _ _ _ _ _ ?_, hacc]
    rintro ⟨hx, hy⟩
    have h1 := submap_coord_unique E.SEEX smx a sx c hsx hc (by linarith)
    have h2 := submap_coord_unique E.SEEY smy b sy d hsy hd (by linarith)
    exact hne ⟨h1.1.symm, h2.1.symm, h1.2.symm, h2.2.symm⟩
  unfold collect_overrides
  refine forLoop_establishes (fun acc => apply_overrides lm acc _ _ = _) E.my_MAPSIZE smx _ hmx
    ?_ ?_ _
  · intro acc
    refine forLoop_establishes (fun acc => apply_overrides lm acc _ _ = _) E.my_MAPSIZE smy _
      hmy ?_ ?_ acc
    · intro acc1
      refine forLoop_establishes (fun acc => apply_overrides lm acc _ _ = _) E.SEEX sx _ hsx
        ?_ ?_ acc1
      · intro acc2
        refine forLoop_establishes (fun acc => apply_overrides lm acc _ _ = _) E.SEEY sy _ hsy
          ?_ ?_ acc2
        · intro acc3
          unfold collect_tile
          exact collect_fold_some _ _ _ _ v hv acc3 lm
        · intro d hd hne acc3 hacc
          exact hother smx smy sx d hsx hd (fun h => hne h.2.2.2) acc3 hacc
      · intro c hc hne acc2 hacc
        refine forLoop_preserves (fun acc => apply_overrides lm acc _ _ = _) _ _ ?_ acc2 hacc
        intro d hd acc3 hacc3
        exact hother smx smy c d hc hd (fun h => hne h.2.2.1) acc3 hacc3
    · intro b _ hne acc1 hacc
      refine forLoop_preserves (fun acc => apply_overrides lm acc _ _ = _) _ _ ?_ acc1 hacc
      intro c hc acc2 hacc2
      refine forLoop_preserves (fun acc => apply_overrides lm acc _ _ = _) _ _ ?_ acc2 hacc2
      intro d hd acc3 hacc3
      exact hother smx b c d hc hd (fun h => hne h.2.1) acc3 hacc3
  · intro a _ hne acc hacc
    refine forLoop_preserves (fun acc => apply_overrides lm acc _ _ = _) _ _ ?_ acc hacc
    intro b _ acc1 hacc1
    refine forLoop_preserves (fun acc => apply_overrides lm acc _ _ = _) _ _ ?_ acc1 hacc1
    intro c hc acc2 hacc2
    refine forLoop_preserves (fun acc => apply_overrides lm acc _ _ = _) _ _ ?_ acc2 hacc2
    intro d hd acc3 hacc3
    exact hother a b c d hc hd (fun h => hne h.1) acc3 hacc3

/-- Witness of C19 on the small map: the tile `(3, 3)` carries a field without an override
and then a field with the override 3, and ends at 3 in every quadrant although the light
map held 20 before. -/
theorem overrides_applied_last_witness :
    apply_overrides (bright_lm 0) (collect_overrides small_env (fun _ _ => demo_submap) 0) 3 3
      = four_quadrants.fill 3 :=
  overrides_applied_last small_env (fun _ _ => demo_submap) 0 (bright_lm 0) 1 1 1 1 (by decide)
    (by decide) (by decide) (by decide) 3 (by decide!)

/-! ### The sunlight cache (C11 to C14, C27) -/

/-- C13, refuted as stated: at night (outdoor light 1, hence the indoor value `7 / 2`) the
open, unfloored sample `(2, 2)` of a level lit at 1 is usable, and the value written for it
does not lie between the indoor value and the sample's maximum light 1. -/
theorem sample_light_exceeds_prev_max :
    (dusk_cache.lm 2 2).max = 1 ∧
      sun_sample small_env dusk_cache false 1 (inside_light_level small_env 1 0) 2 2
        = some (7 / 2) ∧
      ¬ (inside_light_level small_env 1 0 ≤ (7 / 2 : ℚ) ∧ (7 / 2 : ℚ) ≤ (dusk_cache.lm 2 2).max) := by
  decide!

/-- C13, amended: for every usable sample of the per-tile path the light value written is at
least the indoor ambient value of the level, and it is at most the maximum light of the
sampled tile whenever that maximum is not below the indoor ambient value. -/
theorem sample_light_bounds (E : Env) (prev_map_cache : level_cache) (outside_here : Bool)
    (sight_penalty inside_level : ℚ) (prev_x prev_y : Int) (v : ℚ)
    (h : sun_sample E prev_map_cache outside_here sight_penalty inside_level prev_x prev_y
      = some v) :
    inside_level ≤ v ∧
      (inside_level ≤ (prev_map_cache.lm prev_x prev_y).max →
        v ≤ (prev_map_cache.lm prev_x prev_y).max) := by
  unfold sun_sample at h
  simp only [] at h
  split_ifs at h
  all_goals
    simp only [Option.some.injEq] at h
    subst h
    unfold clamp
    exact ⟨le_max_left _ _, fun hle => max_le hle (min_le_left _ _)⟩

/-- Witness of C13: by day (outdoor light 20, indoor value 4) a sample lit at 20 behind
open air gives a value between 4 and 20. -/
theorem sample_light_bounds_witness :
    (4 : ℚ) ≤ 20 ∧ ((4 : ℚ) ≤ (bright_lm 0 2 2).max → (20 : ℚ) ≤ (bright_lm 0 2 2).max) :=
  sample_light_bounds small_env { blank_cache with lm := bright_lm 0 } false 1 4 2 2 20
    (by decide!)

/-- The body of the level loop changes the cache of no other level. -/
theorem sun_level_other (E : Env) (zlevels : Bool) (outside_light_level sight_penalty : ℚ)
    (zlev z : Int) (hz : z ≠ zlev) (st : sun_state) :
    (sun_level E zlevels outside_light_level sight_penalty zlev st).caches z = st.caches z := by
  unfold sun_level
  simp only []
  split_ifs <;> simp only [Function.update_noteq hz]

/-- C14, refuted as stated: with z-levels enabled on a map with the levels -1 to 1,
`build_sunlight_cache( 0 )` changes the light map of the level -1. -/
theorem sunlight_writes_below_requested_level :
    (build_sunlight_cache small_env true 0 10 1 0 (fun _ => blank_cache) (-1)).lm 0 0
      ≠ blank_cache.lm 0 0 := by
  decide!

/-- C14, amended: `build_sunlight_cache( z )` writes the light maps only of the levels of its
scan, from `zlev_max` down to and including `zlev_min`, which is `z` when z-levels are
disabled and `-OVERMAP_DEPTH` when they are enabled; the cache of every level below
`zlev_min` or above `zlev_max` is left unchanged. -/
theorem sunlight_scan_range (E : Env) (zlevels : Bool) (max_populated_zlev : Int)
    (outside_light_level sight_penalty : ℚ) (pzlev : Int) (caches : Int → level_cache)
    (z : Int)
    (hz : z < sun_zlev_min E zlevels pzlev ∨
      sun_zlev_max E zlevels max_populated_zlev pzlev < z) :
    build_sunlight_cache E zlevels max_populated_zlev outside_light_level sight_penalty pzlev
        caches z = caches z := by
  unfold build_sunlight_cache sun_scan
  refine forLoop_preserves (fun st : sun_state => st.caches z = caches z) _ _ ?_ _ rfl
  intro i hi st hst
  rw [sun_level_other _ _ _ _ _ _ ?_ st, hst]
  omega

/-- Witness of C14: with z-levels disabled only the requested level 0 is written, the
level -1 keeps its cache. -/
theorem sunlight_scan_range_witness :
    build_sunlight_cache small_env false 0 10 1 0 (fun _ => blank_cache) (-1) = blank_cache :=
  sunlight_scan_range small_env false 0 10 1 0 (fun _ => blank_cache) (-1)
    (Or.inl (by decide))

/-- The two loops over the tiles store `f x y` into every tile of the map. -/
theorem fill_tiles_value {α : Type} (E : Env) (f : Int → Int → α) (g : Grid α) (i j : Nat)
    (hi : i < E.SEEX * E.MAPSIZE) (hj : j < E.SEEY * E.MAPSIZE) :
    fill_tiles E f g i j = f i j := by
  unfold fill_tiles
  refine forLoop_establishes (fun g2 : Grid α => g2 i j = f i j) _ i _ hi ?_ ?_ g
  · intro g2
    refine forLoop_establishes (fun g3 : Grid α => g3 i j = f i j) _ j _ hj ?_ ?_ g2
    · intro g3
      simp [Grid.set]
    · intro y _ hne g3 hg3
      simp only [Grid.set]
      rw [if_neg]
      · exact hg3
      · rintro ⟨-, h⟩
        exact hne (by exact_mod_cast h.symm)
  · intro x _ hne g2 hg2
    refine forLoop_preserves (fun g3 : Grid α => g3 i j = f i j) _ _ ?_ g2 hg2
    intro y _ g3 hg3
    simp only [Grid.set]
    rw [if_neg]
    · exact hg3
    · rintro ⟨h, -⟩
      exact hne (by exact_mod_cast h.symm)

/-- The flag scan leaves `fully_outside` set only if every tile of the map is open: its
transparency is at least OPEN_AIR and it has no floor. -/
theorem scan_flags_outside (E : Env) (map_cache : level_cache) (fo : Bool) (i j : Nat)
    (hi : i < E.SEEX * E.MAPSIZE) (hj : j < E.SEEY * E.MAPSIZE)
    (h : (scan_flags E map_cache fo).fully_outside = true) :
    map_cache.transparency_cache i j ≥ E.LIGHT_TRANSPARENCY_OPEN_AIR ∧
      map_cache.floor_cache i j = false := by
  revert h
  unfold scan_flags
  refine forLoop_establishes
    (fun fl : sun_flags => fl.fully_outside = true →
      map_cache.transparency_cache i j ≥ E.LIGHT_TRANSPARENCY_OPEN_AIR ∧
        map_cache.floor_cache i j = false) _ i _ hi ?_ ?_ _
  · intro fl
    refine forLoop_establishes
      (fun fl : sun_flags => fl.fully_outside = true →
        map_cache.transparency_cache i j ≥ E.LIGHT_TRANSPARENCY_OPEN_AIR ∧
          map_cache.floor_cache i j = false) _ j _ hj ?_ ?_ fl
    · intro fl1 h
      simp only [Bool.and_eq_true, decide_eq_true_eq, Bool.not_eq_true'] at h
      exact ⟨h.1.2, h.2⟩
    · intro y _ _ fl1 h1 h
      simp only [Bool.and_eq_true] at h
      exact h1 h.1.1
  · intro x _ _ fl h1
    refine forLoop_preserves
      (fun fl : sun_flags => fl.fully_outside = true →
        map_cache.transparency_cache i j ≥ E.LIGHT_TRANSPARENCY_OPEN_AIR ∧
          map_cache.floor_cache i j = false) _ _ ?_ fl h1
    intro y _ fl1 h2 h
    simp only [Bool.and_eq_true] at h
    exact h2 h.1.1

/-- The flag scan leaves `fully_inside` set only if every tile of the map is opaque or has
a floor. -/
theorem scan_flags_inside (E : Env) (map_cache : level_cache) (fo : Bool) (i j : Nat)
    (hi : i < E.SEEX * E.MAPSIZE) (hj : j < E.SEEY * E.MAPSIZE)
    (h : (scan_flags E map_cache fo).fully_inside = true) :
    map_cache.transparency_cache i j ≤ LIGHT_TRANSPARENCY_SOLID ∨
      map_cache.floor_cache i j = true := by
  revert h
  unfold scan_flags
  refine forLoop_establishes
    (fun fl : sun_flags => fl.fully_inside = true →
      map_cache.transparency_cache i j ≤ LIGHT_TRANSPARENCY_SOLID ∨
        map_cache.floor_cache i j = true) _ i _ hi ?_ ?_ _
  · intro fl
    refine forLoop_establishes
      (fun fl : sun_flags => fl.fully_inside = true →
        map_cache.transparency_cache i j ≤ LIGHT_TRANSPARENCY_SOLID ∨
          map_cache.floor_cache i j = true) _ j _ hj ?_ ?_ fl
    · intro fl1 h
      simp only [Bool.and_eq_true, Bool.or_eq_true, decide_eq_true_eq] at h
      exact h.2
    · intro y _ _ fl1 h1 h
      simp only [Bool.and_eq_true] at h
      exact h1 h.1
  · intro x _ _ fl h1
    refine forLoop_preserves
      (fun fl : sun_flags => fl.fully_inside = true →
        map_cache.transparency_cache i j ≤ LIGHT_TRANSPARENCY_SOLID ∨
          map_cache.floor_cache i j = true) _ _ ?_ fl h1
    intro y _ fl1 h2 h
    simp only [Bool.and_eq_true] at h
    exact h2 h.1

/-- The flag scan keeps `fully_outside` set on a level whose every tile is open. -/
theorem scan_flags_open (E : Env) (map_cache : level_cache)
    (hopen : ∀ i j : Nat, i < E.SEEX * E.MAPSIZE → j < E.SEEY * E.MAPSIZE →
      map_cache.transparency_cache i j ≥ E.LIGHT_TRANSPARENCY_OPEN_AIR ∧
        map_cache.floor_cache i j = false) :
    (scan_flags E map_cache true).fully_outside = true := by
  unfold scan_flags
  refine forLoop_preserves (fun fl : sun_flags => fl.fully_outside = true) _ _ ?_ _ rfl
  intro x hx fl hfl
  refine forLoop_preserves (fun fl : sun_flags => fl.fully_outside = true) _ _ ?_ fl hfl
  intro y hy fl1 hfl1
  have h := hopen x y hx hy
  simp [hfl1, h.1, h.2]

/-- After the flag scan of a map with at least one tile, whose OPEN_AIR lies above SOLID, the
two flags are not both set. -/
theorem scan_flags_exclusive (E : Env) (map_cache : level_cache) (fo : Bool)
    (hX : 0 < E.SEEX * E.MAPSIZE) (hY : 0 < E.SEEY * E.MAPSIZE)
    (hO : LIGHT_TRANSPARENCY_SOLID < E.LIGHT_TRANSPARENCY_OPEN_AIR) :
    ¬ ((scan_flags E map_cache fo).fully_outside = true ∧
      (scan_flags E map_cache fo).fully_inside = true) := by
  rintro ⟨h1, h2⟩
  have ho := scan_flags_outside E map_cache fo 0 0 hX hY h1
  have hi := scan_flags_inside E map_cache fo 0 0 hX hY h2
  rcases hi with hi | hi
  · exact absurd (lt_of_lt_of_le hO ho.1) (not_lt.mpr hi)
  · rw [ho.2] at hi
    exact Bool.noConfusion hi

/-- One more level of the scan. -/
theorem sun_scan_succ (E : Env) (zlevels : Bool) (max_populated_zlev : Int)
    (outside_light_level sight_penalty : ℚ) (pzlev : Int) (caches : Int → level_cache)
    (k : Nat) :
    sun_scan E zlevels max_populated_zlev outside_light_level sight_penalty pzlev caches (k + 1)
      = sun_level E zlevels outside_light_level sight_penalty
          (sun_zlev_max E zlevels max_populated_zlev pzlev - (k : Int))
          (sun_scan E zlevels max_populated_zlev outside_light_level sight_penalty pzlev caches
            k) := by
  unfold sun_scan
  rw [forLoop_succ]

/-- With z-levels enabled the body of the level loop never sets both flags, on a map with
at least one tile whose OPEN_AIR lies above SOLID. -/
theorem sun_level_exclusive (E : Env) (outside_light_level sight_penalty : ℚ) (zlev : Int)
    (st : sun_state) (hX : 0 < E.SEEX * E.MAPSIZE) (hY : 0 < E.SEEY * E.MAPSIZE)
    (hO : LIGHT_TRANSPARENCY_SOLID < E.LIGHT_TRANSPARENCY_OPEN_AIR)
    (h : ¬ (st.fully_outside = true ∧ st.fully_inside = true)) :
    ¬ ((sun_level E true outside_light_level sight_penalty zlev st).fully_outside = true ∧
      (sun_level E true outside_light_level sight_penalty zlev st).fully_inside = true) := by
  unfold sun_level
  simp only [Bool.not_true, Bool.false_eq_true, if_false]
  split_ifs with h1 h2
  · exact h
  · exact scan_flags_exclusive E _ _ hX hY hO
  · simp only []
    exact fun h3 => h2 h3.1

/-- With z-levels enabled the body of the level loop never sets `fully_outside` again. -/
theorem sun_level_outside_false (E : Env) (outside_light_level sight_penalty : ℚ) (zlev : Int)
    (st : sun_state) (h : st.fully_outside = false) :
    (sun_level E true outside_light_level sight_penalty zlev st).fully_outside = false := by
  unfold sun_level
  simp only [Bool.not_true, Bool.false_eq_true, if_false]
  split_ifs with h1 h2
  · exact h
  · rw [h] at h2
    exact absurd h2 Bool.false_ne_true
  · exact h

/-- With z-levels enabled and `fully_inside` set, the body of the level loop keeps the flag
and fills every tile of the level with the indoor ambient value. -/
theorem sun_level_inside_true (E : Env) (outside_light_level sight_penalty : ℚ) (zlev : Int)
    (st : sun_state) (h : st.fully_inside = true) :
    (sun_level E true outside_light_level sight_penalty zlev st).fully_inside = true ∧
      ∀ i j : Nat, i < E.SEEX * E.MAPSIZE → j < E.SEEY * E.MAPSIZE →
        ((sun_level E true outside_light_level sight_penalty zlev st).caches zlev).lm i j
          = four_quadrants.fill (inside_light_level E outside_light_level zlev) := by
  unfold sun_level
  simp only [Bool.not_true, Bool.false_eq_true, if_false, h, if_true, Function.update_same,
    true_and]
  intro i j hi hj
  exact fill_tiles_value E _ _ i j hi hj

/-- C27: in `build_sunlight_cache` with z-levels enabled, on a map with at least one tile
whose OPEN_AIR lies above SOLID, after every number `k` of processed levels the flags
`fully_outside` and `fully_inside` are not both true; once `fully_outside` is false it is
false after every later level; once `fully_inside` is true it is true after every later
level, and each of these later levels is filled with its indoor ambient value. -/
theorem sunlight_flags_monotone (E : Env) (max_populated_zlev : Int)
    (outside_light_level sight_penalty : ℚ) (pzlev : Int) (caches : Int → level_cache)
    (hX : 0 < E.SEEX * E.MAPSIZE) (hY : 0 < E.SEEY * E.MAPSIZE)
    (hO : LIGHT_TRANSPARENCY_SOLID < E.LIGHT_TRANSPARENCY_OPEN_AIR) (k : Nat) :
    ¬ ((sun_scan E true max_populated_zlev outside_light_level sight_penalty pzlev caches
          k).fully_outside = true ∧
        (sun_scan E true max_populated_zlev outside_light_level sight_penalty pzlev caches
          k).fully_inside = true) ∧
      ((sun_scan E true max_populated_zlev outside_light_level sight_penalty pzlev caches
          k).fully_outside = false →
        ∀ m, k ≤ m →
          (sun_scan E true max_populated_zlev outside_light_level sight_penalty pzlev caches
            m).fully_outside = false) ∧
      ((sun_scan E true max_populated_zlev outside_light_level sight_penalty pzlev caches
          k).fully_inside = true →
        ∀ m, k ≤ m →
          (sun_scan E true max_populated_zlev outside_light_level sight_penalty pzlev caches
            m).fully_inside = true ∧
          ∀ i j : Nat, i < E.SEEX * E.MAPSIZE → j < E.SEEY * E.MAPSIZE →
            ((sun_scan E true max_populated_zlev outside_light_level sight_penalty pzlev caches
                (m + 1)).caches (sun_zlev_max E true max_populated_zlev pzlev - (m : Int))).lm
                i j
              = four_quadrants.fill
                (inside_light_level E outside_light_level
                  (sun_zlev_max E true max_populated_zlev pzlev - (m : Int)))) := by
  refine ⟨?_, ?_, ?_⟩
  · induction k with
    | zero => simp [sun_scan, forLoop]
    | succ k ih =>
      rw [sun_scan_succ]
      exact sun_level_exclusive E _ _ _ _ hX hY hO ih
  · intro h m hm
    induction m, hm using Nat.le_induction with
    | base => exact h
    | succ m _ ih =>
      rw [sun_scan_succ]
      exact sun_level_outside_false E _ _ _ _ ih
  · intro h m hm
    have hfi : (sun_scan E true max_populated_zlev outside_light_level sight_penalty pzlev
        caches m).fully_inside = true := by
      induction m, hm using Nat.le_induction with
      | base => exact h
      | succ m _ ih =>
        rw [sun_scan_succ]
        exact (sun_level_inside_true E _ _ _ _ ih).1
    refine ⟨hfi, ?_⟩
    rw [sun_scan_succ]
    exact (sun_level_inside_true E _ _ _ _ hfi).2

/-- Witness of C27 on the small map, whose blank levels are fully open: after two levels
the flags are not both set. -/
theorem sunlight_flags_monotone_witness :
    ¬ ((sun_scan small_env true 0 10 1 0 (fun _ => blank_cache) 2).fully_outside = true ∧
      (sun_scan small_env true 0 10 1 0 (fun _ => blank_cache) 2).fully_inside = true) :=
  (sunlight_flags_monotone small_env 0 10 1 0 (fun _ => blank_cache) (by decide) (by decide)
    (by norm_num [LIGHT_TRANSPARENCY_SOLID, small_env]) 2).1

/-- The body of the level loop changes no transparency and no floor cache. -/
theorem sun_level_keeps_grids (E : Env) (zlevels : Bool) (outside_light_level sight_penalty : ℚ)
    (zlev : Int) (st : sun_state) (z : Int) :
    ((sun_level E zlevels outside_light_level sight_penalty zlev st).caches z).transparency_cache
        = (st.caches z).transparency_cache ∧
      ((sun_level E zlevels outside_light_level sight_penalty zlev st).caches z).floor_cache
        = (st.caches z).floor_cache := by
  by_cases hz : z = zlev
  · subst hz
    unfold sun_level
    simp only []
    split_ifs <;> simp only [Function.update_same, and_self]
  · rw [sun_level_other E zlevels outside_light_level sight_penalty zlev z hz st]
    exact ⟨rfl, rfl⟩

/-- The scan changes no transparency and no floor cache. -/
theorem sun_scan_keeps_grids (E : Env) (zlevels : Bool) (max_populated_zlev : Int)
    (outside_light_level sight_penalty : ℚ) (pzlev : Int) (caches : Int → level_cache)
    (k : Nat) (z : Int) :
    ((sun_scan E zlevels max_populated_zlev outside_light_level sight_penalty pzlev caches
        k).caches z).transparency_cache = (caches z).transparency_cache ∧
      ((sun_scan E zlevels max_populated_zlev outside_light_level sight_penalty pzlev caches
        k).caches z).floor_cache = (caches z).floor_cache := by
  induction k with
  | zero => exact ⟨rfl, rfl⟩
  | succ k ih =>
    rw [sun_scan_succ]
    have h := sun_level_keeps_grids E zlevels outside_light_level sight_penalty
      (sun_zlev_max E zlevels max_populated_zlev pzlev - (k : Int))
      (sun_scan E zlevels max_populated_zlev outside_light_level sight_penalty pzlev caches k) z
    exact ⟨h.1.trans ih.1, h.2.trans ih.2⟩

/-- With z-levels enabled, a level reached with the flags `fully_outside` set and
`fully_inside` clear is filled with the outdoor light, and if every tile of it is open the
flags stay as they are. -/
theorem sun_level_fast (E : Env) (outside_light_level sight_penalty : ℚ) (zlev : Int)
    (st : sun_state) (hfo : st.fully_outside = true) (hfi : st.fully_inside = false) :
    (∀ i j : Nat, i < E.SEEX * E.MAPSIZE → j < E.SEEY * E.MAPSIZE →
        ((sun_level E true outside_light_level sight_penalty zlev st).caches zlev).lm i j
          = four_quadrants.fill outside_light_level) ∧
      (0 < E.SEEX * E.MAPSIZE → 0 < E.SEEY * E.MAPSIZE →
        LIGHT_TRANSPARENCY_SOLID < E.LIGHT_TRANSPARENCY_OPEN_AIR →
        (∀ i j : Nat, i < E.SEEX * E.MAPSIZE → j < E.SEEY * E.MAPSIZE →
          (st.caches zlev).transparency_cache i j ≥ E.LIGHT_TRANSPARENCY_OPEN_AIR ∧
            (st.caches zlev).floor_cache i j = false) →
        (sun_level E true outside_light_level sight_penalty zlev st).fully_outside = true ∧
          (sun_level E true outside_light_level sight_penalty zlev st).fully_inside = false) := by
  unfold sun_level
  simp only [Bool.not_true, Bool.false_eq_true, if_false, hfi, hfo, if_true,
    Function.update_same]
  refine ⟨fun i j hi hj => fill_tiles_value E _ _ i j hi hj, fun hX hY hO hopen => ?_⟩
  have h1 := scan_flags_open E (st.caches zlev) hopen
  refine ⟨h1, ?_⟩
  cases h2 : (scan_flags E (st.caches zlev) true).fully_inside
  · rfl
  · exact absurd ⟨h1, h2⟩ (scan_flags_exclusive E (st.caches zlev) true hX hY hO)

/-- C11: with z-levels enabled and OPEN_AIR above SOLID, for every level of the top-down
scan, the `k`-th from the top, such that every scanned level above it is fully open (every
tile has a transparency of at least OPEN_AIR and no floor), `build_sunlight_cache` leaves
every quadrant of every tile of that level equal to the outdoor ambient light value. -/
theorem sunlight_fully_outside_fill (E : Env) (max_populated_zlev : Int)
    (outside_light_level sight_penalty : ℚ) (pzlev : Int) (caches : Int → level_cache)
    (hO : LIGHT_TRANSPARENCY_SOLID < E.LIGHT_TRANSPARENCY_OPEN_AIR) (k : Nat)
    (hk : (k : Int) < sun_zlev_max E true max_populated_zlev pzlev + 1
      - sun_zlev_min E true pzlev)
    (hopen : ∀ m : Nat, m < k → ∀ i j : Nat, i < E.SEEX * E.MAPSIZE → j < E.SEEY * E.MAPSIZE →
      (caches (sun_zlev_max E true max_populated_zlev pzlev - (m : Int))).transparency_cache i j
          ≥ E.LIGHT_TRANSPARENCY_OPEN_AIR ∧
        (caches (sun_zlev_max E true max_populated_zlev pzlev - (m : Int))).floor_cache i j
          = false)
    (i j : Nat) (hi : i < E.SEEX * E.MAPSIZE) (hj : j < E.SEEY * E.MAPSIZE) :
    (build_sunlight_cache E true max_populated_zlev outside_light_level sight_penalty pzlev
        caches (sun_zlev_max E true max_populated_zlev pzlev - (k : Int))).lm i j
      = four_quadrants.fill outside_light_level := by
  have hX : 0 < E.SEEX * E.MAPSIZE := by omega
  have hY : 0 < E.SEEY * E.MAPSIZE := by omega
  have hflags : ∀ n : Nat, n ≤ k →
      (sun_scan E true max_populated_zlev outside_light_level sight_penalty pzlev caches
          n).fully_outside = true ∧
        (sun_scan E true max_populated_zlev outside_light_level sight_penalty pzlev caches
          n).fully_inside = false := by
    intro n
    induction n with
    | zero => exact fun _ => ⟨rfl, rfl⟩
    | succ n ih =>
      intro hn
      have ihn := ih (by omega)
      rw [sun_scan_succ]
      refine (sun_level_fast E _ _ _ _ ihn.1 ihn.2).2 hX hY hO ?_
      intro a b ha hb
      have hg := sun_scan_keeps_grids E true max_populated_zlev outside_light_level
        sight_penalty pzlev caches n
        (sun_zlev_max E true max_populated_zlev pzlev - (n : Int))
      rw [hg.1, hg.2]
      exact hopen n (by omega) a b ha hb
  have hfill : (sun_scan E true max_populated_zlev outside_light_level sight_penalty pzlev
      caches (k + 1)).caches (sun_zlev_max E true max_populated_zlev pzlev - (k : Int)) =
      (sun_level E true outside_light_level sight_penalty
        (sun_zlev_max E true max_populated_zlev pzlev - (k : Int))
        (sun_scan E true max_populated_zlev outside_light_level sight_penalty pzlev caches
          k)).caches (sun_zlev_max E true max_populated_zlev pzlev - (k : Int)) := by
    rw [sun_scan_succ]
  have hlater : ∀ n : Nat, k + 1 ≤ n →
      (sun_scan E true max_populated_zlev outside_light_level sight_penalty pzlev caches
          n).caches (sun_zlev_max E true max_populated_zlev pzlev - (k : Int))
        = (sun_scan E true max_populated_zlev outside_light_level sight_penalty pzlev caches
          (k + 1)).caches (sun_zlev_max E true max_populated_zlev pzlev - (k : Int)) := by
    intro n hn
    induction n, hn using Nat.le_induction with
    | base => rfl
    | succ n hn ih =>
      rw [sun_scan_succ, sun_level_other _ _ _ _ _ _ ?_ _, ih]
      omega
  unfold build_sunlight_cache
  rw [hlater _ (by omega), hfill]
  exact (sun_level_fast E _ _ _ _ (hflags k (le_refl k)).1 (hflags k (le_refl k)).2).1 i j hi hj

/-- Witness of C11 on the small map with three blank, fully open levels: the level below
the top level is uniformly at the outdoor light 10. -/
theorem sunlight_fully_outside_fill_witness :
    (build_sunlight_cache small_env true 0 10 1 0 (fun _ => blank_cache) 0).lm 3 3
      = four_quadrants.fill 10 :=
  sunlight_fully_outside_fill small_env 0 10 1 0 (fun _ => blank_cache)
    (by norm_num [LIGHT_TRANSPARENCY_SOLID, small_env]) 1 (by decide)
    (fun _ _ _ _ _ _ => ⟨le_refl _, rfl⟩) 3 3 (by decide) (by decide)

/-- The loop over the five samples of a tile that starts from the indoor fill computes the
per-tile rule of the spec. -/
theorem sun_tile_fold_spec (E : Env) (prev_map_cache : level_cache) (outside_here : Bool)
    (sight_penalty inside_level : ℚ) (x y : Int) (b : Bool) :
    ((List.range 5).foldl
        (sun_tile_step E prev_map_cache outside_here sight_penalty inside_level x y)
        { quads := four_quadrants.fill inside_level, fully_inside := b, done := false }).quads
      = spec_sun_tile
          (sun_sample E prev_map_cache outside_here sight_penalty inside_level x y)
          (sun_sample E prev_map_cache outside_here sight_penalty inside_level x (y + -1))
          (sun_sample E prev_map_cache outside_here sight_penalty inside_level (x + -1) y)
          (sun_sample E prev_map_cache outside_here sight_penalty inside_level (x + 1) y)
          (sun_sample E prev_map_cache outside_here sight_penalty inside_level x (y + 1))
          inside_level := by
  have hr : List.range 5 = [0, 1, 2, 3, 4] := by decide
  rw [hr]
  simp only [List.foldl, sun_tile_step, sun_cardinals, sun_dir_quadrants, point_north,
    point_west, point_east, point_south, add_zero]
  generalize sun_sample E prev_map_cache outside_here sight_penalty inside_level x y = c
  generalize sun_sample E prev_map_cache outside_here sight_penalty inside_level x (y + -1) = n
  generalize sun_sample E prev_map_cache outside_here sight_penalty inside_level (x + -1) y = w
  generalize sun_sample E prev_map_cache outside_here sight_penalty inside_level (x + 1) y = e
  generalize sun_sample E prev_map_cache outside_here sight_penalty inside_level x (y + 1) = s
  cases c <;> cases n <;> cases w <;> cases e <;> cases s <;>
    simp [spec_sun_tile, four_quadrants.put, four_quadrants.fill]

/-- The slow path leaves in every tile of the map the value of the per-tile rule. -/
theorem sun_slow_path_tile (E : Env) (prev_map_cache map_cache : level_cache)
    (sight_penalty inside_level : ℚ) (i j : Nat) (hi : i < E.SEEX * E.MAPSIZE)
    (hj : j < E.SEEY * E.MAPSIZE) :
    (sun_slow_path E prev_map_cache map_cache sight_penalty inside_level).1 i j
      = spec_sun_tile
          (sun_sample E prev_map_cache (map_cache.outside_cache i j) sight_penalty inside_level
            i j)
          (sun_sample E prev_map_cache (map_cache.outside_cache i j) sight_penalty inside_level
            i ((j : Int) + -1))
          (sun_sample E prev_map_cache (map_cache.outside_cache i j) sight_penalty inside_level
            ((i : Int) + -1) j)
          (sun_sample E prev_map_cache (map_cache.outside_cache i j) sight_penalty inside_level
            ((i : Int) + 1) j)
          (sun_sample E prev_map_cache (map_cache.outside_cache i j) sight_penalty inside_level
            i ((j : Int) + 1))
          inside_level := by
  unfold sun_slow_path
  refine forLoop_switch
    (fun st : Grid four_quadrants × Bool => st.1 i j = four_quadrants.fill inside_level)
    (fun st : Grid four_quadrants × Bool => st.1 i j = _) _ i _ hi ?_ ?_ ?_ _ ?_
  · intro x _ hne st hst
    refine forLoop_preserves
      (fun st : Grid four_quadrants × Bool => st.1 i j = four_quadrants.fill inside_level)
      _ _ ?_ st hst
    intro y _ st1 hst1
    simp only [Grid.set]
    rw [if_neg]
    · exact hst1
    · rintro ⟨h, -⟩
      exact hne (by exact_mod_cast h.symm)
  · intro st hst
    refine forLoop_switch
      (fun st : Grid four_quadrants × Bool => st.1 i j = four_quadrants.fill inside_level)
      (fun st : Grid four_quadrants × Bool => st.1 i j = _) _ j _ hj ?_ ?_ ?_ st hst
    · intro y _ hne st1 hst1
      simp only [Grid.set]
      rw [if_neg]
      · exact hst1
      · rintro ⟨-, h⟩
        exact hne (by exact_mod_cast h.symm)
    · intro st1 hst1
      simp only [Grid.set, and_self, if_true]
      rw [hst1]
      exact sun_tile_fold_spec E prev_map_cache _ sight_penalty inside_level i j st1.2
    · intro y _ hne st1 hst1
      simp only [Grid.set]
      rw [if_neg]
      · exact hst1
      · rintro ⟨-, h⟩
        exact hne (by exact_mod_cast h.symm)
  · intro x _ hne st hst
    refine forLoop_preserves (fun st : Grid four_quadrants × Bool => st.1 i j = _) _ _ ?_ st hst
    intro y _ st1 hst1
    simp only [Grid.set]
    rw [if_neg]
    · exact hst1
    · rintro ⟨h, -⟩
      exact hne (by exact_mod_cast h.symm)
  · exact fill_tiles_value E (fun _ _ => four_quadrants.fill inside_level) map_cache.lm i j
      hi hj

/-- C12: on a level processed by the per-tile path (z-levels enabled, both flags clear),
call a sample usable when `sun_sample` yields its clamped light value: it is in bounds, has
no floor, a transparency above SOLID (after the division by the sight penalty when the tile
is outside) and a positive maximum light.  Every tile of the level then holds the value of
the per-tile rule: the centre value in all four quadrants if the centre sample is usable,
otherwise in each quadrant the value of the last usable one of its two facing neighbours in
the order north, west, east, south, or the indoor ambient value. -/
theorem sunlight_slow_path_tile_rule (E : Env) (outside_light_level sight_penalty : ℚ)
    (zlev : Int) (st : sun_state) (hfo : st.fully_outside = false)
    (hfi : st.fully_inside = false) (i j : Nat) (hi : i < E.SEEX * E.MAPSIZE)
    (hj : j < E.SEEY * E.MAPSIZE) :
    ((sun_level E true outside_light_level sight_penalty zlev st).caches zlev).lm i j
      = spec_sun_tile
          (sun_sample E (st.caches (zlev + 1)) ((st.caches zlev).outside_cache i j)
            sight_penalty (inside_light_level E outside_light_level zlev) i j)
          (sun_sample E (st.caches (zlev + 1)) ((st.caches zlev).outside_cache i j)
            sight_penalty (inside_light_level E outside_light_level zlev) i ((j : Int) + -1))
          (sun_sample E (st.caches (zlev + 1)) ((st.caches zlev).outside_cache i j)
            sight_penalty (inside_light_level E outside_light_level zlev) ((i : Int) + -1) j)
          (sun_sample E (st.caches (zlev + 1)) ((st.caches zlev).outside_cache i j)
            sight_penalty (inside_light_level E outside_light_level zlev) ((i : Int) + 1) j)
          (sun_sample E (st.caches (zlev + 1)) ((st.caches zlev).outside_cache i j)
            sight_penalty (inside_light_level E outside_light_level zlev) i ((j : Int) + 1))
          (inside_light_level E outside_light_level zlev) := by
  unfold sun_level
  simp only [Bool.not_true, Bool.false_eq_true, if_false, hfi, hfo, Function.update_same]
  exact sun_slow_path_tile E _ _ sight_penalty _ i j hi hj

/-- Witness of C12 on the small map by day: the tile `(2, 2)` of the level 0 lies under a
floor, as do its eastern and southern neighbours, so NE and NW take the northern light 20,
SW the western light 20, and SE the indoor value 4. -/
theorem sunlight_slow_path_tile_rule_witness :
    ((sun_level small_env true 20 1 0 slow_state).caches 0).lm 2 2
      = { NE := 20, SE := 4, SW := 20, NW := 20 } :=
  (sunlight_slow_path_tile_rule small_env 20 1 0 slow_state rfl rfl 2 2 (by decide)
    (by decide)).trans (by decide!)

/-! ### Mirrors must be seen to be used (C22) -/

/-- The first loop over the parts ignores the parts it skips. -/
theorem select_mirror_filter (E : Env) (seen_cache : Grid ℚ) (origin : Int × Int × Int)
    (veh : seen_vehicle) (l : List Int) (s : List Int × Int) :
    l.foldl (select_mirror E seen_cache origin veh) s
      = (l.filter (fun p => ! unseen_mirror seen_cache veh p)).foldl
          (select_mirror E seen_cache origin veh) s := by
  induction l generalizing s with
  | nil => rfl
  | cons p l ih =>
    cases hp : unseen_mirror seen_cache veh p
    · rw [List.filter_cons_of_pos (by simp [hp]), List.foldl_cons, List.foldl_cons, ih]
    · rw [List.filter_cons_of_neg (by simp [hp]), List.foldl_cons, ih]
      simp [select_mirror, hp]

/-- C22: in `build_seen_cache` a vision extending part that is no camera and whose seen
cache value after the primary cast is below `SOLID + 0.1` casts nothing into the camera
cache: the cache is the one built without these parts; and when the observer is in no
vehicle, or every vision extending part is such a part, every tile of the camera cache
holds the unseen value SOLID after the build. -/
theorem unseen_mirrors_cast_nothing (E : Env) (sight_calc acc : ℚ → ℚ → Int → ℚ)
    (numerator : ℚ) (seen_cache transparency_cache : Grid ℚ)
    (blocked_cache : Grid diagonal_blocks) (camera_cache : Grid ℚ)
    (origin : Int × Int × Int) (veh : seen_vehicle) :
    build_seen_cache_cameras E sight_calc acc numerator seen_cache transparency_cache
        blocked_cache camera_cache origin (some veh)
      = build_seen_cache_cameras E sight_calc acc numerator seen_cache transparency_cache
          blocked_cache camera_cache origin
          (some { veh with
            avail_parts := veh.avail_parts.filter (fun p => ! unseen_mirror seen_cache veh p) }) ∧
      ∀ vp : Option seen_vehicle,
        (vp = none ∨
          ∃ v, vp = some v ∧ ∀ p ∈ v.avail_parts, unseen_mirror seen_cache v p = true) →
        ∀ i j : Nat, i < E.SEEX * E.MAPSIZE → j < E.SEEY * E.MAPSIZE →
          build_seen_cache_cameras E sight_calc acc numerator seen_cache transparency_cache
              blocked_cache camera_cache origin vp i j = LIGHT_TRANSPARENCY_SOLID := by
  constructor
  · unfold build_seen_cache_cameras
    simp only []
    have h1 := select_mirror_filter E seen_cache origin veh veh.avail_parts ([], -1)
    have h2 : ∀ (l : List Int) (s : List Int × Int),
        l.foldl (select_mirror E seen_cache origin veh) s
          = l.foldl (select_mirror E seen_cache origin
              { veh with
                avail_parts :=
                  veh.avail_parts.filter (fun p => ! unseen_mirror seen_cache veh p) }) s := by
      intro l s
      rfl
    have h3 : ∀ (c : Int) (l : List Int) (g : Grid ℚ),
        l.foldl (cast_mirror E sight_calc acc numerator transparency_cache blocked_cache origin
            veh c) g
          = l.foldl (cast_mirror E sight_calc acc numerator transparency_cache blocked_cache
              origin
              { veh with
                avail_parts :=
                  veh.avail_parts.filter (fun p => ! unseen_mirror seen_cache veh p) } c) g := by
      intro c l g
      rfl
    rw [h1, h2, h3]
  · intro vp hvp i j hi hj
    rcases hvp with rfl | ⟨v, rfl, hall⟩
    · exact fill_tiles_value E (fun _ _ => LIGHT_TRANSPARENCY_SOLID) camera_cache i j hi hj
    · unfold build_seen_cache_cameras
      simp only []
      rw [select_mirror_filter]
      have hnil : v.avail_parts.filter (fun p => ! unseen_mirror seen_cache v p) = [] := by
        rw [List.filter_eq_nil_iff]
        intro p hp
        simp [hall p hp]
      rw [hnil]
      exact fill_tiles_value E (fun _ _ => LIGHT_TRANSPARENCY_SOLID) camera_cache i j hi hj

/-- Witness of C22 on the small map: the only vision extending part is a mirror on a tile
the primary cast left unseen, and the camera cache is SOLID on the tile `(3, 3)`. -/
theorem unseen_mirrors_cast_nothing_witness :
    build_seen_cache_cameras small_env (fun n _ _ => n) (fun c _ _ => c) 1 (fun _ _ => 0)
        open_grid no_blocks (fun _ _ => 1) (2, 2, 0) (some mirror_car) 3 3
      = LIGHT_TRANSPARENCY_SOLID :=
  (unseen_mirrors_cast_nothing small_env (fun n _ _ => n) (fun c _ _ => c) 1 (fun _ _ => 0)
    open_grid no_blocks (fun _ _ => 1) (2, 2, 0) mirror_car).2 (some mirror_car)
    (Or.inr ⟨mirror_car, rfl, by decide!⟩) 3 3 (by decide) (by decide)

/-! ### The 3D caster: termination and floors (C21, C29) -/

/-- The casts into the next row succeed and respect a reflexive and transitive relation on
the output caches when every recursive call into the next row does. -/
theorem zSplit_spec (C : ZCast) (Rel : (Int → Grid ℚ) → (Int → Grid ℚ) → Prop)
    (htrans : ∀ g1 g2 g3, Rel g1 g2 → Rel g2 g3 → Rel g1 g3) (recur : ZRecur)
    (end_minor cum : ℚ) (distance dz dx : Int) (start_major start_minor ct : ℚ)
    (hnext : ∀ a b c d e o, ∃ o2, recur (distance + 1) a b c d e o = some o2 ∧ Rel o o2)
    (out : Int → Grid ℚ) :
    ∃ o2, zSplit C recur end_minor cum distance dz dx start_major start_minor ct out = some o2 ∧
      Rel out o2 := by
  unfold zSplit
  dsimp only
  cases hm : decide (end_minor ≤ trailingEdge dx distance)
  · simp only [Bool.false_eq_true, if_false, Bool.not_false, if_true]
    obtain ⟨o1, h1, r1⟩ := hnext start_major
      (Max.max (trailing_edge_major dz distance) start_major)
      start_minor end_minor (C.accumulate cum ct distance) out
    rw [h1]
    dsimp only
    obtain ⟨o2, h2, r2⟩ := hnext (Max.max (trailing_edge_major dz distance) start_major)
      (leading_edge_major dz distance) start_minor (trailingEdge dx distance)
      (C.accumulate cum ct distance) o1
    exact ⟨o2, h2, htrans _ _ _ r1 r2⟩
  · simp only [if_true, Bool.not_true, Bool.false_eq_true, if_false]
    obtain ⟨o1, h1, r1⟩ := hnext start_major (leading_edge_major dz distance)
      start_minor end_minor (C.accumulate cum ct distance) out
    rw [h1]
    exact ⟨o1, rfl, r1⟩

/-- One iteration of the loop over `delta.x` succeeds, respects a reflexive and transitive
relation on the output caches and never lowers `start_major`, when the recursive calls into
the next row and into the same row past the current level succeed and respect the
relation, and a write into a tile without floor block respects it. -/
theorem zCell_spec (C : ZCast) (Rel : (Int → Grid ℚ) → (Int → Grid ℚ) → Prop)
    (hrefl : ∀ g, Rel g g) (htrans : ∀ g1 g2 g3, Rel g1 g2 → Rel g2 g3 → Rel g1 g3)
    (recur : ZRecur) (end_major end_minor cum : ℚ) (distance dz dx : Int) (smLow : ℚ)
    (hnext : ∀ a b c d e o, ∃ o2, recur (distance + 1) a b c d e o = some o2 ∧ Rel o o2)
    (hsame : ∀ c d e o, ∃ o2,
      recur distance (after_leading_edge_major dz distance) end_major c d e o = some o2 ∧
        Rel o o2)
    (hupd : ∀ (o : Int → Grid ℚ) (cz cx cy : Int) (v : ℚ),
      C.floor_block cz (cz + C.E.OVERMAP_DEPTH) cx cy = false →
      Rel o (zWrite o (cz + C.E.OVERMAP_DEPTH) cx cy v))
    (s : ZState) :
    ∃ st, zCell C recur end_major end_minor cum distance dz dx s = some st ∧
      Rel s.out st.state.out ∧ (smLow ≤ s.start_major → smLow ≤ st.state.start_major) := by
  unfold zCell
  dsimp only
  by_cases h1 : ¬ (C.offset.1 + dx * C.xx + distance * C.xy + dz * C.xz ≥ 0 ∧
      C.offset.2.1 + dx * C.yx + distance * C.yy + dz * C.yz ≥ 0 ∧
      C.offset.1 + dx * C.xx + distance * C.xy + dz * C.xz < C.E.MAPSIZE_X ∧
      C.offset.2.1 + dx * C.yx + distance * C.yy + dz * C.yz < C.E.MAPSIZE_Y) ∨
      s.start_minor > leadingEdge dx distance
  · rw [if_pos h1]
    exact ⟨_, rfl, hrefl _, id⟩
  · rw [if_neg h1]
    by_cases h2 : end_minor < trailingEdge dx distance
    · rw [if_pos h2]
      exact ⟨_, rfl, hrefl _, id⟩
    · rw [if_neg h2]
      have hout1 : Rel s.out
          (if C.floor_block (C.offset.2.2 + dz * C.zz)
              (C.offset.2.2 + dz * C.zz + C.E.OVERMAP_DEPTH)
              (C.offset.1 + dx * C.xx + distance * C.xy + dz * C.xz)
              (C.offset.2.1 + dx * C.yx + distance * C.yy + dz * C.yz) = true then s.out
            else zWrite s.out (C.offset.2.2 + dz * C.zz + C.E.OVERMAP_DEPTH)
              (C.offset.1 + dx * C.xx + distance * C.xy + dz * C.xz)
              (C.offset.2.1 + dx * C.yx + distance * C.yy + dz * C.yz)
              (C.calc_ C.numerator cum
                (C.E.rl_dist (0, 0, 0) (dx, distance, dz) + C.offset_distance))) := by
        split_ifs with hfb
        · exact hrefl _
        · exact hupd _ _ _ _ _ (by simpa using hfb)
      generalize (if C.floor_block (C.offset.2.2 + dz * C.zz)
              (C.offset.2.2 + dz * C.zz + C.E.OVERMAP_DEPTH)
              (C.offset.1 + dx * C.xx + distance * C.xy + dz * C.xz)
              (C.offset.2.1 + dx * C.yx + distance * C.yy + dz * C.yz) = true then s.out
            else zWrite s.out (C.offset.2.2 + dz * C.zz + C.E.OVERMAP_DEPTH)
              (C.offset.1 + dx * C.xx + distance * C.xy + dz * C.xz)
              (C.offset.2.1 + dx * C.yx + distance * C.yy + dz * C.yz)
              (C.calc_ C.numerator cum
                (C.E.rl_dist (0, 0, 0) (dx, distance, dz) + C.offset_distance))) = out1
        at hout1 ⊢
      generalize C.calc_ C.numerator cum
        (C.E.rl_dist (0, 0, 0) (dx, distance, dz) + C.offset_distance) = li
      generalize (if C.floor_block (C.offset.2.2 + dz * C.zz)
              (C.offset.2.2 + dz * C.zz + C.E.OVERMAP_DEPTH)
              (C.offset.1 + dx * C.xx + distance * C.xy + dz * C.xz)
              (C.offset.2.1 + dx * C.yx + distance * C.yy + dz * C.yz) = true then
            LIGHT_TRANSPARENCY_SOLID
          else C.input_arrays (C.offset.2.2 + dz * C.zz + C.E.OVERMAP_DEPTH)
            (C.offset.1 + dx * C.xx + distance * C.xy + dz * C.xz)
            (C.offset.2.1 + dx * C.yx + distance * C.yy + dz * C.yz)) = nt
      generalize (if s.started_block = true then s.current_transparency else nt) = ct
      by_cases h3 : zlight_check_blocked C.E (zlight_quad C.xx C.xy C.yx C.yy) C.blocked_caches
          (C.offset.1 + dx * C.xx + distance * C.xy + dz * C.xz,
            C.offset.2.1 + dx * C.yx + distance * C.yy + dz * C.yz,
            C.offset.2.2 + dz * C.zz) = true
      · rw [if_pos h3]
        exact ⟨_, rfl, hrefl _, id⟩
      · rw [if_neg h3]
        by_cases h4 : nt = ct
        · rw [if_pos h4]
          exact ⟨_, rfl, hout1, id⟩
        · rw [if_neg h4]
          cases hchk : C.check ct li
          · simp only [Bool.false_eq_true, if_false, Bool.not_false, if_true]
            obtain ⟨o3, e3, r3⟩ := hsame s.start_minor
              (if s.started_span = true then s.new_start_minor else leadingEdge dx distance)
              cum out1
            rw [e3]
            exact ⟨_, rfl, htrans _ _ _ hout1 r3, id⟩
          · simp only [if_true, Bool.not_true, Bool.false_eq_true, if_false]
            obtain ⟨o2, e2, r2⟩ := zSplit_spec C Rel htrans recur end_minor cum distance dz dx
              s.start_major s.start_minor ct hnext out1
            rw [e2]
            dsimp only
            obtain ⟨o3, e3, r3⟩ := hsame s.start_minor
              (Max.max s.start_minor (trailingEdge dx distance)) cum o2
            rw [e3]
            exact ⟨_, rfl, htrans _ _ _ hout1 (htrans _ _ _ r2 r3),
              fun h => le_trans h (le_max_left _ _)⟩

/-- The loop over `delta.x` succeeds, respects the relation and never lowers `start_major`,
see `zCell_spec`. -/
theorem zScan_spec (C : ZCast) (Rel : (Int → Grid ℚ) → (Int → Grid ℚ) → Prop)
    (hrefl : ∀ g, Rel g g) (htrans : ∀ g1 g2 g3, Rel g1 g2 → Rel g2 g3 → Rel g1 g3)
    (recur : ZRecur) (end_major end_minor cum : ℚ) (distance dz : Int) (smLow : ℚ)
    (hnext : ∀ a b c d e o, ∃ o2, recur (distance + 1) a b c d e o = some o2 ∧ Rel o o2)
    (hsame : ∀ c d e o, ∃ o2,
      recur distance (after_leading_edge_major dz distance) end_major c d e o = some o2 ∧
        Rel o o2)
    (hupd : ∀ (o : Int → Grid ℚ) (cz cx cy : Int) (v : ℚ),
      C.floor_block cz (cz + C.E.OVERMAP_DEPTH) cx cy = false →
      Rel o (zWrite o (cz + C.E.OVERMAP_DEPTH) cx cy v))
    (n : Nat) (dx : Int) (s : ZState) :
    ∃ s2, zScan C recur end_major end_minor cum distance dz n dx s = some s2 ∧
      Rel s.out s2.out ∧ (smLow ≤ s.start_major → smLow ≤ s2.start_major) := by
  induction n generalizing dx s with
  | zero => exact ⟨s, rfl, hrefl _, id⟩
  | succ n ih =>
    obtain ⟨st, e1, r1, m1⟩ := zCell_spec C Rel hrefl htrans recur end_major end_minor cum
      distance dz dx smLow hnext hsame hupd s
    unfold zScan
    rw [e1]
    cases st with
    | cont s1 =>
      obtain ⟨s2, e2, r2, m2⟩ := ih (dx + 1) s1
      exact ⟨s2, e2, htrans _ _ _ r1 r2, fun h => m2 (m1 h)⟩
    | brk s1 => exact ⟨s1, rfl, r1, m1⟩

/-- One iteration of the loop over `delta.z` succeeds, respects the relation and keeps
`start_major` at or above a bound, when the recursive call into the same row is known to
succeed for the levels whose leading edge is at or above the bound. -/
theorem zLevel_spec (C : ZCast) (Rel : (Int → Grid ℚ) → (Int → Grid ℚ) → Prop)
    (hrefl : ∀ g, Rel g g) (htrans : ∀ g1 g2 g3, Rel g1 g2 → Rel g2 g3 → Rel g1 g3)
    (recur : ZRecur) (end_major end_minor cum : ℚ) (distance dz : Int) (smLow : ℚ)
    (hnext : ∀ a b c d e o, ∃ o2, recur (distance + 1) a b c d e o = some o2 ∧ Rel o o2)
    (hsame : smLow ≤ leading_edge_major dz distance → ∀ c d e o, ∃ o2,
      recur distance (after_leading_edge_major dz distance) end_major c d e o = some o2 ∧
        Rel o o2)
    (hupd : ∀ (o : Int → Grid ℚ) (cz cx cy : Int) (v : ℚ),
      C.floor_block cz (cz + C.E.OVERMAP_DEPTH) cx cy = false →
      Rel o (zWrite o (cz + C.E.OVERMAP_DEPTH) cx cy v))
    (s : ZState) (hs : smLow ≤ s.start_major) :
    ∃ st, zLevel C recur end_major end_minor cum distance dz s = some st ∧
      Rel s.out st.state.out ∧ smLow ≤ st.state.start_major := by
  unfold zLevel
  dsimp only
  split_ifs with h1 h2 h3
  · exact ⟨_, rfl, hrefl _, hs⟩
  · exact ⟨_, rfl, hrefl _, hs⟩
  · exact ⟨_, rfl, hrefl _, hs⟩
  · have hle : smLow ≤ leading_edge_major dz distance := le_trans hs (not_lt.mp h2)
    obtain ⟨s1, e1, r1, m1⟩ := zScan_spec C Rel hrefl htrans recur end_major end_minor cum
      distance dz smLow hnext (hsame hle) hupd (distance + 1).toNat 0
      { s with started_span := false, vehicle_blocked := false }
    rw [e1]
    dsimp only
    split_ifs
    · exact ⟨_, rfl, r1, hle⟩
    · exact ⟨_, rfl, r1, m1 hs⟩

/-- The loop over `delta.z` succeeds, respects the relation and keeps `start_major` at or
above a bound, see `zLevel_spec`. -/
theorem zLevels_spec (C : ZCast) (Rel : (Int → Grid ℚ) → (Int → Grid ℚ) → Prop)
    (hrefl : ∀ g, Rel g g) (htrans : ∀ g1 g2 g3, Rel g1 g2 → Rel g2 g3 → Rel g1 g3)
    (recur : ZRecur) (end_major end_minor cum : ℚ) (distance : Int) (smLow : ℚ)
    (hnext : ∀ a b c d e o, ∃ o2, recur (distance + 1) a b c d e o = some o2 ∧ Rel o o2)
    (hupd : ∀ (o : Int → Grid ℚ) (cz cx cy : Int) (v : ℚ),
      C.floor_block cz (cz + C.E.OVERMAP_DEPTH) cx cy = false →
      Rel o (zWrite o (cz + C.E.OVERMAP_DEPTH) cx cy v))
    (n : Nat) (dz : Int)
    (hsame : ∀ dz2 : Int, dz ≤ dz2 → dz2 < dz + n → smLow ≤ leading_edge_major dz2 distance →
      ∀ c d e o, ∃ o2,
        recur distance (after_leading_edge_major dz2 distance) end_major c d e o = some o2 ∧
          Rel o o2)
    (s : ZState) (hs : smLow ≤ s.start_major) :
    ∃ s2, zLevels C recur end_major end_minor cum distance n dz s = some s2 ∧
      Rel s.out s2.out := by
  induction n generalizing dz s with
  | zero => exact ⟨s, rfl, hrefl _⟩
  | succ n ih =>
    obtain ⟨st, e1, r1, m1⟩ := zLevel_spec C Rel hrefl htrans recur end_major end_minor cum
      distance dz smLow hnext (hsame dz (le_refl _) (by push_cast; omega)) hupd s hs
    unfold zLevels
    rw [e1]
    cases st with
    | cont s1 =>
      obtain ⟨s2, e2, r2⟩ := ih (dz + 1)
        (fun dz2 h1 h2 => hsame dz2 (by omega) (by push_cast; omega)) s1 m1
      exact ⟨s2, e2, htrans _ _ _ r1 r2⟩
    | brk s1 => exact ⟨s1, rfl, r1⟩

/-- The loop over the rows succeeds and respects the relation when every recursive call
into the current or a later row does. -/
theorem zRows_later (C : ZCast) (Rel : (Int → Grid ℚ) → (Int → Grid ℚ) → Prop)
    (hrefl : ∀ g, Rel g g) (htrans : ∀ g1 g2 g3, Rel g1 g2 → Rel g2 g3 → Rel g1 g3)
    (recur : ZRecur) (end_major end_minor : ℚ)
    (hupd : ∀ (o : Int → Grid ℚ) (cz cx cy : Int) (v : ℚ),
      C.floor_block cz (cz + C.E.OVERMAP_DEPTH) cx cy = false →
      Rel o (zWrite o (cz + C.E.OVERMAP_DEPTH) cx cy v))
    (n : Nat) (distance : Int) (cum : ℚ)
    (hall : ∀ r : Int, distance ≤ r → ∀ a b c d e o, ∃ o2,
      recur r a b c d e o = some o2 ∧ Rel o o2)
    (s : ZState) :
    ∃ o2, zRows C recur end_major end_minor n distance cum s = some o2 ∧ Rel s.out o2 := by
  induction n generalizing distance cum s with
  | zero => exact ⟨s.out, rfl, hrefl _⟩
  | succ n ih =>
    obtain ⟨s1, e1, r1⟩ := zLevels_spec C Rel hrefl htrans recur end_major end_minor cum
      distance s.start_major (hall (distance + 1) (by omega)) hupd
      (Min.min C.fov_3d_z_range distance + 1).toNat 0
      (fun dz2 _ _ _ => hall distance (le_refl _) _ _)
      { s with started_block := false, current_transparency := 0 } (le_refl _)
    unfold zRows
    rw [e1]
    dsimp only
    split_ifs
    · exact ⟨_, rfl, r1⟩
    · exact ⟨_, rfl, r1⟩
    · obtain ⟨o2, e2, r2⟩ := ih (distance + 1)
        (C.accumulate cum s1.current_transparency distance)
        (fun r hr => hall r (by omega)) s1
      exact ⟨o2, e2, htrans _ _ _ r1 r2⟩

/-- The loop over the rows succeeds and respects the relation when every recursive call
into a later row does, and so does every recursive call into the first row past a level
of the range whose leading edge is at or above a lower bound of `start_major`. -/
theorem zRows_first (C : ZCast) (Rel : (Int → Grid ℚ) → (Int → Grid ℚ) → Prop)
    (hrefl : ∀ g, Rel g g) (htrans : ∀ g1 g2 g3, Rel g1 g2 → Rel g2 g3 → Rel g1 g3)
    (recur : ZRecur) (end_major end_minor : ℚ)
    (hupd : ∀ (o : Int → Grid ℚ) (cz cx cy : Int) (v : ℚ),
      C.floor_block cz (cz + C.E.OVERMAP_DEPTH) cx cy = false →
      Rel o (zWrite o (cz + C.E.OVERMAP_DEPTH) cx cy v))
    (n : Nat) (distance : Int) (cum smLow : ℚ)
    (hlater : ∀ r : Int, distance < r → ∀ a b c d e o, ∃ o2,
      recur r a b c d e o = some o2 ∧ Rel o o2)
    (hsame : ∀ dz2 : Int, 0 ≤ dz2 → dz2 ≤ C.fov_3d_z_range →
      smLow ≤ leading_edge_major dz2 distance → ∀ c d e o, ∃ o2,
        recur distance (after_leading_edge_major dz2 distance) end_major c d e o = some o2 ∧
          Rel o o2)
    (s : ZState) (hs : smLow ≤ s.start_major) :
    ∃ o2, zRows C recur end_major end_minor n distance cum s = some o2 ∧ Rel s.out o2 := by
  cases n with
  | zero => exact ⟨s.out, rfl, hrefl _⟩
  | succ n =>
    obtain ⟨s1, e1, r1⟩ := zLevels_spec C Rel hrefl htrans recur end_major end_minor cum
      distance smLow (hlater (distance + 1) (by omega)) hupd
      (Min.min C.fov_3d_z_range distance + 1).toNat 0
      (fun dz2 h1 h2 h3 => hsame dz2 h1 (by
        have := min_le_left C.fov_3d_z_range distance
        omega) h3)
      { s with started_block := false, current_transparency := 0 } hs
    unfold zRows
    rw [e1]
    dsimp only
    split_ifs
    · exact ⟨_, rfl, r1⟩
    · exact ⟨_, rfl, r1⟩
    · obtain ⟨o2, e2, r2⟩ := zRows_later C Rel hrefl htrans recur end_major end_minor hupd n
        (distance + 1) (C.accumulate cum s1.current_transparency distance)
        (fun r hr => hlater r (by omega)) s1
      exact ⟨o2, e2, htrans _ _ _ r1 r2⟩

/-- At most all levels of the range are left. -/
theorem zlight_levels_left_le (C : ZCast) (row : Int) (start_major : ℚ) :
    zlight_levels_left C row start_major ≤ C.fov_3d_z_range.toNat + 1 := by
  unfold zlight_levels_left
  exact le_trans (Finset.card_filter_le _ _) (by simp)

/-- In a row from 1 on the slope just past the leading edge of a level lies above that
edge. -/
theorem after_leading_edge_major_gt (dz row : Int) (hrow : 1 ≤ row) :
    leading_edge_major dz row < after_leading_edge_major dz row := by
  unfold leading_edge_major after_leading_edge_major
  have hr : (1 : ℚ) ≤ (row : ℚ) := by exact_mod_cast hrow
  have hd : (0 : ℚ) < (row : ℚ) - 1 / 2 := by linarith
  exact div_lt_div_of_pos_right (by linarith) hd

/-- A recursive call into the same row, past a level that the caller does not skip, has
fewer levels left than the caller. -/
theorem zlight_levels_left_lt (C : ZCast) (row : Int) (hrow : 1 ≤ row) (start_major : ℚ)
    (dz : Int) (h0 : 0 ≤ dz) (h1 : dz ≤ C.fov_3d_z_range)
    (h2 : start_major ≤ leading_edge_major dz row) :
    zlight_levels_left C row (after_leading_edge_major dz row)
      < zlight_levels_left C row start_major := by
  unfold zlight_levels_left
  apply Finset.card_lt_card
  have hgt := after_leading_edge_major_gt dz row hrow
  rw [Finset.ssubset_iff_of_subset]
  · refine ⟨dz.toNat, ?_, ?_⟩
    · rw [Finset.mem_filter, Finset.mem_range]
      refine ⟨by omega, ?_⟩
      rw [Int.toNat_of_nonneg h0]
      exact h2
    · rw [Finset.mem_filter, Int.toNat_of_nonneg h0]
      rintro ⟨-, h⟩
      exact absurd (lt_of_lt_of_le hgt h) (lt_irrefl _)
  · intro d hd
    rw [Finset.mem_filter] at hd ⊢
    exact ⟨hd.1, le_trans h2 (le_trans (le_of_lt hgt) hd.2)⟩

/-- With a budget of at least `zlight_budget`, a call of `cast_zlight_segment` that starts
at a row from 1 on returns output caches, and these are related to the given ones by every
reflexive and transitive relation that a write into a tile without floor block respects. -/
theorem cast_zlight_segment_spec (C : ZCast) (Rel : (Int → Grid ℚ) → (Int → Grid ℚ) → Prop)
    (hrefl : ∀ g, Rel g g) (htrans : ∀ g1 g2 g3, Rel g1 g2 → Rel g2 g3 → Rel g1 g3)
    (hupd : ∀ (o : Int → Grid ℚ) (cz cx cy : Int) (v : ℚ),
      C.floor_block cz (cz + C.E.OVERMAP_DEPTH) cx cy = false →
      Rel o (zWrite o (cz + C.E.OVERMAP_DEPTH) cx cy v))
    (fuel : Nat) (row : Int) (hrow : 1 ≤ row) (start_major end_major start_minor end_minor
    cum : ℚ) (out : Int → Grid ℚ) (hfuel : zlight_budget C row start_major ≤ fuel) :
    ∃ o2, cast_zlight_segment C fuel row start_major end_major start_minor end_minor cum out
        = some o2 ∧ Rel out o2 := by
  induction fuel generalizing row start_major end_major start_minor end_minor cum out with
  | zero =>
    unfold zlight_budget at hfuel
    split_ifs at hfuel <;> omega
  | succ fuel ih =>
    unfold cast_zlight_segment
    split_ifs with hret
    · exact ⟨out, rfl, hrefl _⟩
    · by_cases hR : row > 60 - C.offset_distance
      · have hn : (60 - C.offset_distance + 1 - row).toNat = 0 := by omega
        rw [hn]
        exact ⟨out, rfl, hrefl _⟩
      · have hb : 2 + (60 - C.offset_distance - row).toNat * (C.fov_3d_z_range.toNat + 2) +
            zlight_levels_left C row start_major ≤ fuel + 1 := by
          unfold zlight_budget at hfuel
          rw [if_neg hR] at hfuel
          exact hfuel
        refine zRows_first C Rel hrefl htrans (cast_zlight_segment C fuel) end_major end_minor
          hupd _ row cum start_major ?_ ?_ _ (le_refl _)
        · intro r hr a b c d e o
          refine ih r (by omega) a b c d e o ?_
          unfold zlight_budget
          split_ifs with hr2
          · omega
          · have h1 := zlight_levels_left_le C r a
            have h2 : (60 - C.offset_distance - row).toNat
                = (60 - C.offset_distance - r).toNat + (r - row).toNat := by omega
            have h3 : 1 ≤ (r - row).toNat := by omega
            rw [h2] at hb
            nlinarith
        · intro dz2 h0 h1 h2 c d e o
          refine ih row hrow _ _ c d e o ?_
          unfold zlight_budget
          rw [if_neg hR]
          have h3 := zlight_levels_left_lt C row hrow start_major dz2 h0 h1 h2
          omega

/-- C29: `cast_zlight_segment` terminates on every input: for every transparency, floor and
diagonal-block grid, origin, offset distance, slopes and cumulative transparency, a call that
starts at a row from 1 on (the top-level calls start at row 1, and recursive calls at the
current or the next row) returns output caches as soon as its budget of nested calls is at
least `zlight_budget`, a number that depends only on the row, the radius, the vertical
range and the major start slope: along every chain of recursive calls the pair of rows
left and unskipped levels left decreases. -/
theorem cast_zlight_segment_terminates (C : ZCast) (row : Int) (hrow : 1 ≤ row)
    (start_major end_major start_minor end_minor cum : ℚ) (out : Int → Grid ℚ) (fuel : Nat)
    (hfuel : zlight_budget C row start_major ≤ fuel) :
    ∃ o2, cast_zlight_segment C fuel row start_major end_major start_minor end_minor cum out
      = some o2 := by
  obtain ⟨o2, h, -⟩ := cast_zlight_segment_spec C (fun _ _ => True) (fun _ => trivial)
    (fun _ _ _ _ _ => trivial) (fun _ _ _ _ _ _ => trivial) fuel row hrow start_major end_major
    start_minor end_minor cum out hfuel
  exact ⟨o2, h⟩

/-- Witness of C29: the upward cast on the small map with the default arguments of the
first call returns. -/
theorem cast_zlight_segment_terminates_witness :
    ∃ o2, cast_zlight_segment floor_zcast (zlight_budget floor_zcast 1 0) 1 0 1 0 1 (1 / 25)
      (fun _ _ _ => 0) = some o2 :=
  cast_zlight_segment_terminates floor_zcast 1 (by decide) 0 1 0 1 (1 / 25) (fun _ _ _ => 0)
    (zlight_budget floor_zcast 1 0) (le_refl _)

/-- C21: for every input with the origin inside the level range, a call of
`cast_zlight_segment` (from a row from 1 on, with enough budget to return) leaves the output
value of a tile on a level above the origin whose own floor flag is set, and of a tile on a
level below the origin when the tile directly above it has its floor flag set, at its
previous value. -/
theorem floor_hidden_tiles_keep_value (C : ZCast)
    (hL : C.OVERMAP_LAYERS = C.E.OVERMAP_DEPTH + C.E.OVERMAP_HEIGHT + 1)
    (hoz : C.offset.2.2 ≤ C.E.OVERMAP_HEIGHT) (row : Int) (hrow : 1 ≤ row)
    (start_major end_major start_minor end_minor cum : ℚ) (out : Int → Grid ℚ) (fuel : Nat)
    (hfuel : zlight_budget C row start_major ≤ fuel) (x y z : Int)
    (hhid : (z > C.offset.2.2 ∧ C.floor_caches (z + C.E.OVERMAP_DEPTH) x y = true) ∨
      (z < C.offset.2.2 ∧ C.floor_caches (z + C.E.OVERMAP_DEPTH + 1) x y = true)) :
    ∃ o2, cast_zlight_segment C fuel row start_major end_major start_minor end_minor cum out
        = some o2 ∧
      o2 (z + C.E.OVERMAP_DEPTH) x y = out (z + C.E.OVERMAP_DEPTH) x y := by
  have hfb : C.floor_block z (z + C.E.OVERMAP_DEPTH) x y = true := by
    unfold ZCast.floor_block
    rcases hhid with ⟨h1, h2⟩ | ⟨h1, h2⟩
    · rw [if_neg (by omega), if_pos h1, h2]
    · rw [if_pos h1, h2]
      simp only [Bool.and_true, decide_eq_true_eq]
      omega
  refine cast_zlight_segment_spec C
    (fun g g2 => g2 (z + C.E.OVERMAP_DEPTH) x y = g (z + C.E.OVERMAP_DEPTH) x y) (fun _ => rfl)
    (fun _ _ _ h1 h2 => h2.trans h1) ?_ fuel row hrow start_major end_major start_minor
    end_minor cum out hfuel
  intro o cz cx cy v hnb
  unfold zWrite
  by_cases hz : z + C.E.OVERMAP_DEPTH = cz + C.E.OVERMAP_DEPTH
  · have hzz : z = cz := by omega
    subst hzz
    rw [Function.update_same]
    simp only [Grid.set]
    rw [if_neg]
    rintro ⟨rfl, rfl⟩
    rw [hfb] at hnb
    exact Bool.noConfusion hnb
  · rw [Function.update_noteq hz]

/-- Witness of C21: the tile `(4, 3, 1)`, inside the octant of the upward cast on the small
map and one level above the origin, has a floor and stays at 0. -/
theorem floor_hidden_tiles_keep_value_witness :
    ∃ o2, cast_zlight_segment floor_zcast (zlight_budget floor_zcast 1 0) 1 0 1 0 1 (1 / 25)
        (fun _ _ _ => 0) = some o2 ∧
      o2 (1 + floor_zcast.E.OVERMAP_DEPTH) 4 3 = 0 :=
  floor_hidden_tiles_keep_value floor_zcast (by decide) (by decide) 1 (by decide) 0 1 0 1
    (1 / 25) (fun _ _ _ => 0) (zlight_budget floor_zcast 1 0) (le_refl _) 4 3 1
    (Or.inl ⟨by decide, by decide⟩)

/-! ### The falloff of a point light (C16) -/

/-- The function `pow2` is the power of two. -/
theorem pow2_eq (k : Int) : pow2 k = (2 : ℚ) ^ k := by
  unfold pow2
  split_ifs with h
  · obtain ⟨n, rfl⟩ := Int.eq_ofNat_of_zero_le h
    simp
  · have h1 : 0 ≤ -k := by omega
    obtain ⟨n, hn⟩ := Int.eq_ofNat_of_zero_le h1
    have h2 : k = -(n : Int) := by omega
    subst h2
    simp

/-- A power of two is positive. -/
theorem pow2_pos (k : Int) : 0 < pow2 k := by
  rw [pow2_eq]
  positivity

/-- The powers of two increase with the exponent. -/
theorem pow2_le_pow2 {a b : Int} (h : a ≤ b) : pow2 a ≤ pow2 b := by
  rw [pow2_eq, pow2_eq]
  exact zpow_le_zpow_right₀ (by norm_num) h

/-- The power of a sum. -/
theorem pow2_add (a b : Int) : pow2 (a + b) = pow2 a * pow2 b := by
  rw [pow2_eq, pow2_eq, pow2_eq]
  exact zpow_add₀ (by norm_num) a b

/-- Rounding to the nearest integer is monotone. -/
theorem round_half_even_mono {x y : ℚ} (h : x ≤ y) : round_half_even x ≤ round_half_even y := by
  have hf : ⌊x⌋ ≤ ⌊y⌋ := Int.floor_mono h
  unfold round_half_even
  rcases lt_or_eq_of_le hf with h1 | h1
  · split_ifs <;> omega
  · rw [← h1]
    split_ifs <;> first | omega | linarith

/-- Rounding to the nearest integer fixes the integers. -/
theorem round_half_even_intCast (k : Int) : round_half_even (k : ℚ) = k := by
  unfold round_half_even
  simp

/-- The result of the search for the binade. -/
theorem exponent_search_spec (q : ℚ) :
    ∀ (fuel : Nat) (e : Int),
      e ≤ exponent_search fuel e q ∧ exponent_search fuel e q ≤ e + fuel ∧
        (exponent_search fuel e q < e + fuel → q < pow2 (exponent_search fuel e q + 1)) ∧
        (e < exponent_search fuel e q → pow2 (exponent_search fuel e q) ≤ q) := by
  intro fuel
  induction fuel with
  | zero =>
    intro e
    simp [exponent_search]
  | succ n ih =>
    intro e
    unfold exponent_search
    split_ifs with h
    · obtain ⟨h1, h2, h3, h4⟩ := ih (e + 1)
      refine ⟨by omega, by push_cast; omega, ?_, ?_⟩
      · intro h5
        exact h3 (by push_cast at h5; omega)
      · intro _
        rcases eq_or_lt_of_le h1 with h6 | h6
        · rw [← h6]; exact h
        · exact h4 h6
    · refine ⟨le_refl _, by push_cast; omega, ?_, ?_⟩
      · intro _
        exact lt_of_not_le h
      · intro h5
        exact absurd h5 (lt_irrefl _)

/-- The exponent lies in `-126 .. 127`. -/
theorem float_exponent_range (q : ℚ) : -126 ≤ float_exponent q ∧ float_exponent q ≤ 127 := by
  obtain ⟨h1, h2, _, _⟩ := exponent_search_spec |q| 253 (-126)
  unfold float_exponent
  constructor
  · exact h1
  · have : (-126 : Int) + (253 : Nat) = 127 := by norm_num
    omega

/-- Above the subnormal range the power of the exponent is below the magnitude. -/
theorem float_exponent_lower (q : ℚ) (h : -126 < float_exponent q) :
    pow2 (float_exponent q) ≤ |q| :=
  (exponent_search_spec |q| 253 (-126)).2.2.2 h

/-- Below the last binade the magnitude is below the next power. -/
theorem float_exponent_upper (q : ℚ) (h : float_exponent q < 127) :
    |q| < pow2 (float_exponent q + 1) := by
  apply (exponent_search_spec |q| 253 (-126)).2.2.1
  have : (-126 : Int) + (253 : Nat) = 127 := by norm_num
  unfold float_exponent at h
  omega

/-- A power of two below the magnitude bounds the exponent from below. -/
theorem le_float_exponent (q : ℚ) (k : Int) (hk : k ≤ 127) (h : pow2 k ≤ |q|) :
    k ≤ float_exponent q := by
  by_contra hc
  have h1 := float_exponent_upper q (by omega)
  have h2 : pow2 (float_exponent q + 1) ≤ pow2 k := pow2_le_pow2 (by omega)
  linarith

/-- A power of two above the magnitude bounds the exponent from above. -/
theorem float_exponent_le (q : ℚ) (k : Int) (hk : -126 ≤ k) (h : |q| < pow2 (k + 1)) :
    float_exponent q ≤ k := by
  by_contra hc
  have h1 := float_exponent_lower q (by omega)
  have h2 : pow2 (k + 1) ≤ pow2 (float_exponent q) := pow2_le_pow2 (by omega)
  linarith

/-- The exponent is monotone in the magnitude. -/
theorem float_exponent_mono {x y : ℚ} (h : |x| ≤ |y|) : float_exponent x ≤ float_exponent y := by
  by_contra hc
  have hx := float_exponent_range x
  have hy := float_exponent_range y
  have h1 := float_exponent_lower x (by omega)
  have h2 := float_exponent_upper y (by omega)
  have h3 : pow2 (float_exponent y + 1) ≤ pow2 (float_exponent x) := pow2_le_pow2 (by omega)
  linarith

/-- Rounding to binary32 is monotone on the values that are not negative. -/
theorem round_nearest_mono {x y : ℚ} (hx : 0 ≤ x) (h : x ≤ y) :
    round_nearest x ≤ round_nearest y := by
  have hy : 0 ≤ y := le_trans hx h
  have habs : |x| ≤ |y| := by rw [abs_of_nonneg hx, abs_of_nonneg hy]; exact h
  have he := float_exponent_mono habs
  have hrx := float_exponent_range x
  have hry := float_exponent_range y
  unfold round_nearest
  rcases eq_or_lt_of_le he with h1 | h1
  · rw [← h1]
    have hu := pow2_pos (float_exponent x - 23)
    apply mul_le_mul_of_nonneg_right _ (le_of_lt hu)
    exact_mod_cast round_half_even_mono (div_le_div_of_nonneg_right h (le_of_lt hu))
  · have hux := pow2_pos (float_exponent x - 23)
    have huy := pow2_pos (float_exponent y - 23)
    have h2 : x < pow2 (float_exponent x + 1) := by
      have := float_exponent_upper x (by omega)
      rwa [abs_of_nonneg hx] at this
    have h3 : pow2 (float_exponent y) ≤ y := by
      have := float_exponent_lower y (by omega)
      rwa [abs_of_nonneg hy] at this
    have h4 : pow2 (float_exponent x + 1) = ((2 ^ 24 : Int) : ℚ) * pow2 (float_exponent x - 23) := by
      have : float_exponent x + 1 = 24 + (float_exponent x - 23) := by ring
      rw [this, pow2_add]
      congr 1
    have h5 : pow2 (float_exponent y) = ((2 ^ 23 : Int) : ℚ) * pow2 (float_exponent y - 23) := by
      have : float_exponent y = 23 + (float_exponent y - 23) := by ring
      nth_rewrite 1 [this]
      rw [pow2_add]
      congr 1
    have h6 : round_half_even (x / pow2 (float_exponent x - 23)) ≤ (2 ^ 24 : Int) := by
      rw [← round_half_even_intCast (2 ^ 24)]
      apply round_half_even_mono
      rw [div_le_iff₀ hux, ← h4]
      exact le_of_lt h2
    have h7 : (2 ^ 23 : Int) ≤ round_half_even (y / pow2 (float_exponent y - 23)) := by
      rw [← round_half_even_intCast (2 ^ 23)]
      apply round_half_even_mono
      rw [le_div_iff₀ huy, ← h5]
      exact h3
    calc (round_half_even (x / pow2 (float_exponent x - 23)) : ℚ) * pow2 (float_exponent x - 23)
        ≤ ((2 ^ 24 : Int) : ℚ) * pow2 (float_exponent x - 23) :=
          mul_le_mul_of_nonneg_right (by exact_mod_cast h6) (le_of_lt hux)
      _ = pow2 (float_exponent x + 1) := h4.symm
      _ ≤ pow2 (float_exponent y) := pow2_le_pow2 (by omega)
      _ = ((2 ^ 23 : Int) : ℚ) * pow2 (float_exponent y - 23) := h5
      _ ≤ (round_half_even (y / pow2 (float_exponent y - 23)) : ℚ) * pow2 (float_exponent y - 23) :=
          mul_le_mul_of_nonneg_right (by exact_mod_cast h7) (le_of_lt huy)

/-- Rounding to binary32 keeps zero. -/
theorem round_nearest_zero : round_nearest 0 = 0 := by
  unfold round_nearest
  simp [round_half_even]

/-- Rounding to binary32 keeps the sign of a value that is not negative. -/
theorem round_nearest_nonneg {x : ℚ} (hx : 0 ≤ x) : 0 ≤ round_nearest x := by
  have := round_nearest_mono (le_refl 0) hx
  rwa [round_nearest_zero] at this

/-- An integer of at most 24 bits is a binary32 value. -/
theorem round_nearest_intCast (m : Int) (h1 : 1 ≤ m) (h2 : m ≤ 2 ^ 24) :
    round_nearest (m : ℚ) = m := by
  have hm1 : (1 : ℚ) ≤ (m : ℚ) := by exact_mod_cast h1
  have hm2 : (m : ℚ) ≤ 2 ^ 24 := by exact_mod_cast h2
  have habs : |(m : ℚ)| = m := abs_of_nonneg (by linarith)
  have hlo : 0 ≤ float_exponent (m : ℚ) := by
    apply le_float_exponent _ 0 (by norm_num)
    rw [habs, pow2_eq]
    simpa using hm1
  have hhi : float_exponent (m : ℚ) ≤ 24 := by
    apply float_exponent_le _ 24 (by norm_num)
    rw [habs, pow2_eq]
    have : (2 : ℚ) ^ ((24 : Int) + 1) = 2 ^ 25 := by norm_num
    rw [this]
    linarith
  unfold round_nearest
  rcases eq_or_lt_of_le hhi with h | h
  · have h3 := float_exponent_lower (m : ℚ) (by omega)
    rw [habs, h, pow2_eq] at h3
    have h4 : (m : ℚ) = 2 ^ 24 := by
      apply le_antisymm hm2
      have : (2 : ℚ) ^ (24 : Int) = 2 ^ 24 := by norm_num
      rw [this] at h3
      exact h3
    rw [h, h4]
    have h5 : (2 : ℚ) ^ 24 / pow2 (24 - 23) = ((2 ^ 23 : Int) : ℚ) := by
      rw [pow2_eq]; norm_num
    rw [h5, round_half_even_intCast, pow2_eq]
    norm_num
  · obtain ⟨k, hk⟩ : ∃ k : Nat, float_exponent (m : ℚ) = 23 - (k : Int) :=
      ⟨(23 - float_exponent (m : ℚ)).toNat, by omega⟩
    rw [hk]
    have h5 : pow2 (23 - (k : Int) - 23) = 1 / (2 : ℚ) ^ k := by
      rw [pow2_eq]
      have : (23 : Int) - (k : Int) - 23 = -(k : Int) := by ring
      rw [this, zpow_neg, zpow_natCast, one_div]
    rw [h5]
    have h6 : (m : ℚ) / (1 / (2 : ℚ) ^ k) = ((m * 2 ^ k : Int) : ℚ) := by
      push_cast
      field_simp
    rw [h6, round_half_even_intCast]
    push_cast
    field_simp

/-- A rounded value within `FLT_MAX` is the binary32 result. -/
theorem round32_eq_some {q : ℚ} (h0 : 0 ≤ q) (h : round_nearest q ≤ FLT_MAX) :
    round32 q = some (round_nearest q) := by
  unfold round32
  rw [abs_of_nonneg (round_nearest_nonneg h0), if_pos h]

/-- A value between zero and `2 ^ 127` has a binary32 result. -/
theorem round32_of_le {q : ℚ} (h0 : 0 ≤ q) (h : q ≤ 2 ^ 127) :
    round32 q = some (round_nearest q) := by
  apply round32_eq_some h0
  have h1 : round_nearest (2 ^ 127) ≤ FLT_MAX := by decide!
  exact le_trans (round_nearest_mono h0 h) h1

/-- The truncation of a value between zero and `2 ^ 63`. -/
theorem to_long_long_of_nonneg {q : ℚ} (h0 : 0 ≤ q) (h : q < 2 ^ 63) :
    to_long_long q = some ⌊q⌋ := by
  unfold to_long_long
  simp only [if_pos h0]
  have h1 : (0 : Int) ≤ ⌊q⌋ := Int.floor_nonneg.mpr h0
  have h2 : ⌊q⌋ < 2 ^ 63 := by
    rw [Int.floor_lt]
    exact_mod_cast h
  rw [if_pos ⟨by omega, h2⟩]

/-- The bits of a positive normal `float`, read back. -/
theorem float_of_bits_normal (i : Int) (h1 : 2 ^ 23 ≤ i) (h2 : i < 255 * 2 ^ 23) :
    float_of_bits (to_int i) = some (normal_value i) := by
  have h3 : to_int i = i := by
    unfold to_int
    omega
  have h4 : i % 2 ^ 32 = i := by omega
  have h5 : i / 2 ^ 23 % 256 = i / 2 ^ 23 := by omega
  have h6 : i / 2 ^ 23 ≠ 255 := by omega
  have h7 : i / 2 ^ 23 ≠ 0 := by omega
  have h8 : i < 2 ^ 31 := by omega
  unfold float_of_bits normal_value
  rw [h3, h4, h5, if_neg h6, if_neg h7, if_pos h8, one_mul]

/-- The value of the bits of a positive normal `float` is positive. -/
theorem normal_value_pos (i : Int) : 0 < normal_value i := by
  unfold normal_value
  apply mul_pos _ (pow2_pos _)
  have : (0 : Int) < 2 ^ 23 + i % 2 ^ 23 := by omega
  exact_mod_cast this

/-- The value of the bits of a positive `float` increases with the bits, read as an
integer. -/
theorem normal_value_mono {i j : Int} (h : i ≤ j) : normal_value i ≤ normal_value j := by
  unfold normal_value
  have hE : i / 2 ^ 23 ≤ j / 2 ^ 23 := Int.ediv_le_ediv (by norm_num) h
  rcases eq_or_lt_of_le hE with h1 | h1
  · rw [← h1]
    apply mul_le_mul_of_nonneg_right _ (le_of_lt (pow2_pos _))
    have : (2 ^ 23 + i % 2 ^ 23 : Int) ≤ 2 ^ 23 + j % 2 ^ 23 := by omega
    exact_mod_cast this
  · have h2 : ((2 ^ 23 + i % 2 ^ 23 : Int) : ℚ) ≤ ((2 ^ 24 : Int) : ℚ) := by
      have : (2 ^ 23 + i % 2 ^ 23 : Int) ≤ 2 ^ 24 := by omega
      exact_mod_cast this
    have h3 : ((2 ^ 23 : Int) : ℚ) ≤ ((2 ^ 23 + j % 2 ^ 23 : Int) : ℚ) := by
      have : (2 ^ 23 : Int) ≤ 2 ^ 23 + j % 2 ^ 23 := by omega
      exact_mod_cast this
    have h4 : ((2 ^ 24 : Int) : ℚ) * pow2 (i / 2 ^ 23 - 150) = pow2 (i / 2 ^ 23 - 126) := by
      have : i / 2 ^ 23 - 126 = 24 + (i / 2 ^ 23 - 150) := by ring
      rw [this, pow2_add]
      congr 1
    have h5 : ((2 ^ 23 : Int) : ℚ) * pow2 (j / 2 ^ 23 - 150) = pow2 (j / 2 ^ 23 - 127) := by
      have : j / 2 ^ 23 - 127 = 23 + (j / 2 ^ 23 - 150) := by ring
      rw [this, pow2_add]
      congr 1
    calc ((2 ^ 23 + i % 2 ^ 23 : Int) : ℚ) * pow2 (i / 2 ^ 23 - 150)
        ≤ ((2 ^ 24 : Int) : ℚ) * pow2 (i / 2 ^ 23 - 150) :=
          mul_le_mul_of_nonneg_right h2 (le_of_lt (pow2_pos _))
      _ = pow2 (i / 2 ^ 23 - 126) := h4
      _ ≤ pow2 (j / 2 ^ 23 - 127) := pow2_le_pow2 (by omega)
      _ = ((2 ^ 23 : Int) : ℚ) * pow2 (j / 2 ^ 23 - 150) := h5.symm
      _ ≤ ((2 ^ 23 + j % 2 ^ 23 : Int) : ℚ) * pow2 (j / 2 ^ 23 - 150) :=
          mul_le_mul_of_nonneg_right h3 (le_of_lt (pow2_pos _))

/-- The rounded product, sum and difference of `fastexp` for an argument between 0 and 64. -/
theorem fastexp_steps (x : ℚ) (h0 : 0 ≤ x) (h : x ≤ 64) :
    (0 ≤ round_nearest (6051102 * x) ∧ round_nearest (6051102 * x) ≤ 387270528) ∧
      (1056478208 ≤ round_nearest (round_nearest (6051102 * x) + 1056478208) ∧
        round_nearest (round_nearest (6051102 * x) + 1056478208) ≤ 1443748736) ∧
      (669207680 ≤ round_nearest (1056478208 - round_nearest (6051102 * x)) ∧
        round_nearest (1056478208 - round_nearest (6051102 * x)) ≤ 1056478208) := by
  have hp0 : 0 ≤ round_nearest (6051102 * x) := round_nearest_nonneg (by positivity)
  have hp1 : round_nearest (6051102 * x) ≤ 387270528 := by
    have h1 : round_nearest 387270528 = 387270528 := by decide!
    rw [← h1]
    exact round_nearest_mono (by positivity) (by linarith)
  have e1 : round_nearest 1056478208 = 1056478208 := by decide!
  have e2 : round_nearest 1443748736 = 1443748736 := by decide!
  have e3 : round_nearest 669207680 = 669207680 := by decide!
  refine ⟨⟨hp0, hp1⟩, ⟨?_, ?_⟩, ⟨?_, ?_⟩⟩
  · nth_rewrite 1 [← e1]
    exact round_nearest_mono (by norm_num) (by linarith)
  · rw [← e2]
    exact round_nearest_mono (by linarith) (by linarith)
  · nth_rewrite 1 [← e3]
    exact round_nearest_mono (by norm_num) (by linarith)
  · nth_rewrite 2 [← e1]
    exact round_nearest_mono (by linarith) (by linarith)

/-- The bits of the two `float` values of `fastexp` for an argument between 0 and 64. -/
theorem fastexp_bits (x : ℚ) (h0 : 0 ≤ x) (h : x ≤ 64) :
    (1056478208 ≤ ⌊round_nearest (round_nearest (6051102 * x) + 1056478208)⌋ ∧
        ⌊round_nearest (round_nearest (6051102 * x) + 1056478208)⌋ ≤ 1443748736) ∧
      (669207680 ≤ ⌊round_nearest (1056478208 - round_nearest (6051102 * x))⌋ ∧
        ⌊round_nearest (1056478208 - round_nearest (6051102 * x))⌋ ≤ 1056478208) := by
  obtain ⟨_, ⟨h1, h2⟩, ⟨h3, h4⟩⟩ := fastexp_steps x h0 h
  refine ⟨⟨?_, ?_⟩, ⟨?_, ?_⟩⟩
  · rw [Int.le_floor]; exact_mod_cast h1
  · have := Int.floor_mono h2
    rwa [show ⌊(1443748736 : ℚ)⌋ = 1443748736 from Int.floor_intCast 1443748736] at this
  · rw [Int.le_floor]; exact_mod_cast h3
  · have := Int.floor_mono h4
    rwa [show ⌊(1056478208 : ℚ)⌋ = 1056478208 from Int.floor_intCast 1056478208] at this

/-- The quotient of `fastexp` for an argument between 0 and 64 lies between 1 and
`2 ^ 94`. -/
theorem fastexp_quotient (x : ℚ) (h0 : 0 ≤ x) (h : x ≤ 64) :
    1 ≤ normal_value ⌊round_nearest (round_nearest (6051102 * x) + 1056478208)⌋ /
        normal_value ⌊round_nearest (1056478208 - round_nearest (6051102 * x))⌋ ∧
      normal_value ⌊round_nearest (round_nearest (6051102 * x) + 1056478208)⌋ /
        normal_value ⌊round_nearest (1056478208 - round_nearest (6051102 * x))⌋ ≤ 2 ^ 94 := by
  obtain ⟨⟨h1, h2⟩, ⟨h3, h4⟩⟩ := fastexp_bits x h0 h
  have hv := normal_value_pos ⌊round_nearest (1056478208 - round_nearest (6051102 * x))⌋
  constructor
  · rw [le_div_iff₀ hv, one_mul]
    exact le_trans (normal_value_mono h4) (normal_value_mono h1)
  · have e1 : normal_value 1443748736 / normal_value 669207680 ≤ 2 ^ 94 := by decide!
    refine le_trans ?_ e1
    exact div_le_div₀ (le_of_lt (normal_value_pos _)) (normal_value_mono h2)
      (normal_value_pos _) (normal_value_mono h3)

/-- The function `fastexp` returns `fastexp_value` for an argument between 0 and 64. -/
theorem fastexp_eq (x : ℚ) (h0 : 0 ≤ x) (h : x ≤ 64) : fastexp x = some (fastexp_value x) := by
  obtain ⟨⟨hp0, hp1⟩, ⟨h1, h2⟩, ⟨h3, h4⟩⟩ := fastexp_steps x h0 h
  obtain ⟨⟨b1, b2⟩, ⟨b3, b4⟩⟩ := fastexp_bits x h0 h
  have ea : round32 6051102 = some 6051102 := by decide!
  have ec : round32 1056478197 = some 1056478208 := by decide!
  have ep : round32 (6051102 * x) = some (round_nearest (6051102 * x)) :=
    round32_of_le (by positivity)
      (le_trans (by linarith : 6051102 * x ≤ 387270528) (by norm_num))
  have esu : round32 (round_nearest (6051102 * x) + 1056478208)
      = some (round_nearest (round_nearest (6051102 * x) + 1056478208)) :=
    round32_of_le (by linarith)
      (le_trans (by linarith : round_nearest (6051102 * x) + 1056478208 ≤ 1443748736)
        (by norm_num))
  have esv : round32 (1056478208 - round_nearest (6051102 * x))
      = some (round_nearest (1056478208 - round_nearest (6051102 * x))) :=
    round32_of_le (by linarith)
      (le_trans (by linarith : 1056478208 - round_nearest (6051102 * x) ≤ 1056478208)
        (by norm_num))
  have eiu : to_long_long (round_nearest (round_nearest (6051102 * x) + 1056478208))
      = some ⌊round_nearest (round_nearest (6051102 * x) + 1056478208)⌋ :=
    to_long_long_of_nonneg (by linarith) (lt_of_le_of_lt h2 (by norm_num))
  have eiv : to_long_long (round_nearest (1056478208 - round_nearest (6051102 * x)))
      = some ⌊round_nearest (1056478208 - round_nearest (6051102 * x))⌋ :=
    to_long_long_of_nonneg (by linarith) (lt_of_le_of_lt h4 (by norm_num))
  have euf := float_of_bits_normal ⌊round_nearest (round_nearest (6051102 * x) + 1056478208)⌋
    (by omega) (by omega)
  have evf := float_of_bits_normal ⌊round_nearest (1056478208 - round_nearest (6051102 * x))⌋
    (by omega) (by omega)
  have hv := normal_value_pos ⌊round_nearest (1056478208 - round_nearest (6051102 * x))⌋
  have hu := normal_value_pos ⌊round_nearest (round_nearest (6051102 * x) + 1056478208)⌋
  unfold fastexp
  rw [ea, Option.some_bind, ec, Option.some_bind, ep, Option.some_bind, esu, Option.some_bind,
    esv, Option.some_bind, eiu, Option.some_bind, eiv, Option.some_bind, euf, Option.some_bind,
    evf, Option.some_bind, if_neg (ne_of_gt hv)]
  exact round32_of_le (le_of_lt (div_pos hu hv))
    (le_trans (fastexp_quotient x h0 h).2 (by norm_num))

/-- The value of `fastexp` for an argument between 0 and 64 lies between 1 and `2 ^ 94`. -/
theorem fastexp_value_bounds (x : ℚ) (h0 : 0 ≤ x) (h : x ≤ 64) :
    1 ≤ fastexp_value x ∧ fastexp_value x ≤ 2 ^ 94 := by
  obtain ⟨q1, q2⟩ := fastexp_quotient x h0 h
  have e1 : round_nearest 1 = 1 := by decide!
  have e2 : round_nearest (2 ^ 94) = 2 ^ 94 := by decide!
  unfold fastexp_value
  constructor
  · nth_rewrite 1 [← e1]
    exact round_nearest_mono (by norm_num) q1
  · rw [← e2]
    exact round_nearest_mono (le_trans zero_le_one q1) q2

/-- The value of `fastexp` does not decrease with its argument between 0 and 64. -/
theorem fastexp_value_mono (x y : ℚ) (h0 : 0 ≤ x) (hxy : x ≤ y) (h : y ≤ 64) :
    fastexp_value x ≤ fastexp_value y := by
  have hy0 : 0 ≤ y := le_trans h0 hxy
  obtain ⟨⟨hp0, hp1⟩, _, _⟩ := fastexp_steps x h0 (le_trans hxy h)
  obtain ⟨⟨hq0, hq1⟩, _, _⟩ := fastexp_steps y hy0 h
  have hp : round_nearest (6051102 * x) ≤ round_nearest (6051102 * y) :=
    round_nearest_mono (by positivity) (by linarith)
  have hsu : round_nearest (round_nearest (6051102 * x) + 1056478208)
      ≤ round_nearest (round_nearest (6051102 * y) + 1056478208) :=
    round_nearest_mono (by linarith) (by linarith)
  have hsv : round_nearest (1056478208 - round_nearest (6051102 * y))
      ≤ round_nearest (1056478208 - round_nearest (6051102 * x)) :=
    round_nearest_mono (by linarith) (by linarith)
  unfold fastexp_value
  apply round_nearest_mono (le_of_lt (div_pos (normal_value_pos _) (normal_value_pos _)))
  exact div_le_div₀ (le_of_lt (normal_value_pos _)) (normal_value_mono (Int.floor_mono hsu))
    (normal_value_pos _) (normal_value_mono (Int.floor_mono hsv))

/-- The function `light_calc` on `float` values, for a luminance within `FLT_MAX`, a
distance of at most 24 bits and a product of transparency and distance of at most 64. -/
theorem light_calc_float_eq (n t : ℚ) (d : Int) (hn0 : 0 ≤ n) (hn : n ≤ FLT_MAX) (ht : 0 ≤ t)
    (hd : 1 ≤ d) (hd2 : d ≤ 2 ^ 24) (hx : t * d ≤ 64) :
    light_calc_float n t d
        = some (round_nearest (n / round_nearest (fastexp_value (round_nearest (t * d)) * d))) ∧
      1 ≤ round_nearest (fastexp_value (round_nearest (t * d)) * d) := by
  have hd0 : (1 : ℚ) ≤ (d : ℚ) := by exact_mod_cast hd
  have hd24 : (d : ℚ) ≤ 2 ^ 24 := by exact_mod_cast hd2
  have hD : round_nearest (d : ℚ) = d := round_nearest_intCast d hd hd2
  have hmax : (2 : ℚ) ^ 24 ≤ FLT_MAX := by decide!
  have eD : round32 (d : ℚ) = some (d : ℚ) := by
    have := round32_eq_some (le_trans zero_le_one hd0) (by rw [hD]; exact le_trans hd24 hmax)
    rwa [hD] at this
  have htd : 0 ≤ t * d := mul_nonneg ht (le_trans zero_le_one hd0)
  have e64 : round_nearest 64 = 64 := by decide!
  have hX0 : 0 ≤ round_nearest (t * d) := round_nearest_nonneg htd
  have hX : round_nearest (t * d) ≤ 64 := by
    rw [← e64]
    exact round_nearest_mono htd hx
  have eX : round32 (t * d) = some (round_nearest (t * d)) :=
    round32_of_le htd (le_trans hx (by norm_num))
  have eF := fastexp_eq (round_nearest (t * d)) hX0 hX
  obtain ⟨f1, f2⟩ := fastexp_value_bounds (round_nearest (t * d)) hX0 hX
  have hy1 : 1 ≤ fastexp_value (round_nearest (t * d)) * d := by
    have := mul_le_mul f1 hd0 zero_le_one (le_trans zero_le_one f1)
    rwa [one_mul] at this
  have hy2 : fastexp_value (round_nearest (t * d)) * d ≤ 2 ^ 127 := by
    have := mul_le_mul f2 hd24 (le_trans zero_le_one hd0) (by positivity)
    exact le_trans this (by norm_num)
  have eY : round32 (fastexp_value (round_nearest (t * d)) * d)
      = some (round_nearest (fastexp_value (round_nearest (t * d)) * d)) :=
    round32_of_le (le_trans zero_le_one hy1) hy2
  have e1 : round_nearest 1 = 1 := by decide!
  have hY : 1 ≤ round_nearest (fastexp_value (round_nearest (t * d)) * d) := by
    nth_rewrite 1 [← e1]
    exact round_nearest_mono zero_le_one hy1
  have hY0 : round_nearest (fastexp_value (round_nearest (t * d)) * d) ≠ 0 := by
    intro h
    rw [h] at hY
    norm_num at hY
  have emax : round_nearest FLT_MAX = FLT_MAX := by decide!
  have hq0 : 0 ≤ n / round_nearest (fastexp_value (round_nearest (t * d)) * d) :=
    div_nonneg hn0 (le_trans zero_le_one hY)
  have hq : n / round_nearest (fastexp_value (round_nearest (t * d)) * d) ≤ FLT_MAX :=
    le_trans (div_le_self hn0 hY) hn
  refine ⟨?_, hY⟩
  unfold light_calc_float
  rw [eD, Option.some_bind, eX, Option.some_bind, eF, Option.some_bind, eY, Option.some_bind,
    if_neg hY0]
  apply round32_eq_some hq0
  rw [← emax]
  exact round_nearest_mono hq0 hq

/-- C16, refuted as stated: on `float` values, with the luminance 16 and the transparency
100, `light_calc` returns about `-0.66` at the distance 55 and about `2.8e33` at the
distance 56, so the value at `d + 1` is above the value at `d`. -/
theorem light_calc_float_increases :
    light_calc_float 16 100 55 = some (-86219 / 131072) ∧
      light_calc_float 16 100 (55 + 1) = some 2782074334282675256407278907031552 ∧
      (-86219 / 131072 : ℚ) < 2782074334282675256407278907031552 := by
  decide!

/-- C16, amended: on `float` values, for every luminance `n` between 0 and `FLT_MAX`, every
transparency `t ≥ 0` and every distance `d ≥ 1` with `d + 1 ≤ 2 ^ 24` and
`t * (d + 1) ≤ 64`, `light_calc` returns a finite value at `d` and at `d + 1`, and the value
at `d + 1` is at most the value at `d`. -/
theorem light_calc_float_monotone (n t : ℚ) (d : Int) (hn0 : 0 ≤ n) (hn : n ≤ FLT_MAX)
    (ht : 0 ≤ t) (hd : 1 ≤ d) (hd2 : d + 1 ≤ 2 ^ 24) (hx : t * ((d : ℚ) + 1) ≤ 64) :
    ∃ a b, light_calc_float n t (d + 1) = some a ∧ light_calc_float n t d = some b ∧
      a ≤ b := by
  have hd0 : (1 : ℚ) ≤ (d : ℚ) := by exact_mod_cast hd
  have hx1 : t * d ≤ t * ((d : ℚ) + 1) := mul_le_mul_of_nonneg_left (by linarith) ht
  have hx2 : t * ((d + 1 : Int) : ℚ) ≤ 64 := by push_cast; exact hx
  obtain ⟨ea, ya⟩ := light_calc_float_eq n t (d + 1) hn0 hn ht (by omega) hd2 hx2
  obtain ⟨eb, yb⟩ := light_calc_float_eq n t d hn0 hn ht hd (by omega) (le_trans hx1 hx)
  refine ⟨_, _, ea, eb, ?_⟩
  have htd : 0 ≤ t * d := mul_nonneg ht (le_trans zero_le_one hd0)
  have e64 : round_nearest 64 = 64 := by decide!
  have hX0 : 0 ≤ round_nearest (t * d) := round_nearest_nonneg htd
  have hXX : round_nearest (t * d) ≤ round_nearest (t * ((d + 1 : Int) : ℚ)) :=
    round_nearest_mono htd (by push_cast; exact hx1)
  have hX : round_nearest (t * ((d + 1 : Int) : ℚ)) ≤ 64 := by
    rw [← e64]
    exact round_nearest_mono (le_trans htd (by push_cast; exact hx1)) hx2
  have hF := fastexp_value_mono _ _ hX0 hXX hX
  obtain ⟨f1, _⟩ := fastexp_value_bounds (round_nearest (t * d)) hX0 (le_trans hXX hX)
  have hprod : fastexp_value (round_nearest (t * d)) * d
      ≤ fastexp_value (round_nearest (t * ((d + 1 : Int) : ℚ))) * ((d + 1 : Int) : ℚ) :=
    mul_le_mul hF (by push_cast; linarith) (le_trans zero_le_one hd0)
      (le_trans (le_trans zero_le_one f1) hF)
  have hY := round_nearest_mono
    (mul_nonneg (le_trans zero_le_one f1) (le_trans zero_le_one hd0)) hprod
  apply round_nearest_mono (div_nonneg hn0 (le_trans zero_le_one ya))
  exact div_le_div_of_nonneg_left hn0 (lt_of_lt_of_le zero_lt_one yb) hY

/-- Witness of C16: the luminance 16 under the transparency 1 at the distances 3 and 4. -/
theorem light_calc_float_monotone_witness :
    ∃ a b, light_calc_float 16 1 (3 + 1) = some a ∧ light_calc_float 16 1 3 = some b ∧
      a ≤ b :=
  light_calc_float_monotone 16 1 3 (by norm_num) (by decide!) (by norm_num) (by norm_num)
    (by norm_num) (by norm_num)

end Lightmap
